import Mathlib

/-!
Workflow-run parameter engine of `engine/api/workflow`.

Shallow embedding of `engine/api/workflow/process_parameters.go`
(`GetNodeBuildParameters`, `getParentParameters`, `getNodeRunBuildParameters`)
and the properties of its build-parameter resolution.

Conventions of the embedding.

* A Go `map[string]string` is an association list with pairwise distinct keys
  (`GoMap`). `vars[k] = v` is `AList.insert`, `delete(vars, k)` is `AList.erase`,
  the lookup `vars[k]` is `AList.lookup`. Go leaves the iteration order of
  `range` over a map unspecified; the embedding iterates in the order of
  `entries`, and every statement about a result built by such a loop is made
  through membership, lookup or filtering, which do not depend on that order.
* A Go string is a Lean `String`; prefix tests and replacement work on the list
  of its characters.
* `(T, error)` results are `Except String T`; the string is the error message.
* `int64` values are `Int`; only their decimal rendering is used.
-/

/-- Go `map[string]string`. -/
abbrev GoMap := AList (fun _ : String => String)

namespace GoMap

/-- The loop `for k, v := range tmp { vars[k] = v }`. -/
def rangeInto (vars tmp : GoMap) : GoMap :=
  tmp.entries.foldl (fun m e => m.insert e.1 e.2) vars

end GoMap

/-- Go `strings.HasPrefix(s, pre)`. -/
def HasPrefix (s pre : String) : Bool :=
  pre.data.isPrefixOf s.data

/-- Replacement of the first occurrence of `old` in `s` by `new`, on character lists. -/
def replaceFirst (old new : List Char) : List Char → List Char
  | [] => if old.isPrefixOf [] then new else []
  | c :: cs =>
    if old.isPrefixOf (c :: cs) then new ++ (c :: cs).drop old.length
    else c :: replaceFirst old new cs

/-- Go `strings.Replace(s, old, new, 1)`. -/
def Replace1 (s old new : String) : String :=
  ⟨replaceFirst old.data new.data s.data⟩

namespace sdk

/-- The parameter triple `sdk.Parameter`. -/
structure Parameter where
  Name : String
  Type_ : String
  Value : String
deriving DecidableEq, Repr

/-- The constant `sdk.StringParameter`. -/
def StringParameter : String := "string"

/-- A project, application or environment variable, `sdk.Variable`. -/
structure Variable where
  Name : String
  Type_ : String
  Value : String
deriving DecidableEq, Repr

/-- Platform configuration, `sdk.PlatformConfig`, as its name to value map. -/
abbrev PlatformConfig := GoMap

/-- The repository strategy of an application, `sdk.RepositoryStrategy`. -/
structure RepositoryStrategy where
  ConnectionType : String
  SSHKey : String
  PGPKey : String
  User : String
deriving DecidableEq

/-- The fields of `sdk.Application` that the parameter engine reads. -/
structure Application where
  Name : String
  Variable : List sdk.Variable
  RepositoryFullname : String
  VCSServer : String
  RepositoryStrategy : sdk.RepositoryStrategy
  DeploymentStrategies : AList (fun _ : String => PlatformConfig)

/-- The fields of `sdk.Environment` that the parameter engine reads. -/
structure Environment where
  Name : String
  Variable : List sdk.Variable

/-- The fields of `sdk.ProjectPlatform` that the parameter engine reads. -/
structure ProjectPlatform where
  Name : String
  Config : PlatformConfig

/-- The node context, `sdk.WorkflowNodeContext`; a nil pointer is `none`. -/
structure WorkflowNodeContext where
  Application : Option sdk.Application
  Environment : Option sdk.Environment
  ProjectPlatform : Option sdk.ProjectPlatform

/-- A workflow node, `sdk.WorkflowNode`. -/
structure WorkflowNode where
  ID : Int
  Name : String
  PipelineID : Int
  Context : Option WorkflowNodeContext

/-- A pipeline, `sdk.Pipeline`. -/
structure Pipeline where
  Name : String

/-- A workflow, `sdk.Workflow`: its pipelines by ID and its nodes. -/
structure Workflow where
  Name : String
  ProjectKey : String
  Pipelines : AList (fun _ : Int => Pipeline)
  Nodes : List WorkflowNode

/-- A project, `sdk.Project`. -/
structure Project where
  Key : String
  Variable : List sdk.Variable

/-- A node run, `sdk.WorkflowNodeRun`. -/
structure WorkflowNodeRun where
  ID : Int
  WorkflowNodeID : Int
  Number : Int
  SubNumber : Int
  BuildParameters : List Parameter
  PipelineParameters : List Parameter

/-- A workflow run, `sdk.WorkflowRun`. -/
structure WorkflowRun where
  Number : Int
  Workflow : sdk.Workflow

/-- Go `sdk.AddParameter(&array, name, parameterType, value)`: appends one parameter. -/
def AddParameter (array : List Parameter) (name parameterType value : String) :
    List Parameter :=
  array ++ [⟨name, parameterType, value⟩]

/-- Modelled from the spec: `sdk.ParametersToMap` is not among the sources. Duplicate
names are resolved by last-write-wins when merged into a map (section 3). -/
def ParametersToMap (params : List Parameter) : GoMap :=
  params.foldl (fun m p => m.insert p.Name p.Value) ∅

/-- The parameters carried by a list of variables, name, type and value kept. -/
def variablesToParameters (vs : List Variable) : List Parameter :=
  vs.map (fun v => ⟨v.Name, v.Type_, v.Value⟩)

/-- Modelled from the spec: `sdk.ParametersFromProjectVariables` is not among the
sources. Layer 1 of section 4.1 is the project-level variables, by name. -/
def ParametersFromProjectVariables (proj : Project) : GoMap :=
  ParametersToMap (variablesToParameters proj.Variable)

/-- Modelled from the spec: `sdk.ParametersFromApplicationVariables` is not among the
sources. Layer 2 of section 4.1 is the application variables, by name. -/
def ParametersFromApplicationVariables (app : Application) : GoMap :=
  ParametersToMap (variablesToParameters app.Variable)

/-- Modelled from the spec: `sdk.ParametersFromEnvironmentVariables` is not among the
sources. Layer 3 of section 4.1 is the environment variables, by name. -/
def ParametersFromEnvironmentVariables (env : Environment) : GoMap :=
  ParametersToMap (variablesToParameters env.Variable)

/-- Modelled from the spec: `sdk.ParametersFromPlatform` is not among the sources.
Layer 4 of section 4.1 is the platform variables (and the key/values of a
deployment strategy), by name. -/
def ParametersFromPlatform (config : PlatformConfig) : GoMap :=
  config

/-- Modelled from the spec: `sdk.ParametersFromPipelineParameters` is not among the
sources. Layer 5 of section 4.1 is the supplied pipeline parameters, by name. -/
def ParametersFromPipelineParameters (pipParams : List Parameter) : GoMap :=
  ParametersToMap pipParams

/-- Modelled from the spec: `sdk.ParametersMapMerge` is not among the sources. Each
layer overwrites same-named keys from the previous layer (section 4.1): the keys of
`otherParams` are written over `params`. -/
def ParametersMapMerge (params otherParams : GoMap) : GoMap :=
  GoMap.rangeInto params otherParams

/-- Modelled from the spec: `(*sdk.WorkflowNode).Application` is not among the
sources. The application, if the node context binds one (section 4.1, item 2). -/
def WorkflowNode.Application (n : WorkflowNode) : Option sdk.Application :=
  match n.Context with
  | none => none
  | some c => c.Application

/-- Modelled from the spec: `(*sdk.WorkflowNode).Environment` is not among the
sources. The environment, if the node context binds one (section 4.1, item 3). -/
def WorkflowNode.Environment (n : WorkflowNode) : Option sdk.Environment :=
  match n.Context with
  | none => none
  | some c => c.Environment

/-- Modelled from the spec: `(*sdk.WorkflowNode).ProjectPlatform` is not among the
sources. The platform, if the node context binds one (section 4.1, item 4). -/
def WorkflowNode.ProjectPlatform (n : WorkflowNode) : Option sdk.ProjectPlatform :=
  match n.Context with
  | none => none
  | some c => c.ProjectPlatform

/-- Modelled from the spec: `(*sdk.Workflow).GetNode` is not among the sources. A
workflow is a graph of nodes, each with an identifier (section 3); the node with
the given identifier, nil (`none`) when there is none. -/
def Workflow.GetNode (w : Workflow) (id : Int) : Option WorkflowNode :=
  w.Nodes.find? (fun n => n.ID == id)

/-- Modelled from the spec: `(*sdk.Workflow).GetRepositories` is not among the
sources. The repositories referenced overall by the workflow (section 4.2): the
distinct non-empty repository names of the applications bound to its nodes. -/
def Workflow.GetRepositories (w : Workflow) : List String :=
  (w.Nodes.filterMap (fun n =>
    match WorkflowNode.Application n with
    | some app => if app.RepositoryFullname = "" then none else some app.RepositoryFullname
    | none => none)).dedup

/-- Go `w.Pipelines[id].Name`: the zero value, an empty name, when `id` is not a key. -/
def Workflow.pipelineName (w : Workflow) (id : Int) : String :=
  match w.Pipelines.lookup id with
  | some p => p.Name
  | none => ""

end sdk

namespace workflow

open sdk

/-- The pointer `n.Context.Application` read at lines 79 and 118, nil (`none`) when
the context or its application is nil. -/
def contextApplication (n : WorkflowNode) : Option Application :=
  match n.Context with
  | some c => c.Application
  | none => none

/-- Lines 50-57 of `GetNodeBuildParameters`: the application layer. -/
def applicationVars (n : WorkflowNode) (vars : GoMap) : GoMap :=
  match n.Application with
  | some app =>
    GoMap.rangeInto (vars.insert "cds.application" app.Name)
      (ParametersFromApplicationVariables app)
  | none => vars

/-- Lines 60-67 of `GetNodeBuildParameters`: the environment layer. -/
def environmentVars (n : WorkflowNode) (vars : GoMap) : GoMap :=
  match n.Environment with
  | some env =>
    GoMap.rangeInto (vars.insert "cds.environment" env.Name)
      (ParametersFromEnvironmentVariables env)
  | none => vars

/-- Lines 80-87 of `GetNodeBuildParameters`: the loop over the deployment strategies of
the application, merging those whose name is the name of the platform. -/
def deploymentStrategyVars (app : Application) (ppfName : String) (vars : GoMap) : GoMap :=
  app.DeploymentStrategies.entries.foldl
    (fun m e => if e.1 = ppfName then GoMap.rangeInto m (ParametersFromPlatform e.2) else m)
    vars

/-- Lines 70-89 of `GetNodeBuildParameters`: the platform layer and, on top of it, the
matching deployment strategy of the application. -/
def platformVars (n : WorkflowNode) (vars : GoMap) : GoMap :=
  match n.ProjectPlatform with
  | some ppf =>
    let vars := GoMap.rangeInto (vars.insert "cds.platform" ppf.Name)
      (ParametersFromPlatform ppf.Config)
    match contextApplication n with
    | some app => deploymentStrategyVars app ppf.Name vars
    | none => vars
  | none => vars

/-- Lines 114-116 of `GetNodeBuildParameters`: the fixed identity keys. -/
def identityVars (w : Workflow) (n : WorkflowNode) (vars : GoMap) : GoMap :=
  ((vars.insert "cds.project" w.ProjectKey).insert "cds.workflow" w.Name).insert
    "cds.pipeline" (w.pipelineName n.PipelineID)

/-- Lines 119-131 of `GetNodeBuildParameters`: the branch taken when the application
declares a connection type. -/
def gitSetVars (app : Application) (vars : GoMap) : GoMap :=
  let vars := vars.insert "git.connection.type" app.RepositoryStrategy.ConnectionType
  let vars := if app.RepositoryStrategy.SSHKey ≠ "" then
    vars.insert "git.ssh.key" app.RepositoryStrategy.SSHKey else vars
  let vars := if app.RepositoryStrategy.PGPKey ≠ "" then
    vars.insert "git.pgp.key" app.RepositoryStrategy.PGPKey else vars
  let vars := if app.RepositoryStrategy.User ≠ "" then
    vars.insert "git.http.user" app.RepositoryStrategy.User else vars
  if app.VCSServer ≠ "" then vars.insert "git.server" app.VCSServer else vars

/-- Lines 133-136 of `GetNodeBuildParameters`: the else branch, three deletions. -/
def gitRemoveVars (vars : GoMap) : GoMap :=
  ((vars.erase "git.ssh.key").erase "git.pgp.key").erase "git.http.user"

/-- Lines 118-137 of `GetNodeBuildParameters`. -/
def gitVars (n : WorkflowNode) (vars : GoMap) : GoMap :=
  match contextApplication n with
  | some app =>
    if app.RepositoryStrategy.ConnectionType ≠ "" then gitSetVars app vars
    else gitRemoveVars vars
  | none => gitRemoveVars vars

/-- Lines 139-142 of `GetNodeBuildParameters`: one string parameter per entry of the map. -/
def paramsOfVars (vars : GoMap) : List Parameter :=
  vars.entries.foldl (fun params e => AddParameter params e.1 StringParameter e.2) []

/-- The map `vars` of `GetNodeBuildParameters` after line 95, before the payload is
merged: project, application, environment, platform and pipeline-parameter layers. -/
def layeredVars (proj : Project) (n : WorkflowNode) (pipelineParameters : List Parameter) :
    GoMap :=
  let vars := GoMap.rangeInto ∅ (ParametersFromProjectVariables proj)
  let vars := applicationVars n vars
  let vars := environmentVars n vars
  let vars := platformVars n vars
  GoMap.rangeInto vars (ParametersFromPipelineParameters pipelineParameters)

/-- The map `vars` of `GetNodeBuildParameters` at line 138, given the dumped payload. -/
def finalVars (proj : Project) (w : Workflow) (n : WorkflowNode)
    (pipelineParameters : List Parameter) (tmpVars : GoMap) : GoMap :=
  let vars := ParametersMapMerge (layeredVars proj n pipelineParameters) tmpVars
  let vars := identityVars w n vars
  gitVars n vars

/-- Embedding of `GetNodeBuildParameters`. The argument `payloadDump` is the value of
`e.ToStringMap(payload)` at line 104: the encoder belongs to the external library
go-dump, so its result, a string map or an error, is taken as the input. -/
def GetNodeBuildParameters (proj : Project) (w : Workflow) (n : WorkflowNode)
    (pipelineParameters : List Parameter) (payloadDump : Except String GoMap) :
    Except String (List Parameter) :=
  match payloadDump with
  | .error errdump => .error ("GetNodeBuildParameters> do-dump error: " ++ errdump)
  | .ok tmpVars => .ok (paramsOfVars (finalVars proj w n pipelineParameters tmpVars))

/-- The application layer of section 4.1, item 2: the injected `cds.application`,
overwritten by the application variables; empty when no application is bound. -/
def applicationLayer (n : WorkflowNode) : GoMap :=
  match n.Application with
  | some app =>
    GoMap.rangeInto ((∅ : GoMap).insert "cds.application" app.Name)
      (ParametersFromApplicationVariables app)
  | none => ∅

/-- The environment layer of section 4.1, item 3: the injected `cds.environment`,
overwritten by the environment variables; empty when no environment is bound. -/
def environmentLayer (n : WorkflowNode) : GoMap :=
  match n.Environment with
  | some env =>
    GoMap.rangeInto ((∅ : GoMap).insert "cds.environment" env.Name)
      (ParametersFromEnvironmentVariables env)
  | none => ∅

/-- The platform layer of section 4.1, item 4: the injected `cds.platform`,
overwritten by the platform configuration; empty when no platform is bound. -/
def platformLayer (n : WorkflowNode) : GoMap :=
  match n.ProjectPlatform with
  | some ppf =>
    GoMap.rangeInto ((∅ : GoMap).insert "cds.platform" ppf.Name)
      (ParametersFromPlatform ppf.Config)
  | none => ∅

/-- The deployment-strategy layer of section 4.1, item 4: the strategy that the bound
application declares under the name of the bound platform; empty when there is none. -/
def strategyLayer (n : WorkflowNode) : GoMap :=
  match n.ProjectPlatform, contextApplication n with
  | some ppf, some app =>
    match app.DeploymentStrategies.lookup ppf.Name with
    | some pfConfig => ParametersFromPlatform pfConfig
    | none => ∅
  | _, _ => ∅

/-- The seven layers of section 4.1 in merge order, first to last. -/
def layers (proj : Project) (n : WorkflowNode) (pipelineParameters : List Parameter)
    (tmpVars : GoMap) : List GoMap :=
  [ParametersFromProjectVariables proj, applicationLayer n, environmentLayer n,
   platformLayer n, strategyLayer n, ParametersFromPipelineParameters pipelineParameters,
   tmpVars]

/-- The value that the last layer containing `k` gives to `k`; `none` when no layer
contains `k`. -/
def lastLayerValue (k : String) : List GoMap → Option String
  | [] => none
  | L :: rest =>
    match lastLayerValue k rest with
    | some v => some v
    | none => L.lookup k

/-- The fixed identity keys of lines 114-116. -/
def identityKeys : List String := ["cds.project", "cds.workflow", "cds.pipeline"]

/-- The git keys of lines 118-137. -/
def gitKeys : List String :=
  ["git.connection.type", "git.ssh.key", "git.pgp.key", "git.http.user", "git.server"]

/-- The condition of lines 164-167 of `getParentParameters`, under which the loop
body continues without renaming the parameter. -/
def nameFilter (name : String) : Bool :=
  name == "" || name == "cds.semver" || name == "cds.release.version" ||
    HasPrefix name "cds.proj" || HasPrefix name "workflow." ||
    HasPrefix name "cds.version" || HasPrefix name "cds.run.number" ||
    HasPrefix name "cds.workflow" || HasPrefix name "job.requirement"

/-- The three conditions of lines 164-181 under which the loop body of
`getParentParameters` executes `continue`: the name filter, a non-git name that is
a key of the payload, a git name in a workflow with exactly one repository. -/
def continues (repos : List String) (payload : GoMap) (name : String) : Bool :=
  nameFilter name ||
    ((payload.lookup name).isSome && !HasPrefix name "git.") ||
    (HasPrefix name "git." && repos.length == 1)

/-- Lines 183-188 of `getParentParameters`: the renamed parameter. -/
def renameParameter (nodeName : String) (p : Parameter) : Parameter :=
  let pfx := "workflow." ++ nodeName ++ "."
  if HasPrefix p.Name "cds." then ⟨Replace1 p.Name "cds." pfx, p.Type_, p.Value⟩
  else ⟨pfx ++ p.Name, p.Type_, p.Value⟩

/-- One iteration of the loop of lines 161-189 of `getParentParameters`: the element
`parentNodeRun.BuildParameters[i]` as the iteration leaves it, untouched on
`continue` and renamed in place otherwise. -/
def processParentParameter (repos : List String) (payload : GoMap) (nodeName : String)
    (p : Parameter) : Parameter :=
  if nameFilter p.Name then p
  else if (payload.lookup p.Name).isSome && !HasPrefix p.Name "git." then p
  else if HasPrefix p.Name "git." && repos.length == 1 then p
  else renameParameter nodeName p

/-- The loop of lines 150-191 of `getParentParameters` over the node-run IDs, with the
accumulator `params`. `LoadNodeRunByID` reads the database, which the loop does
not write: it is a function of the ID. -/
def parentLoop (LoadNodeRunByID : Int → Except String WorkflowNodeRun) (w : WorkflowRun)
    (repos : List String) (payload : GoMap) :
    List Int → List Parameter → Except String (List Parameter)
  | [], params => .ok params
  | nodeRunID :: rest, params =>
    match LoadNodeRunByID nodeRunID with
    | .error errNR => .error ("getParentParameters> Cannot get parent node run: " ++ errNR)
    | .ok parentNodeRun =>
      match w.Workflow.GetNode parentNodeRun.WorkflowNodeID with
      | none =>
        .error ("getParentParameters>: Unable to find node " ++
          toString parentNodeRun.WorkflowNodeID ++ " in workflow")
      | some node =>
        parentLoop LoadNodeRunByID w repos payload rest
          (params ++ parentNodeRun.BuildParameters.map
            (processParentParameter repos payload node.Name))

/-- Embedding of `getParentParameters`; the argument `run` of the source is unused. -/
def getParentParameters (LoadNodeRunByID : Int → Except String WorkflowNodeRun)
    (w : WorkflowRun) (nodeRunIds : List Int) (payload : GoMap) :
    Except String (List Parameter) :=
  let repos := w.Workflow.GetRepositories
  parentLoop LoadNodeRunByID w repos payload nodeRunIds []

/-- The parameters of the ancestors that none of the three `continue` conditions
stops, each renamed, in ancestor order and, within an ancestor, in original order. -/
def inheritedParameters (LoadNodeRunByID : Int → Except String WorkflowNodeRun)
    (w : WorkflowRun) (payload : GoMap) : List Int → List Parameter
  | [] => []
  | nodeRunID :: rest =>
    (match LoadNodeRunByID nodeRunID with
      | .ok parentNodeRun =>
        match w.Workflow.GetNode parentNodeRun.WorkflowNodeID with
        | some node =>
          (parentNodeRun.BuildParameters.filter
            (fun p => !continues w.Workflow.GetRepositories payload p.Name)).map
            (renameParameter node.Name)
        | none => []
      | .error _ => []) ++ inheritedParameters LoadNodeRunByID w payload rest

/-- The error list `sdk.MultiError`. -/
abbrev MultiError := List String

/-- Modelled from the spec: `(*sdk.MultiError).Append` is not among the sources.
Interpolation errors are collected into a multi-error (section 7): the error is
added at the end of the list. -/
def MultiError.Append (e : MultiError) (err : String) : MultiError :=
  e ++ [err]

/-- Modelled from the spec: `(*sdk.MultiError).IsEmpty` is not among the sources. The
multi-error is empty when no error was collected. -/
def MultiError.IsEmpty (e : MultiError) : Bool :=
  e.isEmpty

/-- The error returned by `getNodeRunBuildParameters`: a wrapped single error, or the
multi-error of the interpolation pass. -/
inductive RunError where
  | wrapped (msg : String)
  | multi (errm : MultiError)
deriving DecidableEq, Repr

/-- Lines 217-221 of `getNodeRunBuildParameters`: the map `tmp`, the base resolution
overlaid with the four run parameters. -/
def runParametersMap (params : List Parameter) (run : WorkflowNodeRun) : GoMap :=
  let tmp := ParametersToMap params
  let tmp := tmp.insert "cds.version" (toString run.Number)
  let tmp := tmp.insert "cds.run" (toString run.Number ++ "." ++ toString run.SubNumber)
  let tmp := tmp.insert "cds.run.number" (toString run.Number)
  tmp.insert "cds.run.subnumber" (toString run.SubNumber)

/-- One iteration of the loop of lines 225-232: on an interpolation error the error is
appended and the key skipped, otherwise the interpolated parameter is added. -/
def interpolateStep (Do : String → GoMap → Except String String) (tmp : GoMap)
    (acc : List Parameter × MultiError) (e : (_ : String) × String) :
    List Parameter × MultiError :=
  match Do e.2 tmp with
  | .error err => (acc.1, MultiError.Append acc.2 err)
  | .ok s => (AddParameter acc.1 e.1 StringParameter s, acc.2)

/-- Lines 224-232 of `getNodeRunBuildParameters`: the interpolation pass over `tmp`.
`Do` is `interpolate.Do`, taken as a parameter. -/
def interpolateAll (Do : String → GoMap → Except String String) (tmp : GoMap) :
    List Parameter × MultiError :=
  tmp.entries.foldl (interpolateStep Do tmp) ([], [])

/-- Embedding of `getNodeRunBuildParameters`. The result pairs the returned slice
(`none` for nil) with the returned error (`none` for nil). `payloadDump` is the value
of the payload encoder on `run.Payload`, as in `GetNodeBuildParameters`. -/
def getNodeRunBuildParameters (Do : String → GoMap → Except String String)
    (proj : Project) (w : WorkflowRun) (run : WorkflowNodeRun)
    (payloadDump : Except String GoMap) : Option (List Parameter) × Option RunError :=
  match w.Workflow.GetNode run.WorkflowNodeID with
  | none =>
    (none, some (.wrapped ("getNodeRunParameters>: Unable to find node " ++
      toString run.WorkflowNodeID ++ " in workflow")))
  | some n =>
    match GetNodeBuildParameters proj w.Workflow n run.PipelineParameters payloadDump with
    | .error errparam =>
      (none, some (.wrapped
        ("getNodeRunParameters> Unable to compute node build parameters: " ++ errparam)))
    | .ok params =>
      let tmp := runParametersMap params run
      let res := interpolateAll Do tmp
      if MultiError.IsEmpty res.2 then (some res.1, none)
      else (some res.1, some (.multi res.2))

/-- The application `app1` of the end-to-end scenario of section 8: connection type
`ssh`, no other repository field set, no variable. -/
def scenarioApp : Application :=
  ⟨"app1", [], "", "", ⟨"ssh", "", "", ""⟩, ∅⟩

/-- The single node of the scenario, bound to `app1` and to pipeline 10. -/
def scenarioNode : WorkflowNode :=
  ⟨1, "root", 10, some ⟨some scenarioApp, none, none⟩⟩

/-- The workflow of the scenario. -/
def scenarioWorkflow : Workflow :=
  ⟨"wf", "PRJ", (∅ : AList (fun _ : Int => Pipeline)).insert 10 ⟨"build"⟩, [scenarioNode]⟩

/-- The project of the scenario, with the variable `foo=bar`. -/
def scenarioProject : Project :=
  ⟨"PRJ", [⟨"foo", "string", "bar"⟩]⟩

/-- The flattened payload of the scenario, `branch=main`. -/
def scenarioDump : GoMap :=
  (∅ : GoMap).insert "branch" "main"

/-- A node without any context, bound to pipeline 10. -/
def bareNode : WorkflowNode :=
  ⟨2, "bare", 10, none⟩

/-- The four run keys written at lines 218-221 of `getNodeRunBuildParameters`. -/
def runKeys : List String :=
  ["cds.version", "cds.run", "cds.run.number", "cds.run.subnumber"]

/-- The parameter that one entry of `tmp` yields when its interpolation succeeds. -/
def interpolated (Do : String → GoMap → Except String String) (tmp : GoMap)
    (e : (_ : String) × String) : Option Parameter :=
  match Do e.2 tmp with
  | .ok s => some ⟨e.1, StringParameter, s⟩
  | .error _ => none

/-- The error that one entry of `tmp` yields when its interpolation fails. -/
def interpolationError (Do : String → GoMap → Except String String) (tmp : GoMap)
    (e : (_ : String) × String) : Option String :=
  match Do e.2 tmp with
  | .ok _ => none
  | .error err => some err

/-- A stand-in for `interpolate.Do` that fails on the value `bad` and returns every
other value unchanged; it instantiates the statements that hold for every `Do`. -/
def sampleDo (v : String) (_ : GoMap) : Except String String :=
  if v = "bad" then .error "unknown variable" else .ok v

/-- A workflow run number 12 of the scenario workflow. -/
def scenarioRun : WorkflowRun :=
  ⟨12, scenarioWorkflow⟩

/-- A node run 12.3 of the scenario node, with the pipeline parameters `p=bad` and
`q=fine`. -/
def scenarioNodeRun : WorkflowNodeRun :=
  ⟨100, 1, 12, 3, [], [⟨"p", "string", "bad"⟩, ⟨"q", "string", "fine"⟩]⟩

/-- A workflow whose single node is bound to an application with the repository
`ovh/cds`: it references exactly one repository. -/
def oneRepoWorkflow : Workflow :=
  ⟨"wf", "PRJ", (∅ : AList (fun _ : Int => Pipeline)).insert 10 ⟨"build"⟩,
    [⟨1, "root", 10,
      some ⟨some ⟨"app1", [], "ovh/cds", "github", ⟨"ssh", "", "", ""⟩, ∅⟩, none, none⟩⟩]⟩

/-- The run of the ancestor node `root`, with four build parameters. -/
def parentNodeRun : WorkflowNodeRun :=
  ⟨100, 1, 12, 0,
    [⟨"cds.version", "string", "12"⟩, ⟨"cds.application", "string", "app1"⟩,
      ⟨"git.token", "string", "secret"⟩, ⟨"branch", "string", "main"⟩], []⟩

/-- A database that holds the node run 100 only. -/
def parentLoad (id : Int) : Except String WorkflowNodeRun :=
  if id = 100 then .ok parentNodeRun else .error "sql: no rows in result set"

/-- A payload map with the keys `branch` and `git.token`. -/
def parentPayload : GoMap :=
  ((∅ : GoMap).insert "branch" "develop").insert "git.token" "other"

end workflow

namespace sdk

/-- Modelled from the spec: the constant `sdk.StatusBuilding` is not among the sources.
The status vocabulary of section 3, here Building. -/
def StatusBuilding : String := "Building"

/-- Modelled from the spec: the constant `sdk.StatusSuccess` is not among the sources.
The status vocabulary of section 3, here Success. -/
def StatusSuccess : String := "Success"

/-- Modelled from the spec: the constant `sdk.StatusFail` is not among the sources.
The status vocabulary of section 3, here Fail. -/
def StatusFail : String := "Fail"

/-- Modelled from the spec: the constant `sdk.StatusSkipped` is not among the sources.
The status vocabulary of section 3, here Skipped. -/
def StatusSkipped : String := "Skipped"

/-- Modelled from the spec: the constant `sdk.StatusStopped` is not among the sources.
The status vocabulary of section 3, here Stopped. -/
def StatusStopped : String := "Stopped"

/-- Modelled from the spec: the constant `sdk.StatusDisabled` is not among the sources.
The status vocabulary of section 3, here Disabled. -/
def StatusDisabled : String := "Disabled"

/-- Modelled from the spec: the constant `sdk.StatusNeverBuilt` is not among the
sources. The status vocabulary of section 3, here NeverBuilt. -/
def StatusNeverBuilt : String := "NeverBuilt"

/-- Modelled from the spec: `sdk.WrapError` is not among the sources. Errors are
wrapped with an operation-context string and the cause stays inspectable
(section 7): the context, a separator and the cause. -/
def WrapError (err : String) (context : String) : String :=
  context ++ ": " ++ err

deriving instance DecidableEq, Repr for WorkflowNodeRun

/-- The node run `sdk.WorkflowNodeRun` with the further fields that the run
controllers read: status, node name and VCS fields. -/
structure NodeRunState extends WorkflowNodeRun where
  Status : String
  WorkflowNodeName : String
  VCSHash : String
  VCSTag : String
  VCSBranch : String
deriving DecidableEq, Repr

/-- The workflow run `sdk.WorkflowRun` with the further fields that the run
controllers read. `WorkflowNodeRuns` is the Go map from node ID to the slice of the
node runs of that node. -/
structure RunState extends WorkflowRun where
  ID : Int
  Status : String
  LastSubNumber : Int
  WorkflowNodeRuns : AList (fun _ : Int => List NodeRunState)

end sdk

namespace workflow

open sdk

/-- Modelled from the spec: the type `workflow.ProcessorReport` is not among the
sources. An accumulator of workflow runs affected, node runs affected and errors
(section 3). -/
structure ProcessorReport where
  workflows : List RunState
  nodes : List NodeRunState
  errors : List String

/-- The report that `new(workflow.ProcessorReport)` allocates. -/
def ProcessorReport.new : ProcessorReport :=
  ⟨[], [], []⟩

/-- Modelled from the spec: `(*ProcessorReport).Add` is not among the sources, here
with an error as argument: the error is added to the errors of the report. -/
def ProcessorReport.AddError (r : ProcessorReport) (err : String) : ProcessorReport :=
  ⟨r.workflows, r.nodes, r.errors ++ [err]⟩

/-- Modelled from the spec: `(*ProcessorReport).Add` is not among the sources, here
with a workflow run as argument: the run is added to the workflow runs affected. -/
def ProcessorReport.AddRun (r : ProcessorReport) (run : RunState) : ProcessorReport :=
  ⟨r.workflows ++ [run], r.nodes, r.errors⟩

/-- Modelled from the spec: `(*ProcessorReport).Merge` is not among the sources. The
report supports merging two reports (section 3): the three components of `r1` are
added to those of `r`; a nil `r1` (`none`) leaves `r` as it is. -/
def ProcessorReport.Merge (r : ProcessorReport) (r1 : Option ProcessorReport) :
    ProcessorReport :=
  match r1 with
  | none => r
  | some r1 => ⟨r.workflows ++ r1.workflows, r.nodes ++ r1.nodes, r.errors ++ r1.errors⟩

/-- Modelled from the spec: `(*ProcessorReport).Errors` is not among the sources. The
errors of the report, nil (`none`) when there is none. -/
def ProcessorReport.Errors (r : ProcessorReport) : Option (List String) :=
  if r.errors.isEmpty then none else some r.errors

end workflow

namespace api

open sdk workflow

/-- The persisted statuses: of the workflow runs and of the node runs, by ID. -/
structure Database where
  runs : AList (fun _ : Int => String)
  nodeRuns : AList (fun _ : Int => String)

/-- The calls that `stopWorkflowRun` makes, in the order it makes them. -/
inductive StopEvent where
  | Begin
  | StopWorkflowNodeRun (wnr : NodeRunState)
  | UpdateWorkflowRun (id : Int) (status : String)
  | Commit
  | Rollback
deriving DecidableEq, Repr

/-- The outcomes of the collaborators of `stopWorkflowRun`, which are not among the
sources: whether the transaction begins, what the node-stop routine returns for a
node run, whether the update of the run and the commit succeed (`none` is a nil
error). -/
structure StopEnv where
  Begin : Option String
  StopWorkflowNodeRun : NodeRunState → Except String ProcessorReport
  UpdateWorkflowRun : RunState → Option String
  Commit : Option String

/-- Modelled from the spec: `workflow.StopWorkflowNodeRun` is not among the sources.
The node-stop routine transitions the node run to Stopped (section 4.4). Line 365
hands it `dbFunc`, the database handle, and not the transaction `tx`: what it
persists is outside the transaction of `stopWorkflowRun`. When it fails the
database is left as it was. -/
def StopWorkflowNodeRun (env : StopEnv) (db : Database) (wnr : NodeRunState) :
    Except String ProcessorReport × Database :=
  match env.StopWorkflowNodeRun wnr with
  | .error errS => (.error errS, db)
  | .ok r1 => (.ok r1, ⟨db.runs, db.nodeRuns.insert wnr.ID StatusStopped⟩)

/-- The state that the loop of lines 357-372 carries: the report, the database and
the calls made so far. -/
structure StopState where
  report : ProcessorReport
  db : Database
  events : List StopEvent

/-- The condition of lines 359-360 under which a node run is not stopped. -/
def cannotStop (run : RunState) (wnr : NodeRunState) : Bool :=
  wnr.SubNumber != run.LastSubNumber ||
    (wnr.Status == StatusSuccess || wnr.Status == StatusFail ||
      wnr.Status == StatusSkipped)

/-- The inner loop of lines 358-371 over the node runs `wn` of one node. The result
is the error that ends `stopWorkflowRun` (`none` when the loop runs to its end)
and the state. Line 370 assigns `Stopped` to the loop variable `wnr`, which is a
copy of the slice element (the slice holds values, and `wnr` is handed by value to
the routine at line 365): the node runs of `run` are not written. -/
def stopNodeRuns (env : StopEnv) (run : RunState) :
    List NodeRunState → StopState → Option String × StopState
  | [], s => (none, s)
  | wnr :: rest, s =>
    if cannotStop run wnr then stopNodeRuns env run rest s
    else
      match StopWorkflowNodeRun env s.db wnr with
      | (.error errS, db) =>
        (some (WrapError errS
            ("stopWorkflowRunHandler> Unable to stop workflow node run " ++ toString wnr.ID)),
          ⟨s.report, db,
            s.events ++ [.StopWorkflowNodeRun wnr]⟩)
      | (.ok r1, db) =>
        stopNodeRuns env run rest
          ⟨s.report.Merge (some r1), db,
            s.events ++ [.StopWorkflowNodeRun wnr]⟩

/-- The outer loop of lines 357-372 over the entries of `run.WorkflowNodeRuns`. -/
def stopAllNodeRuns (env : StopEnv) (run : RunState) :
    List ((_ : Int) × List NodeRunState) → StopState → Option String × StopState
  | [], s => (none, s)
  | wn :: rest, s =>
    match stopNodeRuns env run wn.2 s with
    | (some err, s1) => (some err, s1)
    | (none, s1) => stopAllNodeRuns env run rest s1

/-- What a call of `stopWorkflowRun` leaves: the returned pair (report or error), the
run, which the function receives by pointer, the database and the calls made. -/
structure StopOutcome where
  result : Except String ProcessorReport
  run : RunState
  db : Database
  events : List StopEvent

/-- The run with its status set, line 375. -/
def withStatus (run : RunState) (status : String) : RunState :=
  ⟨run.toWorkflowRun, run.ID, status, run.LastSubNumber, run.WorkflowNodeRuns⟩

/-- Embedding of `stopWorkflowRun` (lines 338-386). The spawn information and the
run information of lines 347-355, and `LastExecution`, are not represented. The
deferred `tx.Rollback()` is recorded when the function returns without a commit; the
update of the run is written in the transaction and reaches the database at the
commit. -/
def stopWorkflowRun (env : StopEnv) (db : Database) (run : RunState) : StopOutcome :=
  match env.Begin with
  | some errTx =>
    ⟨.error (WrapError errTx "stopWorkflowRunHandler> Unable to create transaction"),
      run, db, [.Begin]⟩
  | none =>
    match stopAllNodeRuns env run run.WorkflowNodeRuns.entries
        ⟨ProcessorReport.new, db, [.Begin]⟩ with
    | (some err, s) => ⟨.error err, run, s.db, s.events ++ [.Rollback]⟩
    | (none, s) =>
      let run1 := withStatus run StatusStopped
      match env.UpdateWorkflowRun run1 with
      | some errU =>
        ⟨.error (WrapError errU
            ("stopWorkflowRunHandler> Unable to update workflow run " ++ toString run.ID)),
          run1, s.db,
          s.events ++ [.UpdateWorkflowRun run1.ID run1.Status, .Rollback]⟩
      | none =>
        let report := s.report.AddRun run1
        match env.Commit with
        | some err =>
          ⟨.error (WrapError err "stopWorkflowRunHandler> Cannot commit transaction"),
            run1, s.db,
            s.events ++ [.UpdateWorkflowRun run1.ID run1.Status, .Commit, .Rollback]⟩
        | none =>
          ⟨.ok report, run1, ⟨s.db.runs.insert run1.ID run1.Status, s.db.nodeRuns⟩,
            s.events ++ [.UpdateWorkflowRun run1.ID run1.Status, .Commit]⟩

/-- The node runs of a run in the order in which the two loops of lines 357-358
visit them. -/
def allNodeRuns (run : RunState) : List NodeRunState :=
  run.WorkflowNodeRuns.entries.flatMap (fun wn => wn.2)

/-- The node runs on which the node-stop routine was invoked, in the order of the
calls. -/
def stopCalls (events : List StopEvent) : List NodeRunState :=
  events.filterMap (fun e =>
    match e with
    | .StopWorkflowNodeRun wnr => some wnr
    | _ => none)

/-- A node run with the given ID, sub-number and status, of the node 1 in the run 12. -/
def nodeRunOf (id subNumber : Int) (status : String) : NodeRunState :=
  ⟨⟨id, 1, 12, subNumber, [], []⟩, status, "root", "", "", ""⟩

/-- A run with three node runs at its last sub-number, of statuses Building, Success
and Fail, and an older Building node run. -/
def stopRun : RunState :=
  ⟨⟨12, scenarioWorkflow⟩, 5, StatusBuilding, 1,
    (∅ : AList (fun _ : Int => List NodeRunState)).insert 1
      [nodeRunOf 101 1 StatusBuilding, nodeRunOf 102 1 StatusSuccess,
        nodeRunOf 103 1 StatusFail, nodeRunOf 100 0 StatusBuilding]⟩

/-- A run with two Building node runs at its last sub-number. -/
def stopRunTwo : RunState :=
  ⟨⟨12, scenarioWorkflow⟩, 5, StatusBuilding, 0,
    (∅ : AList (fun _ : Int => List NodeRunState)).insert 1
      [nodeRunOf 201 0 StatusBuilding, nodeRunOf 202 0 StatusBuilding]⟩

/-- Collaborators that all succeed; the node-stop routine returns an empty report. -/
def stopEnvOk : StopEnv :=
  ⟨none, fun _ => .ok ProcessorReport.new, fun _ => none, none⟩

/-- Collaborators that succeed, except the node-stop routine on the node run `id`. -/
def stopEnvFailOn (id : Int) : StopEnv :=
  ⟨none, fun wnr => if wnr.ID = id then .error "cannot stop" else .ok ProcessorReport.new,
    fun _ => none, none⟩

/-- A database without any row. -/
def emptyDB : Database :=
  ⟨∅, ∅⟩

end api

namespace sdk

/-- The permissions of a user, `sdk.UserPermissions`: the environment permissions,
the one field that line 748 names, and, in one field, the other permission fields,
which the composite literal of lines 747-749 leaves at their zero value. -/
structure UserPermissions where
  EnvironmentsPerm : List (String × Int)
  OtherPerms : List (String × Int)
deriving DecidableEq, Repr

/-- The fields of `sdk.User` that `startWorkflowRun` reads and writes. -/
structure User where
  Username : String
  Groups : List String
  Permissions : UserPermissions
deriving DecidableEq, Repr

/-- The manual trigger, `sdk.WorkflowNodeRunManual`; the payload is nil (`none`) or
a value, kept as text. -/
structure WorkflowNodeRunManual where
  PipelineParameters : List Parameter
  User : sdk.User
  Payload : Option String
deriving DecidableEq, Repr

/-- The options of a run start, `sdk.WorkflowRunPostHandlerOption`; of the hook
event only its presence is read, it is nil (`none`) or its payload. -/
structure WorkflowRunPostHandlerOption where
  Hook : Option String
  Manual : Option WorkflowNodeRunManual
  Number : Option Int
  FromNodeIDs : List Int

/-- Modelled from the spec: the constant `sdk.ErrWorkflowNodeNotFound` is not among
the sources. The "node not found" error of section 4.3. -/
def ErrWorkflowNodeNotFound : String := "workflow node not found"

/-- Modelled from the spec: the constant `sdk.ErrNoEnvExecution` is not among the
sources. The permission denial on an environment of section 4.3. -/
def ErrNoEnvExecution : String := "no execution right on the environment"

/-- Modelled from the spec: the declaration of `sdk.Workflow` is not among the
sources. The nodes form a graph rooted at `Root` (section 3): the root is the first
of the nodes, nil (`none`) when the workflow has no node. -/
def Workflow.Root (w : Workflow) : Option WorkflowNode :=
  w.Nodes.head?

end sdk

namespace api

open sdk workflow

/-- The calls that `startWorkflowRun` and its branches make. The index `i` is the
position of the branch in `fromNodes`. -/
inductive StartEvent where
  | Begin
  | RunFromHook
  | BranchBegin (i : Nat)
  | AccessToEnvironment (i : Nat) (envName : String)
  | ManualRunFromNode (i : Nat) (number : Int) (nodeID : Int) (user : User)
  | BranchCommit (i : Nat)
  | BranchRollback (i : Nat)
  | Wait
  | ManualRun (user : User)
  | Commit
  | Rollback
deriving DecidableEq, Repr

/-- The outcomes of the collaborators of `startWorkflowRun` and `runFromNode`, which
are not among the sources (`none` is a nil error). The outcomes of a branch are
indexed by the position of the branch, so that they may differ from one branch to
the other, as they may under any interleaving of the branches. -/
structure StartEnv where
  Begin : Option String
  RunFromHook : Except String ProcessorReport
  BranchBegin : Nat → Option String
  AccessToEnvironment : String → String → User → Bool
  ManualRunFromNode : Nat → Int → Int → Except String ProcessorReport
  BranchCommit : Nat → Option String
  ManualRun : Except String ProcessorReport
  Commit : Option String

/-- What a function of type `(*workflow.ProcessorReport, error)` does: it returns a
report and a nil error, or nil and an error, or it dereferences a nil pointer. -/
inductive RunResult where
  | ok (report : ProcessorReport)
  | error (err : String)
  | panic

/-- Lines 863-867 of `runFromNode`: the commit of the transaction of the branch. -/
def commitBranch (env : StartEnv) (i : Nat) (report : ProcessorReport)
    (events : List StartEvent) : RunResult × List StartEvent :=
  match env.BranchCommit i with
  | some err =>
    (.error (WrapError err "runFromNode> Unable to commit transaction"),
      events ++ [.BranchCommit i, .BranchRollback i])
  | none => (.ok report, events ++ [.BranchCommit i])

/-- Lines 853-867 of `runFromNode`: with a previous run the run-from-node creation
routine is invoked and its report merged, without one nothing is created. -/
def manualRunFromNode (env : StartEnv) (i : Nat) (manual : WorkflowNodeRunManual)
    (lastRun : Option WorkflowRun) (fromNode : WorkflowNode) (events : List StartEvent) :
    RunResult × List StartEvent :=
  match lastRun with
  | some lastRun =>
    match env.ManualRunFromNode i lastRun.Number fromNode.ID with
    | .error errmr =>
      (.error (WrapError errmr "runFromNode> Unable to run workflow from node"),
        events ++ [.ManualRunFromNode i lastRun.Number fromNode.ID manual.User,
          .BranchRollback i])
    | .ok r1 =>
      commitBranch env i (ProcessorReport.new.Merge (some r1))
        (events ++ [.ManualRunFromNode i lastRun.Number fromNode.ID manual.User])
  | none => commitBranch env i ProcessorReport.new events

/-- Embedding of `runFromNode` (lines 822-868) for the branch `i`. Lines 843-851
default the payload and the pipeline parameters handed to the creation routine
from the context of the node; the routine is a collaborator whose outcome depends
on the branch, and these two arguments are not represented. A nil `fromNode` or a
nil context is dereferenced at line 837. -/
def runFromNode (env : StartEnv) (i : Nat) (manual : WorkflowNodeRunManual) (p : Project)
    (lastRun : Option WorkflowRun) (u : User) (fromNode : Option WorkflowNode) :
    RunResult × List StartEvent :=
  match env.BranchBegin i with
  | some errb => (.error errb, [.BranchBegin i])
  | none =>
    match fromNode with
    | none => (.panic, [.BranchBegin i])
    | some fromNode =>
      match fromNode.Context with
      | none => (.panic, [.BranchBegin i])
      | some c =>
        match c.Environment with
        | some environment =>
          if !env.AccessToEnvironment p.Key environment.Name u then
            (.error (WrapError ErrNoEnvExecution
                ("runFromNode> Not enough right to run on environment " ++ environment.Name)),
              [.BranchBegin i, .AccessToEnvironment i environment.Name, .BranchRollback i])
          else
            manualRunFromNode env i manual lastRun fromNode
              [.BranchBegin i, .AccessToEnvironment i environment.Name]
        | none => manualRunFromNode env i manual lastRun fromNode [.BranchBegin i]

/-- Lines 743-749 of `startWorkflowRun`: the user stored in the manual trigger, a copy
of `u` with nil groups and the environment permissions only. -/
def manualUser (u : User) : User :=
  ⟨u.Username, [], ⟨u.Permissions.EnvironmentsPerm, []⟩⟩

/-- Lines 740-749 of `startWorkflowRun`: the manual trigger after the default and the
copy of the user. -/
def manualOf (opts : WorkflowRunPostHandlerOption) (u : User) : WorkflowNodeRunManual :=
  match opts.Manual with
  | none => ⟨[], manualUser u, none⟩
  | some m => ⟨m.PipelineParameters, manualUser u, m.Payload⟩

/-- What lines 751-763 of `startWorkflowRun` produce: the from-nodes, or the ID that
is not a node of the previous run, or the dereference of a nil `lastRun`. -/
inductive FromNodes where
  | nodes (fromNodes : List (Option WorkflowNode))
  | notFound (fromNodeID : Int)
  | nilLastRun

/-- The loop of lines 754-760 over the IDs, with the accumulator `fromNodes`. -/
def lookupFromNodes (lastRun : WorkflowRun) :
    List Int → List (Option WorkflowNode) → FromNodes
  | [], fromNodes => .nodes fromNodes
  | fromNodeID :: rest, fromNodes =>
    match lastRun.Workflow.GetNode fromNodeID with
    | none => .notFound fromNodeID
    | some fromNode => lookupFromNodes lastRun rest (fromNodes ++ [some fromNode])

/-- Lines 751-763 of `startWorkflowRun`. With IDs, each is looked up in the workflow
of `lastRun`, which line 755 dereferences; without IDs the root of `wf` is taken. -/
def resolveFromNodes (wf : Workflow) (lastRun : Option WorkflowRun)
    (fromNodeIDs : List Int) : FromNodes :=
  if fromNodeIDs.length > 0 then
    match lastRun with
    | none => .nilLastRun
    | some lastRun => lookupFromNodes lastRun fromNodeIDs []
  else .nodes [wf.Root]

/-- The branches of lines 768-796, one per from-node, from the position `i` on: what
`runFromNode` returns in each and the calls it makes. -/
def branchResults (env : StartEnv) (manual : WorkflowNodeRunManual) (p : Project)
    (lastRun : Option WorkflowRun) (u : User) :
    Nat → List (Option WorkflowNode) → List (RunResult × List StartEvent)
  | _, [] => []
  | i, fromNode :: rest =>
    runFromNode env i manual p lastRun u fromNode
      :: branchResults env manual p lastRun u (i + 1) rest

/-- Lines 788-793 of `startWorkflowRun`: what a branch does to the shared report once
`runFromNode` has returned. On an error the error is added and the nil report
merged; otherwise the report of the branch is merged. -/
def branchReport (report : ProcessorReport) (res : RunResult) : ProcessorReport :=
  match res with
  | .error err => (report.AddError err).Merge none
  | .ok r1 => report.Merge (some r1)
  | .panic => report

/-- Whether a branch dereferenced a nil pointer. -/
def RunResult.isPanic : RunResult → Bool
  | .panic => true
  | _ => false

/-- Lines 813-818 of `startWorkflowRun`: the commit of the outer transaction. -/
def commitStart (env : StartEnv) (report : ProcessorReport) (events : List StartEvent) :
    RunResult × List StartEvent :=
  match env.Commit with
  | some err =>
    (.error (WrapError err "startWorkflowRun> Unable to commit transaction"),
      events ++ [.Commit, .Rollback])
  | none => (.ok report, events ++ [.Commit])

/-- Lines 798-818 of `startWorkflowRun`, after the barrier `wg.Wait()`: the first error
of the shared report ends the start; without a previous run the full-workflow
creation routine is invoked once; then the outer transaction is committed. -/
def afterWait (env : StartEnv) (manual : WorkflowNodeRunManual)
    (lastRun : Option WorkflowRun) (report : ProcessorReport) (events : List StartEvent) :
    RunResult × List StartEvent :=
  match report.Errors with
  | some (err :: _) => (.error err, events ++ [.Rollback])
  | some [] => (.panic, events)
  | none =>
    match lastRun with
    | none =>
      match env.ManualRun with
      | .error errmr =>
        (.error (WrapError errmr "startWorkflowRun> Unable to run workflow"),
          events ++ [.ManualRun manual.User, .Rollback])
      | .ok r1 =>
        commitStart env (report.Merge (some r1)) (events ++ [.ManualRun manual.User])
    | some _ => commitStart env report events

/-- Lines 765-798 of `startWorkflowRun`: the branches run concurrently and share the
report, whose `Add` and `Merge` are atomic (section 3: a concurrency-safe
accumulator). `sched` is the order in which the branches reach the shared report, a
permutation of their positions; the report receives their contributions in that
order, and the calls of a branch are listed together, in that order too. The result
is the shared report at the barrier, the calls, and whether a branch dereferenced
a nil pointer. -/
def fanOut (env : StartEnv) (manual : WorkflowNodeRunManual) (p : Project)
    (lastRun : Option WorkflowRun) (u : User) (fromNodes : List (Option WorkflowNode))
    (sched : List Nat) : ProcessorReport × List StartEvent × Bool :=
  let results := branchResults env manual p lastRun u 0 fromNodes
  let ordered := sched.filterMap (fun i => results[i]?)
  (ordered.foldl (fun report b => branchReport report b.1) ProcessorReport.new,
    ordered.flatMap (fun b => b.2),
    ordered.any (fun b => b.1.isPanic))

/-- Embedding of `startWorkflowRun` (lines 712-820). `sched` is the order in which the
branches reach the shared report. The deferred `tx.Rollback()` is recorded when the
function returns without a successful commit. -/
def startWorkflowRun (env : StartEnv) (sched : List Nat) (p : Project) (wf : Workflow)
    (lastRun : Option WorkflowRun) (opts : WorkflowRunPostHandlerOption) (u : User) :
    RunResult × List StartEvent :=
  match env.Begin with
  | some errb =>
    (.error (WrapError errb "startWorkflowRun> Cannot start transaction"), [.Begin])
  | none =>
    match opts.Hook with
    | some _ =>
      match env.RunFromHook with
      | .error err =>
        (.error (WrapError err "startWorkflowRun> Unable to run workflow from hook"),
          [.Begin, .RunFromHook, .Rollback])
      | .ok r1 =>
        match env.Commit with
        | some err =>
          (.error (WrapError err "startWorkflowRun> Unable to commit transaction"),
            [.Begin, .RunFromHook, .Commit, .Rollback])
        | none =>
          (.ok (ProcessorReport.new.Merge (some r1)), [.Begin, .RunFromHook, .Commit])
    | none =>
      let manual := manualOf opts u
      match resolveFromNodes wf lastRun opts.FromNodeIDs with
      | .nilLastRun => (.panic, [.Begin])
      | .notFound fromNodeID =>
        (.error (WrapError ErrWorkflowNodeNotFound
            ("startWorkflowRun> Payload: Unable to get node " ++ toString fromNodeID)),
          [.Begin, .Rollback])
      | .nodes fromNodes =>
        match fanOut env manual p lastRun u fromNodes sched with
        | (_, events, true) => (.panic, [.Begin] ++ events)
        | (report, events, false) =>
          afterWait env manual lastRun report ([.Begin] ++ events ++ [.Wait])

end api

namespace api

open sdk workflow

/-- The errors that a branch brings to the shared report: its error when `runFromNode`
fails, the errors of its report when it succeeds. -/
def contribution (res : RunResult) : List String :=
  match res with
  | .error err => [err]
  | .ok r1 => r1.errors
  | .panic => []

/-- The calls that belong to a branch. -/
def isBranchEvent : StartEvent → Bool
  | .BranchBegin _ => true
  | .AccessToEnvironment _ _ => true
  | .ManualRunFromNode _ _ _ _ => true
  | .BranchCommit _ => true
  | .BranchRollback _ => true
  | _ => false

/-- The branch of a call of the run-from-node creation routine. -/
def fromNodeCall : StartEvent → Option Nat
  | .ManualRunFromNode i _ _ _ => some i
  | _ => none

/-- The user handed to the full-workflow creation routine by a call of it. -/
def manualRunCall : StartEvent → Option User
  | .ManualRun user => some user
  | _ => none

/-- A workflow with the node `root` and the node `deploy`, bound to the environment
`prod`. -/
def twoNodeWorkflow : Workflow :=
  ⟨"wf", "PRJ", (∅ : AList (fun _ : Int => Pipeline)).insert 10 ⟨"build"⟩,
    [⟨1, "root", 10, some ⟨none, none, none⟩⟩,
      ⟨2, "deploy", 10, some ⟨none, some ⟨"prod", []⟩, none⟩⟩]⟩

/-- The previous run, number 12, of the workflow with two nodes. -/
def previousRun : WorkflowRun :=
  ⟨12, twoNodeWorkflow⟩

/-- A calling user with a group and permissions of both kinds. -/
def caller : User :=
  ⟨"alice", ["dev"], ⟨[("prod", 4)], [("PRJ", 7)]⟩⟩

/-- Collaborators that all succeed, with empty reports, the user having access to
the environment `envName` only when `access` holds. -/
def startEnv (access : Bool) : StartEnv :=
  ⟨none, .ok ProcessorReport.new, fun _ => none, fun _ _ _ => access,
    fun _ _ _ => .ok ProcessorReport.new, fun _ => none, .ok ProcessorReport.new, none⟩

/-- A manual start from the nodes 1 and 2 of the run 12. -/
def startFromBoth : WorkflowRunPostHandlerOption :=
  ⟨none, none, some 12, [1, 2]⟩

/-- A manual start from the node 1 and from the node 9, which the workflow does not
have. -/
def startFromMissing : WorkflowRunPostHandlerOption :=
  ⟨none, none, some 12, [1, 9]⟩

/-- A manual start without run number and without from-node. -/
def startFresh : WorkflowRunPostHandlerOption :=
  ⟨none, none, none, []⟩

end api

namespace sdk

/-- A commit status of the VCS, `sdk.VCSCommitStatus`; the field `Decription` is
spelled as line 112 spells it. -/
structure VCSCommitStatus where
  State : String
  Decription : String
deriving DecidableEq, Repr

/-- A pull request, `sdk.VCSPullRequest`, with the branch and the commit of its
head (`pr.Head.Branch.DisplayID`, `pr.Head.Branch.LatestCommit`). -/
structure VCSPullRequest where
  ID : Int
  DisplayID : String
  LatestCommit : String
deriving DecidableEq, Repr

/-- Modelled from the spec: `(*sdk.WorkflowNode).IsLinkedToRepo` is not among the
sources. A node is bound to a VCS repository (section 4.5) when it exists and its
context binds an application with a repository; the result is that node with its
application, which the lines after the test read as `node.Context.Application`. -/
def linkedNode (n : Option WorkflowNode) : Option (WorkflowNode × Application) :=
  match n with
  | none => none
  | some n =>
    match n.Application with
    | none => none
    | some app => if app.RepositoryFullname = "" then none else some (n, app)

end sdk

namespace workflow

open sdk

/-- The calls that `ResyncCommitStatus` and `sendVCSEventStatus` make, and the entry
into `sendVCSEventStatus`, in order. -/
inductive VCSEvent where
  | AuthorizedClient (server : String)
  | ListStatuses (repo : String) (ref : String)
  | sendVCSEventStatus (nodeRunID : Int)
  | SetStatus (nodeRunID : Int) (status : String)
  | RetryEvent (nodeRunID : Int)
  | PullRequests (repo : String)
  | PullRequestComment (repo : String) (prID : Int) (report : String)
deriving DecidableEq, Repr

/-- The collaborators of `ResyncCommitStatus`, which are not among the sources:
`sdk.StatusIsTerminated`, `repositoriesmanager.GetProjectVCSServer` (the name of the
server, or nil), `sdk.VCSCommitStatusDescription` (project key, workflow name, node
name), `repositoriesmanager.AuthorizedClient`, the four operations of the VCS client
and `(*sdk.WorkflowNodeRun).Report`. The outcome of a call on the VCS may depend
on the calls made before it, which it receives as its first argument (`none` is a
nil error). -/
structure VCSEnv where
  StatusIsTerminated : String → Bool
  GetProjectVCSServer : Project → String → Option String
  VCSCommitStatusDescription : String → String → String → String
  AuthorizedClient : List VCSEvent → String → Option String
  ListStatuses : List VCSEvent → String → String → Except String (List VCSCommitStatus)
  SetStatus : List VCSEvent → NodeRunState → Option String
  PullRequests : List VCSEvent → String → Except String (List VCSPullRequest)
  Report : NodeRunState → Except String String
  PullRequestComment : List VCSEvent → String → Int → String → Option String

/-- The loop of lines 253-268 of `sendVCSEventStatus` over the pull requests; every
exit returns a nil error, the result is the calls made. -/
def commentPullRequests (env : VCSEnv) (nodeRun : NodeRunState) (repo : String) :
    List VCSPullRequest → List VCSEvent → List VCSEvent
  | [], log => log
  | pr :: rest, log =>
    if pr.DisplayID = nodeRun.VCSBranch ∧ pr.LatestCommit = nodeRun.VCSHash then
      if nodeRun.Status ≠ StatusFail then commentPullRequests env nodeRun repo rest log
      else
        match env.Report nodeRun with
        | .error _ => log
        | .ok report =>
          match env.PullRequestComment log repo pr.ID report with
          | some _ => log ++ [.PullRequestComment repo pr.ID report]
          | none =>
            commentPullRequests env nodeRun repo rest
              (log ++ [.PullRequestComment repo pr.ID report])
    else commentPullRequests env nodeRun repo rest log

/-- Embedding of `sendVCSEventStatus` (lines 177-271): the returned error and the
calls made, after those of `log`. The event sent to `SetStatus` is built from the
node run, by which the call is recorded. -/
def sendVCSEventStatus (env : VCSEnv) (log : List VCSEvent) (proj : Project)
    (wr : RunState) (nodeRun : NodeRunState) : Option String × List VCSEvent :=
  let log := log ++ [.sendVCSEventStatus nodeRun.ID]
  match linkedNode (wr.Workflow.GetNode nodeRun.WorkflowNodeID) with
  | none => (none, log)
  | some (_, app) =>
    match env.GetProjectVCSServer proj app.VCSServer with
    | none => (none, log)
    | some vcsServer =>
      match env.AuthorizedClient log vcsServer with
      | some errClient =>
        (some (WrapError errClient "sendVCSEventStatus> Cannot get client"),
          log ++ [.AuthorizedClient vcsServer])
      | none =>
        let log := log ++ [.AuthorizedClient vcsServer]
        match env.SetStatus log nodeRun with
        | some err =>
          (some ("sendEvent> err:" ++ err),
            log ++ [.SetStatus nodeRun.ID nodeRun.Status, .RetryEvent nodeRun.ID])
        | none =>
          let log := log ++ [.SetStatus nodeRun.ID nodeRun.Status]
          match env.PullRequests log app.RepositoryFullname with
          | .error _ => (none, log ++ [.PullRequests app.RepositoryFullname])
          | .ok prs =>
            (none, commentPullRequests env nodeRun app.RepositoryFullname prs
              (log ++ [.PullRequests app.RepositoryFullname]))

/-- How an iteration of the loop of `ResyncCommitStatus` ends: it goes on to the next
node (`continue`, or the end of the body), or the function returns an error or
nil, or `nodeRuns[0]` is out of range. -/
inductive LoopStep where
  | next
  | done (err : Option String)
  | panic
deriving DecidableEq, Repr

/-- The insertion of the element `x`, appended to a sorted prefix, by the inner loop
of an insertion sort with the comparison of line 71: `x` moves before its left
neighbour `y` while `x.SubNumber >= y.SubNumber`. The prefix is given, and
returned, last element first. -/
def insertBack (x : NodeRunState) : List NodeRunState → List NodeRunState
  | [] => [x]
  | y :: ys => if x.SubNumber ≥ y.SubNumber then y :: insertBack x ys else x :: y :: ys

/-- The call `sort.Slice(nodeRuns, ...)` of lines 70-72. `sort.Slice` belongs to the
Go library; the embedding is its insertion sort, which it runs on a slice of fewer
than twelve elements. -/
def sortSlice (nodeRuns : List NodeRunState) : List NodeRunState :=
  (nodeRuns.foldl (fun sorted x => insertBack x sorted) []).reverse

/-- Lines 106-116 of `ResyncCommitStatus`: the first listed status whose description
is the expected one, nil (`none`) when there is none. -/
def statusFound (statuses : List VCSCommitStatus) (expected : String) :
    Option VCSCommitStatus :=
  statuses.find? (fun status => status.Decription == expected)

/-- Lines 118-171 of `ResyncCommitStatus`: the comparison of the status found with the
status of the node run. An error of `sendVCSEventStatus` is logged and dropped;
every path goes on to the next node. The result is the calls made. -/
def reconcile (env : VCSEnv) (log : List VCSEvent) (proj : Project) (wr : RunState)
    (nodeRun : NodeRunState) (found : Option VCSCommitStatus) : List VCSEvent :=
  match found with
  | none => (sendVCSEventStatus env log proj wr nodeRun).2
  | some found =>
    if found.State = "" then (sendVCSEventStatus env log proj wr nodeRun).2
    else if found.State = StatusBuilding then (sendVCSEventStatus env log proj wr nodeRun).2
    else if found.State = StatusBuilding then (sendVCSEventStatus env log proj wr nodeRun).2
    else if found.State = StatusSuccess then
      if nodeRun.Status = StatusSuccess then log
      else (sendVCSEventStatus env log proj wr nodeRun).2
    else if found.State = StatusFail then
      if nodeRun.Status = StatusFail then log
      else (sendVCSEventStatus env log proj wr nodeRun).2
    else if found.State = StatusSkipped then
      if nodeRun.Status = StatusDisabled ∨ nodeRun.Status = StatusNeverBuilt ∨
          nodeRun.Status = StatusSkipped then log
      else (sendVCSEventStatus env log proj wr nodeRun).2
    else log

/-- One iteration of the loop of lines 69-172 of `ResyncCommitStatus`, for the entry
`nodeID`, `nodeRuns` of the map. The formatted `details` of line 89 are not
represented in the wrapped errors. -/
def resyncNode (env : VCSEnv) (log : List VCSEvent) (proj : Project) (wr : RunState)
    (nodeID : Int) (nodeRuns : List NodeRunState) : LoopStep × List VCSEvent :=
  match sortSlice nodeRuns with
  | [] => (.panic, log)
  | nodeRun :: _ =>
    if !env.StatusIsTerminated nodeRun.Status then (.next, log)
    else
      match linkedNode (wr.Workflow.GetNode nodeID) with
      | none => (.done none, log)
      | some (node, app) =>
        match env.GetProjectVCSServer proj app.VCSServer with
        | none => (.done none, log)
        | some vcsServer =>
          match env.AuthorizedClient log vcsServer with
          | some errClient =>
            (.done (some (WrapError errClient "resyncCommitStatus> Cannot get client")),
              log ++ [.AuthorizedClient vcsServer])
          | none =>
            let ref := if nodeRun.VCSTag ≠ "" then nodeRun.VCSTag else nodeRun.VCSHash
            match env.ListStatuses (log ++ [.AuthorizedClient vcsServer])
                app.RepositoryFullname ref with
            | .error errStatuses =>
              (.done (some (WrapError errStatuses "resyncCommitStatus> Cannot get statuses")),
                log ++ [.AuthorizedClient vcsServer,
                  .ListStatuses app.RepositoryFullname ref])
            | .ok statuses =>
              (.next,
                reconcile env
                  (log ++ [.AuthorizedClient vcsServer,
                    .ListStatuses app.RepositoryFullname ref])
                  proj wr nodeRun
                  (statusFound statuses
                    (env.VCSCommitStatusDescription proj.Key wr.Workflow.Name node.Name)))

/-- What `ResyncCommitStatus` does: it returns an error or nil, or an index is out of
range. -/
inductive ResyncReturn where
  | returned (err : Option String)
  | panic
deriving DecidableEq, Repr

/-- The loop of lines 69-172 over the entries of `wr.WorkflowNodeRuns`, in the order
in which they are visited, and the `return nil` of line 173. -/
def resyncLoop (env : VCSEnv) (proj : Project) (wr : RunState) :
    List ((_ : Int) × List NodeRunState) → List VCSEvent → ResyncReturn × List VCSEvent
  | [], log => (.returned none, log)
  | entry :: rest, log =>
    match resyncNode env log proj wr entry.1 entry.2 with
    | (.next, log1) => resyncLoop env proj wr rest log1
    | (.done err, log1) => (.returned err, log1)
    | (.panic, log1) => (.panic, log1)

/-- Embedding of `ResyncCommitStatus` (lines 62-174), the entries of the map visited
in the order of `entries`. -/
def ResyncCommitStatus (env : VCSEnv) (proj : Project) (wr : RunState) :
    ResyncReturn × List VCSEvent :=
  resyncLoop env proj wr wr.WorkflowNodeRuns.entries []

/-- The table of section 4.5 for a node run of status `status` and the status found
on the VCS: the status is published when no status has the expected description,
or the state found is empty or Building, or it is Success and the local status is
not Success, or it is Fail and the local status is not Fail, or it is Skipped
and the local status is none of Disabled, NeverBuilt, Skipped. -/
def republish (found : Option VCSCommitStatus) (status : String) : Bool :=
  match found with
  | none => true
  | some found =>
    found.State == "" || found.State == StatusBuilding ||
      (found.State == StatusSuccess && status != StatusSuccess) ||
      (found.State == StatusFail && status != StatusFail) ||
      (found.State == StatusSkipped &&
        !(status == StatusDisabled || status == StatusNeverBuilt ||
          status == StatusSkipped))

end workflow

namespace workflow

open sdk

/-- An application bound to the repository `ovh/cds` on the server `github`. -/
def deployApp : Application := ⟨"app2", [], "ovh/cds", "github", ⟨"ssh", "", "", ""⟩, ∅⟩

/-- An application bound to the repository `ovh/test` on the server `gitlab`. -/
def testApp : Application := ⟨"app3", [], "ovh/test", "gitlab", ⟨"ssh", "", "", ""⟩, ∅⟩

/-- The node `deploy`, of ID 2, whose context binds `deployApp`. -/
def deployNode : WorkflowNode := ⟨2, "deploy", 10, some ⟨some deployApp, none, none⟩⟩

/-- The node `test`, of ID 3, whose context binds `testApp`. -/
def testNode : WorkflowNode := ⟨3, "test", 10, some ⟨some testApp, none, none⟩⟩

/-- A workflow with three nodes: `scenarioNode`, of ID 1, whose application has no
repository, `deployNode` and `testNode`. -/
def resyncWorkflow : Workflow :=
  ⟨"wf", "PRJ", (∅ : AList (fun _ : Int => Pipeline)).insert 10 ⟨"build"⟩,
    [scenarioNode, deployNode, testNode]⟩

/-- A node run of the node `nodeID`, with the commit `abc` on the branch `main`. -/
def nodeRunAt (nodeID id subNumber : Int) (status : String) : NodeRunState :=
  ⟨⟨id, nodeID, 12, subNumber, [], []⟩, status, "node", "abc", "", "main"⟩

/-- The node runs of the node `test`: one, of status Success. -/
def testNodeRuns : AList (fun _ : Int => List NodeRunState) :=
  (∅ : AList (fun _ : Int => List NodeRunState)).insert 3 [nodeRunAt 3 301 0 StatusSuccess]

/-- The node runs of the nodes `deploy` and `test`: that of `deploy` has failed. -/
def deployNodeRuns : AList (fun _ : Int => List NodeRunState) :=
  testNodeRuns.insert 2 [nodeRunAt 2 201 0 StatusFail]

/-- A run of the workflow with three nodes, each with one terminated node run. -/
def resyncRun : RunState :=
  ⟨⟨12, resyncWorkflow⟩, 5, StatusFail, 0,
    deployNodeRuns.insert 1 [nodeRunAt 1 101 0 StatusSuccess]⟩

/-- Collaborators for a project in which only the server `github` is configured.
Every status but Building and the empty one is terminated, the VCS lists one
status, of state `remote`, for the node `deploy`, and every call succeeds, except
`AuthorizedClient`, which returns `clientError`. -/
def vcsEnv (clientError : Option String) (remote : String) : VCSEnv :=
  ⟨fun status => status != StatusBuilding && status != "",
    fun _ name => if name = "github" then some "github" else none,
    fun key workflowName nodeName => key ++ "/" ++ workflowName ++ "/" ++ nodeName,
    fun _ _ => clientError,
    fun _ _ _ => .ok [⟨remote, "PRJ/wf/deploy"⟩],
    fun _ _ => none,
    fun _ _ => .ok [],
    fun _ => .ok "report",
    fun _ _ _ _ => none⟩

/-- A run of the same workflow with node runs for the two repository-bound nodes
only, `deploy` (visited first) and `test`. -/
def linkedRun : RunState := ⟨⟨12, resyncWorkflow⟩, 5, StatusFail, 0, deployNodeRuns⟩

end workflow

namespace workflow

open sdk

/-- Collaborators for a project in which every server is configured and on which
the publication fails: the client is obtained and the statuses are listed (one
status, of state `remote`, for the node `deploy`), but every call of `SetStatus`
returns the error `503`. -/
def vcsEnvSetStatusFails (remote : String) : VCSEnv :=
  ⟨fun status => status != StatusBuilding && status != "",
    fun _ name => some name,
    fun key workflowName nodeName => key ++ "/" ++ workflowName ++ "/" ++ nodeName,
    fun _ _ => none,
    fun _ _ _ => .ok [⟨remote, "PRJ/wf/deploy"⟩],
    fun _ _ => some "503",
    fun _ _ => .ok [],
    fun _ => .ok "report",
    fun _ _ _ _ => none⟩

/-- The entry of the node `deploy` in the map of the node runs of `resyncRun`. -/
def deployEntry : (_ : Int) × List NodeRunState := ⟨2, [nodeRunAt 2 201 0 StatusFail]⟩

/-- The entry of the node `root` in the map of the node runs of `resyncRun`. -/
def rootEntry : (_ : Int) × List NodeRunState := ⟨1, [nodeRunAt 1 101 0 StatusSuccess]⟩

/-- The entry of the node `test` in the map of the node runs of `resyncRun`. -/
def testEntry : (_ : Int) × List NodeRunState := ⟨3, [nodeRunAt 3 301 0 StatusSuccess]⟩

end workflow

namespace workflow

open sdk

/-- A stand-in for `interpolate.Do` that substitutes one level: a value that starts
with `$` is replaced by the value that the map gives to the rest of it, when the map
has that key, and every other value is returned unchanged. -/
def oneLevelDo (v : String) (m : GoMap) : Except String String :=
  match v.data with
  | '$' :: name =>
    match m.lookup ⟨name⟩ with
    | some w => .ok w
    | none => .ok v
  | _ => .ok v

/-- A merged map whose placeholder refers to a plain value. -/
def greetingMap : GoMap :=
  ((∅ : GoMap).insert "name" "cds").insert "greeting" "$name"

/-- A merged map whose placeholder refers to a value that is itself a placeholder. -/
def chainMap : GoMap :=
  (((∅ : GoMap).insert "c" "x").insert "b" "$c").insert "a" "$b"

end workflow

namespace workflow

open sdk

/-- A node run of the node `deploy` with the commit `abc` and the tag `tag`. -/
def nodeRunTagged (id subNumber : Int) (status tag : String) : NodeRunState :=
  ⟨⟨id, 2, 12, subNumber, [], []⟩, status, "deploy", "abc", tag, "main"⟩

/-- Four node runs of the node `deploy`, of sub-numbers 0, 2, 1 and 2; the last one
carries the tag `v1.0`. -/
def deployHistory : List NodeRunState :=
  [nodeRunTagged 201 0 StatusFail "", nodeRunTagged 202 2 StatusSuccess "",
    nodeRunTagged 203 1 StatusFail "", nodeRunTagged 204 2 StatusSuccess "v1.0"]

/-- Whether a call is a listing of the commit statuses. -/
def isListStatuses : VCSEvent → Bool
  | .ListStatuses _ _ => true
  | _ => false

end workflow

namespace api

open sdk workflow

/-- The workflow runs that a branch brings to the shared report: those of its report
when `runFromNode` succeeds. -/
def mergedRuns (res : RunResult) : List RunState :=
  match res with
  | .ok r1 => r1.workflows
  | _ => []

/-- The node runs that a branch brings to the shared report: those of its report when
`runFromNode` succeeds. -/
def mergedNodeRuns (res : RunResult) : List NodeRunState :=
  match res with
  | .ok r1 => r1.nodes
  | _ => []

/-- The user that a call hands to a creation routine. -/
def eventUser : StartEvent → Option User
  | .ManualRunFromNode _ _ _ user => some user
  | .ManualRun user => some user
  | _ => none

/-- The collaborators `env` with a permission check that ignores the user it is given
and answers as `env` does for the user `u`. -/
def checkedAs (env : StartEnv) (u : User) : StartEnv :=
  ⟨env.Begin, env.RunFromHook, env.BranchBegin,
    fun key envName _ => env.AccessToEnvironment key envName u,
    env.ManualRunFromNode, env.BranchCommit, env.ManualRun, env.Commit⟩

/-- Collaborators that all succeed, the run-from-node routine of the branch `i`
returning a report with the node run `100 + i`, and in which the branch 1 fails to
commit. -/
def startEnvMixed : StartEnv :=
  ⟨none, .ok ProcessorReport.new, fun _ => none, fun _ _ _ => true,
    fun i _ _ => .ok ⟨[], [nodeRunOf (100 + i) 0 StatusBuilding], []⟩,
    fun i => if i = 1 then some "commit refused" else none,
    .ok ProcessorReport.new, none⟩

/-- A workflow with three nodes without environment. -/
def threeNodeWorkflow : Workflow :=
  ⟨"wf", "PRJ", (∅ : AList (fun _ : Int => Pipeline)).insert 10 ⟨"build"⟩,
    [⟨1, "root", 10, some ⟨none, none, none⟩⟩, ⟨2, "test", 10, some ⟨none, none, none⟩⟩,
      ⟨3, "deploy", 10, some ⟨none, none, none⟩⟩]⟩

/-- A manual start without run number from the node 1: the request carries a from-node
ID and no run number. -/
def startFromNodeNoNumber : WorkflowRunPostHandlerOption :=
  ⟨none, none, none, [1]⟩

end api

namespace sdk

/-- Modelled from the spec: the constant `sdk.ErrForbidden` is not among the sources.
The error of a request that is not allowed. -/
def ErrForbidden : String := "forbidden"

end sdk

namespace api

open sdk workflow

/-- The outcomes of the collaborators of `postWorkflowRunHandler`, which are not among
the sources: `project.Load` (line 600), `workflow.LoadRun` for a run number,
`workflow.Load` of the root node only, with the field `FromRepository` of the
workflow it returns, the entry of the feature `workflow as code` in `p.Features`
(`none` when the project has no such entry), the second `project.Load`,
`workflow.CreateFromRepository`, which returns the workflow or an error, the deep
`workflow.Load`, and the collaborators of `startWorkflowRun`. -/
structure PostEnv where
  ProjectLoad : Except String Project
  LoadRun : Int → Except String WorkflowRun
  WorkflowLoadRoot : Except String (Workflow × String)
  FeatWorkflowAsCode : Option Bool
  ProjectLoadAsCode : Except String Project
  CreateFromRepository : Workflow → Except String Workflow
  WorkflowLoadDeep : Except String Workflow
  start : StartEnv

/-- Lines 617-627 of `postWorkflowRunHandler`: `lastRun` stays nil when the request
carries no run number, and is the loaded run otherwise; a failed load ends the
handler with the error, wrapped. -/
def loadLastRun (env : PostEnv) (opts : WorkflowRunPostHandlerOption) :
    Except String (Option WorkflowRun) :=
  match opts.Number with
  | some number =>
    match env.LoadRun number with
    | .error errlr =>
      .error (WrapError errlr "postWorkflowRunHandler> Unable to load workflow run")
    | .ok lastRun => .ok (some lastRun)
  | none => .ok none

/-- Lines 640-683 of `postWorkflowRunHandler`, taken without a previous run: the
workflow is loaded, from its repository when it has one. -/
def loadWorkflow (env : PostEnv) (p : Project) (key name : String) :
    Except String Workflow :=
  match env.WorkflowLoadRoot with
  | .error errW =>
    .error (WrapError errW ("postWorkflowRunHandler> Unable to load workflow " ++ name))
  | .ok (wf, fromRepository) =>
    if fromRepository ≠ "" then
      if env.FeatWorkflowAsCode = some false then
        .error (WrapError ErrForbidden
          ("postWorkflowRunHandler> workflow as code not allowed for project " ++ p.Key))
      else
        match env.ProjectLoadAsCode with
        | .error errp =>
          .error (WrapError errp ("postWorkflowRunHandler> Cannot load project " ++ key))
        | .ok _ =>
          match env.CreateFromRepository wf with
          | .error errCreate =>
            .error (WrapError errCreate
              "postWorkflowRunHandler> Unable to get workflow from repository")
          | .ok wf => .ok wf
    else
      match env.WorkflowLoadDeep with
      | .error errl =>
        .error (WrapError errl
          ("postWorkflowRunHandler> Unable to load workflow " ++ key ++ "/" ++ name))
      | .ok wf => .ok wf

/-- Embedding of `postWorkflowRunHandler` (lines 589-710) up to the return of
`startWorkflowRun` at line 685. `body` is the value of `UnmarshalBody`, the options
of the request or an error. With a previous run, `wf` points into it, and the
check of line 634 writes the name of the route into both. The result is the
report with which the handler goes on to publish the events and to write the
response, or the error it returns, or a nil dereference, and the calls of
`startWorkflowRun`. -/
def postWorkflowRunHandler (env : PostEnv) (sched : List Nat) (key name : String)
    (u : User) (body : Except String WorkflowRunPostHandlerOption) :
    RunResult × List StartEvent :=
  match env.ProjectLoad with
  | .error errP => (.error (WrapError errP "postWorkflowRunHandler> Cannot load project"), [])
  | .ok p =>
    match body with
    | .error err => (.error err, [])
    | .ok opts =>
      match loadLastRun env opts with
      | .error err => (.error err, [])
      | .ok (some lastRun) =>
        let wf : Workflow :=
          ⟨name, lastRun.Workflow.ProjectKey, lastRun.Workflow.Pipelines,
            lastRun.Workflow.Nodes⟩
        match startWorkflowRun env.start sched p wf (some ⟨lastRun.Number, wf⟩) opts u with
        | (.error errS, events) =>
          (.error (WrapError errS
            ("postWorkflowRunHandler> Unable to start workflow " ++ key ++ "/" ++ name)),
            events)
        | res => res
      | .ok none =>
        match loadWorkflow env p key name with
        | .error err => (.error err, [])
        | .ok wf =>
          match startWorkflowRun env.start sched p wf none opts u with
          | (.error errS, events) =>
            (.error (WrapError errS
              ("postWorkflowRunHandler> Unable to start workflow " ++ key ++ "/" ++ name)),
              events)
          | res => res

/-- Collaborators of the handler that all succeed: the project of the scenario, the
run 12 of the workflow with two nodes, and that workflow, which has no repository. -/
def postEnv : PostEnv :=
  ⟨.ok scenarioProject, fun _ => .ok previousRun, .ok (twoNodeWorkflow, ""), none,
    .ok scenarioProject, fun wf => .ok wf, .ok twoNodeWorkflow, startEnv true⟩

end api

namespace sdk

/-- The fields of `sdk.Hatchery` that `registerHatcheryHandler` reads and writes;
`ModelID` is `Model.ID`. -/
structure Hatchery where
  ID : Int
  UID : String
  Name : String
  GroupID : Int
  IsSharedInfra : Bool
  ModelID : Int
  Version : String
  Uptodate : Bool
deriving DecidableEq, Repr

/-- The fields of `sdk.Token` that `registerHatcheryHandler` reads. -/
structure Token where
  GroupID : Int
  Token : String
deriving DecidableEq, Repr

/-- Modelled from the spec: the constant `sdk.ErrNoHatchery` is not among the sources.
The error of a load that finds no hatchery. -/
def ErrNoHatchery : String := "no hatchery found"

/-- Modelled from the spec: the constant `sdk.ErrUnauthorized` is not among the
sources. The error of a request without valid credentials. -/
def ErrUnauthorized : String := "not authenticated"

end sdk

namespace api

open sdk

/-- The calls that `registerHatcheryHandler` makes. -/
inductive HatcheryEvent where
  | LoadToken (uid : String)
  | LoadHatcheryByNameAndToken (name : String) (token : String)
  | Update (hatch : Hatchery)
  | InsertHatchery (hatch : Hatchery)
  | WriteJSON (hatch : Hatchery)
deriving DecidableEq, Repr

/-- The outcomes of the collaborators of `registerHatcheryHandler`, which are not
among the sources (`none` is a nil error or a nil pointer):
`token.LoadToken`, `hatchery.LoadHatcheryByNameAndToken`, which returns a hatchery
and an error, `hatchery.Update`, `hatchery.InsertHatchery`, which writes the new ID
into the hatchery it is given, `service.WriteJSON`, the ID of
`group.SharedInfraGroup`, and `sdk.VERSION`. `WrapErrorNil` is the value of
`sdk.WrapError` on a nil error and a context: what `sdk.WrapError` does with a nil
error is not said by the sources. -/
structure HatcheryEnv where
  LoadToken : String → Except String Token
  LoadHatcheryByNameAndToken : String → String → Option Hatchery × Option String
  Update : Hatchery → Option String
  InsertHatchery : Hatchery → Except String Hatchery
  WriteJSON : Hatchery → Option String
  SharedInfraGroupID : Int
  VERSION : String
  WrapErrorNil : String → Option String

/-- Lines 49-52 of `registerHatcheryHandler`: the response. -/
def welcome (env : HatcheryEnv) (hatch : Hatchery) (events : List HatcheryEvent) :
    Option String × List HatcheryEvent :=
  let hatch : Hatchery :=
    ⟨hatch.ID, hatch.UID, hatch.Name, hatch.GroupID, hatch.IsSharedInfra, hatch.ModelID,
      hatch.Version, hatch.Version == env.VERSION⟩
  (env.WriteJSON hatch, events ++ [.WriteJSON hatch])

/-- Embedding of `registerHatcheryHandler` (lines 17-54). `body` is the value of
`UnmarshalBody`, the hatchery of the request or an error. The result is the error
that the handler returns (`none` for nil) and the calls made. At line 34 the
wrapped value is `err`, the error of `token.LoadToken`, which is nil there. -/
def registerHatcheryHandler (env : HatcheryEnv) (body : Except String Hatchery) :
    Option String × List HatcheryEvent :=
  match body with
  | .error err => (some err, [])
  | .ok hatch =>
    match env.LoadToken hatch.UID with
    | .error _ =>
      (some (WrapError ErrUnauthorized "registerHatcheryHandler> Invalid token"),
        [.LoadToken hatch.UID])
    | .ok tk =>
      let hatch : Hatchery :=
        ⟨hatch.ID, hatch.UID, hatch.Name, tk.GroupID, tk.GroupID == env.SharedInfraGroupID,
          hatch.ModelID, hatch.Version, hatch.Uptodate⟩
      let events : List HatcheryEvent :=
        [.LoadToken hatch.UID, .LoadHatcheryByNameAndToken hatch.Name tk.Token]
      match env.LoadHatcheryByNameAndToken hatch.Name tk.Token with
      | (oldH, errL) =>
        if errL ≠ none ∧ errL ≠ some ErrNoHatchery then
          (env.WrapErrorNil ("registerHatcheryHandler> Cannot load hatchery " ++ hatch.Name),
            events)
        else
          match oldH with
          | some oldH =>
            let hatch : Hatchery :=
              ⟨oldH.ID, hatch.UID, hatch.Name, hatch.GroupID, hatch.IsSharedInfra,
                oldH.ModelID, hatch.Version, hatch.Uptodate⟩
            match env.Update hatch with
            | some err =>
              (some (WrapError err "registerHatcheryHandler> Cannot insert new hatchery"),
                events ++ [.Update hatch])
            | none => welcome env hatch (events ++ [.Update hatch])
          | none =>
            match env.InsertHatchery hatch with
            | .error err =>
              (some (WrapError err "registerHatcheryHandler> Cannot insert new hatchery"),
                events ++ [.InsertHatchery hatch])
            | .ok inserted => welcome env inserted (events ++ [.InsertHatchery hatch])

/-- Whether a call updates or inserts a hatchery. -/
def isWrite : HatcheryEvent → Bool
  | .Update _ => true
  | .InsertHatchery _ => true
  | _ => false

/-- The hatchery `h1` of a registration request. -/
def newHatchery : Hatchery :=
  ⟨0, "uid-1", "h1", 0, false, 0, "0.39", false⟩

/-- Collaborators of the registration: the token `tk-1` of the group 7 is loaded, the
load of the hatchery returns the error `errL` and no hatchery, the writes succeed,
and `sdk.WrapError` returns `wrapped` on a nil error. -/
def hatcheryEnv (errL : Option String) (wrapped : Option String) : HatcheryEnv :=
  ⟨fun _ => .ok ⟨7, "tk-1"⟩, fun _ _ => (none, errL), fun _ => none,
    fun hatch => .ok ⟨42, hatch.UID, hatch.Name, hatch.GroupID, hatch.IsSharedInfra,
      hatch.ModelID, hatch.Version, hatch.Uptodate⟩,
    fun _ => none, 1, "0.39", fun _ => wrapped⟩

end api

namespace sdk

/-- The fields of `sdk.Service` that the service client reads. -/
structure Service where
  Name : String
  Type_ : String
  HTTPURL : String
  Hash : String
deriving DecidableEq, Repr

end sdk

namespace services

open sdk

/-- The calls of the service client: the call of `doRequest` for a service, given by
its URL and its hash, and the request that `HTTPClient.Do` sends. -/
inductive HTTPEvent where
  | doRequest (httpURL : String) (hash : String)
  | Do (method : String) (url : String) (args : Option String)
deriving DecidableEq, Repr

/-- What `HTTPClient.Do` answers: the status code, and the body or the error of
`ioutil.ReadAll`. -/
structure Response where
  StatusCode : Int
  Body : Except String String

/-- The collaborators of the service client, which belong to the Go library or are
not among the sources (`none` is a nil error): `url.ParseRequestURI`, which gives
the URL called, `http.NewRequest`, `HTTPClient.Do`, whose answer may depend on the
calls made before it, `sdk.DecodeError`, `json.Marshal`, `json.Unmarshal` on a body
(`none` is a nil body), and, for the multipart writer, `CreateFormFile`, `Close`
and the bytes of the form. -/
structure HTTPEnv where
  ParseRequestURI : String → Except String String
  NewRequest : String → String → Option String → Option String
  Do : List HTTPEvent → String → String → Option String → Except String Response
  DecodeError : String → Option String
  Marshal : String → Except String String
  Unmarshal : Option String → Option String
  CreateFormFile : String → Option String
  Close : Option String
  FormData : String → String → String

/-- What `doRequest` returns: the body (`none` for nil), the status code and the error
(`none` for nil). -/
abbrev Answer := Option String × Int × Option String

/-- Embedding of `doRequest` (lines 141-215): what it returns and the calls made,
after those of `log`. The request modifiers and the headers are not represented. -/
def doRequest (env : HTTPEnv) (log : List HTTPEvent) (httpURL hash method path : String)
    (args : Option String) : Answer × List HTTPEvent :=
  let log := log ++ [.doRequest httpURL hash]
  match env.ParseRequestURI (httpURL ++ path) with
  | .error err => ((none, 0, some err), log)
  | .ok callURL =>
    match env.NewRequest method callURL args with
    | some requestError => ((none, 0, some requestError), log)
    | none =>
      match env.Do log method callURL args with
      | .error errDo =>
        ((none, 0, some (WrapError errDo "services.DoRequest> Request failed")),
          log ++ [.Do method callURL args])
      | .ok resp =>
        match resp.Body with
        | .error errBody =>
          ((none, resp.StatusCode,
              some (WrapError errBody "services.DoRequest> Unable to read body")),
            log ++ [.Do method callURL args])
        | .ok body =>
          if resp.StatusCode < 400 then
            ((some body, resp.StatusCode, none), log ++ [.Do method callURL args])
          else
            match env.DecodeError body with
            | some cdserr =>
              ((none, resp.StatusCode, some cdserr), log ++ [.Do method callURL args])
            | none =>
              ((none, resp.StatusCode, some "Request Failed"),
                log ++ [.Do method callURL args])

/-- Embedding of `doJSONRequest` (lines 48-72): the code and the error it returns, and
the calls made. `in_` is the input (`none` for nil), `out` tells whether the output
is not nil; the value decoded into the output is not represented. -/
def doJSONRequest (env : HTTPEnv) (log : List HTTPEvent) (srv : Service)
    (method path : String) (in_ : Option String) (out : Bool) :
    (Int × Option String) × List HTTPEvent :=
  let marshalled : Except String String :=
    match in_ with
    | some v => env.Marshal v
    | none => .ok ""
  match marshalled with
  | .error err =>
    ((0, some (WrapError err "services.doJSONRequest> Unable to marshal input")), log)
  | .ok b =>
    match doRequest env log srv.HTTPURL srv.Hash method path (some b) with
    | ((_, code, some err), log1) =>
      ((code, some (WrapError err
          ("services.doJSONRequest> Unable to perform request on service " ++ srv.Name
            ++ " (" ++ srv.Type_ ++ ")"))), log1)
    | ((res, code, none), log1) =>
      if out then
        match env.Unmarshal res with
        | some err =>
          ((code, some (WrapError err "services.doJSONRequest> Unable to marshal output")),
            log1)
        | none => ((code, none), log1)
      else ((code, none), log1)

/-- How the loop over the services ends: the function returns from inside the loop, or
the loop runs through, with the last code and the last error. -/
inductive Pass (α : Type) where
  | returned (r : α) (log : List HTTPEvent)
  | through (lastCode : Int) (lastErr : Option String) (log : List HTTPEvent)

/-- The loop of lines 31-39 of `DoJSONRequest` over the services. -/
def jsonPass (env : HTTPEnv) (method path : String) (in_ : Option String) (out : Bool) :
    List Service → Int → Option String → List HTTPEvent → Pass (Int × Option String)
  | [], lastCode, lastErr, log => .through lastCode lastErr log
  | srv :: rest, _, _, log =>
    match doJSONRequest env log srv method path in_ out with
    | ((code, none), log1) => .returned (code, none) log1
    | ((code, some err), log1) => jsonPass env method path in_ out rest code (some err) log1

/-- The loop `for` of lines 29-43 of `DoJSONRequest`, with at most `fuel` passes;
`attempt` is the counter before the pass. `none` when the passes are used up before
the function returns. -/
def DoJSONRequestLoop (env : HTTPEnv) (srvs : List Service) (method path : String)
    (in_ : Option String) (out : Bool) :
    Nat → Nat → Int → Option String → List HTTPEvent →
      Option ((Int × Option String) × List HTTPEvent)
  | 0, _, _, _, _ => none
  | fuel + 1, attempt, lastCode, lastErr, log =>
    match jsonPass env method path in_ out srvs lastCode lastErr log with
    | .returned r log1 => some (r, log1)
    | .through lastCode lastErr log1 =>
      if lastErr ≠ none ∨ attempt + 1 > 5 then some ((lastCode, lastErr), log1)
      else DoJSONRequestLoop env srvs method path in_ out fuel (attempt + 1) lastCode
        lastErr log1

/-- Embedding of `DoJSONRequest` (lines 25-45), with at most `fuel` passes of its
loop: the code and the error it returns and the calls made. -/
def DoJSONRequest (env : HTTPEnv) (fuel : Nat) (srvs : List Service) (method path : String)
    (in_ : Option String) (out : Bool) :
    Option ((Int × Option String) × List HTTPEvent) :=
  DoJSONRequestLoop env srvs method path in_ out fuel 0 0 none []

/-- The loop of lines 124-132 of `DoRequest` over the services. -/
def requestPass (env : HTTPEnv) (method path : String) (args : Option String) :
    List Service → Int → Option String → List HTTPEvent → Pass Answer
  | [], lastCode, lastErr, log => .through lastCode lastErr log
  | srv :: rest, _, _, log =>
    match doRequest env log srv.HTTPURL srv.Hash method path args with
    | ((btes, code, none), log1) => .returned (btes, code, none) log1
    | ((_, code, some err), log1) => requestPass env method path args rest code (some err) log1

/-- The loop `for` of lines 122-136 of `DoRequest`, with at most `fuel` passes. -/
def DoRequestLoop (env : HTTPEnv) (srvs : List Service) (method path : String)
    (args : Option String) :
    Nat → Nat → Int → Option String → List HTTPEvent → Option (Answer × List HTTPEvent)
  | 0, _, _, _, _ => none
  | fuel + 1, attempt, lastCode, lastErr, log =>
    match requestPass env method path args srvs lastCode lastErr log with
    | .returned r log1 => some (r, log1)
    | .through lastCode lastErr log1 =>
      if lastErr ≠ none ∨ attempt + 1 > 5 then some ((none, lastCode, lastErr), log1)
      else DoRequestLoop env srvs method path args fuel (attempt + 1) lastCode lastErr log1

/-- Embedding of `DoRequest` (lines 118-138), with at most `fuel` passes of its loop. -/
def DoRequest (env : HTTPEnv) (fuel : Nat) (srvs : List Service) (method path : String)
    (args : Option String) : Option (Answer × List HTTPEvent) :=
  DoRequestLoop env srvs method path args fuel 0 0 none []

/-- The loop of lines 94-109 of `PostMultipart` over the services. -/
def multipartPass (env : HTTPEnv) (path body : String) (out : Bool) :
    List Service → Int → Option String → List HTTPEvent → Pass (Int × Option String)
  | [], lastCode, lastErr, log => .through lastCode lastErr log
  | srv :: rest, _, _, log =>
    match doRequest env log srv.HTTPURL srv.Hash "POST" path (some body) with
    | ((_, code, none), log1) => .returned (code, none) log1
    | ((res, code, some err), log1) =>
      if out then
        match env.Unmarshal res with
        | some errOut => .returned (code, some errOut) log1
        | none => multipartPass env path body out rest code (some err) log1
      else multipartPass env path body out rest code (some err) log1

/-- The loop `for` of lines 92-113 of `PostMultipart`, with at most `fuel` passes. The
counter `attempt` is incremented at line 93 and never read. -/
def PostMultipartLoop (env : HTTPEnv) (srvs : List Service) (path body : String)
    (out : Bool) :
    Nat → Int → Option String → List HTTPEvent →
      Option ((Int × Option String) × List HTTPEvent)
  | 0, _, _, _ => none
  | fuel + 1, lastCode, lastErr, log =>
    match multipartPass env path body out srvs lastCode lastErr log with
    | .returned r log1 => some (r, log1)
    | .through lastCode lastErr log1 =>
      if lastErr = none then some ((lastCode, lastErr), log1)
      else PostMultipartLoop env srvs path body out fuel lastCode lastErr log1

/-- Embedding of `PostMultipart` (lines 75-115), with at most `fuel` passes of its
loop. -/
def PostMultipart (env : HTTPEnv) (fuel : Nat) (srvs : List Service)
    (path filename fileContents : String) (out : Bool) :
    Option ((Int × Option String) × List HTTPEvent) :=
  match env.CreateFormFile filename with
  | some err => some ((0, some err), [])
  | none =>
    match env.Close with
    | some err => some ((0, some err), [])
    | none =>
      PostMultipartLoop env srvs path (env.FormData filename fileContents) out fuel 0 none []

/-- In the words of the contract of `DoRequest`: the services are called one after the
other, the first, `srv`, then those of `rest`; the answer of the first call
without error is returned, and no later service is called; when every call fails,
the code and the error of the last call are returned, with a nil body. -/
def requestInOrder (env : HTTPEnv) (method path : String) (args : Option String) :
    Service → List Service → List HTTPEvent → Answer × List HTTPEvent
  | srv, [], log =>
    match doRequest env log srv.HTTPURL srv.Hash method path args with
    | ((btes, code, none), log1) => ((btes, code, none), log1)
    | ((_, code, some err), log1) => ((none, code, some err), log1)
  | srv, next :: rest, log =>
    match doRequest env log srv.HTTPURL srv.Hash method path args with
    | ((btes, code, none), log1) => ((btes, code, none), log1)
    | ((_, _, some _), log1) => requestInOrder env method path args next rest log1

/-- In the words of the contract of `DoJSONRequest`: the same, with `doJSONRequest`. -/
def jsonInOrder (env : HTTPEnv) (method path : String) (in_ : Option String) (out : Bool) :
    Service → List Service → List HTTPEvent → (Int × Option String) × List HTTPEvent
  | srv, [], log => doJSONRequest env log srv method path in_ out
  | srv, next :: rest, log =>
    match doJSONRequest env log srv method path in_ out with
    | ((code, none), log1) => ((code, none), log1)
    | ((_, some _), log1) => jsonInOrder env method path in_ out next rest log1

/-- The service of a call of `doRequest`, by its URL and its hash. -/
def callOf : HTTPEvent → Option (String × String)
  | .doRequest httpURL hash => some (httpURL, hash)
  | _ => none

/-- Whether a call is a request sent. -/
def isDo : HTTPEvent → Bool
  | .Do _ _ _ => true
  | _ => false

/-- Three services. -/
def threeServices : List Service :=
  [⟨"vcs-1", "vcs", "http://vcs-1", "h1"⟩, ⟨"vcs-2", "vcs", "http://vcs-2", "h2"⟩,
    ⟨"vcs-3", "vcs", "http://vcs-3", "h3"⟩]

/-- Collaborators on which every service but `up` refuses the connection, and `up`
answers 200 with the body `ok`; the other collaborators succeed. -/
def httpEnv (up : String) : HTTPEnv :=
  ⟨fun url => .ok url, fun _ _ _ => none,
    fun _ _ url _ =>
      if url = up ++ "/repos" then .ok ⟨200, .ok "ok"⟩ else .error "connection refused",
    fun _ => none, fun v => .ok v, fun _ => none, fun _ => none, none,
    fun filename contents => filename ++ ":" ++ contents⟩

end services

namespace workflow

open sdk

/-- A run of the workflow with three nodes in which the node `deploy` has the four
node runs of `deployHistory` and the node `test` one node run. -/
def historyRun : RunState :=
  ⟨⟨12, resyncWorkflow⟩, 5, StatusSuccess, 2, testNodeRuns.insert 2 deployHistory⟩

end workflow

namespace api

open sdk workflow

/-- A call of a branch on the shared report, lines 790 and 793 of
`startWorkflowRun`. -/
inductive ReportCall where
  | Add (err : String)
  | Merge (r1 : Option ProcessorReport)

/-- The report after the call, on the report `r` that the call has read. -/
def ReportCall.apply (c : ReportCall) (r : ProcessorReport) : ProcessorReport :=
  match c with
  | .Add err => r.AddError err
  | .Merge r1 => r.Merge r1

/-- Lines 787-793 of `startWorkflowRun`: the calls that a branch makes on the shared
report once `runFromNode` has returned, `report.Add(err)` when it failed and then
`report.Merge(r1, nil)`. -/
def reportCalls : RunResult → List ReportCall
  | .error err => [.Add err, .Merge none]
  | .ok r1 => [.Merge (some r1)]
  | .panic => []

/-- Modelled from the spec: the code of `workflow.ProcessorReport` is not among the
sources. The report is a mutex-guarded accumulator (sections 3 and 9): a call takes
the mutex, reads the report, writes the report it has read with its items added,
and releases the mutex. Where a branch stands in its current call: before it, the
mutex taken, the report read, the report written. A branch that dereferenced a nil
pointer has crashed. -/
inductive CallPhase where
  | idle
  | locked
  | loaded (snapshot : ProcessorReport)
  | stored
  | crashed

/-- A branch of lines 786-795: the calls on the shared report that it has still to
make, where it stands in the first of them, and whether it has called `wg.Done()`. -/
structure Branch where
  calls : List ReportCall
  phase : CallPhase
  done : Bool

/-- The state that the branches share: the report, the holder of its mutex, and the
branches by position. -/
structure Shared where
  report : ProcessorReport
  mutex : Option Nat
  branches : Nat → Branch

/-- One step of the branch `i`. With `guarded` the mutex is taken and released, and a
branch that finds it taken waits; without it the calls read and write the report
unprotected. A branch that has made all its calls calls `wg.Done()`. -/
def step (guarded : Bool) (s : Shared) (i : Nat) : Shared :=
  match (s.branches i).phase, (s.branches i).calls with
  | .crashed, _ => s
  | _, [] =>
    if (s.branches i).done then s
    else ⟨s.report, s.mutex, Function.update s.branches i ⟨[], .idle, true⟩⟩
  | .idle, c :: rest =>
    if guarded then
      match s.mutex with
      | some _ => s
      | none =>
        ⟨s.report, some i,
          Function.update s.branches i ⟨c :: rest, .locked, (s.branches i).done⟩⟩
    else
      ⟨s.report, s.mutex,
        Function.update s.branches i ⟨c :: rest, .locked, (s.branches i).done⟩⟩
  | .locked, c :: rest =>
    ⟨s.report, s.mutex,
      Function.update s.branches i ⟨c :: rest, .loaded s.report, (s.branches i).done⟩⟩
  | .loaded snapshot, c :: rest =>
    ⟨c.apply snapshot, s.mutex,
      Function.update s.branches i ⟨c :: rest, .stored, (s.branches i).done⟩⟩
  | .stored, _ :: rest =>
    ⟨s.report, if guarded then none else s.mutex,
      Function.update s.branches i ⟨rest, .idle, (s.branches i).done⟩⟩

/-- The steps of an interleaving, given by the branch that makes each step. -/
def runSteps (guarded : Bool) (s : Shared) (steps : List Nat) : Shared :=
  steps.foldl (step guarded) s

/-- The branch that lines 786-795 start for a result of `runFromNode`. -/
def spawnBranch (res : Option RunResult) : Branch :=
  match res with
  | none => ⟨[], .idle, true⟩
  | some .panic => ⟨[], .crashed, false⟩
  | some res => ⟨reportCalls res, .idle, false⟩

/-- Lines 716 and 765-796: the new report and the branches, one per from-node, each
with what `runFromNode` returns in it. -/
def spawn (results : List (RunResult × List StartEvent)) : Shared :=
  ⟨ProcessorReport.new, none, fun i => spawnBranch (results[i]?.map (fun b => b.1))⟩

/-- The barrier `wg.Wait()` of line 798 for `n` branches: it is passed when every
branch has called `wg.Done()`. -/
def atBarrier (n : Nat) (s : Shared) : Bool :=
  (List.range n).all (fun i => (s.branches i).done)

/-- The number of steps of a branch: four per call on the report, and `wg.Done()`. -/
def branchSteps (res : RunResult) : Nat :=
  match res with
  | .error _ => 9
  | .ok _ => 5
  | .panic => 0

/-- The interleaving in which the branches make their steps one branch after the
other, in the order `sched`. -/
def oneAfterTheOther (results : List (RunResult × List StartEvent)) (sched : List Nat) :
    List Nat :=
  sched.flatMap (fun i =>
    match results[i]? with
    | some b => List.replicate (branchSteps b.1) i
    | none => [])

end api

namespace api

open sdk workflow

/-- Whether a branch in this phase of a call holds the mutex of the report. -/
def CallPhase.holds : CallPhase → Bool
  | .locked => true
  | .loaded _ => true
  | .stored => true
  | _ => false

/-- The calls that a branch has not yet written into the report. -/
def Branch.pending (b : Branch) : List ReportCall :=
  match b.phase with
  | .stored => b.calls.tail
  | _ => b.calls

/-- The report holds what the call adds: the error of `Add`, the errors, the workflow
runs and the node runs of the report that `Merge` is given. -/
def ReportCall.included (c : ReportCall) (r : ProcessorReport) : Prop :=
  match c with
  | .Add err => err ∈ r.errors
  | .Merge none => True
  | .Merge (some r1) =>
    (∀ e ∈ r1.errors, e ∈ r.errors) ∧ (∀ x ∈ r1.workflows, x ∈ r.workflows) ∧
      (∀ x ∈ r1.nodes, x ∈ r.nodes)

/-- The invariant of the guarded steps, for branches that started with the calls
`orig`: a branch inside a call holds the mutex, the report it has read is the
shared report, a branch that has called `wg.Done()` has no call left, and the report
holds what the calls already written add. -/
def Shared.Consistent (orig : Nat → List ReportCall) (s : Shared) : Prop :=
  (∀ j, (s.branches j).phase.holds = true → s.mutex = some j) ∧
    (∀ j snapshot, (s.branches j).phase = .loaded snapshot → snapshot = s.report) ∧
    (∀ j, (s.branches j).done = true → (s.branches j).calls = []) ∧
    (∀ j, ∃ made, orig j = made ++ (s.branches j).pending ∧
      ∀ c ∈ made, c.included s.report)

end api

/-! Properties of the parameter engine. -/

/-! Lemmas on Go maps -/

namespace GoMap

theorem lookup_foldl_insert (k : String) (l : List ((_ : String) × String)) :
    ∀ vars : GoMap, l.NodupKeys →
      (l.foldl (fun m e => m.insert e.1 e.2) vars).lookup k
        = (l.dlookup k).or (vars.lookup k) := by
  induction l with
  | nil => intro vars _; simp
  | cons hd tl ih =>
    intro vars hnd
    obtain ⟨a, b⟩ := hd
    rw [List.nodupKeys_cons] at hnd
    rw [List.foldl_cons, ih _ hnd.2]
    by_cases hk : k = a
    · subst hk
      have htl : List.dlookup k tl = none := List.dlookup_eq_none.mpr hnd.1
      simp [htl, AList.lookup_insert]
    · rw [List.dlookup_cons_ne _ _ hk]
      simp [AList.lookup_insert_ne hk]

theorem lookup_rangeInto (vars tmp : GoMap) (k : String) :
    (rangeInto vars tmp).lookup k = (tmp.lookup k).or (vars.lookup k) := by
  unfold rangeInto
  rw [lookup_foldl_insert k tmp.entries vars tmp.nodupKeys]
  rfl

end GoMap

namespace workflow

open sdk

theorem foldl_AddParameter (l : List ((_ : String) × String)) :
    ∀ acc : List Parameter,
      l.foldl (fun params e => AddParameter params e.1 StringParameter e.2) acc
        = acc ++ l.map (fun e => (⟨e.1, StringParameter, e.2⟩ : Parameter)) := by
  induction l with
  | nil => intro acc; simp
  | cons hd tl ih =>
    intro acc
    rw [List.foldl_cons, ih]
    simp [AddParameter]

theorem paramsOfVars_eq_map (vars : GoMap) :
    paramsOfVars vars
      = vars.entries.map (fun e => (⟨e.1, StringParameter, e.2⟩ : Parameter)) := by
  unfold paramsOfVars
  rw [foldl_AddParameter]
  simp

theorem filter_map_entries (k : String) (l : List ((_ : String) × String)) :
    l.NodupKeys →
      (l.map (fun e => (⟨e.1, StringParameter, e.2⟩ : Parameter))).filter
          (fun p => decide (p.Name = k))
        = (l.dlookup k).toList.map (fun v => (⟨k, StringParameter, v⟩ : Parameter)) := by
  induction l with
  | nil => intro _; simp
  | cons hd tl ih =>
    intro hnd
    obtain ⟨a, b⟩ := hd
    rw [List.nodupKeys_cons] at hnd
    by_cases hk : k = a
    · subst hk
      have htl : List.dlookup k tl = none := List.dlookup_eq_none.mpr hnd.1
      have := ih hnd.2
      rw [htl] at this
      simp [this]
    · have hak : ¬ a = k := fun h => hk h.symm
      rw [List.dlookup_cons_ne _ _ hk]
      simp [hak, ih hnd.2]

/-- The parameters named `k` in the list built from a map: one, with the value of `k`,
when `k` is a key, none otherwise. -/
theorem filter_paramsOfVars (vars : GoMap) (k : String) :
    (paramsOfVars vars).filter (fun p => decide (p.Name = k))
      = (vars.lookup k).toList.map (fun v => (⟨k, StringParameter, v⟩ : Parameter)) := by
  rw [paramsOfVars_eq_map]
  exact filter_map_entries k vars.entries vars.nodupKeys

/-! The merge of `GetNodeBuildParameters`, layer by layer -/

theorem lastLayerValue_cons (k : String) (L : GoMap) (rest : List GoMap) :
    lastLayerValue k (L :: rest) = (lastLayerValue k rest).or (L.lookup k) := by
  simp only [lastLayerValue]
  cases lastLayerValue k rest <;> simp

theorem lookup_inject_rangeInto (vars tmp : GoMap) (key name k : String) :
    (GoMap.rangeInto (vars.insert key name) tmp).lookup k
      = ((GoMap.rangeInto ((∅ : GoMap).insert key name) tmp).lookup k).or (vars.lookup k) := by
  rw [GoMap.lookup_rangeInto, GoMap.lookup_rangeInto]
  by_cases hk : k = key
  · subst hk
    rw [AList.lookup_insert, AList.lookup_insert]
    cases tmp.lookup k <;> simp
  · rw [AList.lookup_insert_ne hk, AList.lookup_insert_ne hk, AList.lookup_empty]
    cases tmp.lookup k <;> simp

theorem lookup_applicationVars (n : WorkflowNode) (vars : GoMap) (k : String) :
    (applicationVars n vars).lookup k
      = ((applicationLayer n).lookup k).or (vars.lookup k) := by
  unfold applicationVars applicationLayer
  cases n.Application with
  | none => simp
  | some app => exact lookup_inject_rangeInto _ _ _ _ _

theorem lookup_environmentVars (n : WorkflowNode) (vars : GoMap) (k : String) :
    (environmentVars n vars).lookup k
      = ((environmentLayer n).lookup k).or (vars.lookup k) := by
  unfold environmentVars environmentLayer
  cases n.Environment with
  | none => simp
  | some env => exact lookup_inject_rangeInto _ _ _ _ _

theorem lookup_foldl_strategies (ppfName k : String)
    (l : List ((_ : String) × PlatformConfig)) :
    ∀ vars : GoMap, l.NodupKeys →
      (l.foldl (fun m e =>
          if e.1 = ppfName then GoMap.rangeInto m (ParametersFromPlatform e.2) else m)
        vars).lookup k
      = ((l.dlookup ppfName).bind (fun c => (ParametersFromPlatform c).lookup k)).or
          (vars.lookup k) := by
  induction l with
  | nil => intro vars _; simp
  | cons hd tl ih =>
    intro vars hnd
    obtain ⟨a, c⟩ := hd
    rw [List.nodupKeys_cons] at hnd
    rw [List.foldl_cons, ih _ hnd.2]
    by_cases ha : a = ppfName
    · subst ha
      have htl : List.dlookup a tl = none := List.dlookup_eq_none.mpr hnd.1
      simp [htl, GoMap.lookup_rangeInto]
    · have hne : ppfName ≠ a := fun h => ha h.symm
      rw [List.dlookup_cons_ne _ _ hne]
      simp [ha]

theorem lookup_deploymentStrategyVars (app : Application) (ppfName : String)
    (vars : GoMap) (k : String) :
    (deploymentStrategyVars app ppfName vars).lookup k
      = ((app.DeploymentStrategies.lookup ppfName).bind
          (fun c => (ParametersFromPlatform c).lookup k)).or (vars.lookup k) := by
  unfold deploymentStrategyVars
  rw [lookup_foldl_strategies ppfName k _ vars app.DeploymentStrategies.nodupKeys]
  rfl

theorem lookup_platformVars (n : WorkflowNode) (vars : GoMap) (k : String) :
    (platformVars n vars).lookup k
      = ((strategyLayer n).lookup k).or
          (((platformLayer n).lookup k).or (vars.lookup k)) := by
  unfold platformVars strategyLayer platformLayer
  cases n.ProjectPlatform with
  | none => simp
  | some ppf =>
    cases contextApplication n with
    | none => simp only [AList.lookup_empty, Option.none_or]; exact lookup_inject_rangeInto _ _ _ _ _
    | some app =>
      simp only [lookup_deploymentStrategyVars]
      rw [lookup_inject_rangeInto]
      cases app.DeploymentStrategies.lookup ppf.Name <;> simp

theorem lookup_layeredVars (proj : Project) (n : WorkflowNode)
    (pipelineParameters : List Parameter) (tmpVars : GoMap) (k : String) :
    (ParametersMapMerge (layeredVars proj n pipelineParameters) tmpVars).lookup k
      = lastLayerValue k (layers proj n pipelineParameters tmpVars) := by
  unfold ParametersMapMerge layeredVars layers
  have hnil : lastLayerValue k [] = none := rfl
  simp only [lastLayerValue_cons, hnil, GoMap.lookup_rangeInto, lookup_platformVars,
    lookup_environmentVars, lookup_applicationVars, AList.lookup_empty]
  simp [Option.or_assoc]

theorem lookup_identityVars_of_not_mem (w : Workflow) (n : WorkflowNode) (vars : GoMap)
    (k : String) (hk : k ∉ identityKeys) :
    (identityVars w n vars).lookup k = vars.lookup k := by
  simp only [identityKeys, List.mem_cons, List.mem_singleton, not_or, List.mem_nil_iff,
    or_false] at hk
  unfold identityVars
  rw [AList.lookup_insert_ne hk.2.2, AList.lookup_insert_ne hk.2.1,
    AList.lookup_insert_ne hk.1]

theorem lookup_gitSetVars_of_not_mem (app : Application) (vars : GoMap) (k : String)
    (hk : k ∉ gitKeys) : (gitSetVars app vars).lookup k = vars.lookup k := by
  simp only [gitKeys, List.mem_cons, List.mem_singleton, not_or, List.mem_nil_iff,
    or_false] at hk
  obtain ⟨h1, h2, h3, h4, h5⟩ := hk
  unfold gitSetVars
  simp only []
  split_ifs <;> simp [AList.lookup_insert_ne, h1, h2, h3, h4, h5]

theorem lookup_gitRemoveVars_of_not_mem (vars : GoMap) (k : String) (hk : k ∉ gitKeys) :
    (gitRemoveVars vars).lookup k = vars.lookup k := by
  simp only [gitKeys, List.mem_cons, List.mem_singleton, not_or, List.mem_nil_iff,
    or_false] at hk
  obtain ⟨_, h2, h3, h4, _⟩ := hk
  unfold gitRemoveVars
  rw [AList.lookup_erase_ne h4, AList.lookup_erase_ne h3, AList.lookup_erase_ne h2]

theorem lookup_gitVars_of_not_mem (n : WorkflowNode) (vars : GoMap) (k : String)
    (hk : k ∉ gitKeys) : (gitVars n vars).lookup k = vars.lookup k := by
  unfold gitVars
  cases contextApplication n with
  | none => exact lookup_gitRemoveVars_of_not_mem vars k hk
  | some app =>
    simp only []
    split_ifs
    · exact lookup_gitSetVars_of_not_mem app vars k hk
    · exact lookup_gitRemoveVars_of_not_mem vars k hk

theorem lookup_finalVars_of_not_mem (proj : Project) (w : Workflow) (n : WorkflowNode)
    (pipelineParameters : List Parameter) (tmpVars : GoMap) (k : String)
    (hid : k ∉ identityKeys) (hgit : k ∉ gitKeys) :
    (finalVars proj w n pipelineParameters tmpVars).lookup k
      = lastLayerValue k (layers proj n pipelineParameters tmpVars) := by
  unfold finalVars
  simp only []
  rw [lookup_gitVars_of_not_mem _ _ _ hgit, lookup_identityVars_of_not_mem _ _ _ _ hid,
    lookup_layeredVars]

theorem GetNodeBuildParameters_ok (proj : Project) (w : Workflow) (n : WorkflowNode)
    (pipelineParameters : List Parameter) (payloadDump : Except String GoMap)
    (out : List Parameter)
    (h : GetNodeBuildParameters proj w n pipelineParameters payloadDump = .ok out) :
    ∃ tmpVars, payloadDump = .ok tmpVars ∧
      out = paramsOfVars (finalVars proj w n pipelineParameters tmpVars) := by
  cases payloadDump with
  | error e => simp [GetNodeBuildParameters] at h
  | ok tmpVars =>
    refine ⟨tmpVars, rfl, ?_⟩
    simp only [GetNodeBuildParameters, Except.ok.injEq] at h
    exact h.symm

/-- C1. On every input on which `GetNodeBuildParameters` succeeds, for every key `k`
that is neither a fixed identity key nor a git key, the parameters named `k` in the
result are exactly one parameter carrying the value of the last layer (project
variables, application variables, environment variables, platform configuration,
matching deployment strategy, pipeline parameters, flattened payload) that contains
`k`, and none when no layer contains `k`. The application, environment and platform
layers are those of section 4.1: each holds, under its variables, the injected key
`cds.application`, `cds.environment` or `cds.platform`. -/
theorem GetNodeBuildParameters_last_layer_wins (proj : Project) (w : Workflow)
    (n : WorkflowNode) (pipelineParameters : List Parameter) (tmpVars : GoMap)
    (out : List Parameter) (k : String)
    (h : GetNodeBuildParameters proj w n pipelineParameters (.ok tmpVars) = .ok out)
    (hid : k ∉ identityKeys) (hgit : k ∉ gitKeys) :
    out.filter (fun p => decide (p.Name = k))
      = (lastLayerValue k (layers proj n pipelineParameters tmpVars)).toList.map
          (fun v => (⟨k, StringParameter, v⟩ : Parameter)) := by
  obtain ⟨t, ht, hout⟩ := GetNodeBuildParameters_ok _ _ _ _ _ _ h
  cases ht
  rw [hout, filter_paramsOfVars, lookup_finalVars_of_not_mem _ _ _ _ _ _ hid hgit]

/-! Identity keys and git keys -/

theorem lookup_finalVars_project (proj : Project) (w : Workflow) (n : WorkflowNode)
    (pipelineParameters : List Parameter) (tmpVars : GoMap) :
    (finalVars proj w n pipelineParameters tmpVars).lookup "cds.project"
      = some w.ProjectKey := by
  unfold finalVars
  simp only []
  rw [lookup_gitVars_of_not_mem _ _ _ (by decide)]
  unfold identityVars
  rw [AList.lookup_insert_ne (by decide), AList.lookup_insert_ne (by decide),
    AList.lookup_insert]

theorem lookup_finalVars_workflow (proj : Project) (w : Workflow) (n : WorkflowNode)
    (pipelineParameters : List Parameter) (tmpVars : GoMap) :
    (finalVars proj w n pipelineParameters tmpVars).lookup "cds.workflow"
      = some w.Name := by
  unfold finalVars
  simp only []
  rw [lookup_gitVars_of_not_mem _ _ _ (by decide)]
  unfold identityVars
  rw [AList.lookup_insert_ne (by decide), AList.lookup_insert]

theorem lookup_finalVars_pipeline (proj : Project) (w : Workflow) (n : WorkflowNode)
    (pipelineParameters : List Parameter) (tmpVars : GoMap) :
    (finalVars proj w n pipelineParameters tmpVars).lookup "cds.pipeline"
      = some (w.pipelineName n.PipelineID) := by
  unfold finalVars
  simp only []
  rw [lookup_gitVars_of_not_mem _ _ _ (by decide)]
  unfold identityVars
  rw [AList.lookup_insert]

/-- C2. On every input on which `GetNodeBuildParameters` succeeds, the result holds
exactly one parameter named `cds.project`, with the project key of the workflow,
exactly one named `cds.workflow`, with the name of the workflow, and exactly one
named `cds.pipeline`, with the name of the pipeline bound to the node, whatever the
layers give to these names. -/
theorem GetNodeBuildParameters_identity_keys (proj : Project) (w : Workflow)
    (n : WorkflowNode) (pipelineParameters : List Parameter)
    (payloadDump : Except String GoMap) (out : List Parameter)
    (h : GetNodeBuildParameters proj w n pipelineParameters payloadDump = .ok out) :
    out.filter (fun p => decide (p.Name = "cds.project"))
        = [⟨"cds.project", StringParameter, w.ProjectKey⟩] ∧
      out.filter (fun p => decide (p.Name = "cds.workflow"))
        = [⟨"cds.workflow", StringParameter, w.Name⟩] ∧
      out.filter (fun p => decide (p.Name = "cds.pipeline"))
        = [⟨"cds.pipeline", StringParameter, w.pipelineName n.PipelineID⟩] := by
  obtain ⟨t, _, hout⟩ := GetNodeBuildParameters_ok _ _ _ _ _ _ h
  subst hout
  refine ⟨?_, ?_, ?_⟩
  · rw [filter_paramsOfVars, lookup_finalVars_project]; rfl
  · rw [filter_paramsOfVars, lookup_finalVars_workflow]; rfl
  · rw [filter_paramsOfVars, lookup_finalVars_pipeline]; rfl

theorem not_named_of_lookup_none (vars : GoMap) (k : String) (hk : vars.lookup k = none) :
    ∀ p ∈ paramsOfVars vars, p.Name ≠ k := by
  intro p hp hname
  have hf := filter_paramsOfVars vars k
  rw [hk] at hf
  have hmem : p ∈ (paramsOfVars vars).filter (fun p => decide (p.Name = k)) :=
    List.mem_filter.mpr ⟨hp, by simpa using hname⟩
  rw [hf] at hmem
  simp at hmem

theorem mem_paramsOfVars_of_lookup (vars : GoMap) (k v : String)
    (hk : vars.lookup k = some v) :
    (⟨k, StringParameter, v⟩ : Parameter) ∈ paramsOfVars vars := by
  have hf := filter_paramsOfVars vars k
  rw [hk] at hf
  have hmem : (⟨k, StringParameter, v⟩ : Parameter)
      ∈ (paramsOfVars vars).filter (fun p => decide (p.Name = k)) := by
    rw [hf]; simp
  exact (List.mem_filter.mp hmem).1

theorem lookup_gitSetVars (app : Application) (vars : GoMap) :
    (gitSetVars app vars).lookup "git.connection.type"
        = some app.RepositoryStrategy.ConnectionType ∧
      (app.RepositoryStrategy.SSHKey ≠ "" →
        (gitSetVars app vars).lookup "git.ssh.key" = some app.RepositoryStrategy.SSHKey) ∧
      (app.RepositoryStrategy.PGPKey ≠ "" →
        (gitSetVars app vars).lookup "git.pgp.key" = some app.RepositoryStrategy.PGPKey) ∧
      (app.RepositoryStrategy.User ≠ "" →
        (gitSetVars app vars).lookup "git.http.user" = some app.RepositoryStrategy.User) ∧
      (app.VCSServer ≠ "" →
        (gitSetVars app vars).lookup "git.server" = some app.VCSServer) := by
  unfold gitSetVars
  simp only []
  refine ⟨?_, ?_, ?_, ?_, ?_⟩
  · split_ifs <;> simp [AList.lookup_insert, AList.lookup_insert_ne]
  · intro h1
    split_ifs <;> simp [AList.lookup_insert, AList.lookup_insert_ne]
  · intro h1
    split_ifs <;> simp [AList.lookup_insert, AList.lookup_insert_ne]
  · intro h1
    split_ifs <;> simp [AList.lookup_insert, AList.lookup_insert_ne]
  · intro h1
    split_ifs <;> simp [AList.lookup_insert, AList.lookup_insert_ne]

theorem lookup_gitRemoveVars (vars : GoMap) :
    (gitRemoveVars vars).lookup "git.ssh.key" = none ∧
      (gitRemoveVars vars).lookup "git.pgp.key" = none ∧
      (gitRemoveVars vars).lookup "git.http.user" = none := by
  unfold gitRemoveVars
  refine ⟨?_, ?_, ?_⟩
  · rw [AList.lookup_erase_ne (by decide), AList.lookup_erase_ne (by decide),
      AList.lookup_erase]
  · rw [AList.lookup_erase_ne (by decide), AList.lookup_erase]
  · rw [AList.lookup_erase]

/-- Witness of C1: the pipeline parameter `foo=pip` overrides the project variable
`foo=bar`. -/
theorem GetNodeBuildParameters_last_layer_wins_witness :
    GetNodeBuildParameters scenarioProject scenarioWorkflow scenarioNode
        [⟨"foo", "string", "pip"⟩] (.ok scenarioDump)
      = .ok [⟨"git.connection.type", "string", "ssh"⟩, ⟨"cds.pipeline", "string", "build"⟩,
          ⟨"cds.workflow", "string", "wf"⟩, ⟨"cds.project", "string", "PRJ"⟩,
          ⟨"branch", "string", "main"⟩, ⟨"foo", "string", "pip"⟩,
          ⟨"cds.application", "string", "app1"⟩] ∧
    "foo" ∉ identityKeys ∧ "foo" ∉ gitKeys ∧
    lastLayerValue "foo"
        (layers scenarioProject scenarioNode [⟨"foo", "string", "pip"⟩] scenarioDump)
      = some "pip" ∧
    ([⟨"git.connection.type", "string", "ssh"⟩, ⟨"cds.pipeline", "string", "build"⟩,
          ⟨"cds.workflow", "string", "wf"⟩, ⟨"cds.project", "string", "PRJ"⟩,
          ⟨"branch", "string", "main"⟩, ⟨"foo", "string", "pip"⟩,
          ⟨"cds.application", "string", "app1"⟩] : List Parameter).filter
        (fun p => decide (p.Name = "foo"))
      = (lastLayerValue "foo"
          (layers scenarioProject scenarioNode [⟨"foo", "string", "pip"⟩]
            scenarioDump)).toList.map
          (fun v => (⟨"foo", StringParameter, v⟩ : Parameter)) :=
  ⟨rfl, by decide, by decide, by decide,
    GetNodeBuildParameters_last_layer_wins scenarioProject scenarioWorkflow scenarioNode
      [⟨"foo", "string", "pip"⟩] scenarioDump _ "foo" rfl (by decide) (by decide)⟩

/-- Witness of C2 on the scenario of section 8. -/
theorem GetNodeBuildParameters_identity_keys_witness :
    GetNodeBuildParameters scenarioProject scenarioWorkflow scenarioNode []
        (.ok scenarioDump)
      = .ok [⟨"git.connection.type", "string", "ssh"⟩, ⟨"cds.pipeline", "string", "build"⟩,
          ⟨"cds.workflow", "string", "wf"⟩, ⟨"cds.project", "string", "PRJ"⟩,
          ⟨"branch", "string", "main"⟩, ⟨"cds.application", "string", "app1"⟩,
          ⟨"foo", "string", "bar"⟩] ∧
    (([⟨"git.connection.type", "string", "ssh"⟩, ⟨"cds.pipeline", "string", "build"⟩,
          ⟨"cds.workflow", "string", "wf"⟩, ⟨"cds.project", "string", "PRJ"⟩,
          ⟨"branch", "string", "main"⟩, ⟨"cds.application", "string", "app1"⟩,
          ⟨"foo", "string", "bar"⟩] : List Parameter).filter
        (fun p => decide (p.Name = "cds.project"))
        = [⟨"cds.project", StringParameter, scenarioWorkflow.ProjectKey⟩] ∧
      ([⟨"git.connection.type", "string", "ssh"⟩, ⟨"cds.pipeline", "string", "build"⟩,
          ⟨"cds.workflow", "string", "wf"⟩, ⟨"cds.project", "string", "PRJ"⟩,
          ⟨"branch", "string", "main"⟩, ⟨"cds.application", "string", "app1"⟩,
          ⟨"foo", "string", "bar"⟩] : List Parameter).filter
        (fun p => decide (p.Name = "cds.workflow"))
        = [⟨"cds.workflow", StringParameter, scenarioWorkflow.Name⟩] ∧
      ([⟨"git.connection.type", "string", "ssh"⟩, ⟨"cds.pipeline", "string", "build"⟩,
          ⟨"cds.workflow", "string", "wf"⟩, ⟨"cds.project", "string", "PRJ"⟩,
          ⟨"branch", "string", "main"⟩, ⟨"cds.application", "string", "app1"⟩,
          ⟨"foo", "string", "bar"⟩] : List Parameter).filter
        (fun p => decide (p.Name = "cds.pipeline"))
        = [⟨"cds.pipeline", StringParameter,
            scenarioWorkflow.pipelineName scenarioNode.PipelineID⟩]) :=
  ⟨rfl, GetNodeBuildParameters_identity_keys scenarioProject scenarioWorkflow scenarioNode []
      (.ok scenarioDump) _ rfl⟩

theorem gitVars_of_connection (n : WorkflowNode) (app : Application) (vars : GoMap)
    (happ : contextApplication n = some app)
    (hct : app.RepositoryStrategy.ConnectionType ≠ "") :
    gitVars n vars = gitSetVars app vars := by
  unfold gitVars
  rw [happ]
  simp [hct]

theorem gitVars_of_no_connection (n : WorkflowNode) (vars : GoMap)
    (h : ∀ app, contextApplication n = some app →
      app.RepositoryStrategy.ConnectionType = "") :
    gitVars n vars = gitRemoveVars vars := by
  unfold gitVars
  cases happ : contextApplication n with
  | none => rfl
  | some app => simp [h app happ]

/-- C3, counterexample. With the application `app1` of connection type `ssh` and no
SSH key, the result holds no `git.ssh.key`; on a node without application, a payload
key `git.server` stays in the result. -/
theorem GetNodeBuildParameters_git_keys_counterexample :
    (∃ out, GetNodeBuildParameters scenarioProject scenarioWorkflow scenarioNode []
          (.ok scenarioDump) = .ok out ∧
        contextApplication scenarioNode = some scenarioApp ∧
        scenarioApp.RepositoryStrategy.ConnectionType = "ssh" ∧
        ∀ p ∈ out, p.Name ≠ "git.ssh.key") ∧
    (∃ out, GetNodeBuildParameters scenarioProject scenarioWorkflow bareNode []
          (.ok ((∅ : GoMap).insert "git.server" "github")) = .ok out ∧
        contextApplication bareNode = none ∧
        (⟨"git.server", "string", "github"⟩ : Parameter) ∈ out) := by
  refine ⟨⟨[⟨"git.connection.type", "string", "ssh"⟩, ⟨"cds.pipeline", "string", "build"⟩,
      ⟨"cds.workflow", "string", "wf"⟩, ⟨"cds.project", "string", "PRJ"⟩,
      ⟨"branch", "string", "main"⟩, ⟨"cds.application", "string", "app1"⟩,
      ⟨"foo", "string", "bar"⟩], rfl, rfl, rfl, by decide⟩,
    ⟨[⟨"cds.pipeline", "string", "build"⟩, ⟨"cds.workflow", "string", "wf"⟩,
      ⟨"cds.project", "string", "PRJ"⟩, ⟨"git.server", "string", "github"⟩,
      ⟨"foo", "string", "bar"⟩], rfl, rfl, by decide⟩⟩

/-- C3, amended. On every input on which `GetNodeBuildParameters` succeeds: when the
bound application declares a non-empty connection type, the result holds exactly one
`git.connection.type`, with that type, and exactly one `git.ssh.key`, `git.pgp.key`,
`git.http.user`, `git.server` with the value of the application, each when that value
is not empty; when no application is bound or the connection type is empty, no
parameter of the result is named `git.ssh.key`, `git.pgp.key` or `git.http.user`,
whatever the layers carry. -/
theorem GetNodeBuildParameters_git_keys (proj : Project) (w : Workflow)
    (n : WorkflowNode) (pipelineParameters : List Parameter)
    (payloadDump : Except String GoMap) (out : List Parameter)
    (h : GetNodeBuildParameters proj w n pipelineParameters payloadDump = .ok out) :
    (∀ app, contextApplication n = some app →
        app.RepositoryStrategy.ConnectionType ≠ "" →
        out.filter (fun p => decide (p.Name = "git.connection.type"))
            = [⟨"git.connection.type", StringParameter,
                app.RepositoryStrategy.ConnectionType⟩] ∧
          (app.RepositoryStrategy.SSHKey ≠ "" →
            out.filter (fun p => decide (p.Name = "git.ssh.key"))
              = [⟨"git.ssh.key", StringParameter, app.RepositoryStrategy.SSHKey⟩]) ∧
          (app.RepositoryStrategy.PGPKey ≠ "" →
            out.filter (fun p => decide (p.Name = "git.pgp.key"))
              = [⟨"git.pgp.key", StringParameter, app.RepositoryStrategy.PGPKey⟩]) ∧
          (app.RepositoryStrategy.User ≠ "" →
            out.filter (fun p => decide (p.Name = "git.http.user"))
              = [⟨"git.http.user", StringParameter, app.RepositoryStrategy.User⟩]) ∧
          (app.VCSServer ≠ "" →
            out.filter (fun p => decide (p.Name = "git.server"))
              = [⟨"git.server", StringParameter, app.VCSServer⟩])) ∧
      ((∀ app, contextApplication n = some app →
          app.RepositoryStrategy.ConnectionType = "") →
        ∀ p ∈ out, p.Name ≠ "git.ssh.key" ∧ p.Name ≠ "git.pgp.key" ∧
          p.Name ≠ "git.http.user") := by
  obtain ⟨t, _, hout⟩ := GetNodeBuildParameters_ok _ _ _ _ _ _ h
  subst hout
  constructor
  · intro app happ hct
    have hset := lookup_gitSetVars app
      (identityVars w n (ParametersMapMerge (layeredVars proj n pipelineParameters) t))
    have hfin : finalVars proj w n pipelineParameters t
        = gitSetVars app
          (identityVars w n (ParametersMapMerge (layeredVars proj n pipelineParameters) t)) := by
      unfold finalVars
      exact gitVars_of_connection n app _ happ hct
    rw [hfin]
    refine ⟨?_, ?_, ?_, ?_, ?_⟩
    · rw [filter_paramsOfVars, hset.1]; rfl
    · intro hne; rw [filter_paramsOfVars, hset.2.1 hne]; rfl
    · intro hne; rw [filter_paramsOfVars, hset.2.2.1 hne]; rfl
    · intro hne; rw [filter_paramsOfVars, hset.2.2.2.1 hne]; rfl
    · intro hne; rw [filter_paramsOfVars, hset.2.2.2.2 hne]; rfl
  · intro hno p hp
    have hrem := lookup_gitRemoveVars
      (identityVars w n (ParametersMapMerge (layeredVars proj n pipelineParameters) t))
    have hfin : finalVars proj w n pipelineParameters t
        = gitRemoveVars
          (identityVars w n (ParametersMapMerge (layeredVars proj n pipelineParameters) t)) := by
      unfold finalVars
      exact gitVars_of_no_connection n _ hno
    rw [hfin] at hp
    exact ⟨not_named_of_lookup_none _ _ hrem.1 p hp,
      not_named_of_lookup_none _ _ hrem.2.1 p hp,
      not_named_of_lookup_none _ _ hrem.2.2 p hp⟩

/-- Witness of the amended C3 on the scenario of section 8. -/
theorem GetNodeBuildParameters_git_keys_witness :
    GetNodeBuildParameters scenarioProject scenarioWorkflow scenarioNode []
        (.ok scenarioDump)
      = .ok [⟨"git.connection.type", "string", "ssh"⟩, ⟨"cds.pipeline", "string", "build"⟩,
          ⟨"cds.workflow", "string", "wf"⟩, ⟨"cds.project", "string", "PRJ"⟩,
          ⟨"branch", "string", "main"⟩, ⟨"cds.application", "string", "app1"⟩,
          ⟨"foo", "string", "bar"⟩] ∧
    ([⟨"git.connection.type", "string", "ssh"⟩, ⟨"cds.pipeline", "string", "build"⟩,
          ⟨"cds.workflow", "string", "wf"⟩, ⟨"cds.project", "string", "PRJ"⟩,
          ⟨"branch", "string", "main"⟩, ⟨"cds.application", "string", "app1"⟩,
          ⟨"foo", "string", "bar"⟩] : List Parameter).filter
        (fun p => decide (p.Name = "git.connection.type"))
      = [⟨"git.connection.type", StringParameter, "ssh"⟩] :=
  ⟨rfl, ((GetNodeBuildParameters_git_keys scenarioProject scenarioWorkflow scenarioNode []
      (.ok scenarioDump) _ rfl).1 scenarioApp rfl (by decide)).1⟩

/-- C4. In the scenario of section 8 (one node bound to the application `app1` with
connection type `ssh` and no variable, no environment and no platform, the project
variable `foo=bar`, no pipeline parameter, the flattened payload `branch=main`),
whatever the workflow, the project key and the other fields of the node and of the
application, `GetNodeBuildParameters` succeeds and its result includes
`git.connection.type=ssh`, `cds.application=app1`, `foo=bar`, `branch=main`, and the
keys `cds.project`, `cds.workflow` and `cds.pipeline`. -/
theorem GetNodeBuildParameters_scenario (w : Workflow) (projKey varType nodeName : String)
    (nodeID pipelineID : Int) (repo vcsServer sshKey pgpKey user : String)
    (strategies : AList (fun _ : String => PlatformConfig)) :
    ∃ out,
      GetNodeBuildParameters ⟨projKey, [⟨"foo", varType, "bar"⟩]⟩ w
          ⟨nodeID, nodeName, pipelineID,
            some ⟨some ⟨"app1", [], repo, vcsServer, ⟨"ssh", sshKey, pgpKey, user⟩,
              strategies⟩, none, none⟩⟩
          [] (.ok ((∅ : GoMap).insert "branch" "main")) = .ok out ∧
        (⟨"git.connection.type", "string", "ssh"⟩ : Parameter) ∈ out ∧
        (⟨"cds.application", "string", "app1"⟩ : Parameter) ∈ out ∧
        (⟨"foo", "string", "bar"⟩ : Parameter) ∈ out ∧
        (⟨"branch", "string", "main"⟩ : Parameter) ∈ out ∧
        (⟨"cds.project", "string", w.ProjectKey⟩ : Parameter) ∈ out ∧
        (⟨"cds.workflow", "string", w.Name⟩ : Parameter) ∈ out ∧
        (⟨"cds.pipeline", "string", w.pipelineName pipelineID⟩ : Parameter) ∈ out := by
  refine ⟨_, rfl, ?_, ?_, ?_, ?_, ?_, ?_, ?_⟩
  · apply mem_paramsOfVars_of_lookup
    unfold finalVars
    simp only []
    have hct : ("ssh" : String) ≠ "" := by decide
    rw [gitVars_of_connection
      ⟨nodeID, nodeName, pipelineID,
        some ⟨some ⟨"app1", [], repo, vcsServer, ⟨"ssh", sshKey, pgpKey, user⟩,
          strategies⟩, none, none⟩⟩
      ⟨"app1", [], repo, vcsServer, ⟨"ssh", sshKey, pgpKey, user⟩, strategies⟩ _ rfl hct]
    exact (lookup_gitSetVars _ _).1
  · apply mem_paramsOfVars_of_lookup
    rw [lookup_finalVars_of_not_mem _ _ _ _ _ _ (by decide) (by decide)]
    rfl
  · apply mem_paramsOfVars_of_lookup
    rw [lookup_finalVars_of_not_mem _ _ _ _ _ _ (by decide) (by decide)]
    rfl
  · apply mem_paramsOfVars_of_lookup
    rw [lookup_finalVars_of_not_mem _ _ _ _ _ _ (by decide) (by decide)]
    rfl
  · exact mem_paramsOfVars_of_lookup _ _ _ (lookup_finalVars_project _ _ _ _ _)
  · exact mem_paramsOfVars_of_lookup _ _ _ (lookup_finalVars_workflow _ _ _ _ _)
  · exact mem_paramsOfVars_of_lookup _ _ _ (lookup_finalVars_pipeline _ _ _ _ _)

/-! The interpolation pass of `getNodeRunBuildParameters` -/

theorem foldl_interpolateStep (Do : String → GoMap → Except String String) (tmp : GoMap)
    (l : List ((_ : String) × String)) :
    ∀ acc : List Parameter × MultiError,
      l.foldl (interpolateStep Do tmp) acc
        = (acc.1 ++ l.filterMap (interpolated Do tmp),
            acc.2 ++ l.filterMap (interpolationError Do tmp)) := by
  induction l with
  | nil => intro acc; simp
  | cons hd tl ih =>
    intro acc
    rw [List.foldl_cons, ih]
    unfold interpolateStep
    cases hdo : Do hd.2 tmp with
    | error err =>
      simp [List.filterMap_cons, interpolated, interpolationError, hdo, MultiError.Append]
    | ok s =>
      simp [List.filterMap_cons, interpolated, interpolationError, hdo, AddParameter]

theorem interpolateAll_eq (Do : String → GoMap → Except String String) (tmp : GoMap) :
    interpolateAll Do tmp
      = (tmp.entries.filterMap (interpolated Do tmp),
          tmp.entries.filterMap (interpolationError Do tmp)) := by
  unfold interpolateAll
  rw [foldl_interpolateStep]
  simp

theorem filter_filterMap_interpolated (Do : String → GoMap → Except String String)
    (tmp : GoMap) (k : String) (l : List ((_ : String) × String)) :
    l.NodupKeys →
      (l.filterMap (interpolated Do tmp)).filter (fun p => decide (p.Name = k))
        = ((l.dlookup k).bind (fun v => interpolated Do tmp ⟨k, v⟩)).toList := by
  induction l with
  | nil => intro _; simp
  | cons hd tl ih =>
    intro hnd
    obtain ⟨a, b⟩ := hd
    rw [List.nodupKeys_cons] at hnd
    by_cases hk : k = a
    · subst hk
      have htl : List.dlookup k tl = none := List.dlookup_eq_none.mpr hnd.1
      have hih := ih hnd.2
      rw [htl] at hih
      rw [List.dlookup_cons_eq, List.filterMap_cons]
      cases hdo : Do b tmp with
      | error err => simpa [interpolated, hdo] using hih
      | ok s =>
        simp only [interpolated, hdo, Option.some_bind, Option.toList_some]
        rw [List.filter_cons]
        simp only [decide_True, if_true]
        simp only [interpolated] at hih
        rw [hih]
        rfl
    · have hak : ¬ a = k := fun h => hk h.symm
      rw [List.dlookup_cons_ne _ _ hk, List.filterMap_cons]
      cases hdo : Do b tmp with
      | error err => simpa [interpolated, hdo] using ih hnd.2
      | ok s =>
        simp only [interpolated, hdo]
        rw [List.filter_cons]
        simp only [hak, decide_False]
        simpa [interpolated] using ih hnd.2

theorem length_filterMap_interpolated (Do : String → GoMap → Except String String)
    (tmp : GoMap) (l : List ((_ : String) × String)) :
    (l.filterMap (interpolated Do tmp)).length
        + (l.filterMap (interpolationError Do tmp)).length = l.length := by
  induction l with
  | nil => simp
  | cons hd tl ih =>
    rw [List.filterMap_cons, List.filterMap_cons]
    cases hdo : Do hd.2 tmp with
    | error err => simp [interpolated, interpolationError, hdo] at ih ⊢; omega
    | ok s => simp [interpolated, interpolationError, hdo] at ih ⊢; omega

theorem getNodeRunBuildParameters_eq (Do : String → GoMap → Except String String)
    (proj : Project) (w : WorkflowRun) (run : WorkflowNodeRun)
    (payloadDump : Except String GoMap) (n : WorkflowNode) (params : List Parameter)
    (hn : w.Workflow.GetNode run.WorkflowNodeID = some n)
    (hp : GetNodeBuildParameters proj w.Workflow n run.PipelineParameters payloadDump
      = .ok params) :
    getNodeRunBuildParameters Do proj w run payloadDump
      = (some ((runParametersMap params run).entries.filterMap
            (interpolated Do (runParametersMap params run))),
          if (runParametersMap params run).entries.filterMap
              (interpolationError Do (runParametersMap params run)) = []
          then none
          else some (.multi ((runParametersMap params run).entries.filterMap
              (interpolationError Do (runParametersMap params run))))) := by
  unfold getNodeRunBuildParameters
  rw [hn]
  simp only [hp, interpolateAll_eq, MultiError.IsEmpty]
  cases hl : (runParametersMap params run).entries.filterMap
      (interpolationError Do (runParametersMap params run)) with
  | nil => simp
  | cons a t => simp

/-- C5. For every node run with number `N` and sub-number `S` whose node exists in the
workflow and whose base resolution succeeds, the map `tmp` that
`getNodeRunBuildParameters` builds before the interpolation pass gives to
`cds.version`, `cds.run`, `cds.run.number` and `cds.run.subnumber` the decimal strings
`N`, `N.S`, `N` and `S`, whatever the base resolution gave to these names, and leaves
every other key as the base resolution produced it; the returned parameters are the
values of `tmp`, each interpolated against this same map `tmp`. -/
theorem getNodeRunBuildParameters_run_overlay
    (Do : String → GoMap → Except String String)
    (proj : Project) (w : WorkflowRun) (run : WorkflowNodeRun)
    (payloadDump : Except String GoMap) (n : WorkflowNode) (params : List Parameter)
    (hn : w.Workflow.GetNode run.WorkflowNodeID = some n)
    (hp : GetNodeBuildParameters proj w.Workflow n run.PipelineParameters payloadDump
      = .ok params) :
    (runParametersMap params run).lookup "cds.version" = some (toString run.Number) ∧
      (runParametersMap params run).lookup "cds.run"
        = some (toString run.Number ++ "." ++ toString run.SubNumber) ∧
      (runParametersMap params run).lookup "cds.run.number" = some (toString run.Number) ∧
      (runParametersMap params run).lookup "cds.run.subnumber"
        = some (toString run.SubNumber) ∧
      (∀ k, k ∉ runKeys →
        (runParametersMap params run).lookup k = (ParametersToMap params).lookup k) ∧
      (getNodeRunBuildParameters Do proj w run payloadDump).1
        = some ((runParametersMap params run).entries.filterMap
            (interpolated Do (runParametersMap params run))) := by
  refine ⟨?_, ?_, ?_, ?_, ?_, ?_⟩
  · unfold runParametersMap
    simp only []
    rw [AList.lookup_insert_ne (by decide), AList.lookup_insert_ne (by decide),
      AList.lookup_insert_ne (by decide), AList.lookup_insert]
  · unfold runParametersMap
    simp only []
    rw [AList.lookup_insert_ne (by decide), AList.lookup_insert_ne (by decide),
      AList.lookup_insert]
  · unfold runParametersMap
    simp only []
    rw [AList.lookup_insert_ne (by decide), AList.lookup_insert]
  · unfold runParametersMap
    simp only []
    rw [AList.lookup_insert]
  · intro k hk
    simp only [runKeys, List.mem_cons, List.mem_singleton, not_or, List.mem_nil_iff,
      or_false] at hk
    unfold runParametersMap
    simp only []
    rw [AList.lookup_insert_ne hk.2.2.2, AList.lookup_insert_ne hk.2.2.1,
      AList.lookup_insert_ne hk.2.1, AList.lookup_insert_ne hk.1]
  · rw [getNodeRunBuildParameters_eq Do proj w run payloadDump n params hn hp]

/-- Witness of C5: the node run 12.3 of the scenario. -/
theorem getNodeRunBuildParameters_run_overlay_witness :
    scenarioRun.Workflow.GetNode scenarioNodeRun.WorkflowNodeID = some scenarioNode ∧
    (runParametersMap
        [⟨"git.connection.type", "string", "ssh"⟩, ⟨"cds.pipeline", "string", "build"⟩,
          ⟨"cds.workflow", "string", "wf"⟩, ⟨"cds.project", "string", "PRJ"⟩,
          ⟨"branch", "string", "main"⟩, ⟨"p", "string", "bad"⟩, ⟨"q", "string", "fine"⟩,
          ⟨"cds.application", "string", "app1"⟩, ⟨"foo", "string", "bar"⟩]
        scenarioNodeRun).lookup "cds.run" = some "12.3" ∧
    (getNodeRunBuildParameters sampleDo scenarioProject scenarioRun scenarioNodeRun
        (.ok scenarioDump)).1
      = some [⟨"cds.run.subnumber", "string", "3"⟩, ⟨"cds.run.number", "string", "12"⟩,
          ⟨"cds.run", "string", "12.3"⟩, ⟨"cds.version", "string", "12"⟩,
          ⟨"foo", "string", "bar"⟩, ⟨"cds.application", "string", "app1"⟩,
          ⟨"q", "string", "fine"⟩, ⟨"branch", "string", "main"⟩,
          ⟨"cds.project", "string", "PRJ"⟩, ⟨"cds.workflow", "string", "wf"⟩,
          ⟨"cds.pipeline", "string", "build"⟩, ⟨"git.connection.type", "string", "ssh"⟩] :=
  have h := getNodeRunBuildParameters_run_overlay sampleDo scenarioProject scenarioRun
    scenarioNodeRun (.ok scenarioDump) scenarioNode
    [⟨"git.connection.type", "string", "ssh"⟩, ⟨"cds.pipeline", "string", "build"⟩,
      ⟨"cds.workflow", "string", "wf"⟩, ⟨"cds.project", "string", "PRJ"⟩,
      ⟨"branch", "string", "main"⟩, ⟨"p", "string", "bad"⟩, ⟨"q", "string", "fine"⟩,
      ⟨"cds.application", "string", "app1"⟩, ⟨"foo", "string", "bar"⟩] rfl rfl
  ⟨rfl, h.2.1, h.2.2.2.2.2⟩

/-- C6. For every node run whose node exists and whose base resolution succeeds, the
interpolation pass of `getNodeRunBuildParameters` goes over every key of the merged
map `tmp`: a key whose interpolation succeeds is in the returned set exactly once,
with its interpolated value; a key whose interpolation fails is absent from the set
and its error is in the returned multi-error; every key yields either one parameter
or one error; and the returned error is nil exactly when no key failed. -/
theorem getNodeRunBuildParameters_collects_errors
    (Do : String → GoMap → Except String String)
    (proj : Project) (w : WorkflowRun) (run : WorkflowNodeRun)
    (payloadDump : Except String GoMap) (n : WorkflowNode) (params : List Parameter)
    (tmp : GoMap)
    (hn : w.Workflow.GetNode run.WorkflowNodeID = some n)
    (hp : GetNodeBuildParameters proj w.Workflow n run.PipelineParameters payloadDump
      = .ok params)
    (htmp : tmp = runParametersMap params run) :
    ∃ out errm,
      (getNodeRunBuildParameters Do proj w run payloadDump).1 = some out ∧
      (getNodeRunBuildParameters Do proj w run payloadDump).2
        = (if errm = [] then none else some (.multi errm)) ∧
      (∀ k v s, tmp.lookup k = some v → Do v tmp = .ok s →
        out.filter (fun p => decide (p.Name = k)) = [⟨k, StringParameter, s⟩]) ∧
      (∀ k v err, tmp.lookup k = some v → Do v tmp = .error err →
        (∀ p ∈ out, p.Name ≠ k) ∧ err ∈ errm) ∧
      out.length + errm.length = tmp.entries.length ∧
      ((getNodeRunBuildParameters Do proj w run payloadDump).2 = none ↔
        ∀ k v, tmp.lookup k = some v → ∃ s, Do v tmp = .ok s) := by
  subst htmp
  refine ⟨(runParametersMap params run).entries.filterMap
      (interpolated Do (runParametersMap params run)),
    (runParametersMap params run).entries.filterMap
      (interpolationError Do (runParametersMap params run)), ?_, ?_, ?_, ?_, ?_, ?_⟩
  · rw [getNodeRunBuildParameters_eq Do proj w run payloadDump n params hn hp]
  · rw [getNodeRunBuildParameters_eq Do proj w run payloadDump n params hn hp]
  · intro k v s hk hdo
    rw [filter_filterMap_interpolated Do _ k _ (runParametersMap params run).nodupKeys]
    have hk2 : List.dlookup k (runParametersMap params run).entries = some v := hk
    rw [hk2]
    simp [interpolated, hdo]
  · intro k v err hk hdo
    constructor
    · intro p hp2 hname
      have hmem : p ∈ ((runParametersMap params run).entries.filterMap
          (interpolated Do (runParametersMap params run))).filter
            (fun p => decide (p.Name = k)) :=
        List.mem_filter.mpr ⟨hp2, by simpa using hname⟩
      rw [filter_filterMap_interpolated Do _ k _ (runParametersMap params run).nodupKeys]
        at hmem
      have hk2 : List.dlookup k (runParametersMap params run).entries = some v := hk
      rw [hk2] at hmem
      simp [interpolated, hdo] at hmem
    · rw [List.mem_filterMap]
      refine ⟨⟨k, v⟩, ?_, ?_⟩
      · exact AList.mem_lookup_iff.mp (by rw [hk]; exact rfl)
      · simp [interpolationError, hdo]
  · exact length_filterMap_interpolated Do _ _
  · rw [getNodeRunBuildParameters_eq Do proj w run payloadDump n params hn hp]
    constructor
    · intro hnone k v hk
      have hnil : (runParametersMap params run).entries.filterMap
          (interpolationError Do (runParametersMap params run)) = [] := by
        by_contra hne
        simp [hne] at hnone
      have hmem : (⟨k, v⟩ : (_ : String) × String)
          ∈ (runParametersMap params run).entries :=
        AList.mem_lookup_iff.mp (by rw [hk]; exact rfl)
      have := List.filterMap_eq_nil_iff.mp hnil _ hmem
      cases hdo : Do v (runParametersMap params run) with
      | ok s => exact ⟨s, rfl⟩
      | error err => simp [interpolationError, hdo] at this
    · intro hall
      have hnil : (runParametersMap params run).entries.filterMap
          (interpolationError Do (runParametersMap params run)) = [] := by
        rw [List.filterMap_eq_nil_iff]
        intro e he
        obtain ⟨k, v⟩ := e
        have hk : (runParametersMap params run).lookup k = some v :=
          AList.mem_lookup_iff.mpr he
        obtain ⟨s, hs⟩ := hall k v hk
        simp [interpolationError, hs]
      simp [hnil]

/-- Witness of C6: in the node run 12.3 of the scenario the key `p` fails, the other
keys are returned and the multi-error holds one error. -/
theorem getNodeRunBuildParameters_collects_errors_witness :
    scenarioRun.Workflow.GetNode scenarioNodeRun.WorkflowNodeID = some scenarioNode ∧
    getNodeRunBuildParameters sampleDo scenarioProject scenarioRun scenarioNodeRun
        (.ok scenarioDump)
      = (some [⟨"cds.run.subnumber", "string", "3"⟩, ⟨"cds.run.number", "string", "12"⟩,
          ⟨"cds.run", "string", "12.3"⟩, ⟨"cds.version", "string", "12"⟩,
          ⟨"foo", "string", "bar"⟩, ⟨"cds.application", "string", "app1"⟩,
          ⟨"q", "string", "fine"⟩, ⟨"branch", "string", "main"⟩,
          ⟨"cds.project", "string", "PRJ"⟩, ⟨"cds.workflow", "string", "wf"⟩,
          ⟨"cds.pipeline", "string", "build"⟩, ⟨"git.connection.type", "string", "ssh"⟩],
        some (.multi ["unknown variable"])) ∧
    ∃ (out : List Parameter) (errm : MultiError),
      (getNodeRunBuildParameters sampleDo scenarioProject scenarioRun scenarioNodeRun
        (.ok scenarioDump)).1 = some out ∧
      out.length + errm.length = 13 :=
  ⟨rfl, rfl,
    match getNodeRunBuildParameters_collects_errors sampleDo scenarioProject scenarioRun
      scenarioNodeRun (.ok scenarioDump) scenarioNode _ _ rfl rfl rfl with
    | ⟨out, errm, h1, _, _, _, h5, _⟩ => ⟨out, errm, h1, h5⟩⟩

/-! Inheritance of ancestor parameters, `getParentParameters` -/

/-- C7, evaluation. The ancestor parameter `cds.version`, which the name filter of
lines 164-167 stops, is in the list that `getParentParameters` returns, under its
original name: the `continue` skips the renaming only, and line 190 appends every
build parameter of the ancestor. -/
theorem getParentParameters_returns_cds_version :
    nameFilter "cds.version" = true ∧
    getParentParameters parentLoad ⟨12, scenarioWorkflow⟩ [100] ∅
      = .ok [⟨"cds.version", "string", "12"⟩,
          ⟨"workflow.root.application", "string", "app1"⟩,
          ⟨"workflow.root.git.token", "string", "secret"⟩,
          ⟨"workflow.root.branch", "string", "main"⟩] :=
  ⟨rfl, rfl⟩

/-- C8, evaluation. In a workflow that references no repository, with a payload
holding the keys `branch` and `git.token`, the ancestor parameter `git.token` is
returned as `workflow.root.git.token`, and the ancestor parameter `branch`, a key of
the payload that does not start with `git.`, is returned as well, under its original
name. -/
theorem getParentParameters_returns_payload_key :
    (scenarioWorkflow.GetRepositories).length = 0 ∧
    parentPayload.lookup "branch" = some "develop" ∧
    parentPayload.lookup "git.token" = some "other" ∧
    getParentParameters parentLoad ⟨12, scenarioWorkflow⟩ [100] parentPayload
      = .ok [⟨"cds.version", "string", "12"⟩,
          ⟨"workflow.root.application", "string", "app1"⟩,
          ⟨"workflow.root.git.token", "string", "secret"⟩,
          ⟨"branch", "string", "main"⟩] :=
  ⟨rfl, rfl, rfl, rfl⟩

/-- C9, evaluation. In a workflow that references exactly one repository, the
ancestor parameter `git.token` is in the list that `getParentParameters` returns,
under its original name. -/
theorem getParentParameters_returns_git_single_repository :
    (oneRepoWorkflow.GetRepositories).length = 1 ∧
    getParentParameters parentLoad ⟨12, oneRepoWorkflow⟩ [100] ∅
      = .ok [⟨"cds.version", "string", "12"⟩,
          ⟨"workflow.root.application", "string", "app1"⟩,
          ⟨"git.token", "string", "secret"⟩,
          ⟨"workflow.root.branch", "string", "main"⟩] :=
  ⟨rfl, rfl⟩

theorem replaceFirst_of_isPrefixOf (old new l : List Char) (h : old.isPrefixOf l = true) :
    replaceFirst old new l = new ++ l.drop old.length := by
  cases l with
  | nil =>
    cases old with
    | nil => simp [replaceFirst]
    | cons c cs => simp at h
  | cons c cs => simp [replaceFirst, h]

theorem Replace1_of_HasPrefix (s old new : String) (h : HasPrefix s old = true) :
    Replace1 s old new = new ++ ⟨s.data.drop old.length⟩ := by
  unfold Replace1
  rw [replaceFirst_of_isPrefixOf _ _ _ h]
  rfl

theorem processParentParameter_of_continues (repos : List String) (payload : GoMap)
    (nodeName : String) (p : Parameter) (h : continues repos payload p.Name = true) :
    processParentParameter repos payload nodeName p = p := by
  unfold processParentParameter
  unfold continues at h
  split_ifs with h1 h2 h3
  · rfl
  · rfl
  · rfl
  · simp [h1, h2, h3] at h

theorem processParentParameter_of_not_continues (repos : List String) (payload : GoMap)
    (nodeName : String) (p : Parameter) (h : continues repos payload p.Name = false) :
    processParentParameter repos payload nodeName p = renameParameter nodeName p := by
  unfold processParentParameter
  unfold continues at h
  simp only [Bool.or_eq_false_iff] at h
  obtain ⟨⟨h1, h2⟩, h3⟩ := h
  rw [if_neg (by simp [h1]), if_neg (by simp [h2]), if_neg (by simp [h3])]

theorem sublist_map_processParentParameter (repos : List String) (payload : GoMap)
    (nodeName : String) (l : List Parameter) :
    ((l.filter (fun p => !continues repos payload p.Name)).map
        (renameParameter nodeName)).Sublist
      (l.map (processParentParameter repos payload nodeName)) := by
  induction l with
  | nil => simp
  | cons p t ih =>
    cases hc : continues repos payload p.Name with
    | true =>
      rw [List.filter_cons_of_neg (by simp [hc]), List.map_cons]
      exact List.Sublist.cons _ ih
    | false =>
      rw [List.filter_cons_of_pos (by simp [hc]), List.map_cons, List.map_cons,
        processParentParameter_of_not_continues _ _ _ _ hc]
      exact List.Sublist.cons₂ _ ih

theorem parentLoop_ok (LoadNodeRunByID : Int → Except String WorkflowNodeRun)
    (w : WorkflowRun) (payload : GoMap) (ids : List Int) :
    ∀ acc out : List Parameter,
      parentLoop LoadNodeRunByID w w.Workflow.GetRepositories payload ids acc = .ok out →
      ∃ tail, out = acc ++ tail ∧
        (inheritedParameters LoadNodeRunByID w payload ids).Sublist tail := by
  induction ids with
  | nil =>
    intro acc out h
    simp only [parentLoop, Except.ok.injEq] at h
    exact ⟨[], by simp [h], by simp [inheritedParameters]⟩
  | cons id rest ih =>
    intro acc out h
    unfold parentLoop at h
    unfold inheritedParameters
    cases hload : LoadNodeRunByID id with
    | error e => simp [hload] at h
    | ok pnr =>
      simp only [hload] at h ⊢
      cases hnode : w.Workflow.GetNode pnr.WorkflowNodeID with
      | none => simp [hnode] at h
      | some node =>
        simp only [hnode] at h ⊢
        obtain ⟨tail, htail, hsub⟩ := ih _ _ h
        refine ⟨pnr.BuildParameters.map
          (processParentParameter w.Workflow.GetRepositories payload node.Name) ++ tail,
          by rw [htail, List.append_assoc], ?_⟩
        exact List.Sublist.append (sublist_map_processParentParameter _ _ _ _) hsub

/-- Renaming keeps the type and the value of a parameter and gives it the name
`workflow.<ancestorNodeName>.` followed by the original name without its leading
`cds.` when it starts with `cds.`, by the whole original name otherwise; and, when
`getParentParameters` succeeds, the parameters of all ancestors that pass the drop
rules, so renamed, occur in the returned list in ancestor iteration order, those of
one ancestor in their original order. -/
theorem getParentParameters_renames_in_order
    (LoadNodeRunByID : Int → Except String WorkflowNodeRun) (w : WorkflowRun)
    (nodeRunIds : List Int) (payload : GoMap) (out : List Parameter)
    (h : getParentParameters LoadNodeRunByID w nodeRunIds payload = .ok out) :
    (inheritedParameters LoadNodeRunByID w payload nodeRunIds).Sublist out ∧
      ∀ (nodeName : String) (p : Parameter),
        (renameParameter nodeName p).Type_ = p.Type_ ∧
        (renameParameter nodeName p).Value = p.Value ∧
        (HasPrefix p.Name "cds." = true →
          (renameParameter nodeName p).Name
            = "workflow." ++ nodeName ++ "." ++ ⟨p.Name.data.drop 4⟩) ∧
        (HasPrefix p.Name "cds." = false →
          (renameParameter nodeName p).Name = "workflow." ++ nodeName ++ "." ++ p.Name) := by
  constructor
  · unfold getParentParameters at h
    obtain ⟨tail, htail, hsub⟩ := parentLoop_ok _ _ _ _ _ _ h
    rw [htail]
    simpa using hsub
  · intro nodeName p
    unfold renameParameter
    cases hp : HasPrefix p.Name "cds." with
    | true =>
      refine ⟨by simp, by simp, ?_, by simp⟩
      intro _
      simp only [if_true]
      rw [Replace1_of_HasPrefix _ _ _ hp]
      rfl
    | false => simp

/-- Instance of the renaming: the run of the ancestor `root` in a workflow without repository. -/
theorem getParentParameters_renames_in_order_witness :
    getParentParameters parentLoad ⟨12, scenarioWorkflow⟩ [100] ∅
      = .ok [⟨"cds.version", "string", "12"⟩,
          ⟨"workflow.root.application", "string", "app1"⟩,
          ⟨"workflow.root.git.token", "string", "secret"⟩,
          ⟨"workflow.root.branch", "string", "main"⟩] ∧
    inheritedParameters parentLoad ⟨12, scenarioWorkflow⟩ ∅ [100]
      = [⟨"workflow.root.application", "string", "app1"⟩,
          ⟨"workflow.root.git.token", "string", "secret"⟩,
          ⟨"workflow.root.branch", "string", "main"⟩] ∧
    (inheritedParameters parentLoad ⟨12, scenarioWorkflow⟩ ∅ [100]).Sublist
      [⟨"cds.version", "string", "12"⟩,
          ⟨"workflow.root.application", "string", "app1"⟩,
          ⟨"workflow.root.git.token", "string", "secret"⟩,
          ⟨"workflow.root.branch", "string", "main"⟩] :=
  ⟨rfl, rfl,
    (getParentParameters_renames_in_order parentLoad ⟨12, scenarioWorkflow⟩ [100] ∅ _
      rfl).1⟩

end workflow

namespace workflow

open sdk

theorem parentLoop_error_of_load_failure
    (LoadNodeRunByID : Int → Except String WorkflowNodeRun) (w : WorkflowRun)
    (repos : List String) (payload : GoMap) (id : Int) (e : String)
    (hfail : LoadNodeRunByID id = .error e) (ids : List Int) (hid : id ∈ ids) :
    ∀ acc : List Parameter,
      ∃ err, parentLoop LoadNodeRunByID w repos payload ids acc = .error err := by
  induction ids with
  | nil => simp at hid
  | cons hd tl ih =>
    intro acc
    unfold parentLoop
    cases hload : LoadNodeRunByID hd with
    | error e2 => exact ⟨_, rfl⟩
    | ok pnr =>
      have hne : id ≠ hd := by
        intro h
        rw [h, hload] at hfail
        cases hfail
      have hid2 : id ∈ tl := by
        rcases List.mem_cons.mp hid with h | h
        · exact absurd h hne
        · exact h
      cases hnode : w.Workflow.GetNode pnr.WorkflowNodeID with
      | none => simp only [hnode]; exact ⟨_, rfl⟩
      | some node => simp only [hnode]; exact ih hid2 _

/-- C11. For every list of ancestor node-run IDs, if the load of one of them fails,
`getParentParameters` returns an error and no parameter list, whatever ancestors
come before the failing one in the list. -/
theorem getParentParameters_load_failure
    (LoadNodeRunByID : Int → Except String WorkflowNodeRun) (w : WorkflowRun)
    (nodeRunIds : List Int) (payload : GoMap) (id : Int) (e : String)
    (hid : id ∈ nodeRunIds) (hfail : LoadNodeRunByID id = .error e) :
    ∃ err, getParentParameters LoadNodeRunByID w nodeRunIds payload = .error err := by
  unfold getParentParameters
  exact parentLoop_error_of_load_failure _ _ _ _ id e hfail nodeRunIds hid []

/-- Witness of C11: the ancestor 100 loads, the ancestor 7 does not. -/
theorem getParentParameters_load_failure_witness :
    (7 : Int) ∈ [100, 7] ∧
    parentLoad 7 = .error "sql: no rows in result set" ∧
    getParentParameters parentLoad scenarioRun [100, 7] ∅
      = .error "getParentParameters> Cannot get parent node run: sql: no rows in result set" ∧
    ∃ err, getParentParameters parentLoad scenarioRun [100, 7] ∅ = .error err :=
  ⟨by decide, rfl, rfl,
    getParentParameters_load_failure parentLoad scenarioRun [100, 7] ∅ 7
      "sql: no rows in result set" (by decide) rfl⟩

end workflow

namespace api

open sdk workflow

/-! Stop of a workflow run, `stopWorkflowRun` -/

theorem stopCalls_append (a b : List StopEvent) :
    stopCalls (a ++ b) = stopCalls a ++ stopCalls b := by
  simp [stopCalls, List.filterMap_append]

theorem stopCalls_map (l : List NodeRunState) :
    stopCalls (l.map StopEvent.StopWorkflowNodeRun) = l := by
  induction l with
  | nil => rfl
  | cons w t ih =>
    simp only [stopCalls, List.map_cons, List.filterMap_cons] at ih ⊢
    rw [ih]

theorem cannotStop_eq_false_iff (run : RunState) (wnr : NodeRunState) :
    cannotStop run wnr = false ↔
      wnr.SubNumber = run.LastSubNumber ∧ wnr.Status ≠ StatusSuccess ∧
        wnr.Status ≠ StatusFail ∧ wnr.Status ≠ StatusSkipped := by
  simp [cannotStop, and_assoc]

/-- The inner loop records, after the calls made before it, calls on a starting
segment of the node runs that can be stopped, and nothing else. -/
theorem stopNodeRuns_events (env : StopEnv) (run : RunState) (l : List NodeRunState) :
    ∀ s : StopState, ∃ pre,
      pre <+: l.filter (fun w => !cannotStop run w) ∧
      (stopNodeRuns env run l s).2.events
        = s.events ++ pre.map StopEvent.StopWorkflowNodeRun ∧
      ((stopNodeRuns env run l s).1 = none → pre = l.filter (fun w => !cannotStop run w)) := by
  induction l with
  | nil => intro s; exact ⟨[], by simp, by simp [stopNodeRuns], by simp⟩
  | cons w t ih =>
    intro s
    unfold stopNodeRuns
    cases hc : cannotStop run w with
    | true =>
      obtain ⟨pre, hpre, hev, hnone⟩ := ih s
      refine ⟨pre, ?_, ?_, ?_⟩
      · simpa [hc] using hpre
      · simpa using hev
      · intro h
        have := hnone (by simpa using h)
        simpa [hc] using this
    | false =>
      simp only [Bool.false_eq_true, if_false]
      unfold StopWorkflowNodeRun
      cases hs : env.StopWorkflowNodeRun w with
      | error errS =>
        refine ⟨[w], ?_, ?_, ?_⟩
        · simp [hc, List.prefix_cons_inj, List.nil_prefix]
        · simp
        · intro h; simp at h
      | ok r1 =>
        obtain ⟨pre, hpre, hev, hnone⟩ := ih
          ⟨s.report.Merge (some r1), ⟨s.db.runs, s.db.nodeRuns.insert w.ID StatusStopped⟩,
            s.events ++ [.StopWorkflowNodeRun w]⟩
        refine ⟨w :: pre, ?_, ?_, ?_⟩
        · simp [hc, List.prefix_cons_inj, hpre]
        · simp only at hev ⊢
          rw [hev]
          simp
        · intro h
          have := hnone (by simpa using h)
          simp [hc, this]

theorem stopAllNodeRuns_events (env : StopEnv) (run : RunState)
    (l : List ((_ : Int) × List NodeRunState)) :
    ∀ s : StopState, ∃ pre,
      pre <+: (l.flatMap (fun wn => wn.2)).filter (fun w => !cannotStop run w) ∧
      (stopAllNodeRuns env run l s).2.events
        = s.events ++ pre.map StopEvent.StopWorkflowNodeRun ∧
      ((stopAllNodeRuns env run l s).1 = none →
        pre = (l.flatMap (fun wn => wn.2)).filter (fun w => !cannotStop run w)) := by
  induction l with
  | nil => intro s; exact ⟨[], by simp, by simp [stopAllNodeRuns], by simp⟩
  | cons wn t ih =>
    intro s
    unfold stopAllNodeRuns
    obtain ⟨pre1, hpre1, hev1, hnone1⟩ := stopNodeRuns_events env run wn.2 s
    cases hres : stopNodeRuns env run wn.2 s with
    | mk r s1 =>
      rw [hres] at hev1 hnone1
      cases r with
      | some err =>
        refine ⟨pre1, ?_, ?_, ?_⟩
        · simp only [List.flatMap_cons, List.filter_append]
          exact hpre1.trans (List.prefix_append _ _)
        · simpa using hev1
        · intro h; simp at h
      | none =>
        have hp1 := hnone1 rfl
        obtain ⟨pre2, hpre2, hev2, hnone2⟩ := ih s1
        refine ⟨pre1 ++ pre2, ?_, ?_, ?_⟩
        · simp only [List.flatMap_cons, List.filter_append]
          rw [hp1]
          exact (List.prefix_append_right_inj _).mpr hpre2
        · simp only at hev1 hev2 ⊢
          rw [hev2, hev1]
          simp
        · intro h
          have := hnone2 (by simpa using h)
          simp only [List.flatMap_cons, List.filter_append]
          rw [hp1, this]

end api

namespace api

open sdk workflow

theorem stopWorkflowRun_stopCalls (env : StopEnv) (db : Database) (run : RunState) :
    stopCalls (stopWorkflowRun env db run).events
      = match env.Begin with
        | some _ => []
        | none =>
          stopCalls (stopAllNodeRuns env run run.WorkflowNodeRuns.entries
            ⟨ProcessorReport.new, db, [.Begin]⟩).2.events := by
  unfold stopWorkflowRun
  cases env.Begin with
  | some errTx => rfl
  | none =>
    simp only []
    cases hloop : stopAllNodeRuns env run run.WorkflowNodeRuns.entries
        ⟨ProcessorReport.new, db, [.Begin]⟩ with
    | mk r s =>
      cases r with
      | some err => simp [stopCalls_append, stopCalls]
      | none =>
        simp only []
        cases env.UpdateWorkflowRun (withStatus run StatusStopped) with
        | some errU => simp [stopCalls_append, stopCalls]
        | none =>
          simp only []
          cases env.Commit with
          | some err => simp [stopCalls_append, stopCalls]
          | none => simp [stopCalls_append, stopCalls]

/-- The node-stop routine is invoked on a starting segment of the node runs that can
be stopped, taken in the order of the two loops. -/
theorem stopWorkflowRun_stopCalls_initial (env : StopEnv) (db : Database) (run : RunState) :
    stopCalls (stopWorkflowRun env db run).events
      <+: (allNodeRuns run).filter (fun w => !cannotStop run w) := by
  rw [stopWorkflowRun_stopCalls]
  cases env.Begin with
  | some errTx => exact List.nil_prefix
  | none =>
    obtain ⟨pre, hpre, hev, _⟩ := stopAllNodeRuns_events env run
      run.WorkflowNodeRuns.entries ⟨ProcessorReport.new, db, [.Begin]⟩
    simp only []
    rw [hev, stopCalls_append, stopCalls_map]
    simpa [stopCalls, allNodeRuns] using hpre

theorem stopNodeRuns_none (env : StopEnv) (run : RunState) (l : List NodeRunState)
    (hok : ∀ w ∈ l, cannotStop run w = false → ∃ r1, env.StopWorkflowNodeRun w = .ok r1) :
    ∀ s : StopState, (stopNodeRuns env run l s).1 = none := by
  induction l with
  | nil => intro s; rfl
  | cons w t ih =>
    intro s
    have iht := ih (fun w2 hw2 => hok w2 (List.mem_cons_of_mem _ hw2))
    unfold stopNodeRuns
    cases hc : cannotStop run w with
    | true => simpa using iht s
    | false =>
      obtain ⟨r1, hr1⟩ := hok w (List.mem_cons_self _ _) hc
      simp only [Bool.false_eq_true, if_false, StopWorkflowNodeRun, hr1]
      exact iht _

theorem stopAllNodeRuns_none (env : StopEnv) (run : RunState)
    (l : List ((_ : Int) × List NodeRunState))
    (hok : ∀ w ∈ l.flatMap (fun wn => wn.2), cannotStop run w = false →
      ∃ r1, env.StopWorkflowNodeRun w = .ok r1) :
    ∀ s : StopState, (stopAllNodeRuns env run l s).1 = none := by
  induction l with
  | nil => intro s; rfl
  | cons wn t ih =>
    intro s
    unfold stopAllNodeRuns
    have h1 := stopNodeRuns_none env run wn.2
      (fun w hw => hok w (by simp [List.flatMap_cons, hw])) s
    cases hres : stopNodeRuns env run wn.2 s with
    | mk r s1 =>
      rw [hres] at h1
      simp only at h1
      subst h1
      exact ih (fun w hw => hok w (by
        simp only [List.flatMap_cons, List.mem_append]
        exact Or.inr hw)) s1

/-- C15, counterexample. In a run with two Building node runs at the last sub-number,
when the node-stop routine fails on the first, it is never invoked on the second,
which can be stopped. -/
theorem stopWorkflowRun_stop_calls_counterexample :
    allNodeRuns stopRunTwo = [nodeRunOf 201 0 StatusBuilding, nodeRunOf 202 0 StatusBuilding] ∧
    stopRunTwo.LastSubNumber = 0 ∧
    stopCalls (stopWorkflowRun (stopEnvFailOn 201) emptyDB stopRunTwo).events
      = [nodeRunOf 201 0 StatusBuilding] :=
  ⟨rfl, rfl, rfl⟩

/-- C16, evaluation. On a run whose node runs at the last sub-number have the statuses
Building, Success and Fail and on which every collaborator succeeds, `stopWorkflowRun`
returns a report that holds the run, the status of the run is Stopped, the Success
and Fail node runs keep their statuses, and the Building node run of the run still
has the status Building: line 370 writes the loop variable, not the run. -/
theorem stopWorkflowRun_leaves_node_run_building :
    (stopWorkflowRun stopEnvOk emptyDB stopRun).result
      = .ok ⟨[withStatus stopRun StatusStopped], [], []⟩ ∧
    (stopWorkflowRun stopEnvOk emptyDB stopRun).run.Status = StatusStopped ∧
    stopCalls (stopWorkflowRun stopEnvOk emptyDB stopRun).events
      = [nodeRunOf 101 1 StatusBuilding] ∧
    (stopWorkflowRun stopEnvOk emptyDB stopRun).run.WorkflowNodeRuns.lookup 1
      = some [nodeRunOf 101 1 StatusBuilding, nodeRunOf 102 1 StatusSuccess,
          nodeRunOf 103 1 StatusFail, nodeRunOf 100 0 StatusBuilding] :=
  ⟨rfl, rfl, rfl, rfl⟩

end api

namespace api

open sdk workflow

/-- The node runs of the run are not written by `stopWorkflowRun`. -/
theorem stopWorkflowRun_WorkflowNodeRuns (env : StopEnv) (db : Database) (run : RunState) :
    (stopWorkflowRun env db run).run.WorkflowNodeRuns = run.WorkflowNodeRuns := by
  unfold stopWorkflowRun
  cases env.Begin with
  | some errTx => rfl
  | none =>
    simp only []
    cases stopAllNodeRuns env run run.WorkflowNodeRuns.entries
        ⟨ProcessorReport.new, db, [.Begin]⟩ with
    | mk r s =>
      cases r with
      | some err => rfl
      | none =>
        simp only []
        cases env.UpdateWorkflowRun (withStatus run StatusStopped) with
        | some errU => rfl
        | none =>
          simp only []
          cases env.Commit with
          | some err => rfl
          | none => rfl

theorem stopNodeRuns_fails (env : StopEnv) (run : RunState) (l : List NodeRunState)
    (wnr : NodeRunState) (e : String) (hmem : wnr ∈ l)
    (hc : cannotStop run wnr = false) (hfail : env.StopWorkflowNodeRun wnr = .error e) :
    ∀ s : StopState, ∃ err, (stopNodeRuns env run l s).1 = some err := by
  induction l with
  | nil => simp at hmem
  | cons w t ih =>
    intro s
    unfold stopNodeRuns
    cases hcw : cannotStop run w with
    | true =>
      have hne : wnr ≠ w := by
        intro h
        rw [h, hcw] at hc
        cases hc
      have hmem2 : wnr ∈ t := by
        rcases List.mem_cons.mp hmem with h | h
        · exact absurd h hne
        · exact h
      simpa using ih hmem2 s
    | false =>
      simp only [Bool.false_eq_true, if_false, StopWorkflowNodeRun]
      cases hs : env.StopWorkflowNodeRun w with
      | error errS => exact ⟨_, rfl⟩
      | ok r1 =>
        have hne : wnr ≠ w := by
          intro h
          rw [h, hs] at hfail
          cases hfail
        have hmem2 : wnr ∈ t := by
          rcases List.mem_cons.mp hmem with h | h
          · exact absurd h hne
          · exact h
        exact ih hmem2 _

theorem stopAllNodeRuns_fails (env : StopEnv) (run : RunState)
    (l : List ((_ : Int) × List NodeRunState))
    (wnr : NodeRunState) (e : String) (hmem : wnr ∈ l.flatMap (fun wn => wn.2))
    (hc : cannotStop run wnr = false) (hfail : env.StopWorkflowNodeRun wnr = .error e) :
    ∀ s : StopState, ∃ err, (stopAllNodeRuns env run l s).1 = some err := by
  induction l with
  | nil => simp at hmem
  | cons wn t ih =>
    intro s
    unfold stopAllNodeRuns
    cases hres : stopNodeRuns env run wn.2 s with
    | mk r s1 =>
      cases r with
      | some err => exact ⟨err, rfl⟩
      | none =>
        simp only []
        have hmem2 : wnr ∈ t.flatMap (fun wn => wn.2) := by
          simp only [List.flatMap_cons, List.mem_append] at hmem
          rcases hmem with h | h
          · obtain ⟨err, herr⟩ := stopNodeRuns_fails env run wn.2 wnr e h hc hfail s
            rw [hres] at herr
            cases herr
          · exact h
        exact ih hmem2 s1

/-- The loops leave the persisted runs as they are, and every node run on which the
node-stop routine was invoked with success is persisted as Stopped. -/
theorem stopNodeRuns_db (env : StopEnv) (run : RunState) (l : List NodeRunState) :
    ∀ s : StopState,
      (∀ w r1, StopEvent.StopWorkflowNodeRun w ∈ s.events →
        env.StopWorkflowNodeRun w = .ok r1 →
        s.db.nodeRuns.lookup w.ID = some StatusStopped) →
      (stopNodeRuns env run l s).2.db.runs = s.db.runs ∧
      (∀ w r1, StopEvent.StopWorkflowNodeRun w ∈ (stopNodeRuns env run l s).2.events →
        env.StopWorkflowNodeRun w = .ok r1 →
        (stopNodeRuns env run l s).2.db.nodeRuns.lookup w.ID = some StatusStopped) := by
  induction l with
  | nil => intro s hs; exact ⟨rfl, hs⟩
  | cons w t ih =>
    intro s hs
    unfold stopNodeRuns
    cases hcw : cannotStop run w with
    | true => simpa using ih s hs
    | false =>
      simp only [Bool.false_eq_true, if_false, StopWorkflowNodeRun]
      cases hsw : env.StopWorkflowNodeRun w with
      | error errS =>
        refine ⟨rfl, ?_⟩
        intro w2 r1 hw2 hok
        simp only [List.mem_append, List.mem_singleton] at hw2
        rcases hw2 with h | h
        · exact hs w2 r1 h hok
        · injection h with h
          rw [h, hsw] at hok
          cases hok
      | ok r0 =>
        have hs2 : ∀ w2 r1, StopEvent.StopWorkflowNodeRun w2
              ∈ s.events ++ [StopEvent.StopWorkflowNodeRun w] →
            env.StopWorkflowNodeRun w2 = .ok r1 →
            (s.db.nodeRuns.insert w.ID StatusStopped).lookup w2.ID = some StatusStopped := by
          intro w2 r1 hw2 hok
          by_cases hid : w2.ID = w.ID
          · rw [hid, AList.lookup_insert]
          · rw [AList.lookup_insert_ne hid]
            simp only [List.mem_append, List.mem_singleton] at hw2
            rcases hw2 with h | h
            · exact hs w2 r1 h hok
            · injection h with h
              exact absurd (by rw [h]) hid
        have := ih ⟨s.report.Merge (some r0),
          ⟨s.db.runs, s.db.nodeRuns.insert w.ID StatusStopped⟩,
          s.events ++ [.StopWorkflowNodeRun w]⟩ hs2
        exact this

theorem stopAllNodeRuns_db (env : StopEnv) (run : RunState)
    (l : List ((_ : Int) × List NodeRunState)) :
    ∀ s : StopState,
      (∀ w r1, StopEvent.StopWorkflowNodeRun w ∈ s.events →
        env.StopWorkflowNodeRun w = .ok r1 →
        s.db.nodeRuns.lookup w.ID = some StatusStopped) →
      (stopAllNodeRuns env run l s).2.db.runs = s.db.runs ∧
      (∀ w r1, StopEvent.StopWorkflowNodeRun w ∈ (stopAllNodeRuns env run l s).2.events →
        env.StopWorkflowNodeRun w = .ok r1 →
        (stopAllNodeRuns env run l s).2.db.nodeRuns.lookup w.ID = some StatusStopped) := by
  induction l with
  | nil => intro s hs; exact ⟨rfl, hs⟩
  | cons wn t ih =>
    intro s hs
    unfold stopAllNodeRuns
    have h1 := stopNodeRuns_db env run wn.2 s hs
    cases hres : stopNodeRuns env run wn.2 s with
    | mk r s1 =>
      rw [hres] at h1
      cases r with
      | some err => exact h1
      | none =>
        simp only []
        have h2 := ih s1 h1.2
        exact ⟨h2.1.trans h1.1, h2.2⟩

theorem mem_stopCalls (events : List StopEvent) (w : NodeRunState) :
    w ∈ stopCalls events ↔ StopEvent.StopWorkflowNodeRun w ∈ events := by
  unfold stopCalls
  rw [List.mem_filterMap]
  constructor
  · rintro ⟨e, he, hw⟩
    cases e with
    | StopWorkflowNodeRun w2 =>
      simp only [Option.some.injEq] at hw
      rw [← hw]; exact he
    | Begin => simp at hw
    | UpdateWorkflowRun id st => simp at hw
    | Commit => simp at hw
    | Rollback => simp at hw
  · intro h
    exact ⟨_, h, rfl⟩

end api

namespace api

open sdk workflow

/-- C17, counterexample. In a run with two Building node runs, the node-stop routine
succeeds on the first and fails on the second: `stopWorkflowRun` returns an error and
rolls back, and the first node run is persisted as Stopped. -/
theorem stopWorkflowRun_node_stop_failure_counterexample :
    (stopWorkflowRun (stopEnvFailOn 202) emptyDB stopRunTwo).result
      = .error "stopWorkflowRunHandler> Unable to stop workflow node run 202: cannot stop" ∧
    (stopWorkflowRun (stopEnvFailOn 202) emptyDB stopRunTwo).events
      = [.Begin, .StopWorkflowNodeRun (nodeRunOf 201 0 StatusBuilding),
          .StopWorkflowNodeRun (nodeRunOf 202 0 StatusBuilding), .Rollback] ∧
    (stopWorkflowRun (stopEnvFailOn 202) emptyDB stopRunTwo).db.nodeRuns.lookup 201
      = some StatusStopped :=
  ⟨rfl, rfl, rfl⟩

/-- C17, amended. For every run, if the node-stop routine fails on a node run of the
run that can be stopped, `stopWorkflowRun` returns an error and no report, the run
keeps its status and its node runs, the run is not updated in the database, the
transaction is not committed, and every node run on which the routine succeeded
earlier in the same call is persisted as Stopped. -/
theorem stopWorkflowRun_node_stop_failure (env : StopEnv) (db : Database)
    (run : RunState) (wnr : NodeRunState) (e : String)
    (hmem : wnr ∈ allNodeRuns run) (hc : cannotStop run wnr = false)
    (hfail : env.StopWorkflowNodeRun wnr = .error e) :
    (∃ err, (stopWorkflowRun env db run).result = .error err) ∧
      (stopWorkflowRun env db run).run = run ∧
      (∀ id st, StopEvent.UpdateWorkflowRun id st ∉ (stopWorkflowRun env db run).events) ∧
      StopEvent.Commit ∉ (stopWorkflowRun env db run).events ∧
      (stopWorkflowRun env db run).db.runs = db.runs ∧
      (∀ w r1, w ∈ stopCalls (stopWorkflowRun env db run).events →
        env.StopWorkflowNodeRun w = .ok r1 →
        (stopWorkflowRun env db run).db.nodeRuns.lookup w.ID = some StatusStopped) := by
  unfold stopWorkflowRun
  cases env.Begin with
  | some errTx =>
    refine ⟨⟨_, rfl⟩, rfl, ?_, ?_, rfl, ?_⟩
    · intro id st; simp
    · simp
    · intro w r1 hw; simp [stopCalls] at hw
  | none =>
    simp only []
    obtain ⟨err, herr⟩ := stopAllNodeRuns_fails env run run.WorkflowNodeRuns.entries
      wnr e hmem hc hfail ⟨ProcessorReport.new, db, [.Begin]⟩
    obtain ⟨pre, _, hev, _⟩ := stopAllNodeRuns_events env run
      run.WorkflowNodeRuns.entries ⟨ProcessorReport.new, db, [.Begin]⟩
    have hdb := stopAllNodeRuns_db env run run.WorkflowNodeRuns.entries
      ⟨ProcessorReport.new, db, [.Begin]⟩ (by intro w r1 hw; simp at hw)
    cases hloop : stopAllNodeRuns env run run.WorkflowNodeRuns.entries
        ⟨ProcessorReport.new, db, [.Begin]⟩ with
    | mk r s =>
      rw [hloop] at herr hev hdb
      simp only at herr hev hdb
      subst herr
      simp only []
      refine ⟨⟨_, rfl⟩, trivial, ?_, ?_, hdb.1, ?_⟩
      · intro id st
        rw [hev]
        simp
      · rw [hev]
        simp
      · intro w r1 hw hok
        rw [mem_stopCalls] at hw
        simp only [List.mem_append, List.mem_singleton] at hw
        rcases hw with h | h
        · exact hdb.2 w r1 h hok
        · cases h

/-- Witness of the amended C17: the run with two Building node runs, the routine
failing on the second. -/
theorem stopWorkflowRun_node_stop_failure_witness :
    nodeRunOf 202 0 StatusBuilding ∈ allNodeRuns stopRunTwo ∧
    cannotStop stopRunTwo (nodeRunOf 202 0 StatusBuilding) = false ∧
    (stopEnvFailOn 202).StopWorkflowNodeRun (nodeRunOf 202 0 StatusBuilding)
      = .error "cannot stop" ∧
    (stopWorkflowRun (stopEnvFailOn 202) emptyDB stopRunTwo).run.Status = StatusBuilding ∧
    StopEvent.Commit ∉ (stopWorkflowRun (stopEnvFailOn 202) emptyDB stopRunTwo).events ∧
    (stopWorkflowRun (stopEnvFailOn 202) emptyDB stopRunTwo).db.runs = emptyDB.runs :=
  have h := stopWorkflowRun_node_stop_failure (stopEnvFailOn 202) emptyDB stopRunTwo
    (nodeRunOf 202 0 StatusBuilding) "cannot stop" (by decide) rfl rfl
  ⟨by decide, rfl, rfl, rfl, h.2.2.2.1, h.2.2.2.2.1⟩

end api

namespace api

open sdk workflow

/-! Start of a workflow run, `startWorkflowRun` and `runFromNode` -/

theorem lookupFromNodes_notFound (lastRun : WorkflowRun) (id : Int)
    (hnode : lastRun.Workflow.GetNode id = none) (ids : List Int) (hid : id ∈ ids) :
    ∀ acc : List (Option WorkflowNode),
      ∃ fromNodeID ∈ ids, lastRun.Workflow.GetNode fromNodeID = none ∧
        lookupFromNodes lastRun ids acc = .notFound fromNodeID := by
  induction ids with
  | nil => simp at hid
  | cons hd tl ih =>
    intro acc
    unfold lookupFromNodes
    cases hhd : lastRun.Workflow.GetNode hd with
    | none => exact ⟨hd, List.mem_cons_self _ _, hhd, rfl⟩
    | some n =>
      have hne : id ≠ hd := by
        intro h
        rw [h, hhd] at hnode
        cases hnode
      have hid2 : id ∈ tl := by
        rcases List.mem_cons.mp hid with h | h
        · exact absurd h hne
        · exact h
      obtain ⟨f, hf, hfn, hres⟩ := ih hid2 (acc ++ [some n])
      exact ⟨f, List.mem_cons_of_mem _ hf, hfn, hres⟩

/-- C12. For every manual start (no hook event, the transaction begun) with a previous
run whose from-node IDs contain an ID that is not a node of the workflow of the
previous run, `startWorkflowRun` returns the node-not-found error, wrapped, for
such an ID, and no report; the only calls made are the begin of the transaction and
its rollback: no branch, no creation routine, no commit. -/
theorem startWorkflowRun_node_not_found (env : StartEnv) (sched : List Nat) (p : Project)
    (wf : Workflow) (lastRun : WorkflowRun) (opts : WorkflowRunPostHandlerOption)
    (u : User) (id : Int)
    (hbegin : env.Begin = none) (hhook : opts.Hook = none)
    (hid : id ∈ opts.FromNodeIDs) (hnode : lastRun.Workflow.GetNode id = none) :
    ∃ fromNodeID ∈ opts.FromNodeIDs, lastRun.Workflow.GetNode fromNodeID = none ∧
      startWorkflowRun env sched p wf (some lastRun) opts u
        = (.error (WrapError ErrWorkflowNodeNotFound
              ("startWorkflowRun> Payload: Unable to get node " ++ toString fromNodeID)),
            [.Begin, .Rollback]) := by
  obtain ⟨f, hf, hfn, hres⟩ := lookupFromNodes_notFound lastRun id hnode _ hid []
  refine ⟨f, hf, hfn, ?_⟩
  have hlen : opts.FromNodeIDs.length > 0 := List.length_pos_of_mem hid
  unfold startWorkflowRun
  simp only [hbegin, hhook, resolveFromNodes, hlen, if_true, hres]

/-- Witness of C12: a start from the node 1 and from the node 9, which the workflow
of the previous run does not have. -/
theorem startWorkflowRun_node_not_found_witness :
    (startEnv true).Begin = none ∧ startFromMissing.Hook = none ∧
    (9 : Int) ∈ startFromMissing.FromNodeIDs ∧
    previousRun.Workflow.GetNode 9 = none ∧
    startWorkflowRun (startEnv true) [0, 1] scenarioProject twoNodeWorkflow
        (some previousRun) startFromMissing caller
      = (.error
          "startWorkflowRun> Payload: Unable to get node 9: workflow node not found",
          [.Begin, .Rollback]) ∧
    ∃ fromNodeID ∈ startFromMissing.FromNodeIDs,
      previousRun.Workflow.GetNode fromNodeID = none ∧
      startWorkflowRun (startEnv true) [0, 1] scenarioProject twoNodeWorkflow
          (some previousRun) startFromMissing caller
        = (.error (WrapError ErrWorkflowNodeNotFound
              ("startWorkflowRun> Payload: Unable to get node " ++ toString fromNodeID)),
            [.Begin, .Rollback]) :=
  ⟨rfl, rfl, by decide, rfl, rfl,
    startWorkflowRun_node_not_found (startEnv true) [0, 1] scenarioProject twoNodeWorkflow
      previousRun startFromMissing caller 9 rfl rfl (by decide) rfl⟩

theorem branchResults_get? (env : StartEnv) (manual : WorkflowNodeRunManual) (p : Project)
    (lastRun : Option WorkflowRun) (u : User) (l : List (Option WorkflowNode)) :
    ∀ i j : Nat,
      (branchResults env manual p lastRun u i l)[j]?
        = (l[j]?).map (fun n => runFromNode env (i + j) manual p lastRun u n) := by
  induction l with
  | nil => intro i j; simp [branchResults]
  | cons n t ih =>
    intro i j
    cases j with
    | zero => simp [branchResults]
    | succ j =>
      simp only [branchResults, List.getElem?_cons_succ]
      rw [ih (i + 1) j]
      have : i + 1 + j = i + (j + 1) := by omega
      rw [this]

theorem flatMap_filterMap_eq {α β γ : Type} (f : α → Option β) (g : β → List γ)
    (l : List α) :
    (l.filterMap f).flatMap g = l.flatMap (fun a => (f a).toList.flatMap g) := by
  induction l with
  | nil => rfl
  | cons a t ih =>
    cases hfa : f a with
    | none => simp [List.filterMap_cons, hfa, ih]
    | some b => simp [List.filterMap_cons, hfa, ih]

theorem foldl_branchReport_errors (ordered : List (RunResult × List StartEvent)) :
    ∀ report : ProcessorReport,
      (ordered.foldl (fun report b => branchReport report b.1) report).errors
        = report.errors ++ ordered.flatMap (fun b => contribution b.1) := by
  induction ordered with
  | nil => intro report; simp
  | cons b t ih =>
    intro report
    rw [List.foldl_cons, ih]
    cases hb : b.1 with
    | ok r1 =>
      simp [branchReport, contribution, hb, ProcessorReport.Merge]
    | error err =>
      simp [branchReport, contribution, hb, ProcessorReport.Merge, ProcessorReport.AddError]
    | panic => simp [branchReport, contribution, hb]

theorem flatMap_single_of_nodup (k : Nat) (e : String) (l : List Nat) (hnd : l.Nodup)
    (hk : k ∈ l) (c : Nat → List String) (hck : c k = [e])
    (hc : ∀ j ∈ l, j ≠ k → c j = []) : l.flatMap c = [e] := by
  induction l with
  | nil => simp at hk
  | cons a t ih =>
    rw [List.nodup_cons] at hnd
    rw [List.flatMap_cons]
    by_cases hak : a = k
    · subst hak
      have ht : t.flatMap c = [] := by
        rw [List.flatMap_eq_nil_iff]
        intro j hj
        exact hc j (List.mem_cons_of_mem _ hj) (fun h => hnd.1 (h ▸ hj))
      rw [hck, ht]
      rfl
    · have hk2 : k ∈ t := by
        rcases List.mem_cons.mp hk with h | h
        · exact absurd h.symm hak
        · exact h
      rw [hc a (List.mem_cons_self _ _) hak,
        ih hnd.2 hk2 (fun j hj => hc j (List.mem_cons_of_mem _ hj))]
      rfl

theorem flatMap_nil_of_forall {α β : Type} (l : List α) (c : α → List β)
    (hc : ∀ j ∈ l, c j = []) : l.flatMap c = [] := by
  rw [List.flatMap_eq_nil_iff]
  exact hc

end api

namespace api

open sdk workflow

theorem any_filterMap_eq {α β : Type} (f : α → Option β) (q : β → Bool) (l : List α) :
    (l.filterMap f).any q = l.any (fun a => (f a).toList.any q) := by
  induction l with
  | nil => rfl
  | cons a t ih =>
    cases hfa : f a with
    | none => simp [List.filterMap_cons, hfa, ih]
    | some b => simp [List.filterMap_cons, hfa, ih]

/-- The shared report at the barrier, the calls of the branches and the nil
dereference, branch by branch in the order `sched`. -/
theorem fanOut_eq (env : StartEnv) (manual : WorkflowNodeRunManual) (p : Project)
    (lastRun : Option WorkflowRun) (u : User) (fromNodes : List (Option WorkflowNode))
    (sched : List Nat) :
    (fanOut env manual p lastRun u fromNodes sched).1.errors
        = sched.flatMap (fun i =>
            ((fromNodes[i]?).map
              (fun n => runFromNode env i manual p lastRun u n)).toList.flatMap
              (fun b => contribution b.1)) ∧
      (fanOut env manual p lastRun u fromNodes sched).2.1
        = sched.flatMap (fun i =>
            ((fromNodes[i]?).map
              (fun n => runFromNode env i manual p lastRun u n)).toList.flatMap
              (fun b => b.2)) ∧
      (fanOut env manual p lastRun u fromNodes sched).2.2
        = sched.any (fun i =>
            ((fromNodes[i]?).map
              (fun n => runFromNode env i manual p lastRun u n)).toList.any
              (fun b => b.1.isPanic)) := by
  have hget : (fun i => (branchResults env manual p lastRun u 0 fromNodes)[i]?)
      = (fun i => (fromNodes[i]?).map
          (fun n => runFromNode env i manual p lastRun u n)) := by
    funext i
    rw [branchResults_get?]
    simp
  unfold fanOut
  simp only []
  rw [hget]
  refine ⟨?_, ?_, ?_⟩
  · rw [foldl_branchReport_errors, flatMap_filterMap_eq]
    simp [ProcessorReport.new]
  · rw [flatMap_filterMap_eq]
  · rw [any_filterMap_eq]

theorem runFromNode_all_isBranchEvent (env : StartEnv) (i : Nat)
    (manual : WorkflowNodeRunManual) (p : Project) (lastRun : Option WorkflowRun)
    (u : User) (fromNode : Option WorkflowNode) :
    (runFromNode env i manual p lastRun u fromNode).2.all isBranchEvent = true := by
  unfold runFromNode manualRunFromNode commitBranch
  repeat' split
  all_goals simp [isBranchEvent]

/-- Every call that `runFromNode` makes is a call of the branch. -/
theorem runFromNode_isBranchEvent (env : StartEnv) (i : Nat)
    (manual : WorkflowNodeRunManual) (p : Project) (lastRun : Option WorkflowRun)
    (u : User) (fromNode : Option WorkflowNode) :
    ∀ ev ∈ (runFromNode env i manual p lastRun u fromNode).2, isBranchEvent ev = true :=
  List.all_eq_true.mp (runFromNode_all_isBranchEvent env i manual p lastRun u fromNode)

/-- Without a previous run `runFromNode` does not invoke the run-from-node creation
routine. -/
theorem runFromNode_fromNodeCall_none (env : StartEnv) (i : Nat)
    (manual : WorkflowNodeRunManual) (p : Project) (u : User)
    (fromNode : Option WorkflowNode) :
    (runFromNode env i manual p none u fromNode).2.filterMap fromNodeCall = [] := by
  unfold runFromNode
  simp only [manualRunFromNode, commitBranch]
  repeat' split
  all_goals simp [fromNodeCall, List.filterMap_cons, List.filterMap_append]

/-- With a previous run, a `runFromNode` that returns a report has invoked the
run-from-node creation routine exactly once, for the number of the previous run and
the ID of its from-node, with the user of the manual trigger. -/
theorem runFromNode_fromNodeCall_ok (env : StartEnv) (i : Nat)
    (manual : WorkflowNodeRunManual) (p : Project) (lastRun : WorkflowRun) (u : User)
    (fromNode : Option WorkflowNode) (r : ProcessorReport)
    (hok : (runFromNode env i manual p (some lastRun) u fromNode).1 = .ok r) :
    ∃ node, fromNode = some node ∧
      (runFromNode env i manual p (some lastRun) u fromNode).2.filter
          (fun ev => (fromNodeCall ev).isSome)
        = [.ManualRunFromNode i lastRun.Number node.ID manual.User] := by
  unfold runFromNode manualRunFromNode commitBranch at hok ⊢
  repeat' split at hok
  all_goals first
    | (exfalso; simp at hok; done)
    | (simp_all [fromNodeCall, List.filter_cons, List.filter_append])

end api

namespace api

open sdk workflow

theorem manualOf_User (opts : WorkflowRunPostHandlerOption) (u : User) :
    (manualOf opts u).User = manualUser u := by
  unfold manualOf
  cases opts.Manual <;> rfl

theorem fanOut_isBranchEvent (env : StartEnv) (manual : WorkflowNodeRunManual) (p : Project)
    (lastRun : Option WorkflowRun) (u : User) (fromNodes : List (Option WorkflowNode))
    (sched : List Nat) :
    ∀ ev ∈ (fanOut env manual p lastRun u fromNodes sched).2.1, isBranchEvent ev = true := by
  intro ev hev
  rw [(fanOut_eq env manual p lastRun u fromNodes sched).2.1] at hev
  rw [List.mem_flatMap] at hev
  obtain ⟨i, _, hi⟩ := hev
  cases hn : fromNodes[i]? with
  | none => simp [hn] at hi
  | some n =>
    simp only [hn, Option.map_some', Option.toList_some, List.flatMap_singleton] at hi
    exact runFromNode_isBranchEvent env i manual p lastRun u n ev hi

theorem manualRunCall_of_isBranchEvent (ev : StartEvent) (h : isBranchEvent ev = true) :
    manualRunCall ev = none := by
  cases ev <;> first | rfl | simp [isBranchEvent] at h

theorem mem_sched_lt (sched : List Nat) (n : Nat) (hsched : sched.Perm (List.range n))
    (i : Nat) (hi : i ∈ sched) : i < n :=
  List.mem_range.mp ((hsched.mem_iff).mp hi)

/-- C13. For every manual start (no hook event, the transaction begun, the from-nodes
resolved) with N from-nodes in which the branch `k` fails with the error `e` and
the N-1 others return a report without error, in whatever order the branches reach
the shared report: the error list of the shared report at the barrier is exactly
`[e]`, `startWorkflowRun` returns `e` and no report, it does not invoke the
full-workflow creation routine, and it does not commit the outer transaction. -/
theorem startWorkflowRun_one_branch_fails (env : StartEnv) (sched : List Nat)
    (p : Project) (wf : Workflow) (lastRun : Option WorkflowRun)
    (opts : WorkflowRunPostHandlerOption) (u : User)
    (fromNodes : List (Option WorkflowNode)) (k : Nat) (nk : Option WorkflowNode)
    (e : String)
    (hbegin : env.Begin = none) (hhook : opts.Hook = none)
    (hres : resolveFromNodes wf lastRun opts.FromNodeIDs = .nodes fromNodes)
    (hsched : sched.Perm (List.range fromNodes.length))
    (hk : fromNodes[k]? = some nk)
    (hfail : (runFromNode env k (manualOf opts u) p lastRun u nk).1 = .error e)
    (hothers : ∀ j nj, j ≠ k → fromNodes[j]? = some nj →
      ∃ r, (runFromNode env j (manualOf opts u) p lastRun u nj).1 = .ok r ∧
        r.errors = []) :
    (fanOut env (manualOf opts u) p lastRun u fromNodes sched).1.errors = [e] ∧
      (startWorkflowRun env sched p wf lastRun opts u).1 = .error e ∧
      (∀ ev ∈ (startWorkflowRun env sched p wf lastRun opts u).2,
        manualRunCall ev = none) ∧
      StartEvent.Commit ∉ (startWorkflowRun env sched p wf lastRun opts u).2 := by
  obtain ⟨herr, _, hpanic⟩ := fanOut_eq env (manualOf opts u) p lastRun u fromNodes sched
  have hbranch := fanOut_isBranchEvent env (manualOf opts u) p lastRun u fromNodes sched
  have hklt : k < fromNodes.length := by
    rcases Nat.lt_or_ge k fromNodes.length with h | h
    · exact h
    · rw [List.getElem?_eq_none h] at hk
      cases hk
  have hnd : sched.Nodup := (hsched.nodup_iff).mpr (List.nodup_range _)
  have hkmem : k ∈ sched := (hsched.mem_iff).mpr (List.mem_range.mpr hklt)
  have herrs : (fanOut env (manualOf opts u) p lastRun u fromNodes sched).1.errors = [e] := by
    rw [herr]
    apply flatMap_single_of_nodup k e sched hnd hkmem
    · simp [hk, hfail, contribution]
    · intro j hj hjk
      have hjlt := mem_sched_lt sched _ hsched j hj
      cases hn : fromNodes[j]? with
      | none =>
        rw [List.getElem?_eq_none_iff] at hn
        omega
      | some nj =>
        obtain ⟨r, hr, hre⟩ := hothers j nj hjk hn
        simp [hr, hre, contribution]
  have hnopanic : (fanOut env (manualOf opts u) p lastRun u fromNodes sched).2.2 = false := by
    rw [hpanic, List.any_eq_false]
    intro j hj
    cases hn : fromNodes[j]? with
    | none => simp
    | some nj =>
      by_cases hjk : j = k
      · subst hjk
        rw [hk] at hn
        cases hn
        simp [hfail, RunResult.isPanic]
      · obtain ⟨r, hr, _⟩ := hothers j nj hjk hn
        simp [hr, RunResult.isPanic]
  refine ⟨herrs, ?_⟩
  unfold startWorkflowRun
  simp only [hbegin, hhook, hres]
  cases hfan : fanOut env (manualOf opts u) p lastRun u fromNodes sched with
  | mk report rest =>
    cases rest with
    | mk events flag =>
      rw [hfan] at herrs hnopanic hbranch
      simp only at herrs hnopanic hbranch
      subst hnopanic
      simp only [afterWait, ProcessorReport.Errors, herrs, List.isEmpty_cons,
        Bool.false_eq_true, if_false]
      refine ⟨trivial, ?_, ?_⟩
      · intro ev hev
        simp only [List.mem_append, List.mem_singleton, List.mem_cons, List.mem_nil_iff,
          or_false] at hev
        rcases hev with ((h | h) | h) | h
        · subst h; rfl
        · exact manualRunCall_of_isBranchEvent ev (hbranch ev h)
        · subst h; rfl
        · subst h; rfl
      · intro hev
        simp only [List.mem_append, List.mem_singleton, List.mem_cons, List.mem_nil_iff,
          or_false] at hev
        rcases hev with ((h | h) | h) | h
        · cases h
        · have := hbranch _ h
          simp [isBranchEvent] at this
        · cases h
        · cases h

end api

namespace api

open sdk workflow

/-- Witness of C13: a start from the nodes 1 and 2 by a user without access to the
environment of the node 2; the branch 1 reaches the shared report first. -/
theorem startWorkflowRun_one_branch_fails_witness :
    (startEnv false).Begin = none ∧ startFromBoth.Hook = none ∧
    resolveFromNodes twoNodeWorkflow (some previousRun) startFromBoth.FromNodeIDs
      = .nodes [some ⟨1, "root", 10, some ⟨none, none, none⟩⟩,
          some ⟨2, "deploy", 10, some ⟨none, some ⟨"prod", []⟩, none⟩⟩] ∧
    (runFromNode (startEnv false) 1 (manualOf startFromBoth caller) scenarioProject
        (some previousRun) caller
        (some ⟨2, "deploy", 10, some ⟨none, some ⟨"prod", []⟩, none⟩⟩)).1
      = .error
        "runFromNode> Not enough right to run on environment prod: no execution right on the environment" ∧
    startWorkflowRun (startEnv false) [1, 0] scenarioProject twoNodeWorkflow
        (some previousRun) startFromBoth caller
      = (.error
          "runFromNode> Not enough right to run on environment prod: no execution right on the environment",
          [.Begin, .BranchBegin 1, .AccessToEnvironment 1 "prod", .BranchRollback 1,
            .BranchBegin 0, .ManualRunFromNode 0 12 1 (manualUser caller),
            .BranchCommit 0, .Wait, .Rollback]) ∧
    (fanOut (startEnv false) (manualOf startFromBoth caller) scenarioProject
        (some previousRun) caller
        [some ⟨1, "root", 10, some ⟨none, none, none⟩⟩,
          some ⟨2, "deploy", 10, some ⟨none, some ⟨"prod", []⟩, none⟩⟩] [1, 0]).1.errors
      = ["runFromNode> Not enough right to run on environment prod: no execution right on the environment"] :=
  ⟨rfl, rfl, rfl, rfl, rfl,
    (startWorkflowRun_one_branch_fails (startEnv false) [1, 0] scenarioProject
      twoNodeWorkflow (some previousRun) startFromBoth caller
      [some ⟨1, "root", 10, some ⟨none, none, none⟩⟩,
        some ⟨2, "deploy", 10, some ⟨none, some ⟨"prod", []⟩, none⟩⟩]
      1 (some ⟨2, "deploy", 10, some ⟨none, some ⟨"prod", []⟩, none⟩⟩)
      "runFromNode> Not enough right to run on environment prod: no execution right on the environment"
      rfl rfl rfl (by decide) rfl rfl
      (fun j nj hj hget =>
        match j, hj, hget with
        | 0, _, hget => by
          simp only [List.getElem?_cons_zero, Option.some.injEq] at hget
          subst hget
          exact ⟨_, rfl, rfl⟩
        | 1, hj, _ => absurd rfl hj
        | (j + 2), _, hget => by simp at hget)).1⟩

theorem fromNodeCall_of_isBranchEvent_none (l : List StartEvent)
    (h : l.filterMap fromNodeCall = []) : ∀ ev ∈ l, fromNodeCall ev = none := by
  intro ev hev
  rw [List.filterMap_eq_nil_iff] at h
  exact h ev hev

theorem filterMap_fromNodeCall_of_filter (l : List StartEvent) (i : Nat) (number nodeID : Int)
    (user : User)
    (h : l.filter (fun ev => (fromNodeCall ev).isSome)
      = [.ManualRunFromNode i number nodeID user]) :
    l.filterMap fromNodeCall = [i] := by
  induction l with
  | nil => simp at h
  | cons a t ih =>
    cases ha : fromNodeCall a with
    | none =>
      rw [List.filter_cons_of_neg (by simp [ha])] at h
      rw [List.filterMap_cons_none ha]
      exact ih h
    | some j =>
      rw [List.filter_cons_of_pos (by simp [ha])] at h
      rw [List.filterMap_cons_some ha]
      injection h with h1 h2
      subst h1
      have ht : t.filterMap fromNodeCall = [] := by
        rw [List.filterMap_eq_nil_iff]
        intro ev hev
        rw [List.filter_eq_nil_iff] at h2
        have := h2 ev hev
        cases hf : fromNodeCall ev with
        | none => rfl
        | some x => simp [hf] at this
      simp only [fromNodeCall, Option.some.injEq] at ha
      rw [ht, ha]

end api

namespace api

open sdk workflow

theorem fanOut_all_ok (env : StartEnv) (manual : WorkflowNodeRunManual) (p : Project)
    (lastRun : Option WorkflowRun) (u : User) (fromNodes : List (Option WorkflowNode))
    (sched : List Nat)
    (hall : ∀ j nj, fromNodes[j]? = some nj →
      ∃ r, (runFromNode env j manual p lastRun u nj).1 = .ok r ∧ r.errors = []) :
    (fanOut env manual p lastRun u fromNodes sched).1.errors = [] ∧
      (fanOut env manual p lastRun u fromNodes sched).2.2 = false := by
  obtain ⟨herr, _, hpanic⟩ := fanOut_eq env manual p lastRun u fromNodes sched
  constructor
  · rw [herr]
    apply flatMap_nil_of_forall
    intro j _
    cases hn : fromNodes[j]? with
    | none => simp
    | some nj =>
      obtain ⟨r, hr, hre⟩ := hall j nj hn
      simp [hr, hre, contribution]
  · rw [hpanic, List.any_eq_false]
    intro j _
    cases hn : fromNodes[j]? with
    | none => simp
    | some nj =>
      obtain ⟨r, hr, _⟩ := hall j nj hn
      simp [hr, RunResult.isPanic]

theorem fanOut_fromNodeCall_none (env : StartEnv) (manual : WorkflowNodeRunManual)
    (p : Project) (u : User) (fromNodes : List (Option WorkflowNode)) (sched : List Nat) :
    ∀ ev ∈ (fanOut env manual p none u fromNodes sched).2.1, fromNodeCall ev = none := by
  intro ev hev
  rw [(fanOut_eq env manual p none u fromNodes sched).2.1] at hev
  rw [List.mem_flatMap] at hev
  obtain ⟨i, _, hi⟩ := hev
  cases hn : fromNodes[i]? with
  | none => simp [hn] at hi
  | some n =>
    simp only [hn, Option.map_some', Option.toList_some, List.flatMap_singleton] at hi
    exact fromNodeCall_of_isBranchEvent_none _
      (runFromNode_fromNodeCall_none env i manual p u n) ev hi

theorem filterMap_flatMap_eq {α β γ : Type} (f : α → List β) (g : β → Option γ)
    (l : List α) :
    (l.flatMap f).filterMap g = l.flatMap (fun a => (f a).filterMap g) := by
  induction l with
  | nil => rfl
  | cons a t ih => simp [List.flatMap_cons, List.filterMap_append, ih]

theorem fanOut_fromNodeCall_some (env : StartEnv) (manual : WorkflowNodeRunManual)
    (p : Project) (lastRun : WorkflowRun) (u : User)
    (fromNodes : List (Option WorkflowNode)) (sched : List Nat)
    (hsched : sched.Perm (List.range fromNodes.length))
    (hall : ∀ j nj, fromNodes[j]? = some nj →
      ∃ r, (runFromNode env j manual p (some lastRun) u nj).1 = .ok r ∧ r.errors = []) :
    (fanOut env manual p (some lastRun) u fromNodes sched).2.1.filterMap fromNodeCall
        = sched ∧
      ∀ ev ∈ (fanOut env manual p (some lastRun) u fromNodes sched).2.1,
        ∀ i, fromNodeCall ev = some i →
          ∃ node, fromNodes[i]? = some (some node) ∧
            ev = .ManualRunFromNode i lastRun.Number node.ID manual.User := by
  have hev := (fanOut_eq env manual p (some lastRun) u fromNodes sched).2.1
  constructor
  · rw [hev, filterMap_flatMap_eq]
    have hcongr : ∀ i ∈ sched,
        (((fromNodes[i]?).map
          (fun n => runFromNode env i manual p (some lastRun) u n)).toList.flatMap
            (fun b => b.2)).filterMap fromNodeCall = [i] := by
      intro i hi
      have hilt := mem_sched_lt sched _ hsched i hi
      cases hn : fromNodes[i]? with
      | none =>
        rw [List.getElem?_eq_none_iff] at hn
        omega
      | some ni =>
        obtain ⟨r, hr, _⟩ := hall i ni hn
        obtain ⟨node, _, hfil⟩ := runFromNode_fromNodeCall_ok env i manual p lastRun u ni r hr
        simp only [Option.map_some', Option.toList_some, List.flatMap_singleton]
        exact filterMap_fromNodeCall_of_filter _ _ _ _ _ hfil
    rw [List.flatMap_congr hcongr]
    exact List.flatMap_singleton' sched
  · intro ev hmem i hcall
    rw [hev, List.mem_flatMap] at hmem
    obtain ⟨j, _, hj⟩ := hmem
    cases hn : fromNodes[j]? with
    | none => simp [hn] at hj
    | some nj =>
      simp only [hn, Option.map_some', Option.toList_some, List.flatMap_singleton] at hj
      obtain ⟨r, hr, _⟩ := hall j nj hn
      obtain ⟨node, hnode, hfil⟩ :=
        runFromNode_fromNodeCall_ok env j manual p lastRun u nj r hr
      have hin : ev ∈ (runFromNode env j manual p (some lastRun) u nj).2.filter
          (fun ev => (fromNodeCall ev).isSome) :=
        List.mem_filter.mpr ⟨hj, by simp [hcall]⟩
      rw [hfil, List.mem_singleton] at hin
      subst hin
      simp only [fromNodeCall, Option.some.injEq] at hcall
      subst hcall
      exact ⟨node, by rw [hn, hnode], rfl⟩

end api

namespace api

open sdk workflow

/-- After the barrier, with a shared report without error: the calls that follow are,
without a previous run, one call of the full-workflow creation routine and then
the commit or the rollback; with a previous run, the commit or the rollback only. -/
theorem afterWait_no_error (env : StartEnv) (manual : WorkflowNodeRunManual)
    (lastRun : Option WorkflowRun) (report : ProcessorReport) (events : List StartEvent)
    (herr : report.errors = []) :
    ∃ tail, (∀ ev ∈ tail, ev = StartEvent.Commit ∨ ev = StartEvent.Rollback) ∧
      (afterWait env manual lastRun report events).2
        = events ++ (match lastRun with
            | none => [StartEvent.ManualRun manual.User]
            | some _ => []) ++ tail := by
  unfold afterWait commitStart
  simp only [ProcessorReport.Errors, herr, List.isEmpty_nil, if_true]
  cases lastRun with
  | none =>
    simp only []
    cases env.ManualRun with
    | error errmr => exact ⟨[.Rollback], by simp, by simp⟩
    | ok r1 =>
      simp only []
      cases env.Commit with
      | some err => exact ⟨[.Commit, .Rollback], by simp, by simp⟩
      | none => exact ⟨[.Commit], by simp, by simp⟩
  | some lr =>
    simp only []
    cases env.Commit with
    | some err => exact ⟨[.Commit, .Rollback], by simp, by simp⟩
    | none => exact ⟨[.Commit], by simp, by simp⟩

/-- C14. For every manual start (no hook event, the transaction begun, the from-nodes
resolved) in which every branch returns a report without error, in whatever order
the branches reach the shared report. Without a previous run, the calls are the
begin, the calls of the branches, none of which invokes the run-from-node routine,
the barrier, one call of the full-workflow creation routine with the user of the
manual trigger, and then commit or rollback only. With a previous run, the
run-from-node routine is invoked exactly once for each from-node, with the number of
the previous run and the ID of the from-node, and the full-workflow routine is
not invoked. -/
theorem startWorkflowRun_no_branch_fails (env : StartEnv) (sched : List Nat)
    (p : Project) (wf : Workflow) (lastRun : Option WorkflowRun)
    (opts : WorkflowRunPostHandlerOption) (u : User)
    (fromNodes : List (Option WorkflowNode))
    (hbegin : env.Begin = none) (hhook : opts.Hook = none)
    (hres : resolveFromNodes wf lastRun opts.FromNodeIDs = .nodes fromNodes)
    (hsched : sched.Perm (List.range fromNodes.length))
    (hall : ∀ j nj, fromNodes[j]? = some nj →
      ∃ r, (runFromNode env j (manualOf opts u) p lastRun u nj).1 = .ok r ∧
        r.errors = []) :
    (lastRun = none →
        ∃ branchEvents tail,
          (startWorkflowRun env sched p wf lastRun opts u).2
            = [.Begin] ++ branchEvents ++ [.Wait, .ManualRun (manualUser u)] ++ tail ∧
          (∀ ev ∈ branchEvents, isBranchEvent ev = true ∧ fromNodeCall ev = none) ∧
          (∀ ev ∈ tail, ev = StartEvent.Commit ∨ ev = StartEvent.Rollback)) ∧
      (∀ lr, lastRun = some lr →
        ((startWorkflowRun env sched p wf lastRun opts u).2.filterMap fromNodeCall).Perm
            (List.range fromNodes.length) ∧
          (∀ ev ∈ (startWorkflowRun env sched p wf lastRun opts u).2,
            manualRunCall ev = none) ∧
          (∀ ev ∈ (startWorkflowRun env sched p wf lastRun opts u).2,
            ∀ i, fromNodeCall ev = some i →
              ∃ node, fromNodes[i]? = some (some node) ∧
                ev = .ManualRunFromNode i lr.Number node.ID (manualUser u))) := by
  obtain ⟨herrs, hnopanic⟩ := fanOut_all_ok env (manualOf opts u) p lastRun u fromNodes
    sched hall
  have hbranch := fanOut_isBranchEvent env (manualOf opts u) p lastRun u fromNodes sched
  have hstart : (startWorkflowRun env sched p wf lastRun opts u).2
      = (afterWait env (manualOf opts u) lastRun
          (fanOut env (manualOf opts u) p lastRun u fromNodes sched).1
          ([.Begin] ++ (fanOut env (manualOf opts u) p lastRun u fromNodes sched).2.1
            ++ [.Wait])).2 := by
    unfold startWorkflowRun
    simp only [hbegin, hhook, hres]
    cases hfan : fanOut env (manualOf opts u) p lastRun u fromNodes sched with
    | mk report rest =>
      cases rest with
      | mk events flag =>
        rw [hfan] at hnopanic
        simp only at hnopanic
        subst hnopanic
        rfl
  obtain ⟨tail, htail, haft⟩ := afterWait_no_error env (manualOf opts u) lastRun
    (fanOut env (manualOf opts u) p lastRun u fromNodes sched).1
    ([.Begin] ++ (fanOut env (manualOf opts u) p lastRun u fromNodes sched).2.1 ++ [.Wait])
    herrs
  rw [haft] at hstart
  constructor
  · intro hnone
    subst hnone
    refine ⟨(fanOut env (manualOf opts u) p none u fromNodes sched).2.1, tail, ?_, ?_, htail⟩
    · rw [hstart, manualOf_User]
      simp
    · intro ev hev
      exact ⟨hbranch ev hev,
        fanOut_fromNodeCall_none env (manualOf opts u) p u fromNodes sched ev hev⟩
  · intro lr hlr
    subst hlr
    obtain ⟨hcalls, hdetail⟩ := fanOut_fromNodeCall_some env (manualOf opts u) p lr u
      fromNodes sched hsched hall
    have htailcall : tail.filterMap fromNodeCall = [] := by
      rw [List.filterMap_eq_nil_iff]
      intro ev hev
      rcases htail ev hev with h | h <;> (subst h; rfl)
    refine ⟨?_, ?_, ?_⟩
    · rw [hstart]
      simp only [List.filterMap_append, hcalls, htailcall, List.append_nil]
      simpa [fromNodeCall] using hsched
    · intro ev hev
      rw [hstart] at hev
      simp only [List.mem_append, List.mem_singleton, List.mem_cons, List.mem_nil_iff,
        or_false] at hev
      rcases hev with ((h | h) | h) | h
      · subst h; rfl
      · exact manualRunCall_of_isBranchEvent ev (hbranch ev h)
      · subst h; rfl
      · rcases htail ev h with h2 | h2 <;> (subst h2; rfl)
    · intro ev hev i hcall
      rw [hstart] at hev
      simp only [List.mem_append, List.mem_singleton, List.mem_cons, List.mem_nil_iff,
        or_false] at hev
      rcases hev with ((h | h) | h) | h
      · subst h; simp [fromNodeCall] at hcall
      · obtain ⟨node, hnode, hevq⟩ := hdetail ev h i hcall
        rw [manualOf_User] at hevq
        exact ⟨node, hnode, hevq⟩
      · subst h; simp [fromNodeCall] at hcall
      · rcases htail ev h with h2 | h2 <;> (subst h2; simp [fromNodeCall] at hcall)

end api

namespace api

open sdk workflow

/-- Witness of C14: a start from the nodes 1 and 2 of the run 12 by a user with access
to the environment, and a start without previous run. -/
theorem startWorkflowRun_no_branch_fails_witness :
    (startEnv true).Begin = none ∧ startFromBoth.Hook = none ∧
    resolveFromNodes twoNodeWorkflow (some previousRun) startFromBoth.FromNodeIDs
      = .nodes [some ⟨1, "root", 10, some ⟨none, none, none⟩⟩,
          some ⟨2, "deploy", 10, some ⟨none, some ⟨"prod", []⟩, none⟩⟩] ∧
    (startWorkflowRun (startEnv true) [1, 0] scenarioProject twoNodeWorkflow
        (some previousRun) startFromBoth caller).2
      = [.Begin, .BranchBegin 1, .AccessToEnvironment 1 "prod",
          .ManualRunFromNode 1 12 2 (manualUser caller), .BranchCommit 1,
          .BranchBegin 0, .ManualRunFromNode 0 12 1 (manualUser caller),
          .BranchCommit 0, .Wait, .Commit] ∧
    (startWorkflowRun (startEnv true) [0] scenarioProject twoNodeWorkflow none
        startFresh caller).2
      = [.Begin, .BranchBegin 0, .BranchCommit 0, .Wait, .ManualRun (manualUser caller),
          .Commit] ∧
    ((startWorkflowRun (startEnv true) [1, 0] scenarioProject twoNodeWorkflow
        (some previousRun) startFromBoth caller).2.filterMap fromNodeCall).Perm
      (List.range 2) :=
  ⟨rfl, rfl, rfl, rfl, rfl,
    ((startWorkflowRun_no_branch_fails (startEnv true) [1, 0] scenarioProject
      twoNodeWorkflow (some previousRun) startFromBoth caller
      [some ⟨1, "root", 10, some ⟨none, none, none⟩⟩,
        some ⟨2, "deploy", 10, some ⟨none, some ⟨"prod", []⟩, none⟩⟩]
      rfl rfl rfl (by decide)
      (fun j nj hget =>
        match j, hget with
        | 0, hget => by
          simp only [List.getElem?_cons_zero, Option.some.injEq] at hget
          subst hget
          exact ⟨_, rfl, rfl⟩
        | 1, hget => by
          simp only [List.getElem?_cons_succ, List.getElem?_cons_zero,
            Option.some.injEq] at hget
          subst hget
          exact ⟨_, rfl, rfl⟩
        | (j + 2), hget => by simp at hget)).2 previousRun rfl).1⟩

end api

namespace workflow

open sdk

/-! Reconciliation of the commit statuses, `ResyncCommitStatus` -/

/-- The comparison of lines 118-171 publishes exactly when the table says so. -/
theorem reconcile_eq (env : VCSEnv) (log : List VCSEvent) (proj : Project) (wr : RunState)
    (nodeRun : NodeRunState) (found : Option VCSCommitStatus) :
    reconcile env log proj wr nodeRun found
      = if republish found nodeRun.Status = true
        then (sendVCSEventStatus env log proj wr nodeRun).2 else log := by
  cases found with
  | none => simp [reconcile, republish]
  | some f =>
    simp only [reconcile, republish]
    split_ifs <;>
      simp_all [StatusBuilding, StatusSuccess, StatusFail, StatusSkipped, StatusDisabled,
        StatusNeverBuilt]

/-- The table, in the words of section 4.5. -/
theorem republish_iff (found : Option VCSCommitStatus) (status : String) :
    republish found status = true ↔
      found = none ∨ ∃ f, found = some f ∧
        (f.State = "" ∨ f.State = StatusBuilding ∨
          (f.State = StatusSuccess ∧ status ≠ StatusSuccess) ∨
          (f.State = StatusFail ∧ status ≠ StatusFail) ∨
          (f.State = StatusSkipped ∧ status ≠ StatusDisabled ∧
            status ≠ StatusNeverBuilt ∧ status ≠ StatusSkipped)) := by
  cases found with
  | none => simp [republish]
  | some f =>
    simp only [republish, Bool.or_eq_true, Bool.and_eq_true, beq_iff_eq, bne_iff_ne,
      Bool.not_eq_true', Bool.or_eq_false_iff, beq_eq_false_iff_ne, ne_eq,
      Option.some.injEq, exists_eq_left', false_or]
    tauto

theorem commentPullRequests_log (env : VCSEnv) (nodeRun : NodeRunState) (repo : String)
    (prs : List VCSPullRequest) :
    ∀ log : List VCSEvent, ∃ tail,
      commentPullRequests env nodeRun repo prs log = log ++ tail := by
  induction prs with
  | nil => intro log; exact ⟨[], by simp [commentPullRequests]⟩
  | cons pr rest ih =>
    intro log
    unfold commentPullRequests
    split_ifs
    · exact ih log
    · cases env.Report nodeRun with
      | error e => exact ⟨[], by simp⟩
      | ok report =>
        simp only []
        cases env.PullRequestComment log repo pr.ID report with
        | some e => exact ⟨_, rfl⟩
        | none =>
          obtain ⟨tail, htail⟩ := ih (log ++ [.PullRequestComment repo pr.ID report])
          exact ⟨[.PullRequestComment repo pr.ID report] ++ tail, by
            simp only []
            rw [htail, List.append_assoc]⟩
    · exact ih log

/-- The calls of `sendVCSEventStatus` come after those of `log` and start with its
entry; when the node of the node run is bound to a repository, its server is
configured and the client is obtained, `SetStatus` is called for the node run. -/
theorem sendVCSEventStatus_log (env : VCSEnv) (log : List VCSEvent) (proj : Project)
    (wr : RunState) (nodeRun : NodeRunState) :
    ∃ tail, (sendVCSEventStatus env log proj wr nodeRun).2
        = log ++ VCSEvent.sendVCSEventStatus nodeRun.ID :: tail ∧
      ∀ (node : WorkflowNode) (app : Application) (vcsServer : String),
        linkedNode (wr.Workflow.GetNode nodeRun.WorkflowNodeID) = some (node, app) →
        env.GetProjectVCSServer proj app.VCSServer = some vcsServer →
        env.AuthorizedClient (log ++ [.sendVCSEventStatus nodeRun.ID]) vcsServer = none →
        VCSEvent.SetStatus nodeRun.ID nodeRun.Status ∈ tail := by
  unfold sendVCSEventStatus
  simp only []
  cases hl : linkedNode (wr.Workflow.GetNode nodeRun.WorkflowNodeID) with
  | none => exact ⟨[], rfl, by intro _ _ _ h; cases h⟩
  | some na =>
    obtain ⟨node, app⟩ := na
    simp only []
    cases hs : env.GetProjectVCSServer proj app.VCSServer with
    | none =>
      refine ⟨[], rfl, ?_⟩
      intro node2 app2 server2 h h2
      cases h
      rw [hs] at h2
      cases h2
    | some vcsServer =>
      simp only []
      cases hc : env.AuthorizedClient (log ++ [.sendVCSEventStatus nodeRun.ID]) vcsServer with
      | some e =>
        refine ⟨[.AuthorizedClient vcsServer], by simp, ?_⟩
        intro node2 app2 server2 h h2 h3
        cases h
        rw [hs] at h2
        cases h2
        rw [hc] at h3
        cases h3
      | none =>
        simp only []
        cases env.SetStatus
            (log ++ [.sendVCSEventStatus nodeRun.ID] ++ [.AuthorizedClient vcsServer])
            nodeRun with
        | some e =>
          exact ⟨[.AuthorizedClient vcsServer, .SetStatus nodeRun.ID nodeRun.Status,
            .RetryEvent nodeRun.ID], by simp, by simp⟩
        | none =>
          simp only []
          cases env.PullRequests
              (log ++ [.sendVCSEventStatus nodeRun.ID] ++ [.AuthorizedClient vcsServer]
                ++ [.SetStatus nodeRun.ID nodeRun.Status]) app.RepositoryFullname with
          | error e =>
            exact ⟨[.AuthorizedClient vcsServer, .SetStatus nodeRun.ID nodeRun.Status,
              .PullRequests app.RepositoryFullname], by simp, by simp⟩
          | ok prs =>
            simp only []
            obtain ⟨tail, htail⟩ := commentPullRequests_log env nodeRun
              app.RepositoryFullname prs
              (log ++ [.sendVCSEventStatus nodeRun.ID] ++ [.AuthorizedClient vcsServer]
                ++ [.SetStatus nodeRun.ID nodeRun.Status]
                ++ [.PullRequests app.RepositoryFullname])
            exact ⟨[.AuthorizedClient vcsServer, .SetStatus nodeRun.ID nodeRun.Status,
              .PullRequests app.RepositoryFullname] ++ tail, by
                rw [htail]; simp, by simp⟩

end workflow

namespace workflow

open sdk

/-- A node whose selected node run is not terminated is passed over: the iteration
makes no call and goes on to the next node (lines 75-77). -/
theorem resyncNode_not_terminated (env : VCSEnv) (log : List VCSEvent) (proj : Project)
    (wr : RunState) (nodeID : Int) (nodeRuns : List NodeRunState) (nodeRun : NodeRunState)
    (others : List NodeRunState)
    (hsel : sortSlice nodeRuns = nodeRun :: others)
    (hterm : env.StatusIsTerminated nodeRun.Status = false) :
    resyncNode env log proj wr nodeID nodeRuns = (.next, log) := by
  unfold resyncNode
  simp [hsel, hterm]

/-- A terminated node that is not bound to a repository ends the loop (lines 80-82):
the function returns nil with the calls made so far, whatever entries remain. -/
theorem resyncLoop_not_linked (env : VCSEnv) (log : List VCSEvent) (proj : Project)
    (wr : RunState) (entry : (_ : Int) × List NodeRunState)
    (rest : List ((_ : Int) × List NodeRunState)) (nodeRun : NodeRunState)
    (others : List NodeRunState)
    (hsel : sortSlice entry.2 = nodeRun :: others)
    (hterm : env.StatusIsTerminated nodeRun.Status = true)
    (hlinked : linkedNode (wr.Workflow.GetNode entry.1) = none) :
    resyncLoop env proj wr (entry :: rest) log = (.returned none, log) := by
  unfold resyncLoop resyncNode
  simp [hsel, hterm, hlinked]

/-- A terminated, repository-bound node whose server is not configured in the
project ends the loop (lines 85-87): the function returns nil with the calls made
so far, whatever entries remain. -/
theorem resyncLoop_no_server (env : VCSEnv) (log : List VCSEvent) (proj : Project)
    (wr : RunState) (entry : (_ : Int) × List NodeRunState)
    (rest : List ((_ : Int) × List NodeRunState)) (nodeRun : NodeRunState)
    (others : List NodeRunState) (node : WorkflowNode) (app : Application)
    (hsel : sortSlice entry.2 = nodeRun :: others)
    (hterm : env.StatusIsTerminated nodeRun.Status = true)
    (hlinked : linkedNode (wr.Workflow.GetNode entry.1) = some (node, app))
    (hserver : env.GetProjectVCSServer proj app.VCSServer = none) :
    resyncLoop env proj wr (entry :: rest) log = (.returned none, log) := by
  unfold resyncLoop resyncNode
  simp [hsel, hterm, hlinked, hserver]

/-- The iteration of a node that reaches line 106: it goes on to the next node, and
its calls are those of `reconcile`. -/
theorem resyncNode_reconcile (env : VCSEnv) (log : List VCSEvent) (proj : Project)
    (wr : RunState) (nodeID : Int) (nodeRuns : List NodeRunState) (nodeRun : NodeRunState)
    (others : List NodeRunState) (node : WorkflowNode) (app : Application)
    (vcsServer : String) (statuses : List VCSCommitStatus)
    (hsel : sortSlice nodeRuns = nodeRun :: others)
    (hterm : env.StatusIsTerminated nodeRun.Status = true)
    (hlinked : linkedNode (wr.Workflow.GetNode nodeID) = some (node, app))
    (hserver : env.GetProjectVCSServer proj app.VCSServer = some vcsServer)
    (hclient : env.AuthorizedClient log vcsServer = none)
    (hlist : env.ListStatuses (log ++ [.AuthorizedClient vcsServer]) app.RepositoryFullname
      (if nodeRun.VCSTag ≠ "" then nodeRun.VCSTag else nodeRun.VCSHash) = .ok statuses) :
    resyncNode env log proj wr nodeID nodeRuns
      = (.next, reconcile env
          (log ++ [.AuthorizedClient vcsServer,
            .ListStatuses app.RepositoryFullname
              (if nodeRun.VCSTag ≠ "" then nodeRun.VCSTag else nodeRun.VCSHash)])
          proj wr nodeRun
          (statusFound statuses
            (env.VCSCommitStatusDescription proj.Key wr.Workflow.Name node.Name))) := by
  unfold resyncNode
  simp only [hsel, hterm, hlinked, hserver, hclient, hlist, Bool.not_true, Bool.false_eq_true,
    if_false]

/-- For every node whose selected node run is terminated, that is bound to a
repository, whose server is configured and for which the client is obtained and
the statuses are listed (execution reaches line 106), `ResyncCommitStatus` goes on
to the next node, and the calls it adds after the listing are as follows. It
enters `sendVCSEventStatus` for the node run if and only if the table of section
4.5 asks for a publication (`republish`); when it does, `SetStatus` is called
with the status of the node run as soon as the node run is one of the node and
the client is obtained again; when the table asks for none, no call at all is
added, so no `SetStatus`. -/
theorem resyncNode_republish_table (env : VCSEnv) (log : List VCSEvent)
    (proj : Project) (wr : RunState) (nodeID : Int) (nodeRuns : List NodeRunState)
    (nodeRun : NodeRunState) (others : List NodeRunState) (node : WorkflowNode)
    (app : Application) (vcsServer : String) (statuses : List VCSCommitStatus)
    (hsel : sortSlice nodeRuns = nodeRun :: others)
    (hterm : env.StatusIsTerminated nodeRun.Status = true)
    (hlinked : linkedNode (wr.Workflow.GetNode nodeID) = some (node, app))
    (hserver : env.GetProjectVCSServer proj app.VCSServer = some vcsServer)
    (hclient : env.AuthorizedClient log vcsServer = none)
    (hlist : env.ListStatuses (log ++ [.AuthorizedClient vcsServer]) app.RepositoryFullname
      (if nodeRun.VCSTag ≠ "" then nodeRun.VCSTag else nodeRun.VCSHash) = .ok statuses) :
    (resyncNode env log proj wr nodeID nodeRuns).1 = .next ∧
      ∃ added,
        (resyncNode env log proj wr nodeID nodeRuns).2
          = log ++ [.AuthorizedClient vcsServer,
              .ListStatuses app.RepositoryFullname
                (if nodeRun.VCSTag ≠ "" then nodeRun.VCSTag else nodeRun.VCSHash)] ++ added ∧
        (republish (statusFound statuses
            (env.VCSCommitStatusDescription proj.Key wr.Workflow.Name node.Name))
            nodeRun.Status = true
          ↔ VCSEvent.sendVCSEventStatus nodeRun.ID ∈ added) ∧
        (republish (statusFound statuses
            (env.VCSCommitStatusDescription proj.Key wr.Workflow.Name node.Name))
            nodeRun.Status = true →
          nodeRun.WorkflowNodeID = nodeID →
          env.AuthorizedClient
            (log ++ [.AuthorizedClient vcsServer,
              .ListStatuses app.RepositoryFullname
                (if nodeRun.VCSTag ≠ "" then nodeRun.VCSTag else nodeRun.VCSHash)]
              ++ [.sendVCSEventStatus nodeRun.ID]) vcsServer = none →
          VCSEvent.SetStatus nodeRun.ID nodeRun.Status ∈ added) ∧
        (republish (statusFound statuses
            (env.VCSCommitStatusDescription proj.Key wr.Workflow.Name node.Name))
            nodeRun.Status = false → added = []) := by
  rw [resyncNode_reconcile env log proj wr nodeID nodeRuns nodeRun others node app vcsServer
    statuses hsel hterm hlinked hserver hclient hlist, reconcile_eq]
  refine ⟨rfl, ?_⟩
  cases hrep : republish (statusFound statuses
      (env.VCSCommitStatusDescription proj.Key wr.Workflow.Name node.Name)) nodeRun.Status with
  | false =>
    exact ⟨[], by simp, by simp, by simp, by simp⟩
  | true =>
    obtain ⟨tail, htail, hset⟩ := sendVCSEventStatus_log env
      (log ++ [.AuthorizedClient vcsServer,
        .ListStatuses app.RepositoryFullname
          (if nodeRun.VCSTag ≠ "" then nodeRun.VCSTag else nodeRun.VCSHash)])
      proj wr nodeRun
    refine ⟨VCSEvent.sendVCSEventStatus nodeRun.ID :: tail, ?_, by simp, ?_, by simp⟩
    · simp only [if_true]
      exact htail
    · intro _ hnode hclient2
      exact List.mem_cons_of_mem _
        (hset node app vcsServer (by rw [hnode]; exact hlinked) hserver hclient2)

end workflow

namespace workflow

open sdk

/-- Instance of the table on the node `deploy` of `resyncRun`, the VCS listing the
state Success for it. With the local status Fail the status is published:
`SetStatus` is called for the node run 201 with Fail. With the local status
Success no call follows the listing. -/
theorem resyncNode_republish_table_deploy :
    sortSlice [nodeRunAt 2 201 0 StatusFail] = [nodeRunAt 2 201 0 StatusFail] ∧
      (vcsEnv none StatusSuccess).StatusIsTerminated StatusFail = true ∧
      linkedNode (resyncRun.Workflow.GetNode 2) = some (deployNode, deployApp) ∧
      republish (statusFound [⟨StatusSuccess, "PRJ/wf/deploy"⟩] "PRJ/wf/deploy") StatusFail
        = true ∧
      VCSEvent.SetStatus 201 StatusFail
        ∈ (resyncNode (vcsEnv none StatusSuccess) [] scenarioProject resyncRun 2
            [nodeRunAt 2 201 0 StatusFail]).2 ∧
      republish (statusFound [⟨StatusSuccess, "PRJ/wf/deploy"⟩] "PRJ/wf/deploy")
        StatusSuccess = false ∧
      (resyncNode (vcsEnv none StatusSuccess) [] scenarioProject resyncRun 2
          [nodeRunAt 2 202 0 StatusSuccess]).2
        = [.AuthorizedClient "github", .ListStatuses "ovh/cds" "abc"] := by
  refine ⟨rfl, rfl, rfl, rfl, ?_, rfl, ?_⟩
  · obtain ⟨_, added, heq, _, hset, _⟩ :=
      resyncNode_republish_table (vcsEnv none StatusSuccess) [] scenarioProject
        resyncRun 2 [nodeRunAt 2 201 0 StatusFail] (nodeRunAt 2 201 0 StatusFail) []
        deployNode deployApp "github" [⟨StatusSuccess, "PRJ/wf/deploy"⟩]
        rfl rfl rfl rfl rfl rfl
    rw [heq]
    exact List.mem_append_right _ (hset rfl rfl rfl)
  · obtain ⟨_, added, heq, _, _, hnone⟩ :=
      resyncNode_republish_table (vcsEnv none StatusSuccess) [] scenarioProject
        resyncRun 2 [nodeRunAt 2 202 0 StatusSuccess] (nodeRunAt 2 202 0 StatusSuccess) []
        deployNode deployApp "github" [⟨StatusSuccess, "PRJ/wf/deploy"⟩]
        rfl rfl rfl rfl rfl rfl
    rw [heq, hnone rfl]
    rfl

/-- C19. The run `resyncRun` has three nodes with one terminated node run each:
`root` (ID 1, application without repository), `deploy` (ID 2, bound to `ovh/cds` on
the configured server `github`, local status Fail, remote state Success: the table
asks for a publication) and `test` (ID 3, bound to a repository on the server
`gitlab`, which is not configured). The map is visited in the order 1, 2, 3: the
node that is not bound to a repository ends the loop, `ResyncCommitStatus` returns
nil and has made no call, so `deploy` is never compared. Visited in the order 3, 2,
1, the node without configured server ends the loop in the same way. Only in an
order that starts with `deploy` is its status published, and the loop ends at the
next node. -/
theorem ResyncCommitStatus_return_ends_loop :
    resyncRun.WorkflowNodeRuns.entries = [rootEntry, deployEntry, testEntry] ∧
      ResyncCommitStatus (vcsEnv none StatusSuccess) scenarioProject resyncRun
        = (.returned none, []) ∧
      resyncLoop (vcsEnv none StatusSuccess) scenarioProject resyncRun
          [testEntry, deployEntry, rootEntry] []
        = (.returned none, []) ∧
      resyncLoop (vcsEnv none StatusSuccess) scenarioProject resyncRun
          [deployEntry, rootEntry, testEntry] []
        = (.returned none,
            [.AuthorizedClient "github", .ListStatuses "ovh/cds" "abc",
              .sendVCSEventStatus 201, .AuthorizedClient "github",
              .SetStatus 201 StatusFail, .PullRequests "ovh/cds"]) ∧
      resyncLoop (vcsEnv none StatusSuccess) scenarioProject resyncRun
          [deployEntry, testEntry] []
        = resyncLoop (vcsEnv none StatusSuccess) scenarioProject resyncRun
          [deployEntry, rootEntry, testEntry] [] :=
  ⟨rfl, rfl, rfl, rfl, rfl⟩

/-- A failure met while obtaining the client at line 92 is returned by
`ResyncCommitStatus`: the run `linkedRun`, whose two nodes are bound to a
repository, with a collaborator that refuses the client with the error `401`. The
error is returned, wrapped, and the node `test` is not visited. -/
theorem ResyncCommitStatus_vcs_failure_counterexample :
    ResyncCommitStatus (vcsEnv (some "401") StatusBuilding) scenarioProject linkedRun
      = (.returned (some "resyncCommitStatus> Cannot get client: 401"),
          [.AuthorizedClient "github"]) :=
  rfl

/-- C20, amended. For every node that the loop visits, with its selected node run
terminated, bound to a repository and its server configured: a failure to obtain
the client at line 92, or to list the statuses at line 101, is returned, wrapped,
and ends the loop; once the statuses are listed, the loop goes on with the
remaining nodes whatever `sendVCSEventStatus` returns, so an error of its client or
of `SetStatus` is dropped, as are the failures that it drops itself (the listing of
the pull requests, the report, the comment). -/
theorem ResyncCommitStatus_vcs_failures (env : VCSEnv) (log : List VCSEvent)
    (proj : Project) (wr : RunState) (entry : (_ : Int) × List NodeRunState)
    (rest : List ((_ : Int) × List NodeRunState)) (nodeRun : NodeRunState)
    (others : List NodeRunState) (node : WorkflowNode) (app : Application)
    (vcsServer : String)
    (hsel : sortSlice entry.2 = nodeRun :: others)
    (hterm : env.StatusIsTerminated nodeRun.Status = true)
    (hlinked : linkedNode (wr.Workflow.GetNode entry.1) = some (node, app))
    (hserver : env.GetProjectVCSServer proj app.VCSServer = some vcsServer) :
    (∀ errClient, env.AuthorizedClient log vcsServer = some errClient →
        resyncLoop env proj wr (entry :: rest) log
          = (.returned (some (WrapError errClient "resyncCommitStatus> Cannot get client")),
              log ++ [.AuthorizedClient vcsServer])) ∧
      (env.AuthorizedClient log vcsServer = none →
        ∀ errStatuses,
          env.ListStatuses (log ++ [.AuthorizedClient vcsServer]) app.RepositoryFullname
            (if nodeRun.VCSTag ≠ "" then nodeRun.VCSTag else nodeRun.VCSHash)
            = .error errStatuses →
          resyncLoop env proj wr (entry :: rest) log
            = (.returned
                (some (WrapError errStatuses "resyncCommitStatus> Cannot get statuses")),
                log ++ [.AuthorizedClient vcsServer,
                  .ListStatuses app.RepositoryFullname
                    (if nodeRun.VCSTag ≠ "" then nodeRun.VCSTag else nodeRun.VCSHash)])) ∧
      (env.AuthorizedClient log vcsServer = none →
        ∀ statuses,
          env.ListStatuses (log ++ [.AuthorizedClient vcsServer]) app.RepositoryFullname
            (if nodeRun.VCSTag ≠ "" then nodeRun.VCSTag else nodeRun.VCSHash)
            = .ok statuses →
          resyncLoop env proj wr (entry :: rest) log
            = resyncLoop env proj wr rest
                (if republish (statusFound statuses
                    (env.VCSCommitStatusDescription proj.Key wr.Workflow.Name node.Name))
                    nodeRun.Status = true
                  then (sendVCSEventStatus env
                    (log ++ [.AuthorizedClient vcsServer,
                      .ListStatuses app.RepositoryFullname
                        (if nodeRun.VCSTag ≠ "" then nodeRun.VCSTag else nodeRun.VCSHash)])
                    proj wr nodeRun).2
                  else log ++ [.AuthorizedClient vcsServer,
                    .ListStatuses app.RepositoryFullname
                      (if nodeRun.VCSTag ≠ "" then nodeRun.VCSTag
                        else nodeRun.VCSHash)])) := by
  refine ⟨?_, ?_, ?_⟩
  · intro errClient hclient
    unfold resyncLoop resyncNode
    simp [hsel, hterm, hlinked, hserver, hclient]
  · intro hclient errStatuses hlist
    unfold resyncLoop resyncNode
    simp only [hsel, hterm, hlinked, hserver, hclient, hlist, Bool.not_true,
      Bool.false_eq_true, if_false]
  · intro hclient statuses hlist
    conv_lhs => unfold resyncLoop
    rw [resyncNode_reconcile env log proj wr entry.1 entry.2 nodeRun others node app
      vcsServer statuses hsel hterm hlinked hserver hclient hlist, reconcile_eq]

/-- Instance of C20 on `linkedRun`, every call of `SetStatus` failing with `503`:
the publication of the node run of `deploy` returns an error, the loop goes on with
the node `test`, and `ResyncCommitStatus` returns nil after `SetStatus` has failed
for both nodes. -/
theorem ResyncCommitStatus_vcs_failures_witness :
    (sendVCSEventStatus (vcsEnvSetStatusFails StatusBuilding)
        [.AuthorizedClient "github", .ListStatuses "ovh/cds" "abc"]
        scenarioProject linkedRun (nodeRunAt 2 201 0 StatusFail)).1
      = some "sendEvent> err:503" ∧
      resyncLoop (vcsEnvSetStatusFails StatusBuilding) scenarioProject linkedRun
          [deployEntry, testEntry] []
        = resyncLoop (vcsEnvSetStatusFails StatusBuilding) scenarioProject linkedRun
          [testEntry]
          [.AuthorizedClient "github", .ListStatuses "ovh/cds" "abc",
            .sendVCSEventStatus 201, .AuthorizedClient "github",
            .SetStatus 201 StatusFail, .RetryEvent 201] ∧
      ResyncCommitStatus (vcsEnvSetStatusFails StatusBuilding) scenarioProject linkedRun
        = (.returned none,
            [.AuthorizedClient "github", .ListStatuses "ovh/cds" "abc",
              .sendVCSEventStatus 201, .AuthorizedClient "github",
              .SetStatus 201 StatusFail, .RetryEvent 201,
              .AuthorizedClient "gitlab", .ListStatuses "ovh/test" "abc",
              .sendVCSEventStatus 301, .AuthorizedClient "gitlab",
              .SetStatus 301 StatusSuccess, .RetryEvent 301]) := by
  refine ⟨rfl, ?_, rfl⟩
  exact ((ResyncCommitStatus_vcs_failures (vcsEnvSetStatusFails StatusBuilding) []
    scenarioProject linkedRun deployEntry [testEntry] (nodeRunAt 2 201 0 StatusFail) []
    deployNode deployApp "github" rfl rfl rfl rfl).2.2 rfl
    [⟨StatusBuilding, "PRJ/wf/deploy"⟩] rfl).trans rfl

/-- An iteration that ends the loop with an error has failed to obtain the client at
line 92 or to list the statuses at line 101. -/
theorem resyncNode_done_error (env : VCSEnv) (log : List VCSEvent) (proj : Project)
    (wr : RunState) (nodeID : Int) (nodeRuns : List NodeRunState) (err : String)
    (h : (resyncNode env log proj wr nodeID nodeRuns).1 = .done (some err)) :
    ∃ e, err = WrapError e "resyncCommitStatus> Cannot get client" ∨
      err = WrapError e "resyncCommitStatus> Cannot get statuses" := by
  unfold resyncNode at h
  cases hsel : sortSlice nodeRuns with
  | nil => simp [hsel] at h
  | cons nodeRun others =>
    simp only [hsel] at h
    cases hterm : env.StatusIsTerminated nodeRun.Status with
    | false => simp [hterm] at h
    | true =>
      simp only [hterm, Bool.not_true, Bool.false_eq_true, if_false] at h
      cases hl : linkedNode (wr.Workflow.GetNode nodeID) with
      | none => simp [hl] at h
      | some na =>
        obtain ⟨node, app⟩ := na
        simp only [hl] at h
        cases hs : env.GetProjectVCSServer proj app.VCSServer with
        | none => simp [hs] at h
        | some vcsServer =>
          simp only [hs] at h
          cases hc : env.AuthorizedClient log vcsServer with
          | some e =>
            simp only [hc, LoopStep.done.injEq, Option.some.injEq] at h
            exact ⟨e, Or.inl h.symm⟩
          | none =>
            simp only [hc] at h
            cases hls : env.ListStatuses (log ++ [.AuthorizedClient vcsServer])
                app.RepositoryFullname
                (if nodeRun.VCSTag ≠ "" then nodeRun.VCSTag else nodeRun.VCSHash) with
            | error e =>
              simp only [hls, LoopStep.done.injEq, Option.some.injEq] at h
              exact ⟨e, Or.inr h.symm⟩
            | ok statuses =>
              rw [hls] at h
              cases h

/-- Every error that the loop returns is a failure to obtain the client at line 92
or to list the statuses at line 101, wrapped. -/
theorem resyncLoop_returned_error (env : VCSEnv) (proj : Project) (wr : RunState)
    (entries : List ((_ : Int) × List NodeRunState)) :
    ∀ (log : List VCSEvent) (err : String),
      (resyncLoop env proj wr entries log).1 = .returned (some err) →
      ∃ e, err = WrapError e "resyncCommitStatus> Cannot get client" ∨
        err = WrapError e "resyncCommitStatus> Cannot get statuses" := by
  induction entries with
  | nil =>
    intro log err h
    simp [resyncLoop] at h
  | cons entry rest ih =>
    intro log err h
    unfold resyncLoop at h
    cases hstep : resyncNode env log proj wr entry.1 entry.2 with
    | mk step log1 =>
      rw [hstep] at h
      cases step with
      | next => exact ih log1 err h
      | done e =>
        simp only [ResyncReturn.returned.injEq] at h
        subst h
        exact resyncNode_done_error env log proj wr entry.1 entry.2 err (by rw [hstep])
      | panic => simp at h

end workflow

namespace GoMap

theorem entries_foldl_insert (l : List ((_ : String) × String)) :
    ∀ m : GoMap, l.NodupKeys → (∀ e ∈ l, e.1 ∉ m) →
      (l.foldl (fun m e => m.insert e.1 e.2) m).entries = l.reverse ++ m.entries := by
  induction l with
  | nil => intro m _ _; simp
  | cons hd tl ih =>
    intro m hnd hnot
    obtain ⟨a, b⟩ := hd
    rw [List.nodupKeys_cons] at hnd
    have ha : a ∉ m := hnot ⟨a, b⟩ (List.mem_cons_self _ _)
    rw [List.foldl_cons, ih (m.insert a b) hnd.2]
    · rw [AList.insert_entries_of_neg ha]
      simp
    · intro e he
      obtain ⟨k, v⟩ := e
      rw [AList.mem_insert]
      intro hmem
      rcases hmem with h | h
      · simp only at h
        subst h
        exact hnd.1 (List.mem_keys.mpr ⟨v, he⟩)
      · exact hnot ⟨k, v⟩ (List.mem_cons_of_mem _ he) h

end GoMap

namespace workflow

open sdk

/-! Idempotence of the interpolation pass -/

/-- The entries of the map that `sdk.ParametersToMap` builds from parameters with
pairwise distinct names: one per parameter, last parameter first. -/
theorem entries_ParametersToMap (params : List Parameter)
    (hnd : (params.map (fun p => p.Name)).Nodup) :
    (ParametersToMap params).entries
      = (params.map (fun p => (⟨p.Name, p.Value⟩ : (_ : String) × String))).reverse := by
  unfold ParametersToMap
  have hfold : params.foldl (fun (m : GoMap) p => m.insert p.Name p.Value) ∅
      = (params.map (fun p => (⟨p.Name, p.Value⟩ : (_ : String) × String))).foldl
          (fun m e => m.insert e.1 e.2) ∅ := by
    rw [List.foldl_map]
  rw [hfold, GoMap.entries_foldl_insert]
  · simp
  · unfold List.NodupKeys List.keys
    simpa [List.map_map, Function.comp_def] using hnd
  · intro e _
    exact AList.not_mem_empty e.1

/-- When the interpolation of every entry of `l` succeeds, the pass yields one
parameter per entry, with the name of the entry. -/
theorem names_filterMap_interpolated (Do : String → GoMap → Except String String)
    (tmp : GoMap) (l : List ((_ : String) × String))
    (hok : ∀ e ∈ l, ∃ s, Do e.2 tmp = .ok s) :
    (l.filterMap (interpolated Do tmp)).map (fun p => p.Name) = l.map (fun e => e.1) := by
  induction l with
  | nil => simp
  | cons hd tl ih =>
    obtain ⟨s, hs⟩ := hok hd (List.mem_cons_self _ _)
    rw [List.filterMap_cons]
    simp only [interpolated, hs, List.map_cons]
    rw [← ih (fun e he => hok e (List.mem_cons_of_mem _ he))]

/-- A pass over entries built from string parameters whose values the
interpolation returns unchanged gives these parameters back, without error. -/
theorem filterMap_interpolated_fixed (Do : String → GoMap → Except String String)
    (tmp : GoMap) (ps : List Parameter)
    (hfix : ∀ p ∈ ps, p.Type_ = StringParameter ∧ Do p.Value tmp = .ok p.Value) :
    (ps.map (fun p => (⟨p.Name, p.Value⟩ : (_ : String) × String))).filterMap
        (interpolated Do tmp) = ps ∧
      (ps.map (fun p => (⟨p.Name, p.Value⟩ : (_ : String) × String))).filterMap
        (interpolationError Do tmp) = [] := by
  induction ps with
  | nil => simp
  | cons hd tl ih =>
    obtain ⟨hty, hdo⟩ := hfix hd (List.mem_cons_self _ _)
    obtain ⟨ih1, ih2⟩ := ih (fun p hp => hfix p (List.mem_cons_of_mem _ hp))
    rw [List.map_cons, List.filterMap_cons, List.filterMap_cons]
    simp only [interpolated, interpolationError, hdo, ih1, ih2]
    obtain ⟨n, t, v⟩ := hd
    simp only at hty
    subst hty
    exact ⟨rfl, trivial⟩

/-- Every parameter that the pass yields is a string parameter whose value is the
interpolation of the value of an entry. -/
theorem mem_filterMap_interpolated (Do : String → GoMap → Except String String)
    (tmp : GoMap) (l : List ((_ : String) × String)) (p : Parameter)
    (hp : p ∈ l.filterMap (interpolated Do tmp)) :
    p.Type_ = StringParameter ∧ ∃ e ∈ l, e.1 = p.Name ∧ Do e.2 tmp = .ok p.Value := by
  rw [List.mem_filterMap] at hp
  obtain ⟨e, he, hint⟩ := hp
  unfold interpolated at hint
  cases hdo : Do e.2 tmp with
  | error err => rw [hdo] at hint; cases hint
  | ok s =>
    rw [hdo] at hint
    simp only [Option.some.injEq] at hint
    subst hint
    exact ⟨rfl, e, he, rfl, hdo⟩

end workflow

namespace workflow

open sdk

/-! The run parameters and `GetNodeBuildParameters` -/

theorem runKeys_not_identity_not_git (k : String) (hk : k ∈ runKeys) :
    k ∉ identityKeys ∧ k ∉ gitKeys := by
  simp only [runKeys, List.mem_cons, List.mem_singleton, List.mem_nil_iff, or_false] at hk
  rcases hk with h | h | h | h <;> (subst h; exact ⟨by decide, by decide⟩)

/-- C25, failing input. `GetNodeBuildParameters` gives no default to the four run
parameters, which the comment of line 41 promises: for the
project `PRJ` without variable, the node `bare` without context, no pipeline
parameter and an empty payload it succeeds, and its result holds the three identity
parameters only; none is named `cds.version`, `cds.run`, `cds.run.number` or
`cds.run.subnumber`. -/
theorem GetNodeBuildParameters_no_run_defaults :
    GetNodeBuildParameters ⟨"PRJ", []⟩ scenarioWorkflow bareNode [] (.ok ∅)
        = .ok [⟨"cds.pipeline", StringParameter, "build"⟩,
            ⟨"cds.workflow", StringParameter, "wf"⟩,
            ⟨"cds.project", StringParameter, "PRJ"⟩] ∧
      ∀ p ∈ [(⟨"cds.pipeline", StringParameter, "build"⟩ : Parameter),
          ⟨"cds.workflow", StringParameter, "wf"⟩,
          ⟨"cds.project", StringParameter, "PRJ"⟩], p.Name ∉ runKeys := by
  refine ⟨rfl, ?_⟩
  decide

/-- On every input on which `GetNodeBuildParameters` succeeds, and for
each of the names `cds.version`, `cds.run`, `cds.run.number`, `cds.run.subnumber`:
the function adds no parameter of that name by itself. The result holds a parameter
of that name exactly when one of the merged layers (project, application,
environment, platform, deployment strategy, pipeline parameters, payload) has that
key, and then it holds one, with the value of the last such layer. -/
theorem GetNodeBuildParameters_run_keys (proj : Project) (w : Workflow)
    (n : WorkflowNode) (pipelineParameters : List Parameter) (tmpVars : GoMap)
    (out : List Parameter) (k : String)
    (h : GetNodeBuildParameters proj w n pipelineParameters (.ok tmpVars) = .ok out)
    (hk : k ∈ runKeys) :
    ((∃ p ∈ out, p.Name = k) ↔
        ∃ v, lastLayerValue k (layers proj n pipelineParameters tmpVars) = some v) ∧
      (∀ p ∈ out, p.Name = k →
        p.Type_ = StringParameter ∧
          lastLayerValue k (layers proj n pipelineParameters tmpVars) = some p.Value) := by
  obtain ⟨hid, hgit⟩ := runKeys_not_identity_not_git k hk
  obtain ⟨t, ht, hout⟩ := GetNodeBuildParameters_ok _ _ _ _ _ _ h
  cases ht
  have hf := filter_paramsOfVars (finalVars proj w n pipelineParameters tmpVars) k
  rw [lookup_finalVars_of_not_mem _ _ _ _ _ _ hid hgit, ← hout] at hf
  have hmem : ∀ p, p ∈ out ∧ p.Name = k ↔
      p ∈ (lastLayerValue k (layers proj n pipelineParameters tmpVars)).toList.map
        (fun v => (⟨k, StringParameter, v⟩ : Parameter)) := by
    intro p
    rw [← hf, List.mem_filter]
    simp
  constructor
  · constructor
    · rintro ⟨p, hp, hname⟩
      have := (hmem p).mp ⟨hp, hname⟩
      cases hl : lastLayerValue k (layers proj n pipelineParameters tmpVars) with
      | none => rw [hl] at this; simp at this
      | some v => exact ⟨v, rfl⟩
    · rintro ⟨v, hv⟩
      refine ⟨⟨k, StringParameter, v⟩, ?_, rfl⟩
      exact ((hmem _).mpr (by rw [hv]; simp)).1
  · intro p hp hname
    have := (hmem p).mp ⟨hp, hname⟩
    cases hl : lastLayerValue k (layers proj n pipelineParameters tmpVars) with
    | none => rw [hl] at this; simp at this
    | some v =>
      rw [hl] at this
      simp only [Option.toList_some, List.map_cons, List.map_nil, List.mem_singleton] at this
      subst this
      exact ⟨rfl, rfl⟩

/-- Instance on the scenario of section 8: no layer has the key `cds.version`,
and the result holds no parameter of that name; with the pipeline parameter
`cds.version=7` the result holds it. -/
theorem GetNodeBuildParameters_run_keys_witness :
    ("cds.version" ∈ runKeys) ∧
      lastLayerValue "cds.version" (layers scenarioProject scenarioNode [] scenarioDump)
        = none ∧
      (¬ ∃ p ∈ [(⟨"git.connection.type", StringParameter, "ssh"⟩ : Parameter),
          ⟨"cds.pipeline", StringParameter, "build"⟩,
          ⟨"cds.workflow", StringParameter, "wf"⟩,
          ⟨"cds.project", StringParameter, "PRJ"⟩,
          ⟨"branch", StringParameter, "main"⟩,
          ⟨"cds.application", StringParameter, "app1"⟩,
          ⟨"foo", StringParameter, "bar"⟩], p.Name = "cds.version") ∧
      lastLayerValue "cds.version"
          (layers scenarioProject scenarioNode [⟨"cds.version", "string", "7"⟩] scenarioDump)
        = some "7" := by
  refine ⟨by decide, rfl, ?_, rfl⟩
  intro hex
  obtain ⟨v, hv⟩ := (GetNodeBuildParameters_run_keys scenarioProject scenarioWorkflow
    scenarioNode [] scenarioDump
    [⟨"git.connection.type", StringParameter, "ssh"⟩,
      ⟨"cds.pipeline", StringParameter, "build"⟩,
      ⟨"cds.workflow", StringParameter, "wf"⟩,
      ⟨"cds.project", StringParameter, "PRJ"⟩,
      ⟨"branch", StringParameter, "main"⟩,
      ⟨"cds.application", StringParameter, "app1"⟩,
      ⟨"foo", StringParameter, "bar"⟩]
    "cds.version" rfl (by decide)).1.mp hex
  have hnone : lastLayerValue "cds.version"
      (layers scenarioProject scenarioNode [] scenarioDump) = none := rfl
  rw [hnone] at hv
  cases hv

end workflow

namespace workflow

open sdk

/-! The node run that `ResyncCommitStatus` selects -/

theorem insertBack_perm (x : NodeRunState) (l : List NodeRunState) :
    (insertBack x l).Perm (x :: l) := by
  induction l with
  | nil => exact List.Perm.refl _
  | cons y ys ih =>
    unfold insertBack
    split_ifs
    · exact ((List.Perm.cons y ih).trans (List.Perm.swap x y ys))
    · exact List.Perm.refl _

theorem insertBack_pairwise (x : NodeRunState) (l : List NodeRunState)
    (hl : l.Pairwise (fun a b => a.SubNumber ≤ b.SubNumber)) :
    (insertBack x l).Pairwise (fun a b => a.SubNumber ≤ b.SubNumber) := by
  induction l with
  | nil => simp [insertBack]
  | cons y ys ih =>
    rw [List.pairwise_cons] at hl
    unfold insertBack
    split_ifs with hxy
    · rw [List.pairwise_cons]
      refine ⟨?_, ih hl.2⟩
      intro z hz
      have hz2 := (insertBack_perm x ys).subset hz
      rcases List.mem_cons.mp hz2 with h | h
      · subst h; exact hxy
      · exact hl.1 z h
    · have hlt : x.SubNumber < y.SubNumber := lt_of_not_ge hxy
      rw [List.pairwise_cons]
      refine ⟨?_, List.pairwise_cons.mpr hl⟩
      intro z hz
      rcases List.mem_cons.mp hz with h | h
      · subst h; exact le_of_lt hlt
      · exact le_trans (le_of_lt hlt) (hl.1 z h)

theorem foldl_insertBack (l : List NodeRunState) :
    ∀ acc : List NodeRunState,
      acc.Pairwise (fun a b => a.SubNumber ≤ b.SubNumber) →
      (l.foldl (fun sorted x => insertBack x sorted) acc).Pairwise
          (fun a b => a.SubNumber ≤ b.SubNumber) ∧
        (l.foldl (fun sorted x => insertBack x sorted) acc).Perm (l ++ acc) := by
  induction l with
  | nil => intro acc hacc; exact ⟨hacc, List.Perm.refl _⟩
  | cons hd tl ih =>
    intro acc hacc
    obtain ⟨h1, h2⟩ := ih (insertBack hd acc) (insertBack_pairwise hd acc hacc)
    refine ⟨h1, h2.trans ?_⟩
    have h3 : (tl ++ insertBack hd acc).Perm (tl ++ hd :: acc) :=
      List.Perm.append_left tl (insertBack_perm hd acc)
    exact h3.trans (List.perm_middle)

/-- The slice after the sort of lines 70-72 holds the same node runs, by
non-increasing sub-number. -/
theorem sortSlice_sorted (nodeRuns : List NodeRunState) :
    (sortSlice nodeRuns).Perm nodeRuns ∧
      (sortSlice nodeRuns).Pairwise (fun a b => b.SubNumber ≤ a.SubNumber) := by
  obtain ⟨h1, h2⟩ := foldl_insertBack nodeRuns [] List.Pairwise.nil
  unfold sortSlice
  constructor
  · exact (List.reverse_perm _).trans (by simpa using h2)
  · rw [List.pairwise_reverse]
    exact h1

theorem commentPullRequests_no_ListStatuses (env : VCSEnv) (nodeRun : NodeRunState)
    (repo : String) (prs : List VCSPullRequest) :
    ∀ log : List VCSEvent, ∃ tail,
      commentPullRequests env nodeRun repo prs log = log ++ tail ∧
        ∀ ev ∈ tail, isListStatuses ev = false := by
  induction prs with
  | nil => intro log; exact ⟨[], by simp [commentPullRequests], by simp⟩
  | cons pr rest ih =>
    intro log
    unfold commentPullRequests
    split_ifs
    · exact ih log
    · cases env.Report nodeRun with
      | error e => exact ⟨[], by simp, by simp⟩
      | ok report =>
        simp only []
        cases env.PullRequestComment log repo pr.ID report with
        | some e => exact ⟨[.PullRequestComment repo pr.ID report], rfl, by simp [isListStatuses]⟩
        | none =>
          obtain ⟨tail, htail, hno⟩ := ih (log ++ [.PullRequestComment repo pr.ID report])
          refine ⟨[.PullRequestComment repo pr.ID report] ++ tail, ?_, ?_⟩
          · simp only []
            rw [htail, List.append_assoc]
          · intro ev hev
            rcases List.mem_append.mp hev with h | h
            · simp only [List.mem_singleton] at h
              subst h
              rfl
            · exact hno ev h
    · exact ih log

/-- The calls that `sendVCSEventStatus` adds hold no listing of the statuses. -/
theorem sendVCSEventStatus_no_ListStatuses (env : VCSEnv) (log : List VCSEvent)
    (proj : Project) (wr : RunState) (nodeRun : NodeRunState) :
    ∃ tail, (sendVCSEventStatus env log proj wr nodeRun).2 = log ++ tail ∧
      ∀ ev ∈ tail, isListStatuses ev = false := by
  unfold sendVCSEventStatus
  simp only []
  cases linkedNode (wr.Workflow.GetNode nodeRun.WorkflowNodeID) with
  | none => exact ⟨[.sendVCSEventStatus nodeRun.ID], rfl, by simp [isListStatuses]⟩
  | some na =>
    obtain ⟨node, app⟩ := na
    simp only []
    cases env.GetProjectVCSServer proj app.VCSServer with
    | none => exact ⟨[.sendVCSEventStatus nodeRun.ID], rfl, by simp [isListStatuses]⟩
    | some vcsServer =>
      simp only []
      cases env.AuthorizedClient (log ++ [.sendVCSEventStatus nodeRun.ID]) vcsServer with
      | some e =>
        exact ⟨[.sendVCSEventStatus nodeRun.ID, .AuthorizedClient vcsServer], by simp,
          by simp [isListStatuses]⟩
      | none =>
        simp only []
        cases env.SetStatus
            (log ++ [.sendVCSEventStatus nodeRun.ID] ++ [.AuthorizedClient vcsServer])
            nodeRun with
        | some e =>
          exact ⟨[.sendVCSEventStatus nodeRun.ID, .AuthorizedClient vcsServer,
            .SetStatus nodeRun.ID nodeRun.Status, .RetryEvent nodeRun.ID], by simp,
            by simp [isListStatuses]⟩
        | none =>
          simp only []
          cases env.PullRequests
              (log ++ [.sendVCSEventStatus nodeRun.ID] ++ [.AuthorizedClient vcsServer]
                ++ [.SetStatus nodeRun.ID nodeRun.Status]) app.RepositoryFullname with
          | error e =>
            exact ⟨[.sendVCSEventStatus nodeRun.ID, .AuthorizedClient vcsServer,
              .SetStatus nodeRun.ID nodeRun.Status,
              .PullRequests app.RepositoryFullname], by simp, by simp [isListStatuses]⟩
          | ok prs =>
            simp only []
            obtain ⟨tail, htail, hno⟩ := commentPullRequests_no_ListStatuses env nodeRun
              app.RepositoryFullname prs
              (log ++ [.sendVCSEventStatus nodeRun.ID] ++ [.AuthorizedClient vcsServer]
                ++ [.SetStatus nodeRun.ID nodeRun.Status]
                ++ [.PullRequests app.RepositoryFullname])
            refine ⟨[.sendVCSEventStatus nodeRun.ID, .AuthorizedClient vcsServer,
              .SetStatus nodeRun.ID nodeRun.Status,
              .PullRequests app.RepositoryFullname] ++ tail, by rw [htail]; simp, ?_⟩
            intro ev hev
            rcases List.mem_append.mp hev with h | h
            · simp only [List.mem_cons, List.mem_singleton, List.mem_nil_iff, or_false] at h
              rcases h with h | h | h | h <;> (subst h; rfl)
            · exact hno ev h

/-- For every node with a non-empty list of node runs, the loop body selects a
node run (`nodeRuns[0]` after the sort is in range); it is one of the node runs of
the node, and its sub-number is greater than or equal to that of every node run of
the node. When the iteration reaches line 100 (selected node run terminated, node
bound to a repository, server configured, client obtained), the statuses are listed
once, on the repository of the application, for the tag of the selected node run
when it has one and for its hash otherwise. -/
theorem resyncNode_selects_highest_subnumber (env : VCSEnv)
    (log : List VCSEvent) (proj : Project) (wr : RunState) (nodeID : Int)
    (nodeRuns : List NodeRunState) (hne : nodeRuns ≠ []) :
    ∃ nodeRun others,
      sortSlice nodeRuns = nodeRun :: others ∧
      nodeRun ∈ nodeRuns ∧
      (∀ x ∈ nodeRuns, x.SubNumber ≤ nodeRun.SubNumber) ∧
      (resyncNode env log proj wr nodeID nodeRuns).1 ≠ .panic ∧
      ∀ (node : WorkflowNode) (app : Application) (vcsServer : String),
        env.StatusIsTerminated nodeRun.Status = true →
        linkedNode (wr.Workflow.GetNode nodeID) = some (node, app) →
        env.GetProjectVCSServer proj app.VCSServer = some vcsServer →
        env.AuthorizedClient log vcsServer = none →
        ∃ added,
          (resyncNode env log proj wr nodeID nodeRuns).2
            = log ++ [.AuthorizedClient vcsServer,
                .ListStatuses app.RepositoryFullname
                  (if nodeRun.VCSTag ≠ "" then nodeRun.VCSTag else nodeRun.VCSHash)]
              ++ added ∧
          ∀ repo ref, VCSEvent.ListStatuses repo ref ∉ added := by
  obtain ⟨hperm, hsorted⟩ := sortSlice_sorted nodeRuns
  cases hsel : sortSlice nodeRuns with
  | nil =>
    rw [hsel] at hperm
    exact absurd (List.Perm.eq_nil hperm.symm) hne
  | cons nodeRun others =>
    rw [hsel] at hperm hsorted
    rw [List.pairwise_cons] at hsorted
    refine ⟨nodeRun, others, rfl, hperm.subset (List.mem_cons_self _ _), ?_, ?_, ?_⟩
    · intro x hx
      rcases List.mem_cons.mp (hperm.symm.subset hx) with h | h
      · subst h; exact le_refl _
      · exact hsorted.1 x h
    · unfold resyncNode
      rw [hsel]
      simp only []
      repeat' split
      all_goals simp
    · intro node app vcsServer hterm hlinked hserver hclient
      cases hlist : env.ListStatuses (log ++ [.AuthorizedClient vcsServer])
          app.RepositoryFullname
          (if nodeRun.VCSTag ≠ "" then nodeRun.VCSTag else nodeRun.VCSHash) with
      | error errStatuses =>
        refine ⟨[], ?_, by simp⟩
        unfold resyncNode
        simp only [hsel, hterm, hlinked, hserver, hclient, hlist, Bool.not_true,
          Bool.false_eq_true, if_false, List.append_nil]
      | ok statuses =>
        rw [resyncNode_reconcile env log proj wr nodeID nodeRuns nodeRun others node app
          vcsServer statuses hsel hterm hlinked hserver hclient hlist, reconcile_eq]
        cases hrep : republish (statusFound statuses
            (env.VCSCommitStatusDescription proj.Key wr.Workflow.Name node.Name))
            nodeRun.Status with
        | false => exact ⟨[], by simp, by simp⟩
        | true =>
          obtain ⟨tail, htail, hno⟩ := sendVCSEventStatus_no_ListStatuses env
            (log ++ [.AuthorizedClient vcsServer,
              .ListStatuses app.RepositoryFullname
                (if nodeRun.VCSTag ≠ "" then nodeRun.VCSTag else nodeRun.VCSHash)])
            proj wr nodeRun
          refine ⟨tail, ?_, ?_⟩
          · simp only [if_true]
            exact htail
          · intro repo ref hmem
            have := hno _ hmem
            simp [isListStatuses] at this

/-- Instance on four node runs of the node `deploy`, of sub-numbers 0, 2, 1
and 2: the node run 204, of sub-number 2, is selected, and the statuses are listed
for its tag `v1.0`. -/
theorem resyncNode_selects_highest_subnumber_deployHistory :
    deployHistory ≠ [] ∧
      sortSlice deployHistory
        = [nodeRunTagged 204 2 StatusSuccess "v1.0", nodeRunTagged 202 2 StatusSuccess "",
            nodeRunTagged 203 1 StatusFail "", nodeRunTagged 201 0 StatusFail ""] ∧
      (∀ x ∈ deployHistory, x.SubNumber ≤ 2) ∧
      VCSEvent.ListStatuses "ovh/cds" "v1.0"
        ∈ (resyncNode (vcsEnv none StatusSuccess) [] scenarioProject resyncRun 2
            deployHistory).2 := by
  obtain ⟨nodeRun, others, hsel, _, hmax, _, href⟩ :=
    resyncNode_selects_highest_subnumber (vcsEnv none StatusSuccess) []
      scenarioProject resyncRun 2 deployHistory (by decide)
  have heval : sortSlice deployHistory
      = [nodeRunTagged 204 2 StatusSuccess "v1.0", nodeRunTagged 202 2 StatusSuccess "",
          nodeRunTagged 203 1 StatusFail "", nodeRunTagged 201 0 StatusFail ""] := rfl
  rw [heval] at hsel
  obtain ⟨hhead, _⟩ := List.cons.inj hsel
  subst hhead
  refine ⟨by decide, heval, hmax, ?_⟩
  obtain ⟨added, hadded, _⟩ := href deployNode deployApp "github" rfl rfl rfl rfl
  rw [hadded]
  exact List.mem_append_left _ (List.mem_append_right _
    (List.mem_cons_of_mem _ (List.mem_singleton.mpr rfl)))

end workflow

namespace api

open sdk workflow

/-! The shared report of the branches of `startWorkflowRun` -/

theorem filterMap_getElem?_range {α : Type} (l : List α) :
    (List.range l.length).filterMap (fun i => l[i]?) = l := by
  induction l using List.reverseRecOn with
  | nil => rfl
  | append_singleton t a ih =>
    rw [List.length_append, List.length_singleton, List.range_succ, List.filterMap_append]
    have hleft : (List.range t.length).filterMap (fun i => (t ++ [a])[i]?)
        = (List.range t.length).filterMap (fun i => t[i]?) := by
      apply List.filterMap_congr
      intro i hi
      rw [List.getElem?_append_left (List.mem_range.mp hi)]
    rw [hleft, ih]
    simp

theorem foldl_branchReport_workflows (ordered : List (RunResult × List StartEvent)) :
    ∀ report : ProcessorReport,
      (ordered.foldl (fun report b => branchReport report b.1) report).workflows
        = report.workflows ++ ordered.flatMap (fun b => mergedRuns b.1) := by
  induction ordered with
  | nil => intro report; simp
  | cons b t ih =>
    intro report
    rw [List.foldl_cons, ih]
    cases hb : b.1 with
    | ok r1 =>
      simp [branchReport, mergedRuns, hb, ProcessorReport.Merge]
    | error err =>
      simp [branchReport, mergedRuns, hb, ProcessorReport.Merge, ProcessorReport.AddError]
    | panic => simp [branchReport, mergedRuns, hb]

theorem foldl_branchReport_nodes (ordered : List (RunResult × List StartEvent)) :
    ∀ report : ProcessorReport,
      (ordered.foldl (fun report b => branchReport report b.1) report).nodes
        = report.nodes ++ ordered.flatMap (fun b => mergedNodeRuns b.1) := by
  induction ordered with
  | nil => intro report; simp
  | cons b t ih =>
    intro report
    rw [List.foldl_cons, ih]
    cases hb : b.1 with
    | ok r1 =>
      simp [branchReport, mergedNodeRuns, hb, ProcessorReport.Merge]
    | error err =>
      simp [branchReport, mergedNodeRuns, hb, ProcessorReport.Merge,
        ProcessorReport.AddError]
    | panic => simp [branchReport, mergedNodeRuns, hb]

theorem length_branchResults (env : StartEnv) (manual : WorkflowNodeRunManual) (p : Project)
    (lastRun : Option WorkflowRun) (u : User) (l : List (Option WorkflowNode)) :
    ∀ i : Nat, (branchResults env manual p lastRun u i l).length = l.length := by
  induction l with
  | nil => intro i; rfl
  | cons n t ih => intro i; simp [branchResults, ih]

/-- The branches in the order in which they reach the shared report are the branches,
each once. -/
theorem ordered_perm (env : StartEnv) (manual : WorkflowNodeRunManual) (p : Project)
    (lastRun : Option WorkflowRun) (u : User) (fromNodes : List (Option WorkflowNode))
    (sched : List Nat) (hsched : sched.Perm (List.range fromNodes.length)) :
    (sched.filterMap
        (fun i => (branchResults env manual p lastRun u 0 fromNodes)[i]?)).Perm
      (branchResults env manual p lastRun u 0 fromNodes) := by
  have h := List.Perm.filterMap
    (fun i => (branchResults env manual p lastRun u 0 fromNodes)[i]?) hsched
  rw [← length_branchResults env manual p lastRun u fromNodes 0,
    filterMap_getElem?_range] at h
  exact h

/-- For every order `sched` in which the branches that `startWorkflowRun` spawns
reach the shared report (a permutation of the positions of the from-nodes), the
report at the barrier holds, each once and nothing else: the error of every
branch whose `runFromNode` failed, and the errors, the workflow runs and the node
runs of the report of every branch whose `runFromNode` succeeded. In particular
every such error, workflow run and node run is in the report. -/
theorem fanOut_report_complete (env : StartEnv)
    (manual : WorkflowNodeRunManual) (p : Project) (lastRun : Option WorkflowRun)
    (u : User) (fromNodes : List (Option WorkflowNode)) (sched : List Nat)
    (hsched : sched.Perm (List.range fromNodes.length)) :
    ((fanOut env manual p lastRun u fromNodes sched).1.errors.Perm
        ((branchResults env manual p lastRun u 0 fromNodes).flatMap
          (fun b => contribution b.1)) ∧
      (fanOut env manual p lastRun u fromNodes sched).1.workflows.Perm
        ((branchResults env manual p lastRun u 0 fromNodes).flatMap
          (fun b => mergedRuns b.1)) ∧
      (fanOut env manual p lastRun u fromNodes sched).1.nodes.Perm
        ((branchResults env manual p lastRun u 0 fromNodes).flatMap
          (fun b => mergedNodeRuns b.1))) ∧
      ∀ i n, fromNodes[i]? = some n →
        (∀ e, (runFromNode env i manual p lastRun u n).1 = .error e →
          e ∈ (fanOut env manual p lastRun u fromNodes sched).1.errors) ∧
        (∀ r, (runFromNode env i manual p lastRun u n).1 = .ok r →
          (∀ e ∈ r.errors, e ∈ (fanOut env manual p lastRun u fromNodes sched).1.errors) ∧
          (∀ run ∈ r.workflows,
            run ∈ (fanOut env manual p lastRun u fromNodes sched).1.workflows) ∧
          (∀ nodeRun ∈ r.nodes,
            nodeRun ∈ (fanOut env manual p lastRun u fromNodes sched).1.nodes)) := by
  have hord := ordered_perm env manual p lastRun u fromNodes sched hsched
  have herr : (fanOut env manual p lastRun u fromNodes sched).1.errors.Perm
      ((branchResults env manual p lastRun u 0 fromNodes).flatMap
        (fun b => contribution b.1)) := by
    unfold fanOut
    simp only []
    rw [foldl_branchReport_errors]
    simpa [ProcessorReport.new] using List.Perm.flatMap_right _ hord
  have hwf : (fanOut env manual p lastRun u fromNodes sched).1.workflows.Perm
      ((branchResults env manual p lastRun u 0 fromNodes).flatMap
        (fun b => mergedRuns b.1)) := by
    unfold fanOut
    simp only []
    rw [foldl_branchReport_workflows]
    simpa [ProcessorReport.new] using List.Perm.flatMap_right _ hord
  have hnodes : (fanOut env manual p lastRun u fromNodes sched).1.nodes.Perm
      ((branchResults env manual p lastRun u 0 fromNodes).flatMap
        (fun b => mergedNodeRuns b.1)) := by
    unfold fanOut
    simp only []
    rw [foldl_branchReport_nodes]
    simpa [ProcessorReport.new] using List.Perm.flatMap_right _ hord
  refine ⟨⟨herr, hwf, hnodes⟩, ?_⟩
  intro i n hi
  have hmem : runFromNode env i manual p lastRun u n
      ∈ branchResults env manual p lastRun u 0 fromNodes := by
    have hget := branchResults_get? env manual p lastRun u fromNodes 0 i
    rw [hi] at hget
    simp only [Option.map_some', Nat.zero_add] at hget
    exact List.getElem?_mem hget
  refine ⟨?_, ?_⟩
  · intro e he
    apply herr.symm.subset
    rw [List.mem_flatMap]
    exact ⟨_, hmem, by simp [contribution, he]⟩
  · intro r hr
    refine ⟨?_, ?_, ?_⟩
    · intro e he
      apply herr.symm.subset
      rw [List.mem_flatMap]
      exact ⟨_, hmem, by simpa [contribution, hr] using he⟩
    · intro run hrun
      apply hwf.symm.subset
      rw [List.mem_flatMap]
      exact ⟨_, hmem, by simpa [mergedRuns, hr] using hrun⟩
    · intro nodeRun hnr
      apply hnodes.symm.subset
      rw [List.mem_flatMap]
      exact ⟨_, hmem, by simpa [mergedNodeRuns, hr] using hnr⟩

/-- Instance: three branches, of which the branch 1 fails to commit, reaching
the shared report in the order 2, 0, 1. At the barrier the report holds the error of
the branch 1 and the node runs merged by the branches 2 and 0. -/
theorem fanOut_report_complete_three_branches :
    [2, 0, 1].Perm (List.range (threeNodeWorkflow.Nodes.map some).length) ∧
      (fanOut startEnvMixed (manualOf startFromBoth caller) scenarioProject
          (some ⟨12, threeNodeWorkflow⟩) caller (threeNodeWorkflow.Nodes.map some)
          [2, 0, 1]).1.errors
        = ["runFromNode> Unable to commit transaction: commit refused"] ∧
      (fanOut startEnvMixed (manualOf startFromBoth caller) scenarioProject
          (some ⟨12, threeNodeWorkflow⟩) caller (threeNodeWorkflow.Nodes.map some)
          [2, 0, 1]).1.nodes
        = [nodeRunOf 102 0 StatusBuilding, nodeRunOf 100 0 StatusBuilding] ∧
      (fanOut startEnvMixed (manualOf startFromBoth caller) scenarioProject
          (some ⟨12, threeNodeWorkflow⟩) caller (threeNodeWorkflow.Nodes.map some)
          [2, 0, 1]).1.nodes.Perm
        ((branchResults startEnvMixed (manualOf startFromBoth caller) scenarioProject
          (some ⟨12, threeNodeWorkflow⟩) caller 0
          (threeNodeWorkflow.Nodes.map some)).flatMap (fun b => mergedNodeRuns b.1)) :=
  ⟨by decide, rfl, rfl,
    (fanOut_report_complete startEnvMixed (manualOf startFromBoth caller)
      scenarioProject (some ⟨12, threeNodeWorkflow⟩) caller
      (threeNodeWorkflow.Nodes.map some) [2, 0, 1] (by decide)).1.2.2⟩

end api

namespace api

open sdk workflow

/-! The user of the manual trigger -/

theorem runFromNode_all_eventUser (env : StartEnv) (i : Nat)
    (manual : WorkflowNodeRunManual) (p : Project) (lastRun : Option WorkflowRun)
    (u : User) (fromNode : Option WorkflowNode) :
    (runFromNode env i manual p lastRun u fromNode).2.all
        (fun ev => decide (∀ user, eventUser ev = some user → user = manual.User))
      = true := by
  unfold runFromNode manualRunFromNode commitBranch
  repeat' split
  all_goals simp [eventUser]

/-- Every creation routine that a branch invokes receives the user of the manual
trigger. -/
theorem fanOut_eventUser (env : StartEnv) (manual : WorkflowNodeRunManual) (p : Project)
    (lastRun : Option WorkflowRun) (u : User) (fromNodes : List (Option WorkflowNode))
    (sched : List Nat) :
    ∀ ev ∈ (fanOut env manual p lastRun u fromNodes sched).2.1,
      ∀ user, eventUser ev = some user → user = manual.User := by
  intro ev hev
  rw [(fanOut_eq env manual p lastRun u fromNodes sched).2.1] at hev
  rw [List.mem_flatMap] at hev
  obtain ⟨i, _, hi⟩ := hev
  cases hn : fromNodes[i]? with
  | none => simp [hn] at hi
  | some n =>
    simp only [hn, Option.map_some', Option.toList_some, List.flatMap_singleton] at hi
    have hall := List.all_eq_true.mp
      (runFromNode_all_eventUser env i manual p lastRun u n) ev hi
    exact of_decide_eq_true hall

theorem mem_append_eventUser (target : User) (events extra : List StartEvent)
    (hev : ∀ ev ∈ events, ∀ user, eventUser ev = some user → user = target)
    (hextra : ∀ ev ∈ extra, ∀ user, eventUser ev = some user → user = target) :
    ∀ ev ∈ events ++ extra, ∀ user, eventUser ev = some user → user = target := by
  intro ev hmem
  rcases List.mem_append.mp hmem with h | h
  · exact hev ev h
  · exact hextra ev h

theorem afterWait_eventUser (env : StartEnv) (manual : WorkflowNodeRunManual)
    (lastRun : Option WorkflowRun) (report : ProcessorReport) (events : List StartEvent)
    (hev : ∀ ev ∈ events, ∀ user, eventUser ev = some user → user = manual.User) :
    ∀ ev ∈ (afterWait env manual lastRun report events).2,
      ∀ user, eventUser ev = some user → user = manual.User := by
  unfold afterWait commitStart
  repeat' split
  all_goals first
    | exact hev
    | (refine mem_append_eventUser _ _ _ hev ?_
       simp [eventUser])
    | (refine mem_append_eventUser _ _ _ (mem_append_eventUser _ _ _ hev ?_) ?_
       all_goals simp [eventUser])

theorem runFromNode_checkedAs (env : StartEnv) (i : Nat) (manual : WorkflowNodeRunManual)
    (p : Project) (lastRun : Option WorkflowRun) (u : User)
    (fromNode : Option WorkflowNode) :
    runFromNode (checkedAs env u) i manual p lastRun u fromNode
      = runFromNode env i manual p lastRun u fromNode := by
  rfl

theorem branchResults_checkedAs (env : StartEnv) (manual : WorkflowNodeRunManual)
    (p : Project) (lastRun : Option WorkflowRun) (u : User)
    (l : List (Option WorkflowNode)) :
    ∀ i : Nat, branchResults (checkedAs env u) manual p lastRun u i l
      = branchResults env manual p lastRun u i l := by
  induction l with
  | nil => intro i; rfl
  | cons n t ih =>
    intro i
    simp only [branchResults, ih, runFromNode_checkedAs]

end api

namespace api

open sdk workflow

/-! The previous run of a start from nodes -/

/-- Without a previous run, a manual start with from-node IDs dereferences the nil
`lastRun` at line 755, as soon as the transaction has begun. -/
theorem startWorkflowRun_nil_lastRun (env : StartEnv) (sched : List Nat) (p : Project)
    (wf : Workflow) (opts : WorkflowRunPostHandlerOption) (u : User)
    (hbegin : env.Begin = none) (hhook : opts.Hook = none)
    (hids : opts.FromNodeIDs ≠ []) :
    startWorkflowRun env sched p wf none opts u = (.panic, [.Begin]) := by
  have hlen : opts.FromNodeIDs.length > 0 := List.length_pos.mpr hids
  unfold startWorkflowRun
  simp only [hbegin, hhook, resolveFromNodes, hlen, if_true]

/-- A request without run number leaves `lastRun` nil (lines 617-627). -/
theorem loadLastRun_no_number (env : PostEnv) (opts : WorkflowRunPostHandlerOption)
    (hnumber : opts.Number = none) : loadLastRun env opts = .ok none := by
  unfold loadLastRun
  rw [hnumber]

/-- For every request that carries from-node IDs, no run number and no hook event:
when the project and the workflow are loaded and the transaction begins,
`postWorkflowRunHandler` calls `startWorkflowRun` with a nil `lastRun`, which is
dereferenced at line 755. -/
theorem postWorkflowRunHandler_nil_lastRun (env : PostEnv) (sched : List Nat)
    (key name : String) (u : User) (opts : WorkflowRunPostHandlerOption) (p : Project)
    (wf : Workflow)
    (hproject : env.ProjectLoad = .ok p)
    (hworkflow : loadWorkflow env p key name = .ok wf)
    (hbegin : env.start.Begin = none)
    (hnumber : opts.Number = none) (hhook : opts.Hook = none)
    (hids : opts.FromNodeIDs ≠ []) :
    postWorkflowRunHandler env sched key name u (.ok opts) = (.panic, [.Begin]) := by
  unfold postWorkflowRunHandler
  simp only [hproject, loadLastRun_no_number env opts hnumber, hworkflow,
    startWorkflowRun_nil_lastRun env.start sched p wf opts u hbegin hhook hids]

/-- C28. The request of a manual start from the node 1 without run number, on
collaborators that all succeed: `postWorkflowRunHandler` leaves `lastRun` nil, loads
the workflow and calls `startWorkflowRun`, which begins its transaction and
dereferences the nil `lastRun` in the lookup of the from-node. The same request
with the run number 12 starts the run from the node 1. -/
theorem postWorkflowRunHandler_from_node_without_number :
    startFromNodeNoNumber.FromNodeIDs = [1] ∧ startFromNodeNoNumber.Number = none ∧
      loadLastRun postEnv startFromNodeNoNumber = .ok none ∧
      resolveFromNodes twoNodeWorkflow none startFromNodeNoNumber.FromNodeIDs
        = .nilLastRun ∧
      postWorkflowRunHandler postEnv [0] "PRJ" "wf" caller (.ok startFromNodeNoNumber)
        = (.panic, [.Begin]) ∧
      (postWorkflowRunHandler postEnv [0] "PRJ" "wf" caller
          (.ok ⟨none, none, some 12, [1]⟩)).2
        = [.Begin, .BranchBegin 0, .ManualRunFromNode 0 12 1 (manualUser caller),
            .BranchCommit 0, .Wait, .Commit] :=
  ⟨rfl, rfl, rfl, rfl, rfl, rfl⟩

end api

namespace api

open sdk

/-! Registration of a hatchery, `registerHatcheryHandler` -/

/-- Whenever the token is loaded and the load of the hatchery fails with an error
other than `sdk.ErrNoHatchery`, the handler returns the value of `sdk.WrapError`
on the nil error of the token load, whatever the error of the load of the hatchery
is, and it neither updates nor inserts a hatchery. -/
theorem registerHatcheryHandler_load_error (env : HatcheryEnv) (hatch : Hatchery)
    (tk : Token) (oldH : Option Hatchery) (errL : String)
    (htoken : env.LoadToken hatch.UID = .ok tk)
    (hload : env.LoadHatcheryByNameAndToken hatch.Name tk.Token = (oldH, some errL))
    (hne : errL ≠ ErrNoHatchery) :
    registerHatcheryHandler env (.ok hatch)
        = (env.WrapErrorNil ("registerHatcheryHandler> Cannot load hatchery " ++ hatch.Name),
            [.LoadToken hatch.UID, .LoadHatcheryByNameAndToken hatch.Name tk.Token]) ∧
      ∀ ev ∈ (registerHatcheryHandler env (.ok hatch)).2, isWrite ev = false := by
  have heq : registerHatcheryHandler env (.ok hatch)
      = (env.WrapErrorNil ("registerHatcheryHandler> Cannot load hatchery " ++ hatch.Name),
          [.LoadToken hatch.UID, .LoadHatcheryByNameAndToken hatch.Name tk.Token]) := by
    unfold registerHatcheryHandler
    simp only [htoken, hload]
    rw [if_pos]
    exact ⟨by simp, by simpa using hne⟩
  refine ⟨heq, ?_⟩
  rw [heq]
  intro ev hev
  simp only [List.mem_cons, List.mem_singleton, List.mem_nil_iff, or_false] at hev
  rcases hev with h | h <;> (subst h; rfl)

/-- C29. The registration of the hatchery `h1`, the token being loaded and the load
of the hatchery failing with `dial tcp: connection refused`, or with
`sql: bad connection`: in both cases the handler returns `wrapped`, the value of
`sdk.WrapError` on a nil error, and makes no write. The returned value is the same
for the two load errors, and it is nil when `sdk.WrapError` returns nil on a nil
error. -/
theorem registerHatcheryHandler_drops_load_error (wrapped : Option String) :
    registerHatcheryHandler (hatcheryEnv (some "dial tcp: connection refused") wrapped)
        (.ok newHatchery)
      = (wrapped, [.LoadToken "uid-1", .LoadHatcheryByNameAndToken "h1" "tk-1"]) ∧
    registerHatcheryHandler (hatcheryEnv (some "sql: bad connection") wrapped)
        (.ok newHatchery)
      = (wrapped, [.LoadToken "uid-1", .LoadHatcheryByNameAndToken "h1" "tk-1"]) ∧
    (registerHatcheryHandler (hatcheryEnv (some "dial tcp: connection refused") none)
        (.ok newHatchery)).1 = none :=
  ⟨rfl, rfl, rfl⟩

end api

namespace services

open sdk

/-! The service client -/

/-- A call of `doRequest` records the service called and sends at most one request. -/
theorem doRequest_log (env : HTTPEnv) (log : List HTTPEvent)
    (httpURL hash method path : String) (args : Option String) :
    (doRequest env log httpURL hash method path args).2.filterMap callOf
        = log.filterMap callOf ++ [(httpURL, hash)] ∧
      ((doRequest env log httpURL hash method path args).2.filter isDo).length
        ≤ (log.filter isDo).length + 1 := by
  unfold doRequest
  simp only []
  cases env.ParseRequestURI (httpURL ++ path) with
  | error err => simp [List.filterMap_append, List.filter_append, callOf, isDo]
  | ok callURL =>
    simp only []
    cases env.NewRequest method callURL args with
    | some requestError => simp [List.filterMap_append, List.filter_append, callOf, isDo]
    | none =>
      simp only []
      cases env.Do (log ++ [.doRequest httpURL hash]) method callURL args with
      | error errDo => simp [List.filterMap_append, List.filter_append, callOf, isDo]
      | ok resp =>
        simp only []
        cases resp.Body with
        | error errBody => simp [List.filterMap_append, List.filter_append, callOf, isDo]
        | ok body =>
          simp only []
          split
          · simp [List.filterMap_append, List.filter_append, callOf, isDo]
          · cases env.DecodeError body <;>
              simp [List.filterMap_append, List.filter_append, callOf, isDo]

/-- A failed call of `doRequest` returns a nil body. -/
theorem doRequest_error_body (env : HTTPEnv) (log : List HTTPEvent)
    (httpURL hash method path : String) (args : Option String) (btes : Option String)
    (code : Int) (err : String) (log1 : List HTTPEvent)
    (h : doRequest env log httpURL hash method path args = ((btes, code, some err), log1)) :
    btes = none := by
  unfold doRequest at h
  simp only [] at h
  cases hp : env.ParseRequestURI (httpURL ++ path) with
  | error err =>
    rw [hp] at h
    simp only [Prod.mk.injEq] at h
    exact h.1.1.symm
  | ok callURL =>
    rw [hp] at h
    simp only [] at h
    cases hn : env.NewRequest method callURL args with
    | some requestError =>
      rw [hn] at h
      simp only [Prod.mk.injEq] at h
      exact h.1.1.symm
    | none =>
      rw [hn] at h
      simp only [] at h
      cases hd : env.Do (log ++ [.doRequest httpURL hash]) method callURL args with
      | error errDo =>
        rw [hd] at h
        simp only [Prod.mk.injEq] at h
        exact h.1.1.symm
      | ok resp =>
        rw [hd] at h
        simp only [] at h
        cases hb : resp.Body with
        | error errBody =>
          rw [hb] at h
          simp only [Prod.mk.injEq] at h
          exact h.1.1.symm
        | ok body =>
          rw [hb] at h
          simp only [] at h
          split at h
          · simp at h
          · cases hc : env.DecodeError body with
            | some cdserr =>
              rw [hc] at h
              simp only [Prod.mk.injEq] at h
              exact h.1.1.symm
            | none =>
              rw [hc] at h
              simp only [Prod.mk.injEq] at h
              exact h.1.1.symm

/-- The loop of `DoRequest` over a non-empty list of services does what the contract
says. -/
theorem requestPass_requestInOrder (env : HTTPEnv) (method path : String)
    (args : Option String) :
    ∀ (rest : List Service) (srv : Service) (c : Int) (e : Option String)
      (log : List HTTPEvent),
      requestPass env method path args (srv :: rest) c e log
        = match requestInOrder env method path args srv rest log with
          | ((btes, code, none), log1) => .returned (btes, code, none) log1
          | ((_, code, some err), log1) => .through code (some err) log1 := by
  intro rest
  induction rest with
  | nil =>
    intro srv c e log
    simp only [requestPass, requestInOrder]
    cases doRequest env log srv.HTTPURL srv.Hash method path args with
    | mk a log1 =>
      obtain ⟨btes, code, err⟩ := a
      cases err <;> rfl
  | cons next rest ih =>
    intro srv c e log
    rw [requestPass, requestInOrder]
    cases doRequest env log srv.HTTPURL srv.Hash method path args with
    | mk a log1 =>
      obtain ⟨btes, code, err⟩ := a
      cases err with
      | none => rfl
      | some err => exact ih next code (some err) log1

/-- When every call fails, the contract gives a nil body. -/
theorem requestInOrder_error_body (env : HTTPEnv) (method path : String)
    (args : Option String) :
    ∀ (rest : List Service) (srv : Service) (log : List HTTPEvent) (btes : Option String)
      (code : Int) (err : String) (log1 : List HTTPEvent),
      requestInOrder env method path args srv rest log = ((btes, code, some err), log1) →
        btes = none := by
  intro rest
  induction rest with
  | nil =>
    intro srv log btes code err log1 h
    rw [requestInOrder] at h
    cases hd : doRequest env log srv.HTTPURL srv.Hash method path args with
    | mk a log2 =>
      obtain ⟨b, c, e⟩ := a
      rw [hd] at h
      cases e with
      | none => simp at h
      | some e =>
        simp only [Prod.mk.injEq] at h
        exact h.1.1.symm
  | cons next rest ih =>
    intro srv log btes code err log1 h
    rw [requestInOrder] at h
    cases hd : doRequest env log srv.HTTPURL srv.Hash method path args with
    | mk a log2 =>
      obtain ⟨b, c, e⟩ := a
      rw [hd] at h
      cases e with
      | none => simp at h
      | some e => exact ih next log2 btes code err log1 h

/-- With at least one pass, the loop of `DoRequest` on a non-empty list returns what
the contract says, whatever the counter. -/
theorem DoRequestLoop_cons (env : HTTPEnv) (method path : String) (args : Option String)
    (srv : Service) (rest : List Service) (fuel attempt : Nat) (c : Int)
    (e : Option String) (log : List HTTPEvent) :
    DoRequestLoop env (srv :: rest) method path args (fuel + 1) attempt c e log
      = some (requestInOrder env method path args srv rest log) := by
  rw [DoRequestLoop, requestPass_requestInOrder]
  cases h : requestInOrder env method path args srv rest log with
  | mk a log1 =>
    obtain ⟨btes, code, err⟩ := a
    cases err with
    | none => rfl
    | some err =>
      have hb := requestInOrder_error_body env method path args rest srv log btes code err
        log1 h
      subst hb
      simp

/-- The contract calls a first part of the list, in order, and sends at most one
request per call. -/
theorem requestInOrder_calls (env : HTTPEnv) (method path : String) (args : Option String) :
    ∀ (rest : List Service) (srv : Service) (log : List HTTPEvent),
      ∃ called : List (String × String),
        called <+: (srv :: rest).map (fun s => (s.HTTPURL, s.Hash)) ∧
        (requestInOrder env method path args srv rest log).2.filterMap callOf
          = log.filterMap callOf ++ called ∧
        ((requestInOrder env method path args srv rest log).2.filter isDo).length
          ≤ (log.filter isDo).length + called.length := by
  intro rest
  induction rest with
  | nil =>
    intro srv log
    refine ⟨[(srv.HTTPURL, srv.Hash)], List.prefix_refl _, ?_, ?_⟩
    all_goals
      rw [requestInOrder]
      have hl := doRequest_log env log srv.HTTPURL srv.Hash method path args
      cases hd : doRequest env log srv.HTTPURL srv.Hash method path args with
      | mk a log1 =>
        obtain ⟨b, c, e⟩ := a
        rw [hd] at hl
        cases e
        · first | exact hl.1 | exact hl.2
        · first | exact hl.1 | exact hl.2
  | cons next rest ih =>
    intro srv log
    have hl := doRequest_log env log srv.HTTPURL srv.Hash method path args
    cases hd : doRequest env log srv.HTTPURL srv.Hash method path args with
    | mk a log1 =>
      obtain ⟨b, c, e⟩ := a
      rw [hd] at hl
      cases e with
      | none =>
        refine ⟨[(srv.HTTPURL, srv.Hash)], ?_, ?_, ?_⟩
        · exact ⟨(next :: rest).map (fun s : Service => (s.HTTPURL, s.Hash)), rfl⟩
        · rw [requestInOrder, hd]
          exact hl.1
        · rw [requestInOrder, hd]
          exact hl.2
      | some e =>
        obtain ⟨called, hpre, hcalls, hdo⟩ := ih next log1
        refine ⟨(srv.HTTPURL, srv.Hash) :: called, ?_, ?_, ?_⟩
        · rw [List.map_cons]
          exact (List.prefix_cons_inj _).mpr hpre
        · rw [requestInOrder, hd]
          simp only
          rw [hcalls, hl.1]
          simp
        · rw [requestInOrder, hd]
          simp only
          have := hl.2
          simp only at this
          simp only [List.length_cons]
          omega

/-- A call of `doJSONRequest` calls its service at most once and sends at most one
request per call. -/
theorem doJSONRequest_log (env : HTTPEnv) (log : List HTTPEvent) (srv : Service)
    (method path : String) (in_ : Option String) (out : Bool) :
    ∃ called : List (String × String),
      List.Sublist called [(srv.HTTPURL, srv.Hash)] ∧
      (doJSONRequest env log srv method path in_ out).2.filterMap callOf
        = log.filterMap callOf ++ called ∧
      ((doJSONRequest env log srv method path in_ out).2.filter isDo).length
        ≤ (log.filter isDo).length + called.length := by
  unfold doJSONRequest
  simp only []
  cases (match in_ with
    | some v => env.Marshal v
    | none => Except.ok "") with
  | error err => exact ⟨[], List.nil_sublist _, by simp, by simp⟩
  | ok b =>
    simp only []
    have hl := doRequest_log env log srv.HTTPURL srv.Hash method path (some b)
    cases hd : doRequest env log srv.HTTPURL srv.Hash method path (some b) with
    | mk a log1 =>
      obtain ⟨res, code, err⟩ := a
      rw [hd] at hl
      refine ⟨[(srv.HTTPURL, srv.Hash)], List.Sublist.refl _, ?_, ?_⟩
      all_goals
        cases err with
        | some err => first | exact hl.1 | exact hl.2
        | none =>
          simp only []
          cases out with
          | false => first | exact hl.1 | exact hl.2
          | true =>
            simp only [if_true]
            cases env.Unmarshal res <;> first | exact hl.1 | exact hl.2

/-- The loop of `DoJSONRequest` over a non-empty list of services does what the
contract says. -/
theorem jsonPass_jsonInOrder (env : HTTPEnv) (method path : String) (in_ : Option String)
    (out : Bool) :
    ∀ (rest : List Service) (srv : Service) (c : Int) (e : Option String)
      (log : List HTTPEvent),
      jsonPass env method path in_ out (srv :: rest) c e log
        = match jsonInOrder env method path in_ out srv rest log with
          | ((code, none), log1) => .returned (code, none) log1
          | ((code, some err), log1) => .through code (some err) log1 := by
  intro rest
  induction rest with
  | nil =>
    intro srv c e log
    simp only [jsonPass, jsonInOrder]
  | cons next rest ih =>
    intro srv c e log
    rw [jsonPass, jsonInOrder]
    cases doJSONRequest env log srv method path in_ out with
    | mk a log1 =>
      obtain ⟨code, err⟩ := a
      cases err with
      | none => rfl
      | some err => exact ih next code (some err) log1

/-- With at least one pass, the loop of `DoJSONRequest` on a non-empty list returns
what the contract says, whatever the counter. -/
theorem DoJSONRequestLoop_cons (env : HTTPEnv) (method path : String)
    (in_ : Option String) (out : Bool) (srv : Service) (rest : List Service)
    (fuel attempt : Nat) (c : Int) (e : Option String) (log : List HTTPEvent) :
    DoJSONRequestLoop env (srv :: rest) method path in_ out (fuel + 1) attempt c e log
      = some (jsonInOrder env method path in_ out srv rest log) := by
  rw [DoJSONRequestLoop, jsonPass_jsonInOrder]
  cases h : jsonInOrder env method path in_ out srv rest log with
  | mk a log1 =>
    obtain ⟨code, err⟩ := a
    cases err with
    | none => rfl
    | some err => simp

/-- The contract of `DoJSONRequest` calls services of the list, each at most once, in
order, and sends at most one request per call. -/
theorem jsonInOrder_calls (env : HTTPEnv) (method path : String) (in_ : Option String)
    (out : Bool) :
    ∀ (rest : List Service) (srv : Service) (log : List HTTPEvent),
      ∃ called : List (String × String),
        List.Sublist called ((srv :: rest).map (fun s => (s.HTTPURL, s.Hash))) ∧
        (jsonInOrder env method path in_ out srv rest log).2.filterMap callOf
          = log.filterMap callOf ++ called ∧
        ((jsonInOrder env method path in_ out srv rest log).2.filter isDo).length
          ≤ (log.filter isDo).length + called.length := by
  intro rest
  induction rest with
  | nil =>
    intro srv log
    rw [jsonInOrder]
    exact doJSONRequest_log env log srv method path in_ out
  | cons next rest ih =>
    intro srv log
    obtain ⟨first, hsub, hcalls, hdo⟩ := doJSONRequest_log env log srv method path in_ out
    cases hd : doJSONRequest env log srv method path in_ out with
    | mk a log1 =>
      obtain ⟨code, err⟩ := a
      rw [hd] at hcalls hdo
      simp only at hcalls hdo
      cases err with
      | none =>
        refine ⟨first, ?_, ?_, ?_⟩
        · exact hsub.trans (List.sublist_append_left [(srv.HTTPURL, srv.Hash)]
            ((next :: rest).map (fun s : Service => (s.HTTPURL, s.Hash))))
        · rw [jsonInOrder, hd]
          exact hcalls
        · rw [jsonInOrder, hd]
          exact hdo
      | some err =>
        obtain ⟨called, hsub2, hcalls2, hdo2⟩ := ih next log1
        refine ⟨first ++ called, ?_, ?_, ?_⟩
        · exact List.Sublist.append hsub hsub2
        · rw [jsonInOrder, hd]
          simp only
          rw [hcalls2, hcalls, List.append_assoc]
        · rw [jsonInOrder, hd]
          simp only
          rw [List.length_append]
          omega

/-- C26. For every non-empty list of services `srv :: rest` and with at least one
pass of the loop, `DoRequest` and `DoJSONRequest` return, and what they return and
the calls they make are those of the contract: the services are called one after
the other, in list order; the answer of the first call without error is returned,
with its status code and a nil error, and no later service is called; when every
call fails, the code and the error of the last call are returned, after a single
pass. The services that `DoRequest` calls are a first part of the list, those that
`DoJSONRequest` calls are services of the list in list order, each at most once,
and no more requests are sent than services are called. -/
theorem DoRequest_first_success (env : HTTPEnv) (fuel : Nat) (srv : Service)
    (rest : List Service) (method path : String) (args in_ : Option String) (out : Bool) :
    DoRequest env (fuel + 1) (srv :: rest) method path args
        = some (requestInOrder env method path args srv rest []) ∧
      DoJSONRequest env (fuel + 1) (srv :: rest) method path in_ out
        = some (jsonInOrder env method path in_ out srv rest []) ∧
      ((requestInOrder env method path args srv rest []).2.filterMap callOf
          <+: (srv :: rest).map (fun s => (s.HTTPURL, s.Hash)) ∧
        ((requestInOrder env method path args srv rest []).2.filter isDo).length
          ≤ ((requestInOrder env method path args srv rest []).2.filterMap callOf).length) ∧
      (List.Sublist ((jsonInOrder env method path in_ out srv rest []).2.filterMap callOf)
          ((srv :: rest).map (fun s => (s.HTTPURL, s.Hash))) ∧
        ((jsonInOrder env method path in_ out srv rest []).2.filter isDo).length
          ≤ ((jsonInOrder env method path in_ out srv rest []).2.filterMap callOf).length) := by
  refine ⟨DoRequestLoop_cons env method path args srv rest fuel 0 0 none [],
    DoJSONRequestLoop_cons env method path in_ out srv rest fuel 0 0 none [], ?_, ?_⟩
  · obtain ⟨called, hpre, hcalls, hdo⟩ := requestInOrder_calls env method path args rest srv []
    rw [hcalls]
    simp only [List.filterMap_nil, List.nil_append, List.filter_nil, List.length_nil,
      Nat.zero_add] at hdo ⊢
    exact ⟨hpre, hdo⟩
  · obtain ⟨called, hsub, hcalls, hdo⟩ := jsonInOrder_calls env method path in_ out rest srv []
    rw [hcalls]
    simp only [List.filterMap_nil, List.nil_append, List.filter_nil, List.length_nil,
      Nat.zero_add] at hdo ⊢
    exact ⟨hsub, hdo⟩

/-- Instances of C26 on three services. When the second service answers 200, the
first two services are called and the third is not; when every service refuses the
connection, each is called once and the error is that of the third. -/
theorem DoRequest_three_services :
    DoRequest (httpEnv "http://vcs-2") 1 threeServices "GET" "/repos" none
        = some ((some "ok", 200, none),
            [.doRequest "http://vcs-1" "h1", .Do "GET" "http://vcs-1/repos" none,
              .doRequest "http://vcs-2" "h2", .Do "GET" "http://vcs-2/repos" none]) ∧
      DoRequest (httpEnv "nowhere") 1 threeServices "GET" "/repos" none
        = some ((none, 0, some "services.DoRequest> Request failed: connection refused"),
            [.doRequest "http://vcs-1" "h1", .Do "GET" "http://vcs-1/repos" none,
              .doRequest "http://vcs-2" "h2", .Do "GET" "http://vcs-2/repos" none,
              .doRequest "http://vcs-3" "h3", .Do "GET" "http://vcs-3/repos" none]) ∧
      DoJSONRequest (httpEnv "nowhere") 1 threeServices "GET" "/repos" none false
        = some ((0, some ("services.doJSONRequest> Unable to perform request on service "
              ++ "vcs-3 (vcs): services.DoRequest> Request failed: connection refused")),
            [.doRequest "http://vcs-1" "h1", .Do "GET" "http://vcs-1/repos" (some ""),
              .doRequest "http://vcs-2" "h2", .Do "GET" "http://vcs-2/repos" (some ""),
              .doRequest "http://vcs-3" "h3", .Do "GET" "http://vcs-3/repos" (some "")]) := by
  refine ⟨?_, ?_, ?_⟩ <;> decide

end services

namespace services

open sdk

/-! The empty list of services, and the loop of `PostMultipart` -/

/-- On the empty list, the loop of `DoRequest` makes empty passes until the counter
exceeds 5, and then returns a nil body, the code 0 and a nil error. -/
theorem DoRequestLoop_nil (env : HTTPEnv) (method path : String) (args : Option String) :
    ∀ fuel attempt : Nat, 0 < fuel → 6 ≤ attempt + fuel →
      DoRequestLoop env [] method path args fuel attempt 0 none []
        = some ((none, 0, none), []) := by
  intro fuel
  induction fuel with
  | zero => intro attempt h; omega
  | succ fuel ih =>
    intro attempt _ h6
    rw [DoRequestLoop]
    simp only [requestPass]
    by_cases ha : attempt + 1 > 5
    · simp [ha]
    · have hrec := ih (attempt + 1) (by omega) (by omega)
      simp only [ne_eq, not_true_eq_false, false_or, ha, if_false]
      exact hrec

/-- On the empty list, the loop of `DoJSONRequest` makes empty passes until the
counter exceeds 5, and then returns the code 0 and a nil error. -/
theorem DoJSONRequestLoop_nil (env : HTTPEnv) (method path : String) (in_ : Option String)
    (out : Bool) :
    ∀ fuel attempt : Nat, 0 < fuel → 6 ≤ attempt + fuel →
      DoJSONRequestLoop env [] method path in_ out fuel attempt 0 none []
        = some ((0, none), []) := by
  intro fuel
  induction fuel with
  | zero => intro attempt h; omega
  | succ fuel ih =>
    intro attempt _ h6
    rw [DoJSONRequestLoop]
    simp only [jsonPass]
    by_cases ha : attempt + 1 > 5
    · simp [ha]
    · have hrec := ih (attempt + 1) (by omega) (by omega)
      simp only [ne_eq, not_true_eq_false, false_or, ha, if_false]
      exact hrec

/-- On the empty list `DoRequest` and `DoJSONRequest` do not return before the sixth
pass of their loop. -/
theorem DoRequest_nil_passes (env : HTTPEnv) (method path : String)
    (args in_ : Option String) (out : Bool) :
    DoRequest env 5 [] method path args = none ∧
      DoJSONRequest env 5 [] method path in_ out = none :=
  ⟨rfl, rfl⟩

/-- C30. For the empty list of services: with six passes of the loop or more,
`DoRequest` returns a nil body, the status code 0 and a nil error, and
`DoJSONRequest` returns the status code 0 and a nil error; when the multipart form
is written without error (lines 78-85), `PostMultipart` returns the status code 0
and a nil error after one pass. None of them calls a service or sends a request. -/
theorem DoRequest_no_service (env : HTTPEnv) (n : Nat) (method path : String)
    (args in_ : Option String) (out : Bool) (filename fileContents : String)
    (hform : env.CreateFormFile filename = none) (hclose : env.Close = none) :
    DoRequest env (n + 6) [] method path args = some ((none, 0, none), []) ∧
      DoJSONRequest env (n + 6) [] method path in_ out = some ((0, none), []) ∧
      PostMultipart env (n + 1) [] path filename fileContents out
        = some ((0, none), []) := by
  refine ⟨DoRequestLoop_nil env method path args (n + 6) 0 (by omega) (by omega),
    DoJSONRequestLoop_nil env method path in_ out (n + 6) 0 (by omega) (by omega), ?_⟩
  unfold PostMultipart
  rw [hform, hclose]
  simp only [PostMultipartLoop, multipartPass, if_true]

/-- Instance of C30 on collaborators that succeed. -/
theorem DoRequest_no_service_witness :
    ((httpEnv "http://vcs-1").CreateFormFile "report.xml" = none ∧
        (httpEnv "http://vcs-1").Close = none) ∧
      DoRequest (httpEnv "http://vcs-1") 6 [] "GET" "/repos" none
        = some ((none, 0, none), []) ∧
      DoJSONRequest (httpEnv "http://vcs-1") 6 [] "GET" "/repos" (some "in") true
        = some ((0, none), []) ∧
      PostMultipart (httpEnv "http://vcs-1") 1 [] "/repos" "report.xml" "<xml/>" true
        = some ((0, none), []) :=
  ⟨⟨rfl, rfl⟩,
    DoRequest_no_service (httpEnv "http://vcs-1") 0 "GET" "/repos" none (some "in") true
      "report.xml" "<xml/>" rfl rfl⟩

/-- When the output is nil and every call fails, a pass of the loop of
`PostMultipart` over a non-empty list runs through, with an error. -/
theorem multipartPass_all_fail (env : HTTPEnv) (path body : String) :
    ∀ (rest : List Service) (srv : Service) (c : Int) (e : Option String)
      (log : List HTTPEvent),
      (∀ log, ∀ s ∈ srv :: rest,
        (doRequest env log s.HTTPURL s.Hash "POST" path (some body)).1.2.2 ≠ none) →
      ∃ code err log1,
        multipartPass env path body false (srv :: rest) c e log
          = .through code (some err) log1 := by
  intro rest
  induction rest with
  | nil =>
    intro srv c e log hfail
    have hf := hfail log srv (List.mem_cons_self _ _)
    rw [multipartPass]
    cases hd : doRequest env log srv.HTTPURL srv.Hash "POST" path (some body) with
    | mk a log1 =>
      obtain ⟨res, code, err⟩ := a
      rw [hd] at hf
      cases err with
      | none => exact absurd rfl hf
      | some err => exact ⟨code, err, log1, by simp [multipartPass]⟩
  | cons next rest ih =>
    intro srv c e log hfail
    have hf := hfail log srv (List.mem_cons_self _ _)
    rw [multipartPass]
    cases hd : doRequest env log srv.HTTPURL srv.Hash "POST" path (some body) with
    | mk a log1 =>
      obtain ⟨res, code, err⟩ := a
      rw [hd] at hf
      cases err with
      | none => exact absurd rfl hf
      | some err =>
        obtain ⟨code2, err2, log2, h2⟩ := ih next code (some err) log1
          (fun log s hs => hfail log s (List.mem_cons_of_mem _ hs))
        exact ⟨code2, err2, log2, by simpa using h2⟩

/-- When the output is nil and every call to every service of a non-empty list fails,
the loop of `PostMultipart` does not return, whatever the number of passes. -/
theorem PostMultipartLoop_all_fail (env : HTTPEnv) (path body : String) (srv : Service)
    (rest : List Service)
    (hfail : ∀ log, ∀ s ∈ srv :: rest,
      (doRequest env log s.HTTPURL s.Hash "POST" path (some body)).1.2.2 ≠ none) :
    ∀ (fuel : Nat) (c : Int) (e : Option String) (log : List HTTPEvent),
      PostMultipartLoop env (srv :: rest) path body false fuel c e log = none := by
  intro fuel
  induction fuel with
  | zero => intro c e log; rfl
  | succ fuel ih =>
    intro c e log
    obtain ⟨code, err, log1, h⟩ := multipartPass_all_fail env path body rest srv c e log hfail
    rw [PostMultipartLoop, h]
    simp only [reduceCtorEq, if_false]
    exact ih code (some err) log1

/-- Every call of `doRequest` for a service of `threeServices` fails when no service
accepts the connection. -/
theorem doRequest_nowhere (log : List HTTPEvent) (s : Service) (hs : s ∈ threeServices)
    (body : String) :
    doRequest (httpEnv "nowhere") log s.HTTPURL s.Hash "POST" "/upload" (some body)
      = ((none, 0, some "services.DoRequest> Request failed: connection refused"),
          log ++ [.doRequest s.HTTPURL s.Hash,
            .Do "POST" (s.HTTPURL ++ "/upload") (some body)]) := by
  simp only [threeServices, List.mem_cons, List.mem_singleton, List.mem_nil_iff,
    or_false] at hs
  rcases hs with h | h | h <;> subst h <;>
    simp [doRequest, httpEnv, WrapError]

/-- C27, failing input. On three services that all refuse the connection and with a
nil output, `PostMultipart` does not return, whatever the number of passes of its
loop: every pass calls the three services, sends three requests, and ends with a
non-nil last error, on which line 110 does not leave the loop. -/
theorem PostMultipart_does_not_return (fuel : Nat) (c : Int) (e : Option String)
    (log : List HTTPEvent) :
    PostMultipart (httpEnv "nowhere") fuel threeServices "/upload" "report.xml" "<xml/>"
        false = none ∧
      multipartPass (httpEnv "nowhere") "/upload" "report.xml:<xml/>" false threeServices
          c e log
        = .through 0 (some "services.DoRequest> Request failed: connection refused")
            (log ++ [.doRequest "http://vcs-1" "h1",
              .Do "POST" "http://vcs-1/upload" (some "report.xml:<xml/>"),
              .doRequest "http://vcs-2" "h2",
              .Do "POST" "http://vcs-2/upload" (some "report.xml:<xml/>"),
              .doRequest "http://vcs-3" "h3",
              .Do "POST" "http://vcs-3/upload" (some "report.xml:<xml/>")]) := by
  constructor
  · unfold PostMultipart
    have hfail : ∀ log, ∀ s ∈ threeServices,
        (doRequest (httpEnv "nowhere") log s.HTTPURL s.Hash "POST" "/upload"
          (some ((httpEnv "nowhere").FormData "report.xml" "<xml/>"))).1.2.2 ≠ none := by
      intro log s hs
      rw [doRequest_nowhere log s hs]
      simp
    exact PostMultipartLoop_all_fail (httpEnv "nowhere") "/upload" _ _ _ hfail fuel 0 none []
  · simp only [threeServices, multipartPass]
    rw [doRequest_nowhere log ⟨"vcs-1", "vcs", "http://vcs-1", "h1"⟩ (by decide)]
    simp only [Bool.false_eq_true, if_false]
    rw [doRequest_nowhere _ ⟨"vcs-2", "vcs", "http://vcs-2", "h2"⟩ (by decide)]
    simp only [Bool.false_eq_true, if_false]
    rw [doRequest_nowhere _ ⟨"vcs-3", "vcs", "http://vcs-3", "h3"⟩ (by decide)]
    simp only [Bool.false_eq_true, if_false, List.append_assoc, List.cons_append,
      List.nil_append]
    rfl

/-- With a non-nil output that `json.Unmarshal` cannot fill from the nil body of a
failed call, `PostMultipart` returns at the first failure, with the error of
`json.Unmarshal` and without calling the other services. -/
theorem PostMultipart_output_error :
    PostMultipart
        ⟨(httpEnv "nowhere").ParseRequestURI, (httpEnv "nowhere").NewRequest,
          (httpEnv "nowhere").Do, (httpEnv "nowhere").DecodeError,
          (httpEnv "nowhere").Marshal, fun _ => some "unexpected end of JSON input",
          (httpEnv "nowhere").CreateFormFile, (httpEnv "nowhere").Close,
          (httpEnv "nowhere").FormData⟩
        1 threeServices "/upload" "report.xml" "<xml/>" true
      = some ((0, some "unexpected end of JSON input"),
          [.doRequest "http://vcs-1" "h1",
            .Do "POST" "http://vcs-1/upload" (some "report.xml:<xml/>")]) := by
  decide

end services

namespace api

open sdk workflow

/-- The inner loop over a concatenation is the loop over the first part followed,
when it runs to its end, by the loop over the second part. -/
theorem stopNodeRuns_append (env : StopEnv) (run : RunState) (a b : List NodeRunState) :
    ∀ s : StopState,
      stopNodeRuns env run (a ++ b) s
        = match stopNodeRuns env run a s with
          | (some err, s1) => (some err, s1)
          | (none, s1) => stopNodeRuns env run b s1 := by
  induction a with
  | nil => intro s; rfl
  | cons w t ih =>
    intro s
    rw [List.cons_append, stopNodeRuns, stopNodeRuns]
    cases cannotStop run w with
    | true => simpa using ih s
    | false =>
      simp only [Bool.false_eq_true, if_false]
      cases hs : StopWorkflowNodeRun env s.db w with
      | mk r db =>
        cases r with
        | error errS => rfl
        | ok r1 => exact ih _

/-- The two loops of lines 357-372 are one loop over the node runs of the run. -/
theorem stopAllNodeRuns_flat (env : StopEnv) (run : RunState)
    (l : List ((_ : Int) × List NodeRunState)) :
    ∀ s : StopState,
      stopAllNodeRuns env run l s = stopNodeRuns env run (l.flatMap (fun wn => wn.2)) s := by
  induction l with
  | nil => intro s; rfl
  | cons wn t ih =>
    intro s
    rw [stopAllNodeRuns, List.flatMap_cons, stopNodeRuns_append]
    cases stopNodeRuns env run wn.2 s with
    | mk r s1 =>
      cases r with
      | some err => rfl
      | none => exact ih s1

/-- When the node-stop routine fails on `w` and on none of the node runs `pre` that
can be stopped and come before it, the loop ends at `w` with the error of line 367:
the routine has been invoked on `pre` and on `w`, and on none of the node runs
`post` that follow. -/
theorem stopNodeRuns_first_failure (env : StopEnv) (run : RunState) :
    ∀ (l pre post : List NodeRunState) (w : NodeRunState) (e : String) (s : StopState),
      l.filter (fun w => !cannotStop run w) = pre ++ w :: post →
      (∀ x ∈ pre, ∃ r1, env.StopWorkflowNodeRun x = .ok r1) →
      env.StopWorkflowNodeRun w = .error e →
      (stopNodeRuns env run l s).1
          = some (WrapError e
              ("stopWorkflowRunHandler> Unable to stop workflow node run " ++ toString w.ID)) ∧
        (stopNodeRuns env run l s).2.events
          = s.events ++ (pre ++ [w]).map StopEvent.StopWorkflowNodeRun := by
  intro l
  induction l with
  | nil =>
    intro pre post w e s h
    simp at h
  | cons x t ih =>
    intro pre post w e s h hok hfail
    rw [stopNodeRuns]
    cases hc : cannotStop run x with
    | true =>
      simp only [if_true]
      rw [List.filter_cons] at h
      simp only [hc, Bool.not_true, Bool.false_eq_true, if_false] at h
      exact ih pre post w e s h hok hfail
    | false =>
      simp only [Bool.false_eq_true, if_false]
      rw [List.filter_cons] at h
      simp only [hc, Bool.not_false, if_true] at h
      cases pre with
      | nil =>
        simp only [List.nil_append, List.cons.injEq] at h
        obtain ⟨hx, _⟩ := h
        subst hx
        simp [StopWorkflowNodeRun, hfail]
      | cons p pre =>
        simp only [List.cons_append, List.cons.injEq] at h
        obtain ⟨hx, ht⟩ := h
        subst hx
        obtain ⟨r1, hr1⟩ := hok x (List.mem_cons_self _ _)
        simp only [StopWorkflowNodeRun, hr1]
        have := ih pre post w e
          ⟨s.report.Merge (some r1), ⟨s.db.runs, s.db.nodeRuns.insert x.ID StatusStopped⟩,
            s.events ++ [.StopWorkflowNodeRun x]⟩ ht
          (fun y hy => hok y (List.mem_cons_of_mem _ hy)) hfail
        refine ⟨this.1, ?_⟩
        rw [this.2]
        simp

end api

namespace api

open sdk workflow

/-- C15, amended. On every run the node-stop routine is invoked only on node runs of
the run whose sub-number is the last sub-number of the run and whose status is none
of Success, Fail, Skipped; when the transaction begins and the routine fails on
none of these node runs, it is invoked on exactly these node runs, once each, in the
order of the loops; and when the transaction begins and the routine fails on one of
them, `w`, after having succeeded on those, `pre`, that come before it, the function
returns the error of line 367 and the routine has been invoked on `pre` and `w`
only, not on the node runs `post` that follow. -/
theorem stopWorkflowRun_stop_calls (env : StopEnv) (db : Database) (run : RunState) :
    (∀ wnr ∈ stopCalls (stopWorkflowRun env db run).events,
        wnr ∈ allNodeRuns run ∧ wnr.SubNumber = run.LastSubNumber ∧
          wnr.Status ≠ StatusSuccess ∧ wnr.Status ≠ StatusFail ∧
          wnr.Status ≠ StatusSkipped) ∧
      (env.Begin = none →
        (∀ wnr ∈ allNodeRuns run, cannotStop run wnr = false →
          ∃ r1, env.StopWorkflowNodeRun wnr = .ok r1) →
        stopCalls (stopWorkflowRun env db run).events
          = (allNodeRuns run).filter (fun w => !cannotStop run w)) ∧
      (∀ wnr : NodeRunState, cannotStop run wnr = false ↔
        wnr.SubNumber = run.LastSubNumber ∧ wnr.Status ≠ StatusSuccess ∧
          wnr.Status ≠ StatusFail ∧ wnr.Status ≠ StatusSkipped) ∧
      (∀ (pre post : List NodeRunState) (w : NodeRunState) (e : String),
        env.Begin = none →
        (allNodeRuns run).filter (fun w => !cannotStop run w) = pre ++ w :: post →
        (∀ x ∈ pre, ∃ r1, env.StopWorkflowNodeRun x = .ok r1) →
        env.StopWorkflowNodeRun w = .error e →
        stopCalls (stopWorkflowRun env db run).events = pre ++ [w] ∧
          (stopWorkflowRun env db run).result
            = .error (WrapError e
                ("stopWorkflowRunHandler> Unable to stop workflow node run "
                  ++ toString w.ID))) := by
  refine ⟨?_, ?_, cannotStop_eq_false_iff run, ?_⟩
  · intro wnr hw
    have hmem := (stopWorkflowRun_stopCalls_initial env db run).subset hw
    rw [List.mem_filter] at hmem
    refine ⟨hmem.1, ?_⟩
    exact (cannotStop_eq_false_iff run wnr).mp (by simpa using hmem.2)
  · intro hbegin hok
    rw [stopWorkflowRun_stopCalls, hbegin]
    obtain ⟨pre, _, hev, hnone⟩ := stopAllNodeRuns_events env run
      run.WorkflowNodeRuns.entries ⟨ProcessorReport.new, db, [.Begin]⟩
    have hn := stopAllNodeRuns_none env run run.WorkflowNodeRuns.entries hok
      ⟨ProcessorReport.new, db, [.Begin]⟩
    simp only []
    rw [hev, stopCalls_append, stopCalls_map, hnone hn]
    simp [stopCalls, allNodeRuns]
  · intro pre post w e hbegin hsplit hok hfail
    have hff := stopNodeRuns_first_failure env run (allNodeRuns run) pre post w e
      ⟨ProcessorReport.new, db, [.Begin]⟩ hsplit hok hfail
    unfold stopWorkflowRun
    rw [hbegin]
    simp only []
    rw [stopAllNodeRuns_flat]
    unfold allNodeRuns at hff
    cases hres : stopNodeRuns env run
        (run.WorkflowNodeRuns.entries.flatMap (fun wn => wn.2))
        ⟨ProcessorReport.new, db, [.Begin]⟩ with
    | mk r s1 =>
      rw [hres] at hff
      obtain ⟨hr, hev⟩ := hff
      simp only at hr hev
      subst hr
      simp only []
      rw [hev, stopCalls_append, stopCalls_append, stopCalls_map]
      exact ⟨by simp [stopCalls], trivial⟩

/-- Witness of the amended C15: on the run with the statuses Building, Success, Fail
and an older Building node run, only the Building node run of the last sub-number
is stopped; on the run with two Building node runs, when the routine fails on the
first, it is not invoked on the second. -/
theorem stopWorkflowRun_stop_calls_witness :
    (stopEnvOk.Begin = none ∧
      (∀ wnr ∈ allNodeRuns stopRun, cannotStop stopRun wnr = false →
        ∃ r1, stopEnvOk.StopWorkflowNodeRun wnr = .ok r1) ∧
      stopCalls (stopWorkflowRun stopEnvOk emptyDB stopRun).events
        = [nodeRunOf 101 1 StatusBuilding] ∧
      stopCalls (stopWorkflowRun stopEnvOk emptyDB stopRun).events
        = (allNodeRuns stopRun).filter (fun w => !cannotStop stopRun w)) ∧
    ((stopEnvFailOn 201).Begin = none ∧
      (allNodeRuns stopRunTwo).filter (fun w => !cannotStop stopRunTwo w)
        = [] ++ nodeRunOf 201 0 StatusBuilding :: [nodeRunOf 202 0 StatusBuilding] ∧
      (stopEnvFailOn 201).StopWorkflowNodeRun (nodeRunOf 201 0 StatusBuilding)
        = .error "cannot stop" ∧
      stopCalls (stopWorkflowRun (stopEnvFailOn 201) emptyDB stopRunTwo).events
        = [] ++ [nodeRunOf 201 0 StatusBuilding]) :=
  ⟨⟨rfl, fun _ _ _ => ⟨_, rfl⟩, rfl,
      (stopWorkflowRun_stop_calls stopEnvOk emptyDB stopRun).2.1 rfl
        (fun _ _ _ => ⟨_, rfl⟩)⟩,
    ⟨rfl, rfl, rfl,
      ((stopWorkflowRun_stop_calls (stopEnvFailOn 201) emptyDB stopRunTwo).2.2.2
        [] [nodeRunOf 202 0 StatusBuilding] (nodeRunOf 201 0 StatusBuilding) "cannot stop"
        rfl rfl (fun _ h => absurd h (List.not_mem_nil _)) rfl).1⟩⟩

end api

namespace workflow

open sdk

/-- C10, failing input. For the run of the single ancestor `root`, with the build
parameters `cds.version`, `cds.application`, `git.token` and `branch`, in a workflow
without repository and with an empty payload: the parameters that pass the drop
rules, renamed, are `workflow.root.application`, `workflow.root.git.token` and
`workflow.root.branch`; the list that `getParentParameters` returns is not that
list, it holds `cds.version` as well, which the name filter stops, under its
original name. -/
theorem getParentParameters_returns_more_than_inherited :
    inheritedParameters parentLoad ⟨12, scenarioWorkflow⟩ ∅ [100]
        = [⟨"workflow.root.application", "string", "app1"⟩,
            ⟨"workflow.root.git.token", "string", "secret"⟩,
            ⟨"workflow.root.branch", "string", "main"⟩] ∧
      getParentParameters parentLoad ⟨12, scenarioWorkflow⟩ [100] ∅
        = .ok [⟨"cds.version", "string", "12"⟩,
            ⟨"workflow.root.application", "string", "app1"⟩,
            ⟨"workflow.root.git.token", "string", "secret"⟩,
            ⟨"workflow.root.branch", "string", "main"⟩] ∧
      getParentParameters parentLoad ⟨12, scenarioWorkflow⟩ [100] ∅
        ≠ .ok (inheritedParameters parentLoad ⟨12, scenarioWorkflow⟩ ∅ [100]) := by
  refine ⟨rfl, rfl, ?_⟩
  intro h
  have hlen : (match getParentParameters parentLoad ⟨12, scenarioWorkflow⟩ [100] ∅ with
      | .ok out => out.length
      | .error _ => 0) = 3 := by
    rw [h]
    rfl
  exact absurd hlen (by decide)

end workflow

namespace workflow

open sdk

/-- C18, failing input. In the run `resyncRun` the node `deploy` meets every
condition of the claim: its selected node run 201 is terminated (Fail), the node is
bound to the repository `ovh/cds`, its server `github` is configured, and the status
listed for it on the VCS has the state Success, for which the table asks for a
publication of the local status Fail. Yet `ResyncCommitStatus` returns nil without
any call, so without `SetStatus` for the node run 201: the node `root`, visited
first, is not bound to a repository and ends the loop at line 81. In the run
`linkedRun`, where the same node with the same node run is visited first, the
status is published. -/
theorem ResyncCommitStatus_skips_republish :
    (resyncRun.WorkflowNodeRuns.lookup 2 = some [nodeRunAt 2 201 0 StatusFail] ∧
        sortSlice [nodeRunAt 2 201 0 StatusFail] = [nodeRunAt 2 201 0 StatusFail] ∧
        (vcsEnv none StatusSuccess).StatusIsTerminated StatusFail = true ∧
        linkedNode (resyncRun.Workflow.GetNode 2) = some (deployNode, deployApp) ∧
        (vcsEnv none StatusSuccess).GetProjectVCSServer scenarioProject deployApp.VCSServer
          = some "github" ∧
        (vcsEnv none StatusSuccess).ListStatuses [] "ovh/cds" "abc"
          = .ok [⟨StatusSuccess, "PRJ/wf/deploy"⟩] ∧
        republish (statusFound [⟨StatusSuccess, "PRJ/wf/deploy"⟩]
          ((vcsEnv none StatusSuccess).VCSCommitStatusDescription "PRJ" "wf" "deploy"))
          StatusFail = true) ∧
      ResyncCommitStatus (vcsEnv none StatusSuccess) scenarioProject resyncRun
        = (.returned none, []) ∧
      linkedRun.WorkflowNodeRuns.lookup 2 = some [nodeRunAt 2 201 0 StatusFail] ∧
      ResyncCommitStatus (vcsEnv none StatusSuccess) scenarioProject linkedRun
        = (.returned none,
            [.AuthorizedClient "github", .ListStatuses "ovh/cds" "abc",
              .sendVCSEventStatus 201, .AuthorizedClient "github",
              .SetStatus 201 StatusFail, .PullRequests "ovh/cds"]) :=
  ⟨⟨rfl, rfl, rfl, rfl, rfl, rfl, rfl⟩, rfl, rfl, rfl⟩

end workflow

namespace workflow

open sdk

/-- The one-level substitution never fails. -/
theorem oneLevelDo_ok (v : String) (m : GoMap) : ∃ s, oneLevelDo v m = .ok s := by
  unfold oneLevelDo
  split
  · split
    · exact ⟨_, rfl⟩
    · exact ⟨_, rfl⟩
  · exact ⟨_, rfl⟩

/-- C21, counterexample. With an interpolation that substitutes one level, on the map
`a=$b`, `b=$c`, `c=x`: the pass succeeds for every key and yields `a=$c`, `b=x`,
`c=x`; the same pass on that set succeeds and yields `a=x`, `b=x`, `c=x`, which is
not the same set. -/
theorem interpolateAll_idempotent_counterexample :
    (∀ k v, chainMap.lookup k = some v → ∃ s, oneLevelDo v chainMap = .ok s) ∧
      interpolateAll oneLevelDo chainMap
        = ([⟨"a", StringParameter, "$c"⟩, ⟨"b", StringParameter, "x"⟩,
            ⟨"c", StringParameter, "x"⟩], []) ∧
      interpolateAll oneLevelDo (ParametersToMap (interpolateAll oneLevelDo chainMap).1)
        = ([⟨"c", StringParameter, "x"⟩, ⟨"b", StringParameter, "x"⟩,
            ⟨"a", StringParameter, "x"⟩], []) ∧
      ¬ (interpolateAll oneLevelDo
          (ParametersToMap (interpolateAll oneLevelDo chainMap).1)).1.Perm
        (interpolateAll oneLevelDo chainMap).1 := by
  refine ⟨fun _ v _ => oneLevelDo_ok v chainMap, rfl, rfl, ?_⟩
  intro hperm
  have hmem : (⟨"a", StringParameter, "$c"⟩ : Parameter)
      ∈ (interpolateAll oneLevelDo
          (ParametersToMap (interpolateAll oneLevelDo chainMap).1)).1 :=
    hperm.symm.subset (by
      have h1 : (interpolateAll oneLevelDo chainMap).1
          = [⟨"a", StringParameter, "$c"⟩, ⟨"b", StringParameter, "x"⟩,
              ⟨"c", StringParameter, "x"⟩] := rfl
      rw [h1]
      exact List.mem_cons_self _ _)
  have h2 : (interpolateAll oneLevelDo
      (ParametersToMap (interpolateAll oneLevelDo chainMap).1)).1
      = [⟨"c", StringParameter, "x"⟩, ⟨"b", StringParameter, "x"⟩,
          ⟨"a", StringParameter, "x"⟩] := rfl
  rw [h2] at hmem
  revert hmem
  decide

/-- C21, amended. For every merged map `tmp` on which the interpolation pass of
`getNodeRunBuildParameters` succeeds for every key: the pass collects no error;
and the same pass run on the map of the resulting parameters collects no error and
yields the same parameters (the same list up to the order, which is the iteration
order of the map) if and only if the resulting set is fully resolved, that is,
`interpolate.Do` returns the value of each resulting parameter unchanged against
the resulting set. -/
theorem interpolateAll_idempotent (Do : String → GoMap → Except String String)
    (tmp : GoMap)
    (hok : ∀ k v, tmp.lookup k = some v → ∃ s, Do v tmp = .ok s) :
    (interpolateAll Do tmp).2 = [] ∧
      (((interpolateAll Do (ParametersToMap (interpolateAll Do tmp).1)).2 = [] ∧
          (interpolateAll Do (ParametersToMap (interpolateAll Do tmp).1)).1.Perm
            (interpolateAll Do tmp).1) ↔
        ∀ p ∈ (interpolateAll Do tmp).1,
          Do p.Value (ParametersToMap (interpolateAll Do tmp).1) = .ok p.Value) := by
  have hok2 : ∀ e ∈ tmp.entries, ∃ s, Do e.2 tmp = .ok s := by
    intro e he
    obtain ⟨k, v⟩ := e
    exact hok k v (AList.mem_lookup_iff.mpr he)
  have hnames := names_filterMap_interpolated Do tmp tmp.entries hok2
  have hnd : ((tmp.entries.filterMap (interpolated Do tmp)).map (fun p => p.Name)).Nodup := by
    rw [hnames]
    exact tmp.nodupKeys
  have herr1 : tmp.entries.filterMap (interpolationError Do tmp) = [] := by
    rw [List.filterMap_eq_nil_iff]
    intro e he
    obtain ⟨s, hs⟩ := hok2 e he
    simp [interpolationError, hs]
  rw [interpolateAll_eq Do tmp]
  simp only
  refine ⟨herr1, ?_⟩
  rw [interpolateAll_eq, entries_ParametersToMap _ hnd, ← List.map_reverse]
  simp only
  have hty : ∀ p ∈ tmp.entries.filterMap (interpolated Do tmp),
      p.Type_ = StringParameter :=
    fun p hp => (mem_filterMap_interpolated Do tmp tmp.entries p hp).1
  constructor
  · rintro ⟨herr2, hperm⟩ p hp
    have hentry : (⟨p.Name, p.Value⟩ : (_ : String) × String)
        ∈ (tmp.entries.filterMap (interpolated Do tmp)).reverse.map
            (fun p => (⟨p.Name, p.Value⟩ : (_ : String) × String)) :=
      List.mem_map.mpr ⟨p, List.mem_reverse.mpr hp, rfl⟩
    cases hdo : Do p.Value (ParametersToMap (tmp.entries.filterMap (interpolated Do tmp))) with
    | error err =>
      have hnone := (List.filterMap_eq_nil_iff.mp herr2) _ hentry
      simp [interpolationError, hdo] at hnone
    | ok s =>
      have hq : (⟨p.Name, StringParameter, s⟩ : Parameter)
          ∈ ((tmp.entries.filterMap (interpolated Do tmp)).reverse.map
              (fun p => (⟨p.Name, p.Value⟩ : (_ : String) × String))).filterMap
            (interpolated Do
              (ParametersToMap (tmp.entries.filterMap (interpolated Do tmp)))) :=
        List.mem_filterMap.mpr ⟨_, hentry, by simp [interpolated, hdo]⟩
      have hq2 := hperm.subset hq
      have heq := List.inj_on_of_nodup_map hnd hq2 hp rfl
      have hval := congrArg Parameter.Value heq
      simp only at hval
      rw [hval]
  · intro hfixed
    have hfix : ∀ p ∈ (tmp.entries.filterMap (interpolated Do tmp)).reverse,
        p.Type_ = StringParameter ∧
          Do p.Value (ParametersToMap (tmp.entries.filterMap (interpolated Do tmp)))
            = .ok p.Value := by
      intro p hp
      rw [List.mem_reverse] at hp
      exact ⟨hty p hp, hfixed p hp⟩
    obtain ⟨h1, h2⟩ := filterMap_interpolated_fixed Do _ _ hfix
    rw [h1, h2]
    exact ⟨rfl, List.reverse_perm _⟩

/-- Instance of the amended C21 with the one-level substitution on the map
`greeting=$name`, `name=cds`: the first pass resolves `greeting` to `cds`, both
resulting values are returned unchanged against the resulting set, and the pass on
that set yields the same two parameters. -/
theorem interpolateAll_idempotent_witness :
    (∀ k v, greetingMap.lookup k = some v → ∃ s, oneLevelDo v greetingMap = .ok s) ∧
      (interpolateAll oneLevelDo greetingMap).1
        = [⟨"greeting", StringParameter, "cds"⟩, ⟨"name", StringParameter, "cds"⟩] ∧
      (interpolateAll oneLevelDo
          (ParametersToMap (interpolateAll oneLevelDo greetingMap).1)).2 = [] ∧
      (interpolateAll oneLevelDo
          (ParametersToMap (interpolateAll oneLevelDo greetingMap).1)).1.Perm
        (interpolateAll oneLevelDo greetingMap).1 := by
  have hok : ∀ k v, greetingMap.lookup k = some v →
      ∃ s, oneLevelDo v greetingMap = .ok s := fun _ v _ => oneLevelDo_ok v greetingMap
  have h1 : (interpolateAll oneLevelDo greetingMap).1
      = [⟨"greeting", StringParameter, "cds"⟩, ⟨"name", StringParameter, "cds"⟩] := rfl
  refine ⟨hok, h1, ((interpolateAll_idempotent oneLevelDo greetingMap hok).2).mpr ?_⟩
  intro p hp
  rw [h1] at hp ⊢
  simp only [List.mem_cons, List.mem_singleton, List.mem_nil_iff, or_false] at hp
  rcases hp with h | h <;> (subst h; rfl)

end workflow

namespace workflow

open sdk

/-! The node run that `ResyncCommitStatus` selects -/

/-- The first node run after the sort is a node run of the list, with the highest
sub-number. -/
theorem sortSlice_head (nodeRuns : List NodeRunState) (nodeRun : NodeRunState)
    (others : List NodeRunState) (hsel : sortSlice nodeRuns = nodeRun :: others) :
    nodeRun ∈ nodeRuns ∧ ∀ x ∈ nodeRuns, x.SubNumber ≤ nodeRun.SubNumber := by
  obtain ⟨hperm, hsorted⟩ := sortSlice_sorted nodeRuns
  rw [hsel] at hperm hsorted
  rw [List.pairwise_cons] at hsorted
  refine ⟨hperm.subset (List.mem_cons_self _ _), ?_⟩
  intro x hx
  rcases List.mem_cons.mp (hperm.symm.subset hx) with h | h
  · subst h; exact le_refl _
  · exact hsorted.1 x h

/-- The calls of one iteration come after those of `log`, and a listing of the
statuses among them is made for the repository of the application of the node, with
the tag of the selected node run when it has one and with its hash otherwise. -/
theorem resyncNode_calls (env : VCSEnv) (log : List VCSEvent) (proj : Project)
    (wr : RunState) (nodeID : Int) (nodeRuns : List NodeRunState) :
    ∃ added, (resyncNode env log proj wr nodeID nodeRuns).2 = log ++ added ∧
      ∀ repo ref, VCSEvent.ListStatuses repo ref ∈ added →
        ∃ nodeRun others node app,
          sortSlice nodeRuns = nodeRun :: others ∧
          linkedNode (wr.Workflow.GetNode nodeID) = some (node, app) ∧
          repo = app.RepositoryFullname ∧
          ref = (if nodeRun.VCSTag ≠ "" then nodeRun.VCSTag else nodeRun.VCSHash) := by
  cases hsel : sortSlice nodeRuns with
  | nil => exact ⟨[], by simp [resyncNode, hsel], by simp⟩
  | cons nodeRun others =>
    cases hterm : env.StatusIsTerminated nodeRun.Status with
    | false => exact ⟨[], by simp [resyncNode, hsel, hterm], by simp⟩
    | true =>
      cases hlinked : linkedNode (wr.Workflow.GetNode nodeID) with
      | none => exact ⟨[], by simp [resyncNode, hsel, hterm, hlinked], by simp⟩
      | some na =>
        obtain ⟨node, app⟩ := na
        cases hserver : env.GetProjectVCSServer proj app.VCSServer with
        | none => exact ⟨[], by simp [resyncNode, hsel, hterm, hlinked, hserver], by simp⟩
        | some vcsServer =>
          cases hclient : env.AuthorizedClient log vcsServer with
          | some errClient =>
            exact ⟨[.AuthorizedClient vcsServer],
              by simp [resyncNode, hsel, hterm, hlinked, hserver, hclient], by simp⟩
          | none =>
            cases hlist : env.ListStatuses (log ++ [.AuthorizedClient vcsServer])
                app.RepositoryFullname
                (if nodeRun.VCSTag ≠ "" then nodeRun.VCSTag else nodeRun.VCSHash) with
            | error errStatuses =>
              refine ⟨[.AuthorizedClient vcsServer,
                .ListStatuses app.RepositoryFullname
                  (if nodeRun.VCSTag ≠ "" then nodeRun.VCSTag else nodeRun.VCSHash)], ?_, ?_⟩
              · unfold resyncNode
                simp only [hsel, hterm, hlinked, hserver, hclient, hlist, Bool.not_true,
                  Bool.false_eq_true, if_false]
              · intro repo ref hmem
                simp only [List.mem_cons, List.mem_singleton, List.mem_nil_iff, or_false,
                  reduceCtorEq, false_or, VCSEvent.ListStatuses.injEq] at hmem
                exact ⟨nodeRun, others, node, app, rfl, rfl, hmem.1, hmem.2⟩
            | ok statuses =>
              rw [resyncNode_reconcile env log proj wr nodeID nodeRuns nodeRun others node
                app vcsServer statuses hsel hterm hlinked hserver hclient hlist, reconcile_eq]
              cases hrep : republish (statusFound statuses
                  (env.VCSCommitStatusDescription proj.Key wr.Workflow.Name node.Name))
                  nodeRun.Status with
              | false =>
                refine ⟨[.AuthorizedClient vcsServer,
                  .ListStatuses app.RepositoryFullname
                    (if nodeRun.VCSTag ≠ "" then nodeRun.VCSTag else nodeRun.VCSHash)],
                  by simp, ?_⟩
                intro repo ref hmem
                simp only [List.mem_cons, List.mem_singleton, List.mem_nil_iff, or_false,
                  reduceCtorEq, false_or, VCSEvent.ListStatuses.injEq] at hmem
                exact ⟨nodeRun, others, node, app, rfl, rfl, hmem.1, hmem.2⟩
              | true =>
                obtain ⟨tail, htail, hno⟩ := sendVCSEventStatus_no_ListStatuses env
                  (log ++ [.AuthorizedClient vcsServer,
                    .ListStatuses app.RepositoryFullname
                      (if nodeRun.VCSTag ≠ "" then nodeRun.VCSTag else nodeRun.VCSHash)])
                  proj wr nodeRun
                refine ⟨[.AuthorizedClient vcsServer,
                  .ListStatuses app.RepositoryFullname
                    (if nodeRun.VCSTag ≠ "" then nodeRun.VCSTag else nodeRun.VCSHash)]
                  ++ tail, ?_, ?_⟩
                · simp only [if_true]
                  rw [htail, List.append_assoc]
                · intro repo ref hmem
                  rcases List.mem_append.mp hmem with h | h
                  · simp only [List.mem_cons, List.mem_singleton, List.mem_nil_iff, or_false,
                      reduceCtorEq, false_or, VCSEvent.ListStatuses.injEq] at h
                    exact ⟨nodeRun, others, node, app, rfl, rfl, h.1, h.2⟩
                  · have := hno _ h
                    simp [isListStatuses] at this

/-- The calls of the loop come after those of `log`, and every listing of the
statuses among them is made for one of the entries, for the repository of the
application of its node and with the tag or the hash of its selected node run. -/
theorem resyncLoop_calls (env : VCSEnv) (proj : Project) (wr : RunState) :
    ∀ (entries : List ((_ : Int) × List NodeRunState)) (log : List VCSEvent),
      ∃ added, (resyncLoop env proj wr entries log).2 = log ++ added ∧
        ∀ repo ref, VCSEvent.ListStatuses repo ref ∈ added →
          ∃ entry ∈ entries, ∃ nodeRun others node app,
            sortSlice entry.2 = nodeRun :: others ∧
            linkedNode (wr.Workflow.GetNode entry.1) = some (node, app) ∧
            repo = app.RepositoryFullname ∧
            ref = (if nodeRun.VCSTag ≠ "" then nodeRun.VCSTag else nodeRun.VCSHash) := by
  intro entries
  induction entries with
  | nil => intro log; exact ⟨[], by simp [resyncLoop], by simp⟩
  | cons entry rest ih =>
    intro log
    obtain ⟨added1, h1, hl1⟩ := resyncNode_calls env log proj wr entry.1 entry.2
    rw [resyncLoop]
    cases hres : resyncNode env log proj wr entry.1 entry.2 with
    | mk step log1 =>
      rw [hres] at h1
      simp only at h1
      subst h1
      have hfirst : ∀ repo ref, VCSEvent.ListStatuses repo ref ∈ added1 →
          ∃ e ∈ entry :: rest, ∃ nodeRun others node app,
            sortSlice e.2 = nodeRun :: others ∧
            linkedNode (wr.Workflow.GetNode e.1) = some (node, app) ∧
            repo = app.RepositoryFullname ∧
            ref = (if nodeRun.VCSTag ≠ "" then nodeRun.VCSTag else nodeRun.VCSHash) :=
        fun repo ref h => ⟨entry, List.mem_cons_self _ _, hl1 repo ref h⟩
      cases step with
      | done err => exact ⟨added1, rfl, hfirst⟩
      | panic => exact ⟨added1, rfl, hfirst⟩
      | next =>
        obtain ⟨added2, h2, hl2⟩ := ih (log ++ added1)
        refine ⟨added1 ++ added2, ?_, ?_⟩
        · simp only []
          rw [h2, List.append_assoc]
        · intro repo ref hmem
          rcases List.mem_append.mp hmem with h | h
          · exact hfirst repo ref h
          · obtain ⟨e, he, hrest⟩ := hl2 repo ref h
            exact ⟨e, List.mem_cons_of_mem _ he, hrest⟩

/-- The entries whose selected node run is not terminated are passed over without a
call. -/
theorem resyncLoop_not_terminated (env : VCSEnv) (proj : Project) (wr : RunState) :
    ∀ (pre rest : List ((_ : Int) × List NodeRunState)) (log : List VCSEvent),
      (∀ e ∈ pre, ∃ nodeRun others, sortSlice e.2 = nodeRun :: others ∧
        env.StatusIsTerminated nodeRun.Status = false) →
      resyncLoop env proj wr (pre ++ rest) log = resyncLoop env proj wr rest log := by
  intro pre
  induction pre with
  | nil => intro rest log _; rfl
  | cons e t ih =>
    intro rest log h
    obtain ⟨nodeRun, others, hsel, hterm⟩ := h e (List.mem_cons_self _ _)
    rw [List.cons_append, resyncLoop,
      resyncNode_not_terminated env log proj wr e.1 e.2 nodeRun others hsel hterm]
    exact ih rest log (fun e2 he2 => h e2 (List.mem_cons_of_mem _ he2))

/-- C23. On every run: every listing of the remote statuses that `ResyncCommitStatus`
makes is made for a node of the run, with the commit reference of the node run
selected for that node, which is the first after the sort of lines 70-72: the tag
of that node run when it has one, its hash otherwise. For every node with a
non-empty list of node runs, the selected node run is one of its node runs and its
sub-number is greater than or equal to that of every node run of the node. And
when the loop reaches the node (the nodes visited before it are passed over, their
selected node run not being terminated) with the selected node run terminated, the
node bound to a repository, its server configured and the client obtained,
`ResyncCommitStatus` does list the statuses with that reference. -/
theorem ResyncCommitStatus_selects_highest_subnumber (env : VCSEnv) (proj : Project)
    (wr : RunState) :
    (∀ repo ref, VCSEvent.ListStatuses repo ref ∈ (ResyncCommitStatus env proj wr).2 →
        ∃ entry ∈ wr.WorkflowNodeRuns.entries, ∃ nodeRun others node app,
          sortSlice entry.2 = nodeRun :: others ∧
          nodeRun ∈ entry.2 ∧ (∀ x ∈ entry.2, x.SubNumber ≤ nodeRun.SubNumber) ∧
          linkedNode (wr.Workflow.GetNode entry.1) = some (node, app) ∧
          repo = app.RepositoryFullname ∧
          ref = (if nodeRun.VCSTag ≠ "" then nodeRun.VCSTag else nodeRun.VCSHash)) ∧
      ∀ (pre rest : List ((_ : Int) × List NodeRunState))
        (entry : (_ : Int) × List NodeRunState),
        wr.WorkflowNodeRuns.entries = pre ++ entry :: rest →
        entry.2 ≠ [] →
        ∃ nodeRun others,
          sortSlice entry.2 = nodeRun :: others ∧
          nodeRun ∈ entry.2 ∧ (∀ x ∈ entry.2, x.SubNumber ≤ nodeRun.SubNumber) ∧
          ∀ (node : WorkflowNode) (app : Application) (vcsServer : String),
            (∀ e ∈ pre, ∃ nr others, sortSlice e.2 = nr :: others ∧
              env.StatusIsTerminated nr.Status = false) →
            env.StatusIsTerminated nodeRun.Status = true →
            linkedNode (wr.Workflow.GetNode entry.1) = some (node, app) →
            env.GetProjectVCSServer proj app.VCSServer = some vcsServer →
            env.AuthorizedClient [] vcsServer = none →
            ∃ tail, (ResyncCommitStatus env proj wr).2
              = [.AuthorizedClient vcsServer,
                  .ListStatuses app.RepositoryFullname
                    (if nodeRun.VCSTag ≠ "" then nodeRun.VCSTag else nodeRun.VCSHash)]
                ++ tail := by
  constructor
  · intro repo ref hmem
    unfold ResyncCommitStatus at hmem
    obtain ⟨added, hadded, hl⟩ := resyncLoop_calls env proj wr wr.WorkflowNodeRuns.entries []
    rw [hadded, List.nil_append] at hmem
    obtain ⟨entry, he, nodeRun, others, node, app, hsel, hlinked, hrepo, href⟩ :=
      hl repo ref hmem
    obtain ⟨hin, hmax⟩ := sortSlice_head entry.2 nodeRun others hsel
    exact ⟨entry, he, nodeRun, others, node, app, hsel, hin, hmax, hlinked, hrepo, href⟩
  · intro pre rest entry hentries hne
    cases hsel : sortSlice entry.2 with
    | nil =>
      have hperm := (sortSlice_sorted entry.2).1
      rw [hsel] at hperm
      exact absurd (List.Perm.eq_nil hperm.symm) hne
    | cons nodeRun others =>
      obtain ⟨hin, hmax⟩ := sortSlice_head entry.2 nodeRun others hsel
      refine ⟨nodeRun, others, rfl, hin, hmax, ?_⟩
      intro node app vcsServer hpre hterm hlinked hserver hclient
      unfold ResyncCommitStatus
      rw [hentries, resyncLoop_not_terminated env proj wr pre (entry :: rest) [] hpre,
        resyncLoop]
      cases hlist : env.ListStatuses [.AuthorizedClient vcsServer]
          app.RepositoryFullname
          (if nodeRun.VCSTag ≠ "" then nodeRun.VCSTag else nodeRun.VCSHash) with
      | error errStatuses =>
        refine ⟨[], ?_⟩
        unfold resyncNode
        simp only [hsel, hterm, hlinked, hserver, hclient, hlist, Bool.not_true,
          Bool.false_eq_true, if_false, List.append_nil, List.nil_append]
      | ok statuses =>
        rw [resyncNode_reconcile env [] proj wr entry.1 entry.2 nodeRun others node app
          vcsServer statuses hsel hterm hlinked hserver hclient hlist]
        simp only []
        obtain ⟨added2, h2, _⟩ := resyncLoop_calls env proj wr rest
          (reconcile env
            ([] ++ [.AuthorizedClient vcsServer,
              .ListStatuses app.RepositoryFullname
                (if nodeRun.VCSTag ≠ "" then nodeRun.VCSTag else nodeRun.VCSHash)])
            proj wr nodeRun
            (statusFound statuses
              (env.VCSCommitStatusDescription proj.Key wr.Workflow.Name node.Name)))
        rw [h2, reconcile_eq]
        cases hrep : republish (statusFound statuses
            (env.VCSCommitStatusDescription proj.Key wr.Workflow.Name node.Name))
            nodeRun.Status with
        | false => exact ⟨added2, by simp⟩
        | true =>
          obtain ⟨tail, htail, _⟩ := sendVCSEventStatus_no_ListStatuses env
            ([] ++ [.AuthorizedClient vcsServer,
              .ListStatuses app.RepositoryFullname
                (if nodeRun.VCSTag ≠ "" then nodeRun.VCSTag else nodeRun.VCSHash)])
            proj wr nodeRun
          refine ⟨tail ++ added2, ?_⟩
          simp only [if_true]
          rw [htail]
          simp

/-- Instance of C23 on the run `historyRun`: the node `deploy`, visited first, has
four node runs, of sub-numbers 0, 2, 1 and 2; the node run 204, of sub-number 2, is
selected, and `ResyncCommitStatus` lists the statuses for its tag `v1.0`. -/
theorem ResyncCommitStatus_selects_highest_subnumber_witness :
    historyRun.WorkflowNodeRuns.entries = [] ++ ⟨2, deployHistory⟩ :: [testEntry] ∧
      deployHistory ≠ [] ∧
      sortSlice deployHistory
        = [nodeRunTagged 204 2 StatusSuccess "v1.0", nodeRunTagged 202 2 StatusSuccess "",
            nodeRunTagged 203 1 StatusFail "", nodeRunTagged 201 0 StatusFail ""] ∧
      (∀ x ∈ deployHistory, x.SubNumber ≤ 2) ∧
      VCSEvent.ListStatuses "ovh/cds" "v1.0"
        ∈ (ResyncCommitStatus (vcsEnv none StatusSuccess) scenarioProject historyRun).2 := by
  obtain ⟨nodeRun, others, hsel, _, hmax, href⟩ :=
    (ResyncCommitStatus_selects_highest_subnumber (vcsEnv none StatusSuccess)
      scenarioProject historyRun).2 [] [testEntry] ⟨2, deployHistory⟩ rfl (by decide)
  have heval : sortSlice deployHistory
      = [nodeRunTagged 204 2 StatusSuccess "v1.0", nodeRunTagged 202 2 StatusSuccess "",
          nodeRunTagged 203 1 StatusFail "", nodeRunTagged 201 0 StatusFail ""] := rfl
  simp only at hsel hmax href
  rw [heval] at hsel
  obtain ⟨hhead, _⟩ := List.cons.inj hsel
  subst hhead
  refine ⟨rfl, by decide, heval, hmax, ?_⟩
  obtain ⟨tail, htail⟩ := href deployNode deployApp "github"
    (fun _ h => absurd h (List.not_mem_nil _)) rfl rfl rfl rfl
  rw [htail]
  exact List.mem_append_left _ (List.mem_cons_of_mem _ (List.mem_singleton.mpr rfl))

end workflow

namespace api

open sdk workflow

/-- The calls of a manual start in which every branch returns a report without
error: the begin, the calls of the branches, the barrier, the full-workflow
creation routine with the user of the manual trigger when there is no previous
run, and then commit or rollback only. -/
theorem startWorkflowRun_events_of_ok (env : StartEnv) (sched : List Nat)
    (p : Project) (wf : Workflow) (lastRun : Option WorkflowRun)
    (opts : WorkflowRunPostHandlerOption) (u : User)
    (fromNodes : List (Option WorkflowNode))
    (hbegin : env.Begin = none) (hhook : opts.Hook = none)
    (hres : resolveFromNodes wf lastRun opts.FromNodeIDs = .nodes fromNodes)
    (hall : ∀ j nj, fromNodes[j]? = some nj →
      ∃ r, (runFromNode env j (manualOf opts u) p lastRun u nj).1 = .ok r ∧
        r.errors = []) :
    ∃ tail, (startWorkflowRun env sched p wf lastRun opts u).2
      = [.Begin] ++ (fanOut env (manualOf opts u) p lastRun u fromNodes sched).2.1
          ++ [.Wait]
          ++ (match lastRun with
            | none => [StartEvent.ManualRun (manualOf opts u).User]
            | some _ => []) ++ tail := by
  obtain ⟨herrs, hnopanic⟩ := fanOut_all_ok env (manualOf opts u) p lastRun u fromNodes
    sched hall
  have hstart : (startWorkflowRun env sched p wf lastRun opts u).2
      = (afterWait env (manualOf opts u) lastRun
          (fanOut env (manualOf opts u) p lastRun u fromNodes sched).1
          ([.Begin] ++ (fanOut env (manualOf opts u) p lastRun u fromNodes sched).2.1
            ++ [.Wait])).2 := by
    unfold startWorkflowRun
    simp only [hbegin, hhook, hres]
    cases hfan : fanOut env (manualOf opts u) p lastRun u fromNodes sched with
    | mk report rest =>
      cases rest with
      | mk events flag =>
        rw [hfan] at hnopanic
        simp only at hnopanic
        subst hnopanic
        rfl
  obtain ⟨tail, _, haft⟩ := afterWait_no_error env (manualOf opts u) lastRun
    (fanOut env (manualOf opts u) p lastRun u fromNodes sched).1
    ([.Begin] ++ (fanOut env (manualOf opts u) p lastRun u fromNodes sched).2.1 ++ [.Wait])
    herrs
  exact ⟨tail, by rw [hstart]; exact haft.trans (by cases lastRun <;> rfl)⟩

/-- C24. For every start: every user that `startWorkflowRun` or one of its branches
hands to a creation routine is the copy that lines 743-749 store in the manual
trigger, with the name of the calling user, no group, the environment permissions
of the calling user and no other permission. That copy is handed over: in a manual
start whose branches all return a report without error, without a previous run the
full-workflow creation routine is invoked with it, and with a previous run the
run-from-node routine is invoked with it for each from-node. The calling user
itself is not modified: it is handed unchanged to the branches, whose permission
checks are made for it (the run is the same when the permission check answers for
`u` whatever user it is given). -/
theorem startWorkflowRun_manual_user (env : StartEnv) (sched : List Nat) (p : Project)
    (wf : Workflow) (lastRun : Option WorkflowRun) (opts : WorkflowRunPostHandlerOption)
    (u : User) :
    (∀ ev ∈ (startWorkflowRun env sched p wf lastRun opts u).2,
        ∀ user, eventUser ev = some user →
          user = ⟨u.Username, [], ⟨u.Permissions.EnvironmentsPerm, []⟩⟩) ∧
      (∀ fromNodes : List (Option WorkflowNode),
        env.Begin = none → opts.Hook = none →
        resolveFromNodes wf lastRun opts.FromNodeIDs = .nodes fromNodes →
        sched.Perm (List.range fromNodes.length) →
        (∀ j nj, fromNodes[j]? = some nj →
          ∃ r, (runFromNode env j (manualOf opts u) p lastRun u nj).1 = .ok r ∧
            r.errors = []) →
        (lastRun = none →
          StartEvent.ManualRun ⟨u.Username, [], ⟨u.Permissions.EnvironmentsPerm, []⟩⟩
            ∈ (startWorkflowRun env sched p wf lastRun opts u).2) ∧
        (∀ lr, lastRun = some lr → ∀ i node, fromNodes[i]? = some (some node) →
          StartEvent.ManualRunFromNode i lr.Number node.ID
              ⟨u.Username, [], ⟨u.Permissions.EnvironmentsPerm, []⟩⟩
            ∈ (startWorkflowRun env sched p wf lastRun opts u).2)) ∧
      startWorkflowRun (checkedAs env u) sched p wf lastRun opts u
        = startWorkflowRun env sched p wf lastRun opts u := by
  refine ⟨?_, ?_, ?_⟩
  · have huser : (manualOf opts u).User
        = ⟨u.Username, [], ⟨u.Permissions.EnvironmentsPerm, []⟩⟩ := manualOf_User opts u
    rw [← huser]
    unfold startWorkflowRun
    cases env.Begin with
    | some errb => simp [eventUser]
    | none =>
      simp only []
      cases opts.Hook with
      | some hook =>
        simp only []
        cases env.RunFromHook with
        | error err => simp [eventUser]
        | ok r1 =>
          simp only []
          cases env.Commit <;> simp [eventUser]
      | none =>
        simp only []
        cases resolveFromNodes wf lastRun opts.FromNodeIDs with
        | nilLastRun => simp [eventUser]
        | notFound id => simp [eventUser]
        | nodes fromNodes =>
          simp only []
          have hfan := fanOut_eventUser env (manualOf opts u) p lastRun u fromNodes sched
          cases hf : fanOut env (manualOf opts u) p lastRun u fromNodes sched with
          | mk report rest =>
            cases rest with
            | mk events flag =>
              rw [hf] at hfan
              simp only at hfan
              cases flag with
              | true =>
                simp only []
                intro ev hev user huser
                rcases List.mem_append.mp hev with h | h
                · simp only [List.mem_singleton] at h
                  subst h
                  simp [eventUser] at huser
                · exact hfan ev h user huser
              | false =>
                simp only []
                apply afterWait_eventUser
                intro ev hev user huser
                simp only [List.mem_append, List.mem_singleton] at hev
                rcases hev with (h | h) | h
                · subst h
                  simp [eventUser] at huser
                · exact hfan ev h user huser
                · subst h
                  simp [eventUser] at huser
  · intro fromNodes hbegin hhook hres hsched hall
    have huser : (manualOf opts u).User
        = ⟨u.Username, [], ⟨u.Permissions.EnvironmentsPerm, []⟩⟩ := manualOf_User opts u
    obtain ⟨tail, hev⟩ := startWorkflowRun_events_of_ok env sched p wf lastRun opts u
      fromNodes hbegin hhook hres hall
    constructor
    · intro hnone
      subst hnone
      rw [hev, huser]
      simp
    · intro lr hlr i node hget
      subst hlr
      obtain ⟨hcalls, hdetail⟩ := fanOut_fromNodeCall_some env (manualOf opts u) p lr u
        fromNodes sched hsched hall
      have hi : i ∈ sched := by
        apply hsched.symm.subset
        rw [List.mem_range]
        exact (List.getElem?_eq_some_iff.mp hget).1
      rw [← hcalls, List.mem_filterMap] at hi
      obtain ⟨ev, hmem, hcall⟩ := hi
      obtain ⟨node2, hget2, heq⟩ := hdetail ev hmem i hcall
      rw [hget] at hget2
      simp only [Option.some.injEq] at hget2
      subst hget2
      rw [huser] at heq
      rw [hev, ← heq]
      simp only [List.mem_append]
      exact Or.inl (Or.inl (Or.inl (Or.inr hmem)))
  · unfold startWorkflowRun fanOut
    simp only [branchResults_checkedAs]
    rfl

/-- Instance of C24: the start from the nodes 1 and 2 of the run 12 by the user
`alice`, who has a group, a permission on the environment `prod` and a permission
on the project. The run-from-node routine is invoked for the node 2 with the user
`alice` without group and with the permission on `prod` only; and in a start
without previous run the full-workflow routine is invoked with that user. -/
theorem startWorkflowRun_manual_user_witness :
    caller = ⟨"alice", ["dev"], ⟨[("prod", 4)], [("PRJ", 7)]⟩⟩ ∧
      StartEvent.ManualRunFromNode 1 12 2 ⟨"alice", [], ⟨[("prod", 4)], []⟩⟩
        ∈ (startWorkflowRun (startEnv true) [1, 0] scenarioProject twoNodeWorkflow
            (some previousRun) startFromBoth caller).2 ∧
      (startWorkflowRun (startEnv true) [0] scenarioProject twoNodeWorkflow none
          startFresh caller).2
        = [.Begin, .BranchBegin 0, .BranchCommit 0, .Wait,
            .ManualRun ⟨"alice", [], ⟨[("prod", 4)], []⟩⟩, .Commit] :=
  ⟨rfl,
    ((startWorkflowRun_manual_user (startEnv true) [1, 0] scenarioProject
      twoNodeWorkflow (some previousRun) startFromBoth caller).2.1
      [some ⟨1, "root", 10, some ⟨none, none, none⟩⟩,
        some ⟨2, "deploy", 10, some ⟨none, some ⟨"prod", []⟩, none⟩⟩]
      rfl rfl rfl (by decide)
      (fun j nj hget =>
        match j, hget with
        | 0, hget => by
          simp only [List.getElem?_cons_zero, Option.some.injEq] at hget
          subst hget
          exact ⟨_, rfl, rfl⟩
        | 1, hget => by
          simp only [List.getElem?_cons_succ, List.getElem?_cons_zero,
            Option.some.injEq] at hget
          subst hget
          exact ⟨_, rfl, rfl⟩
        | (j + 2), hget => by simp at hget)).2 previousRun rfl 1
      ⟨2, "deploy", 10, some ⟨none, some ⟨"prod", []⟩, none⟩⟩ rfl,
    rfl⟩

end api

namespace api

open sdk workflow

/-! The shared report under every interleaving of the steps of the branches -/

theorem ReportCall.included_apply_self (c : ReportCall) (r : ProcessorReport) :
    c.included (c.apply r) := by
  cases c with
  | Add err => simp [ReportCall.included, ReportCall.apply, ProcessorReport.AddError]
  | Merge r1 =>
    cases r1 with
    | none => trivial
    | some r1 =>
      simp only [ReportCall.included, ReportCall.apply, ProcessorReport.Merge]
      exact ⟨fun e he => List.mem_append_right _ he, fun x hx => List.mem_append_right _ hx,
        fun x hx => List.mem_append_right _ hx⟩

theorem ProcessorReport.subset_apply (c : ReportCall) (r : ProcessorReport) :
    (∀ e ∈ r.errors, e ∈ (c.apply r).errors) ∧
      (∀ x ∈ r.workflows, x ∈ (c.apply r).workflows) ∧
      (∀ x ∈ r.nodes, x ∈ (c.apply r).nodes) := by
  cases c with
  | Add err =>
    simp only [ReportCall.apply, ProcessorReport.AddError]
    exact ⟨fun e he => List.mem_append_left _ he, fun x hx => hx, fun x hx => hx⟩
  | Merge r1 =>
    cases r1 with
    | none => exact ⟨fun e he => he, fun x hx => hx, fun x hx => hx⟩
    | some r1 =>
      simp only [ReportCall.apply, ProcessorReport.Merge]
      exact ⟨fun e he => List.mem_append_left _ he, fun x hx => List.mem_append_left _ hx,
        fun x hx => List.mem_append_left _ hx⟩

/-- What the report holds, it still holds after a call made on it. -/
theorem ReportCall.included_apply (c d : ReportCall) (r : ProcessorReport)
    (h : d.included r) : d.included (c.apply r) := by
  obtain ⟨he, hw, hn⟩ := ProcessorReport.subset_apply c r
  cases d with
  | Add err => exact he err h
  | Merge r1 =>
    cases r1 with
    | none => trivial
    | some r1 =>
      obtain ⟨h1, h2, h3⟩ := h
      exact ⟨fun e hx => he e (h1 e hx), fun x hx => hw x (h2 x hx),
        fun x hx => hn x (h3 x hx)⟩

end api

namespace api

open sdk workflow

/-- The invariant after a step that replaces the branch `i`, the report and the
mutex. -/
theorem consistent_update (orig : Nat → List ReportCall) (s : Shared) (i : Nat)
    (r : ProcessorReport) (m : Option Nat) (b : Branch)
    (ha : b.phase.holds = true → m = some i)
    (hb : ∀ j, j ≠ i → (s.branches j).phase.holds = true → m = some j)
    (hc : ∀ snapshot, b.phase = .loaded snapshot → snapshot = r)
    (hd : ∀ j, j ≠ i → ∀ snapshot, (s.branches j).phase = .loaded snapshot → snapshot = r)
    (he : b.done = true → b.calls = [])
    (hf : ∃ made, orig i = made ++ b.pending ∧ ∀ c ∈ made, c.included r)
    (hg : ∀ j, j ≠ i → ∃ made, orig j = made ++ (s.branches j).pending ∧
      ∀ c ∈ made, c.included r)
    (hdone : ∀ j, (s.branches j).done = true → (s.branches j).calls = []) :
    Shared.Consistent orig ⟨r, m, Function.update s.branches i b⟩ := by
  refine ⟨?_, ?_, ?_, ?_⟩
  · intro j hj
    by_cases hji : j = i
    · subst hji
      simp only [Function.update_same] at hj
      exact ha hj
    · simp only [Function.update_noteq hji] at hj
      exact hb j hji hj
  · intro j snapshot hj
    by_cases hji : j = i
    · subst hji
      simp only [Function.update_same] at hj
      exact hc snapshot hj
    · simp only [Function.update_noteq hji] at hj
      exact hd j hji snapshot hj
  · intro j hj
    by_cases hji : j = i
    · subst hji
      simp only [Function.update_same] at hj ⊢
      exact he hj
    · simp only [Function.update_noteq hji] at hj ⊢
      exact hdone j hj
  · intro j
    by_cases hji : j = i
    · subst hji
      simp only [Function.update_same]
      exact hf
    · simp only [Function.update_noteq hji]
      exact hg j hji

/-- While the branch `i` holds the mutex, no other branch is inside a call. -/
theorem consistent_others (orig : Nat → List ReportCall) (s : Shared) (i : Nat)
    (h : s.Consistent orig) (hi : s.mutex = some i ∨ s.mutex = none) :
    ∀ j, j ≠ i → (s.branches j).phase.holds = false := by
  intro j hji
  cases hh : (s.branches j).phase.holds with
  | false => rfl
  | true =>
    have := h.1 j hh
    rcases hi with hi | hi
    · rw [hi] at this
      exact absurd (Option.some.inj this).symm hji
    · rw [hi] at this
      cases this

/-- A guarded step keeps the invariant. -/
theorem step_consistent (orig : Nat → List ReportCall) (s : Shared) (i : Nat)
    (h : s.Consistent orig) : (step true s i).Consistent orig := by
  have hall := h
  obtain ⟨hholds, hloaded, hdone, hmade⟩ := h
  have hsame : ∀ j, j ≠ i → ∃ made, orig j = made ++ (s.branches j).pending ∧
      ∀ c ∈ made, c.included s.report := fun j _ => hmade j
  unfold step
  cases hp : (s.branches i).phase with
  | crashed => simpa using hall
  | idle =>
    cases hc : (s.branches i).calls with
    | nil =>
      simp only []
      split_ifs with hd
      · exact hall
      · refine consistent_update orig s i s.report s.mutex ⟨[], .idle, true⟩
          (by simp [CallPhase.holds]) (fun j _ hj => hholds j hj) (by simp)
          (fun j _ snapshot hj => hloaded j snapshot hj) (fun _ => rfl) ?_ hsame hdone
        obtain ⟨made, hm, hin⟩ := hmade i
        refine ⟨made, ?_, hin⟩
        rw [hm]
        simp [Branch.pending, hp, hc]
    | cons c rest =>
      simp only [if_true]
      cases hm : s.mutex with
      | some k => simpa [hm] using hall
      | none =>
        simp only []
        have hothers := consistent_others orig s i hall (Or.inr hm)
        refine consistent_update orig s i s.report (some i)
          ⟨c :: rest, .locked, (s.branches i).done⟩ (fun _ => rfl)
          (fun j hji hj => by rw [hothers j hji] at hj; cases hj) (by simp)
          (fun j _ snapshot hj => hloaded j snapshot hj)
          (fun hd => by have := hdone i hd; rw [hc] at this; cases this) ?_ hsame hdone
        obtain ⟨made, hmd, hin⟩ := hmade i
        refine ⟨made, ?_, hin⟩
        rw [hmd]
        simp [Branch.pending, hp, hc]
  | locked =>
    have hmi : s.mutex = some i := hholds i (by rw [hp]; rfl)
    have hothers := consistent_others orig s i hall (Or.inl hmi)
    cases hc : (s.branches i).calls with
    | nil =>
      simp only []
      split_ifs with hd
      · exact hall
      · refine consistent_update orig s i s.report s.mutex ⟨[], .idle, true⟩
          (by simp [CallPhase.holds]) (fun j _ hj => hholds j hj) (by simp)
          (fun j _ snapshot hj => hloaded j snapshot hj) (fun _ => rfl) ?_ hsame hdone
        obtain ⟨made, hm, hin⟩ := hmade i
        refine ⟨made, ?_, hin⟩
        rw [hm]
        simp [Branch.pending, hp, hc]
    | cons c rest =>
      simp only []
      refine consistent_update orig s i s.report s.mutex
        ⟨c :: rest, .loaded s.report, (s.branches i).done⟩ (fun _ => hmi)
        (fun j _ hj => hholds j hj)
        (fun snapshot hs => by
          simp only [CallPhase.loaded.injEq] at hs
          exact hs.symm)
        (fun j _ snapshot hj => hloaded j snapshot hj)
        (fun hd => by have := hdone i hd; rw [hc] at this; cases this) ?_ hsame hdone
      obtain ⟨made, hmd, hin⟩ := hmade i
      refine ⟨made, ?_, hin⟩
      rw [hmd]
      simp [Branch.pending, hp, hc]
  | loaded snapshot =>
    have hmi : s.mutex = some i := hholds i (by rw [hp]; rfl)
    have hsnap : snapshot = s.report := hloaded i snapshot hp
    have hothers := consistent_others orig s i hall (Or.inl hmi)
    cases hc : (s.branches i).calls with
    | nil =>
      simp only []
      split_ifs with hd
      · exact hall
      · refine consistent_update orig s i s.report s.mutex ⟨[], .idle, true⟩
          (by simp [CallPhase.holds]) (fun j _ hj => hholds j hj) (by simp)
          (fun j _ snapshot hj => hloaded j snapshot hj) (fun _ => rfl) ?_ hsame hdone
        obtain ⟨made, hm, hin⟩ := hmade i
        refine ⟨made, ?_, hin⟩
        rw [hm]
        simp [Branch.pending, hp, hc]
    | cons c rest =>
      simp only []
      subst hsnap
      refine consistent_update orig s i (c.apply s.report) s.mutex
        ⟨c :: rest, .stored, (s.branches i).done⟩ (fun _ => hmi)
        (fun j _ hj => hholds j hj) (by simp)
        (fun j hji snap hj => by
          have := hothers j hji
          rw [hj] at this
          cases this)
        (fun hd => by have := hdone i hd; rw [hc] at this; cases this) ?_ ?_ hdone
      · obtain ⟨made, hmd, hin⟩ := hmade i
        refine ⟨made ++ [c], ?_, ?_⟩
        · rw [hmd]
          simp [Branch.pending, hp, hc]
        · intro d hd
          rcases List.mem_append.mp hd with hd | hd
          · exact ReportCall.included_apply c d s.report (hin d hd)
          · rw [List.mem_singleton] at hd
            subst hd
            exact ReportCall.included_apply_self d s.report
      · intro j hji
        obtain ⟨made, hmd, hin⟩ := hmade j
        exact ⟨made, hmd, fun d hd => ReportCall.included_apply c d s.report (hin d hd)⟩
  | stored =>
    have hmi : s.mutex = some i := hholds i (by rw [hp]; rfl)
    have hothers := consistent_others orig s i hall (Or.inl hmi)
    cases hc : (s.branches i).calls with
    | nil =>
      simp only []
      split_ifs with hd
      · exact hall
      · refine consistent_update orig s i s.report s.mutex ⟨[], .idle, true⟩
          (by simp [CallPhase.holds]) (fun j _ hj => hholds j hj) (by simp)
          (fun j _ snapshot hj => hloaded j snapshot hj) (fun _ => rfl) ?_ hsame hdone
        obtain ⟨made, hm, hin⟩ := hmade i
        refine ⟨made, ?_, hin⟩
        rw [hm]
        simp [Branch.pending, hp, hc]
    | cons c rest =>
      simp only [if_true]
      refine consistent_update orig s i s.report none
        ⟨rest, .idle, (s.branches i).done⟩ (by simp [CallPhase.holds])
        (fun j hji hj => by rw [hothers j hji] at hj; cases hj) (by simp)
        (fun j _ snapshot hj => hloaded j snapshot hj)
        (fun hd => by have := hdone i hd; rw [hc] at this; cases this) ?_ hsame hdone
      obtain ⟨made, hmd, hin⟩ := hmade i
      refine ⟨made, ?_, hin⟩
      rw [hmd]
      simp [Branch.pending, hp, hc]

/-- The guarded steps of an interleaving keep the invariant. -/
theorem runSteps_consistent (orig : Nat → List ReportCall) (steps : List Nat) :
    ∀ s : Shared, s.Consistent orig → (runSteps true s steps).Consistent orig := by
  induction steps with
  | nil => intro s h; exact h
  | cons i rest ih =>
    intro s h
    exact ih (step true s i) (step_consistent orig s i h)

/-- The state in which the branches are started satisfies the invariant. -/
theorem spawn_consistent (results : List (RunResult × List StartEvent)) :
    (spawn results).Consistent (fun i => ((spawn results).branches i).calls) := by
  have hphase : ∀ j, ((spawn results).branches j).phase = .idle ∨
      ((spawn results).branches j).phase = .crashed := by
    intro j
    simp only [spawn, spawnBranch]
    cases results[j]? with
    | none => exact Or.inl rfl
    | some b =>
      cases hb : b.1 with
      | ok r => simp [hb]
      | error e => simp [hb]
      | panic => simp [hb]
  refine ⟨?_, ?_, ?_, ?_⟩
  · intro j hj
    rcases hphase j with h | h <;> (rw [h] at hj; cases hj)
  · intro j snapshot hj
    rcases hphase j with h | h <;> (rw [h] at hj; cases hj)
  · intro j hj
    simp only [spawn, spawnBranch] at hj ⊢
    cases hr : results[j]? with
    | none => simp
    | some b =>
      rw [hr] at hj
      cases hb : b.1 with
      | ok r => simp [hb] at hj
      | error e => simp [hb] at hj
      | panic => simp [hb]
  · intro j
    refine ⟨[], ?_, by simp⟩
    rcases hphase j with h | h <;> simp [Branch.pending, h]

/-- Past the barrier, the report holds what every call of every branch adds. -/
theorem atBarrier_included (orig : Nat → List ReportCall) (n : Nat) (s : Shared)
    (h : s.Consistent orig) (hbarrier : atBarrier n s = true) :
    ∀ i, i < n → ∀ c ∈ orig i, c.included s.report := by
  intro i hi c hc
  obtain ⟨_, _, hdone, hmade⟩ := h
  have hd : (s.branches i).done = true := by
    unfold atBarrier at hbarrier
    rw [List.all_eq_true] at hbarrier
    exact hbarrier i (List.mem_range.mpr hi)
  obtain ⟨made, hm, hin⟩ := hmade i
  have hpend : (s.branches i).pending = [] := by
    have := hdone i hd
    unfold Branch.pending
    cases (s.branches i).phase <;> simp [this]
  rw [hpend, List.append_nil] at hm
  rw [hm] at hc
  exact hin c hc

end api

namespace api

open sdk workflow

theorem runSteps_append (guarded : Bool) (s : Shared) (a b : List Nat) :
    runSteps guarded s (a ++ b) = runSteps guarded (runSteps guarded s a) b := by
  simp [runSteps, List.foldl_append]

/-- The steps of one branch, made in a row from a state in which the mutex is free:
the report receives what lines 788-793 add for the result of `runFromNode`, the
mutex is free again and the branch has called `wg.Done()`. -/
theorem runSteps_branch (report : ProcessorReport) (branches : Nat → Branch) (i : Nat)
    (res : RunResult) (hres : res ≠ .panic)
    (hb : branches i = spawnBranch (some res)) :
    runSteps true ⟨report, none, branches⟩ (List.replicate (branchSteps res) i)
      = ⟨branchReport report res, none, Function.update branches i ⟨[], .idle, true⟩⟩ := by
  cases res with
  | panic => exact absurd rfl hres
  | ok r1 =>
    simp only [spawnBranch, reportCalls] at hb
    simp [runSteps, branchSteps, List.replicate, step, hb, branchReport, ReportCall.apply]
  | error err =>
    simp only [spawnBranch, reportCalls] at hb
    simp [runSteps, branchSteps, List.replicate, step, hb, branchReport, ReportCall.apply]

/-- The branches making their steps one after the other, in the order `l`: the report
receives their contributions in that order. -/
theorem runSteps_oneAfterTheOther (results : List (RunResult × List StartEvent)) :
    ∀ (l : List Nat) (s : Shared), l.Nodup → s.mutex = none →
      (∀ i ∈ l, s.branches i = spawnBranch (results[i]?.map (fun b => b.1))) →
      (∀ i ∈ l, ∀ b, results[i]? = some b → b.1 ≠ .panic) →
      (runSteps true s (oneAfterTheOther results l)).report
          = (l.filterMap (fun i => results[i]?)).foldl
              (fun report b => branchReport report b.1) s.report ∧
        (runSteps true s (oneAfterTheOther results l)).mutex = none ∧
        (∀ i ∈ l, ((runSteps true s (oneAfterTheOther results l)).branches i).done = true) ∧
        (∀ j, j ∉ l →
          (runSteps true s (oneAfterTheOther results l)).branches j = s.branches j) := by
  intro l
  induction l with
  | nil =>
    intro s _ hm _ _
    exact ⟨rfl, hm, by simp, fun _ _ => rfl⟩
  | cons i t ih =>
    intro s hnd hm hinit hnp
    rw [List.nodup_cons] at hnd
    obtain ⟨report, mutex, branches⟩ := s
    simp only at hm hinit
    subst hm
    have hi := hinit i (List.mem_cons_self _ _)
    cases hr : results[i]? with
    | none =>
      rw [hr] at hi
      have hsteps : oneAfterTheOther results (i :: t) = oneAfterTheOther results t := by
        simp [oneAfterTheOther, hr]
      rw [hsteps]
      obtain ⟨h1, h2, h3, h4⟩ := ih ⟨report, none, branches⟩ hnd.2 rfl
        (fun j hj => hinit j (List.mem_cons_of_mem _ hj))
        (fun j hj => hnp j (List.mem_cons_of_mem _ hj))
      refine ⟨?_, h2, ?_, ?_⟩
      · rw [h1]
        simp [hr]
      · intro j hj
        rcases List.mem_cons.mp hj with h | h
        · subst h
          rw [h4 j hnd.1]
          simp only
          rw [hi]
          rfl
        · exact h3 j h
      · intro j hj
        exact h4 j (fun h => hj (List.mem_cons_of_mem _ h))
    | some b =>
      rw [hr] at hi
      have hsteps : oneAfterTheOther results (i :: t)
          = List.replicate (branchSteps b.1) i ++ oneAfterTheOther results t := by
        simp [oneAfterTheOther, hr]
      rw [hsteps, runSteps_append,
        runSteps_branch report branches i b.1 (hnp i (List.mem_cons_self _ _) b hr) hi]
      obtain ⟨h1, h2, h3, h4⟩ := ih
        ⟨branchReport report b.1, none, Function.update branches i ⟨[], .idle, true⟩⟩
        hnd.2 rfl
        (fun j hj => by
          have hji : j ≠ i := fun h => hnd.1 (h ▸ hj)
          simp only [Function.update_noteq hji]
          exact hinit j (List.mem_cons_of_mem _ hj))
        (fun j hj => hnp j (List.mem_cons_of_mem _ hj))
      refine ⟨?_, h2, ?_, ?_⟩
      · rw [h1]
        simp [hr]
      · intro j hj
        rcases List.mem_cons.mp hj with h | h
        · subst h
          rw [h4 j hnd.1]
          simp
        · exact h3 j h
      · intro j hj
        have hji : j ≠ i := fun h => hj (h ▸ List.mem_cons_self _ _)
        rw [h4 j (fun h => hj (List.mem_cons_of_mem _ h))]
        simp only [Function.update_noteq hji]

/-- The report that `startWorkflowRun` returns holds the workflow runs and the node
runs of the report of every branch. -/
theorem startWorkflowRun_ok_report (env : StartEnv) (sched : List Nat) (p : Project)
    (wf : Workflow) (lastRun : Option WorkflowRun) (opts : WorkflowRunPostHandlerOption)
    (u : User) (fromNodes : List (Option WorkflowNode)) (report : ProcessorReport)
    (hbegin : env.Begin = none) (hhook : opts.Hook = none)
    (hres : resolveFromNodes wf lastRun opts.FromNodeIDs = .nodes fromNodes)
    (hok : (startWorkflowRun env sched p wf lastRun opts u).1 = .ok report) :
    (∀ x ∈ (fanOut env (manualOf opts u) p lastRun u fromNodes sched).1.workflows,
        x ∈ report.workflows) ∧
      (∀ x ∈ (fanOut env (manualOf opts u) p lastRun u fromNodes sched).1.nodes,
        x ∈ report.nodes) := by
  unfold startWorkflowRun at hok
  simp only [hbegin, hhook, hres] at hok
  cases hfan : fanOut env (manualOf opts u) p lastRun u fromNodes sched with
  | mk shared rest =>
    cases rest with
    | mk events flag =>
      rw [hfan] at hok
      cases flag with
      | true => simp at hok
      | false =>
        simp only [] at hok
        unfold afterWait commitStart at hok
        cases herrs : shared.Errors with
        | some errs =>
          rw [herrs] at hok
          cases errs <;> simp at hok
        | none =>
          rw [herrs] at hok
          simp only [] at hok
          cases lastRun with
          | some lr =>
            simp only [] at hok
            cases hcm : env.Commit with
            | some err =>
              rw [hcm] at hok
              simp at hok
            | none =>
              rw [hcm] at hok
              simp only [RunResult.ok.injEq] at hok
              subst hok
              exact ⟨fun x hx => hx, fun x hx => hx⟩
          | none =>
            simp only [] at hok
            cases hmr : env.ManualRun with
            | error errmr =>
              rw [hmr] at hok
              simp at hok
            | ok r1 =>
              rw [hmr] at hok
              simp only [] at hok
              cases hcm : env.Commit with
              | some err =>
                rw [hcm] at hok
                simp at hok
              | none =>
                rw [hcm] at hok
                simp only [RunResult.ok.injEq] at hok
                subst hok
                simp only [ProcessorReport.Merge]
                exact ⟨fun x hx => List.mem_append_left _ hx,
                  fun x hx => List.mem_append_left _ hx⟩

end api

namespace api

open sdk workflow

/-- C22. The branches that `startWorkflowRun` spawns make their calls on the shared
report in steps (take the mutex, read, write, release), and an interleaving is any
order of these steps. For every interleaving that passes the barrier, the report at
the barrier holds the error of every branch whose `runFromNode` failed, and the
errors, the workflow runs and the node runs of the report of every branch whose
`runFromNode` succeeded: no `Add` and no `Merge` is lost. The interleavings in
which the branches run one after the other, in any order `sched`, pass the barrier
when no branch dereferences a nil pointer, and give the report of `fanOut`, from
which `startWorkflowRun` continues; and the report that `startWorkflowRun` returns
holds the workflow runs and the node runs merged by every branch. -/
theorem startWorkflowRun_report_complete (env : StartEnv) (p : Project)
    (lastRun : Option WorkflowRun) (opts : WorkflowRunPostHandlerOption) (u : User)
    (fromNodes : List (Option WorkflowNode)) :
    (∀ steps : List Nat,
        atBarrier fromNodes.length
            (runSteps true
              (spawn (branchResults env (manualOf opts u) p lastRun u 0 fromNodes)) steps)
          = true →
        ∀ i n, fromNodes[i]? = some n →
          (∀ e, (runFromNode env i (manualOf opts u) p lastRun u n).1 = .error e →
            e ∈ (runSteps true
              (spawn (branchResults env (manualOf opts u) p lastRun u 0 fromNodes))
              steps).report.errors) ∧
          (∀ r, (runFromNode env i (manualOf opts u) p lastRun u n).1 = .ok r →
            (∀ e ∈ r.errors, e ∈ (runSteps true
              (spawn (branchResults env (manualOf opts u) p lastRun u 0 fromNodes))
              steps).report.errors) ∧
            (∀ run ∈ r.workflows, run ∈ (runSteps true
              (spawn (branchResults env (manualOf opts u) p lastRun u 0 fromNodes))
              steps).report.workflows) ∧
            (∀ nodeRun ∈ r.nodes, nodeRun ∈ (runSteps true
              (spawn (branchResults env (manualOf opts u) p lastRun u 0 fromNodes))
              steps).report.nodes))) ∧
      (∀ sched : List Nat, sched.Perm (List.range fromNodes.length) →
        (∀ i n, fromNodes[i]? = some n →
          (runFromNode env i (manualOf opts u) p lastRun u n).1 ≠ .panic) →
        atBarrier fromNodes.length
            (runSteps true
              (spawn (branchResults env (manualOf opts u) p lastRun u 0 fromNodes))
              (oneAfterTheOther
                (branchResults env (manualOf opts u) p lastRun u 0 fromNodes) sched))
          = true ∧
        (runSteps true
            (spawn (branchResults env (manualOf opts u) p lastRun u 0 fromNodes))
            (oneAfterTheOther
              (branchResults env (manualOf opts u) p lastRun u 0 fromNodes) sched)).report
          = (fanOut env (manualOf opts u) p lastRun u fromNodes sched).1) ∧
      (∀ (sched : List Nat) (wf : Workflow) (report : ProcessorReport),
        env.Begin = none → opts.Hook = none →
        resolveFromNodes wf lastRun opts.FromNodeIDs = .nodes fromNodes →
        sched.Perm (List.range fromNodes.length) →
        (startWorkflowRun env sched p wf lastRun opts u).1 = .ok report →
        ∀ i n r, fromNodes[i]? = some n →
          (runFromNode env i (manualOf opts u) p lastRun u n).1 = .ok r →
          (∀ run ∈ r.workflows, run ∈ report.workflows) ∧
            (∀ nodeRun ∈ r.nodes, nodeRun ∈ report.nodes)) := by
  have hget : ∀ i n, fromNodes[i]? = some n →
      (branchResults env (manualOf opts u) p lastRun u 0 fromNodes)[i]?
        = some (runFromNode env i (manualOf opts u) p lastRun u n) := by
    intro i n hi
    rw [branchResults_get?, hi]
    simp
  refine ⟨?_, ?_, ?_⟩
  · intro steps hbarrier i n hi
    have hlt : i < fromNodes.length := (List.getElem?_eq_some_iff.mp hi).1
    have hincl := atBarrier_included _ fromNodes.length _
      (runSteps_consistent _ steps _ (spawn_consistent
        (branchResults env (manualOf opts u) p lastRun u 0 fromNodes))) hbarrier i hlt
    simp only [spawn, hget i n hi, Option.map_some'] at hincl
    constructor
    · intro e he
      rw [he] at hincl
      exact hincl (.Add e) (by simp [spawnBranch, reportCalls])
    · intro r hr
      rw [hr] at hincl
      exact hincl (.Merge (some r)) (by simp [spawnBranch, reportCalls])
  · intro sched hsched hnp
    have hnd : sched.Nodup := (List.Perm.nodup_iff hsched).mpr (List.nodup_range _)
    obtain ⟨h1, _, h3, _⟩ := runSteps_oneAfterTheOther
      (branchResults env (manualOf opts u) p lastRun u 0 fromNodes) sched
      (spawn (branchResults env (manualOf opts u) p lastRun u 0 fromNodes)) hnd rfl
      (fun i _ => rfl)
      (fun i _ b hb => by
        rw [branchResults_get?] at hb
        cases hn : fromNodes[i]? with
        | none => rw [hn] at hb; simp at hb
        | some n =>
          rw [hn] at hb
          simp only [Option.map_some', Nat.zero_add, Option.some.injEq] at hb
          rw [← hb]
          exact hnp i n hn)
    constructor
    · unfold atBarrier
      rw [List.all_eq_true]
      intro i hi
      exact h3 i (hsched.symm.subset hi)
    · rw [h1]
      rfl
  · intro sched wf report hbegin hhook hres hsched hok i n r hi hr
    obtain ⟨hw, hn⟩ := startWorkflowRun_ok_report env sched p wf lastRun opts u fromNodes
      report hbegin hhook hres hok
    obtain ⟨_, hmem⟩ := fanOut_report_complete env (manualOf opts u) p lastRun u fromNodes
      sched hsched
    obtain ⟨_, hw2, hn2⟩ := (hmem i n hi).2 r hr
    exact ⟨fun run hrun => hw run (hw2 run hrun), fun nr hnr => hn nr (hn2 nr hnr)⟩

/-- Instance of C22: three branches, of which the branch 1 fails to commit and the
branches 0 and 2 merge one node run each, their steps interleaved. The
interleaving passes the barrier, and the report holds the error of the branch 1
and the node runs of the branches 0 and 2. -/
theorem startWorkflowRun_report_complete_witness :
    atBarrier (threeNodeWorkflow.Nodes.map some).length
        (runSteps true
          (spawn (branchResults startEnvMixed (manualOf startFromBoth caller)
            scenarioProject (some ⟨12, threeNodeWorkflow⟩) caller 0
            (threeNodeWorkflow.Nodes.map some)))
          [2, 0, 1, 2, 2, 0, 1, 1, 2, 0, 2, 0, 0, 0, 1, 1, 1, 0, 1, 1, 1, 1, 1, 1, 1])
      = true ∧
    "runFromNode> Unable to commit transaction: commit refused"
      ∈ (runSteps true
          (spawn (branchResults startEnvMixed (manualOf startFromBoth caller)
            scenarioProject (some ⟨12, threeNodeWorkflow⟩) caller 0
            (threeNodeWorkflow.Nodes.map some)))
          [2, 0, 1, 2, 2, 0, 1, 1, 2, 0, 2, 0, 0, 0, 1, 1, 1, 0, 1, 1, 1, 1, 1, 1, 1]
        ).report.errors ∧
    nodeRunOf 100 0 StatusBuilding
      ∈ (runSteps true
          (spawn (branchResults startEnvMixed (manualOf startFromBoth caller)
            scenarioProject (some ⟨12, threeNodeWorkflow⟩) caller 0
            (threeNodeWorkflow.Nodes.map some)))
          [2, 0, 1, 2, 2, 0, 1, 1, 2, 0, 2, 0, 0, 0, 1, 1, 1, 0, 1, 1, 1, 1, 1, 1, 1]
        ).report.nodes :=
  ⟨rfl,
    ((startWorkflowRun_report_complete startEnvMixed scenarioProject
      (some ⟨12, threeNodeWorkflow⟩) startFromBoth caller
      (threeNodeWorkflow.Nodes.map some)).1
      [2, 0, 1, 2, 2, 0, 1, 1, 2, 0, 2, 0, 0, 0, 1, 1, 1, 0, 1, 1, 1, 1, 1, 1, 1] rfl 1
      (some ⟨2, "test", 10, some ⟨none, none, none⟩⟩) rfl).1 _ rfl,
    (((startWorkflowRun_report_complete startEnvMixed scenarioProject
      (some ⟨12, threeNodeWorkflow⟩) startFromBoth caller
      (threeNodeWorkflow.Nodes.map some)).1
      [2, 0, 1, 2, 2, 0, 1, 1, 2, 0, 2, 0, 0, 0, 1, 1, 1, 0, 1, 1, 1, 1, 1, 1, 1] rfl 0
      (some ⟨1, "root", 10, some ⟨none, none, none⟩⟩) rfl).2
      ⟨[], [nodeRunOf 100 0 StatusBuilding], []⟩ rfl).2.2 _ (List.mem_singleton.mpr rfl)⟩

/-- The mutex is what keeps the calls: when the same branches read and write the
report unprotected, the branches 0 and 2 both read the empty report, the branch 2
writes after the branch 0, and at the barrier the node run of the branch 0 is
lost. -/
theorem runSteps_unguarded_lost_update :
    atBarrier (threeNodeWorkflow.Nodes.map some).length
        (runSteps false
          (spawn (branchResults startEnvMixed (manualOf startFromBoth caller)
            scenarioProject (some ⟨12, threeNodeWorkflow⟩) caller 0
            (threeNodeWorkflow.Nodes.map some)))
          [0, 0, 2, 2, 0, 0, 2, 2, 0, 2, 1, 1, 1, 1, 1, 1, 1, 1, 1])
      = true ∧
    (runSteps false
        (spawn (branchResults startEnvMixed (manualOf startFromBoth caller)
          scenarioProject (some ⟨12, threeNodeWorkflow⟩) caller 0
          (threeNodeWorkflow.Nodes.map some)))
        [0, 0, 2, 2, 0, 0, 2, 2, 0, 2, 1, 1, 1, 1, 1, 1, 1, 1, 1]).report.nodes
      = [nodeRunOf 102 0 StatusBuilding] :=
  ⟨rfl, rfl⟩

end api
